import Mathlib

/-!
# Anko: value conversions, member lookup and scanner

A shallow embedding of `vm/vmToX.go`, `vm/invoke.go`, `vm/vmUtils.go` and
`parser/lexer.go`.  The Go functions work on `reflect.Value`, so the first part
of the development is a model of the fragment of the Go run time they use:
kinds, run-time type descriptors, stored data, a heap of allocated cells, and
the `reflect`, `strconv` and `fmt` operations the source calls.  A Go panic is
the `error` branch of `Except String`.

Conventions.
* `int` is 64 bits wide.
* A `float32`/`float64` payload is the IEEE 754 binary64 bit pattern that
  `Value.Float` returns.
* Method tables hold the exported methods only, the ones `reflect` can look up.
* Struct types have no embedded fields, so the read-only flag of `reflect`
  arises in its sticky form only: a value reached through an unexported field
  is read-only, and so is every value reached from a read-only value.
-/

namespace Anko

/-! ## Kinds and run-time types -/

/-- The constants of `reflect.Kind`. -/
inductive Kind where
  | Invalid | Bool | Int | Int8 | Int16 | Int32 | Int64
  | Uint | Uint8 | Uint16 | Uint32 | Uint64 | Uintptr
  | Float32 | Float64 | Complex64 | Complex128
  | Array | Chan | Func | Interface | Map | Ptr | Slice | String | Struct | UnsafePointer
  deriving DecidableEq, Repr

/-- The text that `Kind.String` returns for each kind. -/
def kindName : Kind → String
  | .Invalid => "invalid" | .Bool => "bool" | .Int => "int" | .Int8 => "int8"
  | .Int16 => "int16" | .Int32 => "int32" | .Int64 => "int64" | .Uint => "uint"
  | .Uint8 => "uint8" | .Uint16 => "uint16" | .Uint32 => "uint32" | .Uint64 => "uint64"
  | .Uintptr => "uintptr" | .Float32 => "float32" | .Float64 => "float64"
  | .Complex64 => "complex64" | .Complex128 => "complex128" | .Array => "array"
  | .Chan => "chan" | .Func => "func" | .Interface => "interface" | .Map => "map"
  | .Ptr => "ptr" | .Slice => "slice" | .String => "string" | .Struct => "struct"
  | .UnsafePointer => "unsafe.Pointer"

mutual
/-- A run-time type descriptor: its kind, the text `Type.String` prints, the
exported methods with a value receiver (`methods`), the exported methods declared
with a pointer receiver (`ptrMethods`), the element type (pointer, slice, array,
channel, map value), for a struct the fields `FieldByName` resolves, and for
each method the text of its func type without the receiver (`sigs`, by name; a
method without an entry has the type `func()`). A map type keeps its key type as
the one entry of `fields`. -/
inductive RType where
  | mk (kind : Kind) (name : String) (methods ptrMethods : List String)
      (elem : RElem) (fields : RFields) (sigs : List (String × String))
  deriving DecidableEq
/-- An optional element type. -/
inductive RElem where
  | none
  | some (t : RType)
  deriving DecidableEq
/-- The fields of a struct type, in declaration order: an exported field
(`cons`) or an unexported one (`hidden`), as the compiler records it with the
name of the field. -/
inductive RFields where
  | nil
  | cons (name : String) (t : RType) (rest : RFields)
  | hidden (name : String) (t : RType) (rest : RFields)
  deriving DecidableEq
end

/-- Kind of the type. -/
def RType.kind : RType → Kind
  | .mk k _ _ _ _ _ _ => k

/-- The text `Type.String` returns. -/
def RType.str : RType → String
  | .mk _ n _ _ _ _ _ => n

/-- Exported methods with a value receiver. -/
def RType.methods : RType → List String
  | .mk _ _ m _ _ _ _ => m

/-- Exported methods declared with a pointer receiver. -/
def RType.ptrMethods : RType → List String
  | .mk _ _ _ p _ _ _ => p

/-- Element type, when the type has one (`Type.Elem`). -/
def RType.elem : RType → Option RType
  | .mk _ _ _ _ (.some t) _ _ => some t
  | .mk _ _ _ _ .none _ _ => none

/-- Fields of a struct type. -/
def RType.fields : RType → RFields
  | .mk _ _ _ _ _ f _ => f

/-- The texts of the func types of the methods, by name. -/
def RType.sigs : RType → List (String × String)
  | .mk _ _ _ _ _ _ g => g

/-- Key type of a map type (`Type.Key`). -/
def RType.key (t : RType) : Option RType :=
  match t.kind, t.fields with
  | .Map, .cons _ k _ => some k
  | _, _ => none

/-- The map type with the given key and element types and no methods. -/
def MapOf (key elem : RType) : RType :=
  .mk .Map ("map[" ++ key.str ++ "]" ++ elem.str) [] [] (.some elem) (.cons "" key .nil) []

/-- Position and type of the field called `name`, searching from index `i`. -/
def RFields.find (name : String) : RFields → Nat → Option (Nat × RType)
  | .nil, _ => none
  | .cons n t rest, i => if n = name then some (i, t) else RFields.find name rest (i + 1)
  | .hidden n t rest, i => if n = name then some (i, t) else RFields.find name rest (i + 1)

/-- Whether the field called `name`, the one `RFields.find` gives, is unexported. -/
def RFields.isHidden (name : String) : RFields → Bool
  | .nil => false
  | .cons n _ rest => if n = name then false else RFields.isHidden name rest
  | .hidden n _ rest => if n = name then true else RFields.isHidden name rest

/-- The pointer type `*t` (`reflect.PointerTo`): its method set is the value
and the pointer receiver methods of `t`, with their func types. -/
def PtrTo (t : RType) : RType :=
  .mk .Ptr ("*" ++ t.str) (t.methods ++ t.ptrMethods) [] (.some t) .nil t.sigs

/-- A predeclared type without methods. -/
def basicType (k : Kind) : RType := .mk k (kindName k) [] [] .none .nil []

/-! ## Data, heap and values -/

/-- An address: a heap cell and a path of field indices into it. -/
structure Addr where
  base : Nat
  path : List Nat
  deriving DecidableEq, Repr

mutual
/-- The stored form of a Go value. `nil` is the absent payload: the nil of every
nilable kind and the payload of the zero `Value`. -/
inductive Data where
  | nil
  | bool (b : Bool)
  | int (i : Int)
  | uint (n : Nat)
  | float (bits : Nat)
  | complex (re im : Nat)
  | str (s : String)
  | struct (fields : DataList)
  | array (elems : DataList)
  | slice (elems : DataList)
  | map (keys vals : DataList)
  | ptr (a : Addr)
  | iface (t : RType) (d : Data)
  | chan (id : Nat)
  | func (id : Nat)
  deriving DecidableEq
/-- A sequence of stored values. -/
inductive DataList where
  | nil
  | cons (head : Data) (tail : DataList)
  deriving DecidableEq
end

/-- The element at position `i`. -/
def DataList.get? : DataList → Nat → Option Data
  | .nil, _ => none
  | .cons d _, 0 => some d
  | .cons _ ds, i + 1 => DataList.get? ds i

/-- Number of elements. -/
def DataList.length : DataList → Nat
  | .nil => 0
  | .cons _ ds => DataList.length ds + 1

/-- The sub-value of `d` reached by a path of field (or element) indices. -/
def Data.sub : Data → List Nat → Data
  | d, [] => d
  | .struct fs, i :: p => match DataList.get? fs i with
    | some d => Data.sub d p
    | none => .nil
  | .array fs, i :: p => match DataList.get? fs i with
    | some d => Data.sub d p
    | none => .nil
  | _, _ :: _ => .nil

/-- The heap: the cells allocated so far; cell `i` is the `i`-th allocation. -/
abbrev Heap := List Data

/-- Contents at an address. -/
def Heap.read (h : Heap) (a : Addr) : Data :=
  match h.get? a.base with
  | some d => Data.sub d a.path
  | none => .nil

/-- Replace the element at position `i`. -/
def DataList.set : DataList → Nat → Data → DataList
  | .nil, _, _ => .nil
  | .cons _ ds, 0, x => .cons x ds
  | .cons d ds, i + 1, x => .cons d (DataList.set ds i x)

/-- Replace the sub-value of `d` at a path. -/
def Data.update : Data → List Nat → Data → Data
  | _, [], x => x
  | .struct fs, i :: p, x => match DataList.get? fs i with
    | some d => .struct (DataList.set fs i (Data.update d p x))
    | none => .struct fs
  | .array fs, i :: p, x => match DataList.get? fs i with
    | some d => .array (DataList.set fs i (Data.update d p x))
    | none => .array fs
  | d, _ :: _, _ => d

/-- Overwrite the contents at an address. -/
def Heap.write (h : Heap) (a : Addr) (x : Data) : Heap :=
  match h.get? a.base with
  | some d => List.set h a.base (Data.update d a.path x)
  | none => h

mutual
/-- The zero value of a type. The length of an array type is not tracked, so
its zero value has no elements. -/
def zeroData : RType → Data
  | .mk k _ _ _ _ fs _ =>
    match k with
    | .Bool => .bool false
    | .Int | .Int8 | .Int16 | .Int32 | .Int64 => .int 0
    | .Uint | .Uint8 | .Uint16 | .Uint32 | .Uint64 | .Uintptr => .uint 0
    | .Float32 | .Float64 => .float 0
    | .Complex64 | .Complex128 => .complex 0 0
    | .String => .str ""
    | .Struct => .struct (zeroFields fs)
    | .Array => .array .nil
    | _ => .nil
/-- Zero values of the fields of a struct type. -/
def zeroFields : RFields → DataList
  | .nil => .nil
  | .cons _ t rest => .cons (zeroData t) (zeroFields rest)
  | .hidden _ t rest => .cons (zeroData t) (zeroFields rest)
end

/-- Where a `Value` keeps its payload: in the value itself, or in the heap at
an address (the value is then addressable). -/
inductive Store where
  | imm (d : Data)
  | loc (a : Addr)
  deriving DecidableEq

/-- A `reflect.Value`: the type (absent for the zero Value), the payload, the
method name when the value is a method bound to the payload as receiver, and
the read-only flag of a value obtained through an unexported field. -/
structure Value where
  typ : Option RType
  store : Store
  method : Option String
  ro : Bool
  deriving DecidableEq

/-- The zero Value, `reflect.Value{}`. -/
def Value.zero : Value := ⟨none, .imm .nil, none, false⟩

/-- `reflect.ValueOf` on a non-nil interface holding `d` at dynamic type `t`. -/
def ValueOf (t : RType) (d : Data) : Value := ⟨some t, .imm d, none, false⟩

/-- The func type of the method `name` of the type `t`, which is the type of
the method value: it prints as the signature without the receiver. -/
def methodFuncType (t : RType) (name : String) : RType :=
  .mk .Func ((t.sigs.lookup name).getD "func()") [] [] .none .nil []

/-- `Value.Kind`. -/
def Value.Kind (v : Value) : Anko.Kind :=
  match v.typ with
  | none => .Invalid
  | some t => if v.method.isSome then .Func else t.kind

/-- `Value.IsValid`. -/
def Value.IsValid (v : Value) : Bool := v.typ.isSome

/-- `Value.CanAddr`. -/
def Value.CanAddr (v : Value) : Bool :=
  match v.typ, v.store, v.method with
  | some _, .loc _, none => true
  | _, _, _ => false

/-- The payload of a value, read through the heap when it is addressable. -/
def Value.load (h : Heap) (v : Value) : Data :=
  match v.store with
  | .imm d => d
  | .loc a => Heap.read h a

/-- `Value.Type`; panics on the zero Value. -/
def Value.Type (v : Value) : Except String RType :=
  match v.typ with
  | none => .error "reflect: call of reflect.Value.Type on zero Value"
  | some t => if v.method.isSome then .ok (methodFuncType t (v.method.getD "")) else .ok t

/-- `Value.Elem`: the value inside an interface or behind a pointer, the zero
Value when that is nil; panics on every other kind. The value is read-only
when `v` is. -/
def Value.Elem (h : Heap) (v : Value) : Except String Value :=
  match v.Kind with
  | .Interface =>
    match v.load h with
    | .iface t d => .ok ⟨some t, .imm d, none, v.ro⟩
    | _ => .ok Value.zero
  | .Ptr =>
    match v.load h, v.typ with
    | .ptr a, some t => .ok ⟨t.elem, .loc a, none, v.ro⟩
    | _, _ => .ok Value.zero
  | .Invalid => .error "reflect: call of reflect.Value.Elem on zero Value"
  | k => .error ("reflect: call of reflect.Value.Elem on " ++ kindName k ++ " Value")

/-- `Value.IsNil`; panics unless the kind is nilable. -/
def Value.IsNil (h : Heap) (v : Value) : Except String Bool :=
  match v.Kind with
  | .Chan | .Func | .Map | .Ptr | .UnsafePointer =>
    if v.method.isSome then .ok false else .ok (decide (v.load h = .nil))
  | .Interface | .Slice => .ok (decide (v.load h = .nil))
  | .Invalid => .error "reflect: call of reflect.Value.IsNil on zero Value"
  | k => .error ("reflect: call of reflect.Value.IsNil on " ++ kindName k ++ " Value")

/-- `Value.Interface`: the value as an `interface{}` (`none` is the nil
interface); panics on the zero Value and on a read-only value. -/
def Value.Interface (h : Heap) (v : Value) : Except String (Option (RType × Data)) :=
  match v.typ with
  | none => .error "reflect: call of reflect.Value.Interface on zero Value"
  | some t =>
    if v.ro then
      .error "reflect.Value.Interface: cannot return value obtained from unexported field or method"
    else if v.method.isSome then .ok (some (methodFuncType t (v.method.getD ""), .func 0))
    else if t.kind = .Interface then
      match v.load h with
      | .iface dt d => .ok (some (dt, d))
      | _ => .ok none
    else .ok (some (t, v.load h))

/-- `Value.Addr`: a pointer to an addressable value, read-only when the value
is; panics otherwise. -/
def Value.Addr (v : Value) : Except String Value :=
  match v.typ, v.store, v.method with
  | some t, .loc a, none => .ok ⟨some (PtrTo t), .imm (.ptr a), none, v.ro⟩
  | _, _, _ => .error "reflect.Value.Addr of unaddressable value"

/-- `reflect.New`: allocate a cell holding the zero value of `t` and return a
pointer to it. -/
def New (h : Heap) (t : RType) : Value × Heap :=
  (⟨some (PtrTo t), .imm (.ptr ⟨h.length, []⟩), none, false⟩, h ++ [zeroData t])

/-- `Value.FieldByName`: the field of a struct value, addressable when the
struct is, and read-only when the struct is or the field is unexported; the
zero Value when there is no such field; panics on a value that is not a
struct. -/
def Value.FieldByName (v : Value) (name : String) : Except String Value :=
  match v.Kind, v.typ with
  | .Struct, some t =>
    match RFields.find name t.fields 0 with
    | none => .ok Value.zero
    | some (i, ft) =>
      match v.store with
      | .loc a =>
        .ok ⟨some ft, .loc ⟨a.base, a.path ++ [i]⟩, none, v.ro || RFields.isHidden name t.fields⟩
      | .imm d =>
        .ok ⟨some ft, .imm (Data.sub d [i]), none, v.ro || RFields.isHidden name t.fields⟩
  | .Invalid, _ => .error "reflect: call of reflect.Value.FieldByName on zero Value"
  | k, _ => .error ("reflect: call of reflect.Value.FieldByName on " ++ kindName k ++ " Value")

/-- `Value.MethodByName`: the method of the value's own method set bound to the
value as receiver, read-only when the receiver is, or the zero Value; panics on
the zero Value and when the method is found on a nil interface value. -/
def Value.MethodByName (h : Heap) (v : Value) (name : String) : Except String Value :=
  match v.typ with
  | none => .error "reflect: call of reflect.Value.MethodByName on zero Value"
  | some t =>
    if v.method.isSome then .ok Value.zero
    else if name ∈ t.methods then
      if t.kind = .Interface ∧ v.load h = .nil then
        .error "reflect: Method on nil interface value"
      else .ok ⟨some t, v.store, some name, v.ro⟩
    else .ok Value.zero

/-- Whether a value of type `x` may be stored in a variable of type `t`:
the types are identical, or `t` is an interface type all of whose methods `x`
has. -/
def assignable (x t : RType) : Bool :=
  decide (x = t) || (decide (t.kind = .Interface) && t.methods.all (fun m => decide (m ∈ x.methods)))

/-- `Value.Set`: store `x` in the addressable `v`. It starts with
`v.mustBeAssignable()` and `x.mustBeExported()`: it panics when `v` is the zero
Value, is read-only or is not addressable, when `x` is the zero Value or is
read-only, and when the type of `x` is not assignable. -/
def Value.Set (h : Heap) (v x : Value) : Except String Heap :=
  if v.typ.isNone then .error "reflect: call of reflect.Value.Set on zero Value"
  else if v.ro then
    .error "reflect: reflect.Value.Set using value obtained using unexported field"
  else
    match v.typ, v.store, v.method with
    | some t, .loc a, none =>
      match x.Type with
      | .error _ => .error "reflect: call of reflect.Value.Set on zero Value"
      | .ok xt =>
        if x.ro then
          .error "reflect: reflect.Value.Set using value obtained using unexported field"
        else if assignable xt t then
          if decide (t.kind = .Interface) && !decide (xt.kind = .Interface) then
            .ok (Heap.write h a (.iface xt (x.load h)))
          else .ok (Heap.write h a (x.load h))
        else
          .error ("reflect.Set: value of type " ++ xt.str ++ " is not assignable to type " ++ t.str)
    | _, _, _ => .error "reflect: reflect.Value.Set using unaddressable value"

/-- `reflect.Zero`: the zero value of a type, not addressable. -/
def Zero (t : RType) : Value := ⟨some t, .imm (zeroData t), none, false⟩

mutual
/-- Whether the run time can hash a stored value: not a slice, a map or a
function, also not inside an interface, a struct or an array. -/
def Data.hashable : Data → Bool
  | .slice _ => false
  | .map _ _ => false
  | .func _ => false
  | .struct fs => DataList.hashable fs
  | .array es => DataList.hashable es
  | .iface _ d => Data.hashable d
  | _ => true
/-- Whether every value of a sequence can be hashed. -/
def DataList.hashable : DataList → Bool
  | .nil => true
  | .cons d ds => Data.hashable d && DataList.hashable ds
end

/-- Whether a binary64 bit pattern is a NaN. -/
def floatIsNaN (bits : Nat) : Bool :=
  decide (bits / 2 ^ 52 % 2 ^ 11 = 2047) && decide (bits % 2 ^ 52 ≠ 0)

/-- The comparison `==` of two floating-point numbers given by their bit
patterns: a NaN equals nothing, and the two zeros are equal. -/
def floatEq (a b : Nat) : Bool :=
  !floatIsNaN a && !floatIsNaN b &&
    (decide (a = b) || (decide (a % 2 ^ 63 = 0) && decide (b % 2 ^ 63 = 0)))

mutual
/-- The comparison `==` of two map keys of one type in their stored form. -/
def Data.keyEq : Data → Data → Bool
  | .float a, .float b => floatEq a b
  | .complex a b, .complex c d => floatEq a c && floatEq b d
  | .struct a, .struct b => DataList.keyEq a b
  | .array a, .array b => DataList.keyEq a b
  | .iface t d, .iface u e => decide (t = u) && Data.keyEq d e
  | .nil, .nil => true
  | .bool a, .bool b => decide (a = b)
  | .int a, .int b => decide (a = b)
  | .uint a, .uint b => decide (a = b)
  | .str a, .str b => decide (a = b)
  | .ptr a, .ptr b => decide (a = b)
  | .chan a, .chan b => decide (a = b)
  | _, _ => false
/-- Comparison of two sequences, element by element. -/
def DataList.keyEq : DataList → DataList → Bool
  | .nil, .nil => true
  | .cons a as, .cons b bs => Data.keyEq a b && DataList.keyEq as bs
  | _, _ => false
end

/-- The element a map holds under a key: the entry of the first stored key
equal to it. -/
def mapLookup : DataList → DataList → Data → Option Data
  | .cons k ks, .cons v vs, x => if Data.keyEq k x then some v else mapLookup ks vs x
  | _, _, _ => none

/-- The stored form of a value as `Value.Interface` packs it: the receiver of
a method value is hidden behind a function. -/
def Value.payload (h : Heap) (v : Value) : Data :=
  if v.method.isSome then .func 0 else v.load h

/-- `Value.MapIndex`: the element of the map `v` under `key`, not addressable,
read-only when the map or the key is,
or the zero Value when the map has no such key or is nil. Panics when `v` is
not a map, when the type of `key` is not assignable to the key type, and when
the key cannot be hashed. -/
def Value.MapIndex (h : Heap) (v key : Value) : Except String Value :=
  match v.Kind, v.typ with
  | .Map, some t =>
    match key.Type, t.key with
    | .error _, _ => .error "reflect: call of reflect.Value.MapIndex on zero Value"
    | .ok _, none => .error "reflect: Key of non-map type"
    | .ok kt, some tk =>
      if assignable kt tk then
        let k := if decide (tk.kind = .Interface) && !decide (kt.kind = .Interface)
          then .iface kt (key.payload h) else key.payload h
        if Data.hashable k then
          match v.load h with
          | .map ks vs =>
            match mapLookup ks vs k with
            | some e => .ok ⟨t.elem, .imm e, none, v.ro || key.ro⟩
            | none => .ok Value.zero
          | _ => .ok Value.zero
        else .error "runtime error: hash of unhashable type"
      else .error ("reflect.Value.MapIndex: value of type " ++ kt.str ++
        " is not assignable to type " ++ tk.str)
  | .Invalid, _ => .error "reflect: call of reflect.Value.MapIndex on zero Value"
  | k, _ => .error ("reflect: call of reflect.Value.MapIndex on " ++ kindName k ++ " Value")

/-- `Value.Int`; panics unless the kind is a signed integer kind. -/
def Value.Int (h : Heap) (v : Value) : Except String Int :=
  match v.Kind with
  | .Int | .Int8 | .Int16 | .Int32 | .Int64 => match v.load h with
    | .int i => .ok i
    | _ => .ok 0
  | .Invalid => .error "reflect: call of reflect.Value.Int on zero Value"
  | k => .error ("reflect: call of reflect.Value.Int on " ++ kindName k ++ " Value")

/-- `Value.Float`, as a binary64 bit pattern; panics unless the kind is a
floating-point kind. -/
def Value.Float (h : Heap) (v : Value) : Except String Nat :=
  match v.Kind with
  | .Float32 | .Float64 => match v.load h with
    | .float b => .ok b
    | _ => .ok 0
  | .Invalid => .error "reflect: call of reflect.Value.Float on zero Value"
  | k => .error ("reflect: call of reflect.Value.Float on " ++ kindName k ++ " Value")

/-- `Value.Bool`; panics unless the kind is Bool. -/
def Value.Bool (h : Heap) (v : Value) : Except String Bool :=
  match v.Kind with
  | .Bool => match v.load h with
    | .bool b => .ok b
    | _ => .ok false
  | _ => .error "reflect: call of reflect.Value.Bool on non-bool Value"

/-- `Value.String`: the string of a string value, and a fixed description of
the type for every other value; never panics. -/
def Value.String (h : Heap) (v : Value) : String :=
  match v.Kind with
  | .String => match v.load h with
    | .str s => s
    | _ => ""
  | .Invalid => "<invalid Value>"
  | _ => match v.Type with
    | .ok t => "<" ++ t.str ++ " Value>"
    | .error _ => "<invalid Value>"


/-! ## Library functions: `strconv`, `fmt`, numeric conversion -/

/-- A Go `error` value: a message (`errors.New`, `fmt.Errorf`) or a
`*strconv.NumError` with the function, the input and whether it is a range
error (otherwise a syntax error). -/
inductive Error where
  | text (msg : String)
  | num (fn : String) (input : String) (range : Bool)
  deriving DecidableEq

/-- The parts of the libraries that are tables or printing routines outside
this development: the `unicode.Letter` table above Latin-1,
`strconv.ParseFloat(s, 64)`, the `%v` text of a floating-point number of the
given width, the text `fmt` obtains through an
`Error` or `String` method, and the `%v` text of every other value. -/
structure Lib where
  letter : Nat → Bool
  parseFloat : String → Nat × Option Error
  fmtFloat : Nat → Nat → String
  fmtMethod : Heap → RType → Data → String
  fmtOther : Heap → RType → Data → String

/-- Largest `uint64`. -/
def maxUint64 : Nat := 2 ^ 64 - 1

/-- Conversion to `int64` (and to the 64-bit `int`): two's complement wrap. -/
def wrapInt64 (i : Int) : Int := (i + 2 ^ 63) % 2 ^ 64 - 2 ^ 63

/-- The value of a byte as a digit in `strconv.ParseUint`: decimal digits, and
letters of either case from ten up. -/
def digitVal (c : Char) : Option Nat :=
  if 48 ≤ c.toNat ∧ c.toNat ≤ 57 then some (c.toNat - 48)
  else if c.toNat < 128 ∧ 97 ≤ (c.toNat ||| 32) ∧ (c.toNat ||| 32) ≤ 122 then
    some ((c.toNat ||| 32) - 97 + 10)
  else none

/-- The digit loop of `strconv.ParseUint` for an explicit base: the number read
so far and, on failure, whether the error is a range error. -/
def parseUintLoop (base bitSize : Nat) : List Char → Nat → Nat × Option Bool
  | [], n => (n, none)
  | c :: cs, n =>
    match digitVal c with
    | none => (0, some false)
    | some d =>
      if d ≥ base then (0, some false)
      else if n ≥ maxUint64 / base + 1 then (2 ^ bitSize - 1, some true)
      else
        let n0 := (n * base) % 2 ^ 64
        let n1 := (n0 + d) % 2 ^ 64
        if n1 < n0 ∨ n1 > 2 ^ bitSize - 1 then (2 ^ bitSize - 1, some true)
        else parseUintLoop base bitSize cs n1

/-- `strconv.ParseUint(s, base, bitSize)` for `2 ≤ base ≤ 36` and
`1 ≤ bitSize ≤ 64`. -/
def ParseUint (s : List Char) (base bitSize : Nat) : Nat × Option Bool :=
  if s = [] then (0, some false) else parseUintLoop base bitSize s 0

/-- `strconv.ParseInt(s, base, 64)` for `2 ≤ base ≤ 36`. -/
def ParseInt (s : String) (base : Nat) : Int × Option Error :=
  match s.toList with
  | [] => (0, some (.num "ParseInt" s false))
  | c :: cs =>
    let neg := decide (c = '-')
    let body := if c = '+' ∨ c = '-' then cs else c :: cs
    match ParseUint body base 64 with
    | (_, some false) => (0, some (.num "ParseInt" s false))
    | (un, _) =>
      let cutoff : Nat := 2 ^ 63
      if !neg && decide (un ≥ cutoff) then ((cutoff : Int) - 1, some (.num "ParseInt" s true))
      else if neg && decide (un > cutoff) then (-(cutoff : Int), some (.num "ParseInt" s true))
      else
        let n := wrapInt64 un
        (if neg then wrapInt64 (-n) else n, none)

/-- `strings.HasPrefix`. -/
def HasPrefix (s pre : String) : Bool := pre.toList.isPrefixOf s.toList

/-- The digit loop of `strconv.FormatUint` in base 10: digits are produced from
the least significant one and put in front of those already produced. -/
def fmtDigits : Nat → Nat → List Char → List Char
  | 0, _, acc => acc
  | fuel + 1, u, acc =>
    if u ≥ 10 then fmtDigits fuel (u / 10) (Char.ofNat (48 + u % 10) :: acc)
    else Char.ofNat (48 + u) :: acc

/-- Base-10 text of an unsigned integer. -/
def formatUint (u : Nat) : String := String.mk (fmtDigits (u + 1) u [])

/-- Base-10 text of a signed integer (`strconv.FormatInt(i, 10)`, and `%v`). -/
def formatInt (i : Int) : String :=
  if i < 0 then String.mk ('-' :: fmtDigits ((-i).toNat + 1) (-i).toNat [])
  else formatUint i.toNat

/-- `fmt.Sprint` of one operand, an `interface{}`. -/
def fmtSprint (L : Lib) (h : Heap) : Option (RType × Data) → String
  | none => "<nil>"
  | some (t, d) =>
    if "Error" ∈ t.methods ∨ "String" ∈ t.methods then L.fmtMethod h t d
    else match t.kind, d with
      | .Bool, .bool b => if b then "true" else "false"
      | .Int, .int i | .Int8, .int i | .Int16, .int i | .Int32, .int i | .Int64, .int i =>
        formatInt i
      | .Uint, .uint n | .Uint8, .uint n | .Uint16, .uint n | .Uint32, .uint n
      | .Uint64, .uint n | .Uintptr, .uint n => formatUint n
      | .Float32, .float b => L.fmtFloat 32 b
      | .Float64, .float b => L.fmtFloat 64 b
      | .String, .str s => s
      | _, _ => L.fmtOther h t d

/-- Smallest `int64`. -/
def minInt64 : Int := -(2 ^ 63)

/-- The conversion `int(f)` of a `float64` given by its bit pattern. The
fraction is discarded. A value that is not finite or does not fit 64 bits gives
`minInt64`, the result of the amd64 conversion instruction. -/
def floatToInt (bits : Nat) : Int :=
  let sign := bits / 2 ^ 63 % 2
  let e := bits / 2 ^ 52 % 2 ^ 11
  let frac := bits % 2 ^ 52
  if e = 2047 then minInt64
  else
    let m : Nat := if e = 0 then frac else 2 ^ 52 + frac
    let e1 : Nat := if e = 0 then 1 else e
    let mag : Nat := if 1075 ≤ e1 then m * 2 ^ (e1 - 1075) else m / 2 ^ (1075 - e1)
    if sign = 0 then (if mag < 2 ^ 63 then (mag : Int) else minInt64)
    else (if mag ≤ 2 ^ 63 then -(mag : Int) else minInt64)


/-! ## `vm/vmToX.go` -/

/-- `toString` converts all reflect.Value-s into string. -/
def toString (L : Lib) (h : Heap) (v : Value) : Except String String := do
  let nonNil ← if v.Kind = .Interface then (do let n ← v.IsNil h; pure (!n)) else pure false
  let v ← if nonNil then v.Elem h else pure v
  let v ← if v.Kind = .Ptr then v.Elem h else pure v
  if v.Kind = .String then
    pure (v.String h)
  else do
    let x ← v.Interface h
    pure (fmtSprint L h x)

/-- Truth value of a payload under §4.2. -/
def Data.truthy : Data → Bool
  | .nil => false
  | .bool b => b
  | .int i => decide (i ≠ 0)
  | .uint n => decide (n ≠ 0)
  | .float bits => decide (bits % 2 ^ 63 ≠ 0)
  | .complex re im => decide (re % 2 ^ 63 ≠ 0) || decide (im % 2 ^ 63 ≠ 0)
  | .str s => decide (s ≠ "")
  | .struct fs => decide (fs ≠ .nil)
  | .array es => decide (es ≠ .nil)
  | .slice es => decide (es ≠ .nil)
  | .iface _ d => Data.truthy d
  | _ => true

/-- Modelled from the spec: `tryToBool`, which `toBool` calls, is not among the
sources. §4.2 `AsBool`: nil, a numeric zero, the empty string, the empty
aggregate and the empty sequence are false, a boolean is itself, everything
else is true; the conversion is total and reports no failure. -/
def tryToBool (h : Heap) (v : Value) : Except String (Bool × Option Error) :=
  match v.typ with
  | none => .ok (false, none)
  | some _ => .ok (Data.truthy (v.load h), none)

/-- `toBool` converts all reflect.Value-s into bool. -/
def toBool (h : Heap) (v : Value) : Except String Bool := do
  let (b, _) ← tryToBool h v
  pure b

/-- The error of a failed integer conversion. -/
def errToInt : Error := .text "couldn't convert to integer"

/-- The `switch v.Kind()` statement of `tryToInt` and the return after it. -/
def tryToIntSwitch (h : Heap) (v : Value) : Except String (Int × Option Error) :=
  match v.Kind with
  | .Float64 | .Float32 => do
    let f ← v.Float h
    pure (floatToInt f, none)
  | .Int64 | .Int32 | .Int16 | .Int8 | .Int => do
    let i ← v.Int h
    pure (wrapInt64 i, none)
  | .Bool => do
    let b ← v.Bool h
    if b then pure (1, none) else pure (0, none)
  | .String =>
    let s := v.String h
    let r := if HasPrefix s "0x" then ParseInt s 16 else ParseInt s 10
    if r.2 = none then pure (wrapInt64 r.1, none) else pure (0, some errToInt)
  | _ => pure (0, some errToInt)

/-- `tryToInt` attempts to convert a value to an int. If it cannot (in the case
of a non-numeric string, a struct, etc.) it returns 0 and an error. -/
def tryToInt (h : Heap) (v : Value) : Except String (Int × Option Error) := do
  let v ← if v.Kind = .Ptr ∨ v.Kind = .Interface then v.Elem h else pure v
  tryToIntSwitch h v

/-- `toInt` converts all reflect.Value-s into int. -/
def toInt (h : Heap) (v : Value) : Except String Int := do
  let (i, _) ← tryToInt h v
  pure i

/-! ## `vm/invoke.go` -/

/-- `invokeMember` handles member access (`obj.member` or `obj.method()`): the
returned value, the error and the heap after the call. -/
def invokeMember (h : Heap) (v : Value) (name : String) :
    Except String (Value × Option Error × Heap) := do
  -- Handle direct field access.
  let field ← if v.Kind = .Struct then v.FieldByName name else pure Value.zero
  if v.Kind = .Struct ∧ field.IsValid then
    pure (field, none, h)
  else do
    -- Handle method access.
    let method ← v.MethodByName h name
    if method.IsValid then
      pure (method, none, h)
    else do
      -- Try pointer receiver methods if v is a struct value.
      let r ← if v.Kind = .Struct ∧ !v.CanAddr then (do
          let t ← v.Type
          let (ptr, h1) := New h t
          let e ← ptr.Elem h1
          let h2 ← e.Set h1 v
          let method ← ptr.MethodByName h2 name
          pure (method, h2))
        else pure (Value.zero, h)
      let (method, h) := r
      if method.IsValid then
        pure (method, none, h)
      else do
        -- Try pointer receiver methods if v is addressable.
        let method ← if v.CanAddr then (do
            let a ← v.Addr
            a.MethodByName h name)
          else pure Value.zero
        if method.IsValid then
          pure (method, none, h)
        else do
          let t ← v.Type
          pure (Value.zero,
            some (.text ("no member named \x27" ++ name ++ "\x27 for " ++ t.str)), h)


/-! ## `vm/vmUtils.go` -/

/-- `makeValue` creates a new reflect.Value for the given type: the value, the
error and the heap after the call. -/
def makeValue (h : Heap) (t : RType) : Except String ((Value × Option Error) × Heap) :=
  if t.kind = .Ptr then
    match t.elem with
    | some e => .ok (((New h e).1, none), (New h e).2)
    | none => .error "reflect: Elem of invalid type"
  else .ok ((Zero t, none), h)

/-- `getMapIndex` retrieves the value for a key in a map. -/
def getMapIndex (h : Heap) (key m : Value) : Except String Value :=
  if !key.IsValid || !m.IsValid || decide (m.Kind ≠ .Map) then .ok Value.zero
  else m.MapIndex h key

/-- `isNil` checks if a reflect.Value is nil. -/
def isNil (h : Heap) (v : Value) : Except String Bool :=
  match v.Kind with
  | .Chan | .Func | .Interface | .Map | .Ptr | .Slice => v.IsNil h
  | _ => .ok false

/-! ## `parser/lexer.go`: the scanner -/

/-- `ast.Position`. -/
structure Position where
  Line : Int
  Column : Int
  deriving DecidableEq, Repr

/-- The token numbers that the generated parser declares; the lexer only names
them. -/
structure Tokens where
  IDENT : Int
  NUMBER : Int
  STRING : Int
  VARARG : Int
  FUNC : Int
  RETURN : Int
  VAR : Int
  THROW : Int
  IF : Int
  FOR : Int
  BREAK : Int
  CONTINUE : Int
  IN : Int
  ELSE : Int
  NEW : Int
  TRUE : Int
  FALSE : Int
  NIL : Int
  MODULE : Int
  TRY : Int
  CATCH : Int
  FINALLY : Int
  SWITCH : Int
  CASE : Int
  DEFAULT : Int
  GO : Int
  CHAN : Int
  STRUCT : Int
  MAKE : Int
  TYPE : Int
  LEN : Int
  DELETE : Int
  CLOSE : Int
  MAP : Int
  IMPORT : Int
  NEQ : Int
  EQEQ : Int
  EQOPCHAN : Int
  NILCOALESCE : Int
  PLUSPLUS : Int
  PLUSEQ : Int
  MINUSMINUS : Int
  MINUSEQ : Int
  MULEQ : Int
  DIVEQ : Int
  GE : Int
  SHIFTRIGHT : Int
  OPCHAN : Int
  LE : Int
  SHIFTLEFT : Int
  OROR : Int
  OREQ : Int
  ANDAND : Int
  ANDEQ : Int

/-- EOF is short for End of file. -/
def EOF : Int := -1

/-- EOL is short for End of line. -/
def EOL : Int := 10

/-- ILLEGAL is used for illegal tokens. -/
def ILLEGAL : Int := -2

/-- Why a run of the scanner stops without returning: a Go panic, or the
iteration bound of a loop of the embedding. -/
inductive Stop where
  | panic (msg : String)
  | fuel
  deriving DecidableEq, Repr

/-- Scanner stores informations for lexer. -/
structure Scanner where
  src : List Int
  offset : Int
  lineHead : Int
  line : Int
  deriving DecidableEq, Repr

/-- The conversion `[]rune(s)`. -/
def runes (s : String) : List Int := s.toList.map (fun c => (c.toNat : Int))

/-- The character a rune encodes to: itself, or U+FFFD when it is not a
Unicode scalar value. -/
def runeToChar (r : Int) : Char :=
  if 0 ≤ r ∧ Nat.isValidChar r.toNat then Char.ofNat r.toNat else Char.ofNat 65533

/-- The conversion `string(rs)` of a rune slice. -/
def runesToString (rs : List Int) : String := String.mk (rs.map runeToChar)

/-- The conversion `string(r)` of one rune. -/
def runeToString (r : Int) : String := runesToString [r]

/-- opName is correction of operation names. -/
def opName (T : Tokens) : List (String × Int) :=
  [("func", T.FUNC), ("return", T.RETURN), ("var", T.VAR), ("throw", T.THROW),
   ("if", T.IF), ("for", T.FOR), ("break", T.BREAK), ("continue", T.CONTINUE),
   ("in", T.IN), ("else", T.ELSE), ("new", T.NEW), ("true", T.TRUE),
   ("false", T.FALSE), ("nil", T.NIL), ("module", T.MODULE), ("try", T.TRY),
   ("catch", T.CATCH), ("finally", T.FINALLY), ("switch", T.SWITCH), ("case", T.CASE),
   ("default", T.DEFAULT), ("go", T.GO), ("chan", T.CHAN), ("struct", T.STRUCT),
   ("make", T.MAKE), ("type", T.TYPE), ("len", T.LEN), ("delete", T.DELETE),
   ("close", T.CLOSE), ("map", T.MAP), ("import", T.IMPORT)]

/-- The Latin-1 letters of `unicode.IsLetter`. -/
def latin1Letter (n : Nat) : Bool :=
  (65 ≤ n && n ≤ 90) || (97 ≤ n && n ≤ 122) || n = 170 || n = 181 || n = 186 ||
  (192 ≤ n && n ≤ 214) || (216 ≤ n && n ≤ 246) || (248 ≤ n && n ≤ 255)

/-- `unicode.IsLetter`. Up to U+00FF the answer is the Latin-1 property table;
above, the `Letter` range table. For a negative rune the table is consulted
at the low 16 bits, where U+FFFF is not a letter. -/
def unicodeIsLetter (L : Lib) (r : Int) : Bool :=
  if 0 ≤ r then
    if r ≤ 255 then latin1Letter r.toNat else L.letter r.toNat
  else
    decide ((r % 65536).toNat ≠ 65535) && L.letter (r % 65536).toNat

/-- `isLetter` returns true if the rune is a letter for identity. -/
def isLetter (L : Lib) (ch : Int) : Bool := unicodeIsLetter L ch || ch = 95

/-- `isDigit` returns true if the rune is a number. -/
def isDigit (ch : Int) : Bool := 48 ≤ ch && ch ≤ 57

/-- `isHex` returns true if the rune is a hex digits. -/
def isHex (ch : Int) : Bool :=
  (48 ≤ ch && ch ≤ 57) || (97 ≤ ch && ch ≤ 102) || (65 ≤ ch && ch ≤ 70)

/-- `isEOL` returns true if the rune is at end-of-line or end-of-file. -/
def isEOL (ch : Int) : Bool := ch = 10 || ch = -1

/-- `isBlank` returns true if the rune is empty character. -/
def isBlank (ch : Int) : Bool := ch = 32 || ch = 9 || ch = 13

/-- The indexing `s.src[i]`; panics outside the slice. -/
def Scanner.srcAt (s : Scanner) (i : Int) : Except Stop Int :=
  if 0 ≤ i then
    match s.src.get? i.toNat with
    | some r => .ok r
    | none => .error (.panic "runtime error: index out of range")
  else .error (.panic "runtime error: index out of range")

/-- `reachEOF` returns true if offset is at end-of-file. -/
def Scanner.reachEOF (s : Scanner) : Bool := (s.src.length : Int) ≤ s.offset

/-- `peek` returns current rune in the code. -/
def Scanner.peek (s : Scanner) : Except Stop Int :=
  if s.reachEOF then .ok EOF else s.srcAt s.offset

/-- `peekPlus` returns current rune plus i in the code. -/
def Scanner.peekPlus (s : Scanner) (i : Int) : Except Stop Int :=
  if (s.src.length : Int) ≤ s.offset + i then .ok EOF else s.srcAt (s.offset + i)

/-- `next` moves offset to next. -/
def Scanner.next (s : Scanner) : Except Stop Scanner :=
  if !s.reachEOF then do
    let ch ← s.peek
    let s1 := if ch = 10 then { s with lineHead := s.offset + 1, line := s.line + 1 } else s
    pure { s1 with offset := s1.offset + 1 }
  else pure s

/-- `current` returns the current offset. -/
def Scanner.current (s : Scanner) : Int := s.offset

/-- `set` sets the offset value. -/
def Scanner.set (s : Scanner) (o : Int) : Scanner := { s with offset := o }

/-- `back` moves back offset once to top. -/
def Scanner.back (s : Scanner) : Scanner := { s with offset := s.offset - 1 }

/-- `pos` returns the position of current. -/
def Scanner.pos (s : Scanner) : Position :=
  { Line := s.line + 1, Column := s.offset - s.lineHead + 1 }

/-- `Init` resets code to scan. -/
def Scanner.Init (s : Scanner) (src : String) : Scanner := { s with src := runes src }

/-- The scanner `ParseSrc` builds: `&Scanner{src: []rune(src)}`. -/
def Scanner.new (src : String) : Scanner := { src := runes src, offset := 0, lineHead := 0, line := 0 }

/-- The iteration bound given to every loop of a scanner function. -/
def Scanner.bound (s : Scanner) : Nat := s.src.length + 1


/-- What `Scan` returns. A result that the source leaves unassigned has the
zero value of its type. -/
structure ScanResult where
  tok : Int
  lit : String
  pos : Position
  err : Option Error
  deriving DecidableEq

/-- The loop of `skipBlank`. -/
def Scanner.skipBlankLoop : Nat → Scanner → Except Stop Scanner
  | 0, _ => .error .fuel
  | fuel + 1, s => do
    let ch ← s.peek
    if isBlank ch then do
      let s ← s.next
      Scanner.skipBlankLoop fuel s
    else pure s

/-- `skipBlank` moves position into non-black character. -/
def Scanner.skipBlank (s : Scanner) : Except Stop Scanner := Scanner.skipBlankLoop s.bound s

/-- The loop of `scanIdentifier`. -/
def Scanner.scanIdentifierLoop (L : Lib) : Nat → Scanner → List Int → Except Stop (List Int × Scanner)
  | 0, _, _ => .error .fuel
  | fuel + 1, s, ret => do
    let ch ← s.peek
    if !isLetter L ch && !isDigit ch then pure (ret, s)
    else do
      let s ← s.next
      Scanner.scanIdentifierLoop L fuel s (ret ++ [ch])

/-- `scanIdentifier` returns identifier beginning at current position. -/
def Scanner.scanIdentifier (L : Lib) (s : Scanner) :
    Except Stop ((String × Option Error) × Scanner) := do
  let (ret, s) ← Scanner.scanIdentifierLoop L s.bound s []
  pure ((runesToString ret, none), s)

/-- The loop over hex digits in `scanNumber`. -/
def Scanner.scanHexLoop : Nat → Scanner → List Int → Except Stop (List Int × Scanner)
  | 0, _, _ => .error .fuel
  | fuel + 1, s, result => do
    let ch ← s.peek
    if isHex ch then do
      let s ← s.next
      Scanner.scanHexLoop fuel s (result ++ [ch])
    else pure (result, s)

/-- The loop of the non-hex branch of `scanNumber`: the runes collected, or the
error it returns with. -/
def Scanner.scanDecLoop : Nat → Scanner → Bool → List Int →
    Except Stop ((List Int × Option Error) × Scanner)
  | 0, _, _, _ => .error .fuel
  | fuel + 1, s, found, result => do
    let ch ← s.peek
    if isDigit ch then do
      -- is digit
      let s ← s.next
      Scanner.scanDecLoop fuel s found (result ++ [ch])
    else if ch = 46 then do
      -- is .
      let s ← s.next
      Scanner.scanDecLoop fuel s found (result ++ [46])
    else if ch = 101 ∨ ch = 69 then
      -- is e
      if found then pure (([], some (.text ("unexpected " ++ runeToString ch))), s)
      else do
        let s ← s.next
        let ch2 ← s.peek
        -- check if + or -
        if ch2 = 43 ∨ ch2 = 45 then do
          let s ← s.next
          Scanner.scanDecLoop fuel s true (result ++ [101] ++ [ch2])
        else Scanner.scanDecLoop fuel s true (result ++ [101])
    else
      -- not digit, e, nor .
      pure ((result, none), s)

/-- `scanNumber` returns number beginning at current position. -/
def Scanner.scanNumber (L : Lib) (s : Scanner) :
    Except Stop ((String × Option Error) × Scanner) := do
  let c ← s.peek
  let result := [c]
  let s ← s.next
  let p ← s.peek
  let ((result, err), s) ←
    if c = 48 ∧ (p = 120 ∨ p = 88) then do
      -- hex
      let s ← s.next
      let (result, s) ← Scanner.scanHexLoop s.bound s (result ++ [120])
      pure ((result, none), s)
    else
      -- non-hex
      Scanner.scanDecLoop s.bound s false result
  if err.isSome then pure (("", err), s)
  else do
    let q ← s.peek
    if isLetter L q then
      pure (("", some (.text "identifier starts immediately after numeric literal")), s)
    else pure ((runesToString result, none), s)

/-- The loop of `scanRawString`. -/
def Scanner.scanRawStringLoop (l : Int) : Nat → Scanner → List Int →
    Except Stop ((List Int × Option Error) × Scanner)
  | 0, _, _ => .error .fuel
  | fuel + 1, s, ret => do
    let s ← s.next
    let ch ← s.peek
    if ch = EOF then pure (([], some (.text "unexpected EOF")), s)
    else if ch = l then do
      let s ← s.next
      pure ((ret, none), s)
    else Scanner.scanRawStringLoop l fuel s (ret ++ [ch])

/-- `scanRawString` returns raw-string starting at current position. -/
def Scanner.scanRawString (l : Int) (s : Scanner) :
    Except Stop ((String × Option Error) × Scanner) := do
  let ((ret, err), s) ← Scanner.scanRawStringLoop l s.bound s []
  if err.isSome then pure (("", err), s) else pure ((runesToString ret, none), s)

/-- `utf8.ValidRune`. -/
def validRune (r : Int) : Bool := (0 ≤ r && r < 55296) || (57343 < r && r ≤ 1114111)

/-- The text of an error, `err.Error()`. The input of a `NumError` is put
between double quotes. -/
def errorText : Error → String
  | .text msg => msg
  | .num fn input range =>
    "strconv." ++ fn ++ ": parsing \"" ++ input ++ "\": " ++
      (if range then "value out of range" else "invalid syntax")

/-- `scanEscape` handles escape sequences like \uXXXX. -/
def Scanner.scanEscape (T : Tokens) (s : Scanner) : Except Stop ((Int × String) × Scanner) :=
  if s.offset ≥ s.src.length then pure ((ILLEGAL, "incomplete escape sequence"), s)
  else do
    let c ← s.srcAt s.offset
    let s := { s with offset := s.offset + 1 }
    if c ≠ 117 then
      if c = 110 then pure ((T.STRING, "\n"), s)
      else if c = 116 then pure ((T.STRING, "\t"), s)
      else if c = 114 then pure ((T.STRING, "\r"), s)
      else if c = 92 then pure ((T.STRING, "\\"), s)
      else pure ((ILLEGAL, "invalid escape \\" ++ runeToString c), s)
    else if s.offset + 4 > s.src.length then pure ((ILLEGAL, "incomplete Unicode escape"), s)
    else if s.offset < 0 then .error (.panic "runtime error: slice bounds out of range")
    else
      let hex := runesToString ((s.src.drop s.offset.toNat).take 4)
      let s := { s with offset := s.offset + 4 }
      if hex.toList.any (fun h => !("0123456789ABCDEFabcdef".toList.contains h)) then
        pure ((ILLEGAL, "invalid Unicode escape \\u" ++ hex), s)
      else
        match ParseUint hex.toList 16 32 with
        | (_, some range) =>
          pure ((ILLEGAL, "invalid Unicode escape \\u" ++ hex ++ ": " ++
            errorText (.num "ParseUint" hex range)), s)
        | (n, none) =>
          let r : Int := n
          if !validRune r then pure ((ILLEGAL, "invalid Unicode rune \\u" ++ hex), s)
          else pure ((T.STRING, runeToString r), s)

/-- The loop of `scanString`. -/
def Scanner.scanStringLoop (T : Tokens) (l : Int) : Nat → Scanner → List Int →
    Except Stop ((List Int × Option Error) × Scanner)
  | 0, _, _ => .error .fuel
  | fuel + 1, s, ret => do
    let s ← s.next
    let ch ← s.peek
    if ch = EOL then pure (([], some (.text "unexpected EOL")), s)
    else if ch = EOF then pure (([], some (.text "unexpected EOF")), s)
    else if ch = l then do
      let s ← s.next
      pure ((ret, none), s)
    else if ch = 92 then do
      let s ← s.next
      let e ← s.peek
      if e = 98 then Scanner.scanStringLoop T l fuel s (ret ++ [8])
      else if e = 102 then Scanner.scanStringLoop T l fuel s (ret ++ [12])
      else if e = 114 then Scanner.scanStringLoop T l fuel s (ret ++ [13])
      else if e = 110 then Scanner.scanStringLoop T l fuel s (ret ++ [10])
      else if e = 116 then Scanner.scanStringLoop T l fuel s (ret ++ [9])
      else if e = 117 then do
        let ((tok, val), s) ← s.scanEscape T
        if tok = ILLEGAL then pure (([], some (.text val)), s)
        else Scanner.scanStringLoop T l fuel s (ret ++ runes val)
      else Scanner.scanStringLoop T l fuel s (ret ++ [e])
    else Scanner.scanStringLoop T l fuel s (ret ++ [ch])

/-- `scanString` returns string starting at current position. This handles
backslash escaping. -/
def Scanner.scanString (T : Tokens) (l : Int) (s : Scanner) :
    Except Stop ((String × Option Error) × Scanner) := do
  let ((ret, err), s) ← Scanner.scanStringLoop T l s.bound s []
  if err.isSome then pure (("", err), s) else pure ((runesToString ret, none), s)


/-- The loop that skips a line comment: `for !isEOL(s.peek()) { s.next() }`. -/
def Scanner.skipLineLoop : Nat → Scanner → Except Stop Scanner
  | 0, _ => .error .fuel
  | fuel + 1, s => do
    let ch ← s.peek
    if !isEOL ch then do
      let s ← s.next
      Scanner.skipLineLoop fuel s
    else pure s

/-- The loop that skips a block comment: the error it returns with, or none
when it ends in `goto retry`. -/
def Scanner.blockCommentLoop : Nat → Scanner → Except Stop (Option Error × Scanner)
  | 0, _ => .error .fuel
  | fuel + 1, s => do
    let ((_, err), s) ← s.scanRawString 42
    if err.isSome then pure (err, s)
    else do
      let ch ← s.peek
      if ch = 47 then do
        let s ← s.next
        pure (none, s)
      else Scanner.blockCommentLoop fuel s.back

/-- One pass through the body of `Scan`: it returns, or jumps back to `retry`. -/
inductive Pass where
  | retry (s : Scanner)
  | ret (r : ScanResult) (s : Scanner)

/-- The end of the default case of `Scan`: `s.next()` and return. -/
def Scanner.finish (s : Scanner) (tok : Int) (lit : String) (pos : Position) :
    Except Stop Pass := do
  let s ← s.next
  pure (.ret ⟨tok, lit, pos, none⟩ s)

/-- The error of `Scan` on a rune that starts no token. -/
def syntaxError (ch : Int) (pos : Position) : Error :=
  .text ("syntax error on \x27" ++ runeToString ch ++ "\x27 at " ++ formatInt pos.Line ++ ":" ++
    formatInt pos.Column)

/-- The body of `Scan` from the label `retry` to one of its returns or to
`goto retry`. -/
def Scanner.scanPass (T : Tokens) (L : Lib) (s : Scanner) : Except Stop Pass := do
  let s ← s.skipBlank
  let pos := s.pos
  let ch ← s.peek
  if isLetter L ch then do
    let ((lit, err), s) ← s.scanIdentifier L
    if err.isSome then pure (.ret ⟨0, lit, pos, err⟩ s)
    else
      match (opName T).lookup lit with
      | some name => pure (.ret ⟨name, lit, pos, none⟩ s)
      | none => pure (.ret ⟨T.IDENT, lit, pos, none⟩ s)
  else if isDigit ch then do
    let ((lit, err), s) ← s.scanNumber L
    pure (.ret ⟨T.NUMBER, lit, pos, err⟩ s)
  else if ch = 34 then do
    let ((lit, err), s) ← s.scanString T 34
    pure (.ret ⟨T.STRING, lit, pos, err⟩ s)
  else if ch = 39 then do
    let ((lit, err), s) ← s.scanString T 39
    pure (.ret ⟨T.STRING, lit, pos, err⟩ s)
  else if ch = 96 then do
    let ((lit, err), s) ← s.scanRawString 96
    pure (.ret ⟨T.STRING, lit, pos, err⟩ s)
  else if ch = EOF then s.finish EOF "" pos
  else if ch = 35 then do
    let s ← Scanner.skipLineLoop s.bound s
    pure (.retry s)
  else if ch = 33 then do
    let s ← s.next
    let p ← s.peek
    if p = 61 then s.finish T.NEQ "!=" pos
    else s.back.finish ch (runeToString ch) pos
  else if ch = 61 then do
    let s ← s.next
    let p ← s.peek
    if p = 61 then s.finish T.EQEQ "==" pos
    else if p = 32 then do
      let p1 ← s.peekPlus 1
      let p2 ← if p1 = 60 then s.peekPlus 2 else pure 0
      if p1 = 60 ∧ p2 = 45 then do
        let s ← s.next
        let s ← s.next
        s.finish T.EQOPCHAN "= <-" pos
      else s.back.finish ch (runeToString ch) pos
    else s.back.finish ch (runeToString ch) pos
  else if ch = 63 then do
    let s ← s.next
    let p ← s.peek
    if p = 63 then s.finish T.NILCOALESCE "??" pos
    else s.back.finish ch (runeToString ch) pos
  else if ch = 43 then do
    let s ← s.next
    let p ← s.peek
    if p = 43 then s.finish T.PLUSPLUS "++" pos
    else if p = 61 then s.finish T.PLUSEQ "+=" pos
    else s.back.finish ch (runeToString ch) pos
  else if ch = 45 then do
    let s ← s.next
    let p ← s.peek
    if p = 45 then s.finish T.MINUSMINUS "--" pos
    else if p = 61 then s.finish T.MINUSEQ "-=" pos
    else s.back.finish ch "-" pos
  else if ch = 42 then do
    let s ← s.next
    let p ← s.peek
    if p = 61 then s.finish T.MULEQ "*=" pos
    else s.back.finish ch (runeToString ch) pos
  else if ch = 47 then do
    let s ← s.next
    let p ← s.peek
    if p = 61 then s.finish T.DIVEQ "/=" pos
    else if p = 47 then do
      let s ← Scanner.skipLineLoop s.bound s
      pure (.retry s)
    else if p = 42 then do
      let (err, s) ← Scanner.blockCommentLoop s.bound s
      if err.isSome then pure (.ret ⟨0, "", pos, err⟩ s) else pure (.retry s)
    else s.back.finish ch (runeToString ch) pos
  else if ch = 62 then do
    let s ← s.next
    let p ← s.peek
    if p = 61 then s.finish T.GE ">=" pos
    else if p = 62 then s.finish T.SHIFTRIGHT ">>" pos
    else s.back.finish ch (runeToString ch) pos
  else if ch = 60 then do
    let s ← s.next
    let p ← s.peek
    if p = 45 then s.finish T.OPCHAN "<-" pos
    else if p = 61 then s.finish T.LE "<=" pos
    else if p = 60 then s.finish T.SHIFTLEFT "<<" pos
    else s.back.finish ch (runeToString ch) pos
  else if ch = 124 then do
    let s ← s.next
    let p ← s.peek
    if p = 124 then s.finish T.OROR "||" pos
    else if p = 61 then s.finish T.OREQ "|=" pos
    else s.back.finish ch (runeToString ch) pos
  else if ch = 38 then do
    let s ← s.next
    let p ← s.peek
    if p = 38 then s.finish T.ANDAND "&&" pos
    else if p = 61 then s.finish T.ANDEQ "&=" pos
    else s.back.finish ch (runeToString ch) pos
  else if ch = 46 then do
    let s ← s.next
    let p ← s.peek
    if p = 46 then do
      let s ← s.next
      let q ← s.peek
      if q = 46 then s.finish T.VARARG "" pos
      else pure (.ret ⟨0, "", pos, some (syntaxError ch pos)⟩ s)
    else s.back.finish ch (runeToString ch) pos
  else if ch = 10 ∨ ch = 40 ∨ ch = 41 ∨ ch = 58 ∨ ch = 59 ∨ ch = 37 ∨ ch = 123 ∨ ch = 125 ∨
      ch = 91 ∨ ch = 93 ∨ ch = 44 ∨ ch = 94 then
    s.finish ch (runeToString ch) pos
  else pure (.ret ⟨ch, runeToString ch, pos, some (syntaxError ch pos)⟩ s)

/-- The loop `retry: ... goto retry` of `Scan`. -/
def Scanner.scanLoop (T : Tokens) (L : Lib) : Nat → Scanner → Except Stop (ScanResult × Scanner)
  | 0, _ => .error .fuel
  | fuel + 1, s => do
    match ← s.scanPass T L with
    | .ret r s => pure (r, s)
    | .retry s => Scanner.scanLoop T L fuel s

/-- `Scan` analyses token, and decide identify or literals: the results and the
scanner after the call. -/
def Scanner.Scan (T : Tokens) (L : Lib) (s : Scanner) : Except Stop (ScanResult × Scanner) :=
  Scanner.scanLoop T L s.bound s

/-- The value `nilValue`: the nil `interface{}` stored in the first cell, which
package initialisation allocates. -/
def nilValue : Value := ⟨some (basicType .Interface), .loc ⟨0, []⟩, none, false⟩

/-- `toNumber`: the value of a numeric literal. -/
def toNumber (L : Lib) (numString : String) : Value × Option Error :=
  let cs := numString.toList
  -- hex
  if numString.utf8ByteSize > 2 ∧ cs.take 2 = ['0', 'x'] then
    match ParseInt (String.mk (cs.drop 2)) 16 with
    | (_, some err) => (nilValue, some err)
    | (i, none) => (ValueOf (basicType .Int64) (.int i), none)
  -- hex
  else if numString.utf8ByteSize > 3 ∧ cs.take 3 = ['-', '0', 'x'] then
    match ParseInt (String.mk ('-' :: cs.drop 3)) 16 with
    | (_, some err) => (nilValue, some err)
    | (i, none) => (ValueOf (basicType .Int64) (.int i), none)
  -- float
  else if '.' ∈ cs ∨ 'e' ∈ cs then
    match L.parseFloat numString with
    | (_, some err) => (nilValue, some err)
    | (f, none) => (ValueOf (basicType .Float64) (.float f), none)
  -- int
  else
    match ParseInt numString 10 with
    | (_, some err) => (nilValue, some err)
    | (i, none) => (ValueOf (basicType .Int64) (.int i), none)

/-- `stringToValue`. -/
def stringToValue (aString : String) : Value := ValueOf (basicType .String) (.str aString)

/-- `Error` is a parse error. -/
structure Parser.Error where
  Message : String
  Pos : Position
  Filename : String
  Fatal : Bool
  deriving DecidableEq

/-- `ast.Token`: the token handed to the parser, with the position that
`SetPosition` stores. -/
structure Token where
  position : Position
  Tok : Int
  Lit : String
  deriving DecidableEq

/-- `Lexer` provides interface to parse codes. The statement the parser builds
is left out. -/
structure Lexer where
  s : Scanner
  lit : String
  pos : Position
  e : Option Parser.Error

/-- `Lex` scans the token and literals: the token number it returns, the token
it stores in `lval`, and the lexer after the call. -/
def Lexer.Lex (T : Tokens) (L : Lib) (l : Lexer) : Except Stop (Int × Token × Lexer) := do
  let (r, s) ← l.s.Scan T L
  let e := match r.err with
    | some err => some { Message := errorText err, Pos := r.pos, Filename := "", Fatal := true }
    | none => l.e
  pure (r.tok, { position := r.pos, Tok := r.tok, Lit := r.lit },
    { s := s, lit := r.lit, pos := r.pos, e := e })

/-- `Error` sets parse error. -/
def Lexer.Error (l : Lexer) (msg : String) : Lexer :=
  { l with e := some { Message := msg, Pos := l.pos, Filename := "", Fatal := false } }


/-! ## Values used as concrete inputs -/

/-- The struct type `User` of `test/main.go`: one field `Name`, and the method
`SayHello` declared on `*User`. -/
def userType : RType :=
  .mk .Struct "main.User" [] ["SayHello"] .none (.cons "Name" (basicType .String) .nil)
    [("SayHello", "func()")]

/-- The value `User{Name: "Michel"}` as `reflect.ValueOf` returns it. -/
def userValue : Value := ValueOf userType (.struct (.cons (.str "Michel") .nil))

/-- A heap with one cell, holding a `User`, and the addressable value that
`reflect.ValueOf(&user).Elem()` returns for it. -/
def userHeap : Heap := [.struct (.cons (.str "Michel") .nil)]

/-- The addressable `User` stored in the cell of `userHeap`. -/
def userVar : Value := ⟨some userType, .loc ⟨0, []⟩, none, false⟩

/-- The struct type `Outer` with the two unexported fields `u User` and
`n int`. -/
def outerType : RType :=
  .mk .Struct "main.Outer" [] [] .none
    (.hidden "u" userType (.hidden "n" (basicType .Int) .nil)) []

/-- The value `Outer{u: User{Name: "Michel"}, n: 1}` as `reflect.ValueOf`
returns it. -/
def outerValue : Value :=
  ValueOf outerType (.struct (.cons (.struct (.cons (.str "Michel") .nil)) (.cons (.int 1) .nil)))

/-- The `User` in the field `u` of `outerValue` as `FieldByName` returns it:
not addressable, and read-only because the field is unexported. -/
def hiddenUser : Value := ⟨some userType, .imm (.struct (.cons (.str "Michel") .nil)), none, true⟩

/-- The value `tryToInt` inspects: `v.Elem()` when `v` is a pointer or an
interface, and `v` itself otherwise. -/
def derefOnce (h : Heap) (v : Value) : Value :=
  if v.Kind = .Ptr ∨ v.Kind = .Interface then
    match v.Elem h with
    | .ok w => w
    | .error _ => v
  else v

/-- The decimal digits of `u`, most significant first. -/
def decimal (u : Nat) : List Char := fmtDigits (u + 1) u []

/-- A library instance for concrete inputs: no letters above Latin-1, and
fixed texts where the printing routines are not modelled. -/
def plainLib : Lib :=
  { letter := fun _ => false
    parseFloat := fun s => (0, some (.num "ParseFloat" s false))
    fmtFloat := fun _ _ => "?"
    fmtMethod := fun _ _ _ => "?"
    fmtOther := fun _ _ _ => "?" }

/-- The magnitude that a finite binary64 bit pattern denotes. -/
def floatAbs (bits : Nat) : ℚ :=
  let e := bits / 2 ^ 52 % 2 ^ 11
  let frac := bits % 2 ^ 52
  let m : Nat := if e = 0 then frac else 2 ^ 52 + frac
  let e1 : Nat := if e = 0 then 1 else e
  (m : ℚ) * (2 : ℚ) ^ ((e1 : Int) - 1075)

/-- The number that a finite binary64 bit pattern denotes. -/
def floatValue (bits : Nat) : ℚ :=
  if bits / 2 ^ 63 % 2 = 0 then floatAbs bits else -floatAbs bits

/-- The magnitude `floatToInt` computes. -/
def floatMag (bits : Nat) : Nat :=
  let e := bits / 2 ^ 52 % 2 ^ 11
  let frac := bits % 2 ^ 52
  let m : Nat := if e = 0 then frac else 2 ^ 52 + frac
  let e1 : Nat := if e = 0 then 1 else e
  if 1075 ≤ e1 then m * 2 ^ (e1 - 1075) else m / 2 ^ (1075 - e1)

/-- A token numbering for concrete inputs: consecutive numbers from 57346, the
first number goyacc gives to a declared token. -/
def sampleTokens : Tokens :=
  ⟨57346, 57347, 57348, 57349, 57350, 57351, 57352, 57353, 57354, 57355, 57356, 57357, 57358,
   57359, 57360, 57361, 57362, 57363, 57364, 57365, 57366, 57367, 57368, 57369, 57370, 57371,
   57372, 57373, 57374, 57375, 57376, 57377, 57378, 57379, 57380, 57381, 57382, 57383, 57384,
   57385, 57386, 57387, 57388, 57389, 57390, 57391, 57392, 57393, 57394, 57395, 57396, 57397,
   57398, 57399⟩

/-- The type `map[interface{}]int`. -/
def anyIntMapType : RType := MapOf (basicType .Interface) (basicType .Int)

/-- The empty map of type `map[interface{}]int`. -/
def emptyAnyIntMap : Value := ValueOf anyIntMapType (.map .nil .nil)

/-- A value of type `interface{}` that holds an empty `[]int`. -/
def sliceInAny : Value :=
  ValueOf (basicType .Interface)
    (.iface (.mk .Slice "[]int" [] [] (.some (basicType .Int)) .nil []) (.slice .nil))

/-- The map `map[string]int{"a": 1}`. -/
def oneEntryMap : Value :=
  ValueOf (MapOf (basicType .String) (basicType .Int))
    (.map (.cons (.str "a") .nil) (.cons (.int 1) .nil))

/-! ## Words and escapes named by the properties of the scanner -/

/-- The reserved words, in the order of `opName`. -/
def reservedWords : List String :=
  ["func", "return", "var", "throw", "if", "for", "break", "continue", "in", "else", "new",
   "true", "false", "nil", "module", "try", "catch", "finally", "switch", "case", "default",
   "go", "chan", "struct", "make", "type", "len", "delete", "close", "map", "import"]

/-- Whether a rune continues an identifier. -/
def isIdentRune (L : Lib) (r : Int) : Bool := isLetter L r || isDigit r

/-- The rune an escape `\x` is said to stand for, `x` other than `u`: 8, 12, 13,
10 and 9 for `b`, `f`, `r`, `n` and `t`, and `x` itself otherwise. -/
def escapeRune (x : Int) : Int :=
  if x = 98 then 8 else if x = 102 then 12 else if x = 114 then 13
  else if x = 110 then 10 else if x = 116 then 9 else x

/-- The character an escape `\x` stands for, `x` other than `u`: backspace,
form feed, carriage return, newline and tab for `b`, `f`, `r`, `n` and `t`, and
`x` itself otherwise. -/
def escapeChar (x : Char) : Char :=
  if x = 'b' then Char.ofNat 8 else if x = 'f' then Char.ofNat 12
  else if x = 'r' then '\r' else if x = 'n' then '\n' else if x = 't' then '\t' else x


/-! ## Lines and columns of the source -/

/-- The number of newline runes before index `i` of the source. -/
def newlinesBefore (src : List Int) (i : Nat) : Nat := (src.take i).count 10

/-- The number of runes between the last newline before index `i` (or the start
of the source) and index `i`. -/
def runesSinceNewline (src : List Int) (i : Nat) : Nat :=
  ((src.take i).reverse.takeWhile (fun r => decide (r ≠ 10))).length

/-- The scanner over `src` at offset `i` whose `line` is the number of newlines
in `src[0:i]` and whose `lineHead` is the index just after the last of them. -/
def Scanner.atOffset (src : List Int) (i : Nat) : Scanner :=
  ⟨src, i, (i : Int) - runesSinceNewline src i, newlinesBefore src i⟩

/-- A scanner over `src` that keeps exact count of its lines and stands at or
after index `i`. -/
def Scanner.After (src : List Int) (i : Nat) (s : Scanner) : Prop :=
  ∃ j, i ≤ j ∧ j ≤ src.length ∧ s = Scanner.atOffset src j

/-- What one pass of `Scan` from a scanner at index `j`, past the blanks, leaves:
an exact scanner further on when it jumps back to `retry`; the position of index
`j` in a result, and an exact scanner unless it returns an error. -/
def Scanner.PassExact (src : List Int) (j : Nat) : Pass → Prop
  | .retry s' => Scanner.After src (j + 1) s'
  | .ret r s' => r.pos = (Scanner.atOffset src j).pos ∧ (r.err = none → Scanner.After src j s')

/-- The scanners reached from a new scanner over `src` by successive calls of
`Scan` that return no error. -/
inductive Scanned (T : Tokens) (L : Lib) (src : String) : Scanner → Prop
  | fresh : Scanned T L src (Scanner.new src)
  | scan (s s' : Scanner) (r : ScanResult) : Scanned T L src s →
      Scanner.Scan T L s = .ok (r, s') → r.err = none → Scanned T L src s'

/-- A source with a token that backtracks (`=` before a blank), a comment over
two lines and a raw string over two lines. -/
def sampleSource : String := "a = /* x\n y */ `r\ns`\nb"

/-! ## The scanner at a place in a text -/

/-- A scanner that stands at index `i` of the text `r`, with any text `pre`
before it in its source and any count of lines. -/
def Scanner.within (pre r : List Int) (i : Nat) (lh ln : Int) : Scanner :=
  ⟨pre ++ r, ((pre.length + i : Nat) : Int), lh, ln⟩

/-- The index after `next` from index `i` of the text `r`. -/
def Scanner.step (r : List Int) (i : Nat) : Nat := if i < r.length then i + 1 else i

/-- What one pass of `Scan` comes to, apart from positions and the text of an
error: a jump back to `retry` at index `j`, or a token, its literal, whether an
error is returned, and the index `j` the scanner is left at. -/
inductive Outcome where
  | retry (j : Nat)
  | token (tok : Int) (lit : String) (failed : Bool) (j : Nat)

/-- The result of a pass over the text `r` behind `pre` is the outcome `o`. -/
def Pass.agrees (pre r : List Int) : Outcome → Pass → Prop
  | .retry j, .retry s => ∃ lh ln, s = Scanner.within pre r j lh ln
  | .token tok lit failed j, .ret res s =>
    res.tok = tok ∧ res.lit = lit ∧ res.err.isSome = failed ∧
      ∃ lh ln, s = Scanner.within pre r j lh ln
  | _, _ => False

/-- An outcome of a pass from index `i` of a text of length `len` stays within
the text; it is further on than `i` when the pass jumps back to `retry` and when
it returns, without error, a token other than EOF. -/
def Outcome.Progress (i len : Nat) : Outcome → Prop
  | .retry j => i < j ∧ j ≤ len
  | .token tok _ failed j => i ≤ j ∧ j ≤ len ∧ (failed = false → tok ≠ EOF → i < j)

/-- The caller that C23 describes, which is no function of the source: it calls
`Scan` until a call returns EOF or an error, and gives up after `n` calls. The
number of calls made, or none when a call does not return or the `n` calls do
not come to the end. -/
def Scanner.callsToEnd (T : Tokens) (L : Lib) : Nat → Scanner → Option Nat
  | 0, _ => none
  | n + 1, s =>
    match Scanner.Scan T L s with
    | .error _ => none
    | .ok (r, s') =>
      if r.err.isSome || r.tok == EOF then some 1
      else (Scanner.callsToEnd T L n s').map (· + 1)

/-- The scanner after `n` calls of `Scan`, whatever they return; none when one
of the calls does not return. -/
def Scanner.afterCalls (T : Tokens) (L : Lib) : Nat → Scanner → Option Scanner
  | 0, s => some s
  | n + 1, s =>
    match Scanner.Scan T L s with
    | .error _ => none
    | .ok (_, s') => Scanner.afterCalls T L n s'

/-- The scanners reached from a new scanner over `src` by successive calls of
`Scan`, whether they return an error or not. -/
inductive Scanner.Reached (T : Tokens) (L : Lib) (src : String) : Scanner → Prop
  | fresh : Scanner.Reached T L src (Scanner.new src)
  | scan (s s' : Scanner) (r : ScanResult) : Scanner.Reached T L src s →
      Scanner.Scan T L s = .ok (r, s') → Scanner.Reached T L src s'

/-- `Scan` on a new scanner over `a` and `Scan` on a new scanner over `b` both
return, with the same token and the same literal, with an error both or
neither, and with the same runes left unread. -/
def Scanner.ScanSame (T : Tokens) (L : Lib) (a b : String) : Prop :=
  ∃ ra sa rb sb, Scanner.Scan T L (Scanner.new a) = .ok (ra, sa) ∧
    Scanner.Scan T L (Scanner.new b) = .ok (rb, sb) ∧
    ra.tok = rb.tok ∧ ra.lit = rb.lit ∧ ra.err.isSome = rb.err.isSome ∧
    sa.src.drop sa.offset.toNat = sb.src.drop sb.offset.toNat

/-- The two-rune operators of `Scan`, each with the token it is returned as. -/
def twoRuneOperators (T : Tokens) : List (String × Int) :=
  [("!=", T.NEQ), ("==", T.EQEQ), ("??", T.NILCOALESCE), ("++", T.PLUSPLUS), ("+=", T.PLUSEQ),
   ("--", T.MINUSMINUS), ("-=", T.MINUSEQ), ("*=", T.MULEQ), ("/=", T.DIVEQ), (">=", T.GE),
   (">>", T.SHIFTRIGHT), ("<-", T.OPCHAN), ("<=", T.LE), ("<<", T.SHIFTLEFT), ("||", T.OROR),
   ("|=", T.OREQ), ("&&", T.ANDAND), ("&=", T.ANDEQ)]

/-- The runes that are a token by themselves: the first runes of the operators
`! = ? + - * / > < | & .` and the runes of the last case of `Scan`, which are
newline and `( ) : ; % { } [ ] , ^`. -/
def operatorRunes : List Int :=
  [33, 61, 63, 43, 45, 42, 47, 62, 60, 124, 38, 46,
   10, 40, 41, 58, 59, 37, 123, 125, 91, 93, 44, 94]

/-- The runes that, right after the rune `a`, go on to a longer operator: the
second rune of a two-rune operator, and the second dot of `...`. -/
def completingRunes (a : Int) : List Int :=
  if a = 33 then [61]
  else if a = 61 then [61]
  else if a = 63 then [63]
  else if a = 43 then [43, 61]
  else if a = 45 then [45, 61]
  else if a = 42 then [61]
  else if a = 47 then [61]
  else if a = 62 then [61, 62]
  else if a = 60 then [45, 61, 60]
  else if a = 124 then [124, 61]
  else if a = 38 then [38, 61]
  else if a = 46 then [46]
  else []

/-! ## Facts about the run-time model -/

@[simp] theorem Value.Kind_zero : Value.zero.Kind = .Invalid := rfl

@[simp] theorem PtrTo_kind (t : RType) : (PtrTo t).kind = .Ptr := rfl

@[simp] theorem PtrTo_elem (t : RType) : (PtrTo t).elem = some t := rfl

@[simp] theorem PtrTo_methods (t : RType) : (PtrTo t).methods = t.methods ++ t.ptrMethods := rfl

/-- A value of kind Struct has a struct type and is not a method value. -/
theorem Value.Kind_struct {v : Value} (hk : v.Kind = .Struct) :
    ∃ t, v.typ = some t ∧ v.method = none ∧ t.kind = .Struct := by
  obtain ⟨typ, st, meth, ro⟩ := v
  cases typ with
  | none => simp [Value.Kind] at hk
  | some t =>
    cases meth with
    | some m => simp [Value.Kind] at hk
    | none => exact ⟨t, rfl, rfl, by simpa [Value.Kind] using hk⟩

/-- `Elem` does not panic on a pointer or an interface. -/
theorem Value.Elem_ok (h : Heap) (v : Value) (hk : v.Kind = .Ptr ∨ v.Kind = .Interface) :
    ∃ w, v.Elem h = .ok w := by
  rcases hk with hk | hk
  · simp only [Value.Elem, hk]
    split <;> exact ⟨_, rfl⟩
  · simp only [Value.Elem, hk]
    split <;> exact ⟨_, rfl⟩

/-! ## Member lookup -/

/-- On a struct value held outside the heap and not read-only, a name that only
the pointer type has as a method resolves to that method bound to a new cell
holding a copy. -/
theorem invokeMember_copy (h : Heap) (t : RType) (d : Data) (name : String)
    (hk : t.kind = .Struct) (hf : RFields.find name t.fields 0 = none)
    (hm : name ∉ t.methods) (hp : name ∈ t.ptrMethods) :
    invokeMember h ⟨some t, .imm d, none, false⟩ name =
      .ok (⟨some (PtrTo t), .imm (.ptr ⟨h.length, []⟩), some name, false⟩, none, h ++ [d]) := by
  simp [invokeMember, Value.Kind, hk, Value.FieldByName, hf, Value.IsValid, Value.zero,
    Value.MethodByName, hm, Value.CanAddr, Value.Type, New, Value.Elem, Value.load, hp,
    Value.Set, assignable, Heap.write, Data.update, bind, Except.bind, pure, Except.pure]

/-- On a read-only struct value held outside the heap, a name that is neither a
field nor a method of the value-receiver method set makes `invokeMember` panic:
the copy is refused by `Set`. -/
theorem invokeMember_copy_panics (h : Heap) (t : RType) (d : Data) (name : String)
    (hk : t.kind = .Struct) (hf : RFields.find name t.fields 0 = none)
    (hm : name ∉ t.methods) :
    invokeMember h ⟨some t, .imm d, none, true⟩ name =
      .error "reflect: reflect.Value.Set using value obtained using unexported field" := by
  simp [invokeMember, Value.Kind, hk, Value.FieldByName, hf, Value.IsValid, Value.zero,
    Value.MethodByName, hm, Value.CanAddr, Value.Type, New, Value.Elem, Value.load,
    Value.Set, bind, Except.bind, pure, Except.pure]

/-- On an addressable struct value, such a name resolves to the method bound to
the address of the value, and nothing is allocated. -/
theorem invokeMember_addr (h : Heap) (t : RType) (a : Addr) (ro : Bool) (name : String)
    (hk : t.kind = .Struct) (hf : RFields.find name t.fields 0 = none)
    (hm : name ∉ t.methods) (hp : name ∈ t.ptrMethods) :
    invokeMember h ⟨some t, .loc a, none, ro⟩ name =
      .ok (⟨some (PtrTo t), .imm (.ptr a), some name, ro⟩, none, h) := by
  simp [invokeMember, Value.Kind, hk, Value.FieldByName, hf, Value.IsValid, Value.zero,
    Value.MethodByName, hm, Value.CanAddr, Value.Type, hp, Value.Addr,
    bind, Except.bind, pure, Except.pure]

/-- C1 as stated fails for a struct value obtained through an unexported
field. `invokeMember` returns the field `u` of the `Outer` value, which is a
`User` that is not addressable; `SayHello` is no field of it and no method of
its value-receiver method set, and it is a method declared on `*User`; yet
`invokeMember` on that value and `SayHello` returns nothing: `Set` panics on
the read-only value. -/
theorem invokeMember_fallback_panics_on_read_only :
    invokeMember [] outerValue "u" = .ok (hiddenUser, none, []) ∧
    hiddenUser.typ = some userType ∧ hiddenUser.Kind = .Struct ∧ hiddenUser.CanAddr = false ∧
    RFields.find "SayHello" userType.fields 0 = none ∧ "SayHello" ∉ userType.methods ∧
    "SayHello" ∈ userType.ptrMethods ∧
    invokeMember [] hiddenUser "SayHello" =
      .error "reflect: reflect.Value.Set using value obtained using unexported field" := by
  refine ⟨rfl, rfl, rfl, rfl, rfl, by decide, by decide, rfl⟩

/-- C1 (amended). Pointer-receiver fallback: for a struct value `v` that is not
addressable and was not obtained through an unexported field, and a name that
is no field of `v` and no method of its value-receiver method set but is a
method declared on the pointer type, `invokeMember` returns a nil error and a
valid method value: the method of that name of the pointer type `*T`, of kind
Func, bound to a new cell that holds a copy of `v`. -/
theorem invokeMember_pointer_receiver_fallback (h : Heap) (v : Value) (name : String)
    (t : RType) (ht : v.typ = some t) (hk : v.Kind = .Struct) (ha : v.CanAddr = false)
    (hro : v.ro = false)
    (hf : RFields.find name t.fields 0 = none) (hm : name ∉ t.methods)
    (hp : name ∈ t.ptrMethods) :
    ∃ m, invokeMember h v name = .ok (m, none, h ++ [v.load h]) ∧ m.IsValid = true ∧
      m.Kind = .Func ∧ m.method = some name ∧ m.typ = some (PtrTo t) ∧
      m.store = .imm (.ptr ⟨h.length, []⟩) ∧ name ∈ (PtrTo t).methods ∧
      m.Type = .ok (methodFuncType (PtrTo t) name) := by
  obtain ⟨typ, st, meth, ro⟩ := v
  simp only at ht hro
  subst ht hro
  cases meth with
  | some m => simp [Value.Kind] at hk
  | none =>
    have hkt : t.kind = .Struct := by simpa [Value.Kind] using hk
    cases st with
    | loc a => simp [Value.CanAddr] at ha
    | imm d =>
      exact ⟨_, invokeMember_copy h t d name hkt hf hm hp, rfl, rfl, rfl, rfl, rfl,
        by simp [hp], rfl⟩

/-- C1 at `user.SayHello` for the `User` value of `test/main.go`. -/
theorem invokeMember_pointer_receiver_fallback_user :
    userValue.typ = some userType ∧ userValue.Kind = .Struct ∧ userValue.CanAddr = false ∧
    userValue.ro = false ∧
    RFields.find "SayHello" userType.fields 0 = none ∧ "SayHello" ∉ userType.methods ∧
    "SayHello" ∈ userType.ptrMethods ∧
    ∃ m, invokeMember [] userValue "SayHello" = .ok (m, none, [] ++ [userValue.load []]) ∧
      m.IsValid = true ∧ m.Kind = .Func ∧ m.method = some "SayHello" ∧
      m.typ = some (PtrTo userType) ∧ m.store = .imm (.ptr ⟨([] : Heap).length, []⟩) ∧
      "SayHello" ∈ (PtrTo userType).methods ∧
      m.Type = .ok (methodFuncType (PtrTo userType) "SayHello") :=
  ⟨rfl, rfl, rfl, rfl, rfl, by decide, by decide,
    invokeMember_pointer_receiver_fallback [] userValue "SayHello" userType rfl rfl rfl rfl rfl
      (by decide) (by decide)⟩

/-- C2 as stated fails for a struct value obtained through an unexported
field. The `User` in the field `u` of the `Outer` value is a valid value; `Age`
is no field of it, no method of its method set and no method of `*User`; yet
`invokeMember` returns no error: it panics in `Set`. -/
theorem invokeMember_no_error_on_read_only :
    invokeMember [] outerValue "u" = .ok (hiddenUser, none, []) ∧
    hiddenUser.IsValid = true ∧ hiddenUser.typ = some userType ∧
    RFields.find "Age" userType.fields 0 = none ∧ "Age" ∉ userType.methods ∧
    "Age" ∉ userType.methods ++ userType.ptrMethods ∧
    invokeMember [] hiddenUser "Age" =
      .error "reflect: reflect.Value.Set using value obtained using unexported field" ∧
    ¬ ∃ val e h', invokeMember [] hiddenUser "Age" = .ok (val, some e, h') := by
  refine ⟨rfl, rfl, rfl, rfl, by decide, by decide, rfl, ?_⟩
  rintro ⟨val, e, h', hres⟩
  have hp : invokeMember [] hiddenUser "Age" =
      .error "reflect: reflect.Value.Set using value obtained using unexported field" := rfl
  rw [hp] at hres
  cases hres

set_option maxHeartbeats 2000000 in
/-- C2 (amended). Member lookup failure: for a valid value `v` of type `t`,
`invokeMember` returns an error exactly when `v` is not a struct value that is
not addressable and was obtained through an unexported field, and the name is
no field of `v` (for a struct), no method of the method set of `v` itself, and
no method of the pointer type that the copy or address fallback reaches (the
fallback runs for a struct and for an addressable value); the value returned
with an error is the zero Value and the message is
`no member named 'name' for T` with `T` the text of `v.Type()`, which for a
method value is the text of its func type. -/
theorem invokeMember_error_iff (h : Heap) (v : Value) (name : String) (t : RType)
    (ht : v.typ = some t) :
    ((∃ val e h', invokeMember h v name = .ok (val, some e, h')) ↔
      (¬ (v.Kind = .Struct ∧ v.CanAddr = false ∧ v.ro = true) ∧
       ¬ (v.Kind = .Struct ∧ RFields.find name t.fields 0 ≠ none) ∧
       ¬ (v.method = none ∧ name ∈ t.methods) ∧
       ¬ ((v.Kind = .Struct ∨ v.CanAddr = true) ∧ name ∈ t.methods ++ t.ptrMethods))) ∧
    (∀ val e h', invokeMember h v name = .ok (val, some e, h') →
      val = Value.zero ∧ ∃ ty, v.Type = .ok ty ∧
        e = .text ("no member named \x27" ++ name ++ "\x27 for " ++ ty.str)) := by
  obtain ⟨typ, st, meth, ro⟩ := v
  simp only at ht
  subst ht
  have hne : Kind.Func ≠ Kind.Struct := by decide
  cases meth with
  | some m =>
    simp [invokeMember, Value.Kind, Value.FieldByName, Value.IsValid, Value.zero,
      Value.MethodByName, Value.CanAddr, Value.Type, bind, Except.bind, pure, Except.pure]
  | none =>
    by_cases hm : name ∈ t.methods
    · by_cases hk : t.kind = .Struct
      · cases hf : RFields.find name t.fields 0 <;> cases st <;>
        simp [invokeMember, Value.Kind, hk, Value.FieldByName, hf, Value.IsValid, Value.zero,
          Value.MethodByName, hm, Value.CanAddr, Value.Type, Value.load,
          bind, Except.bind, pure, Except.pure]
      · by_cases hi : t.kind = .Interface ∧ Value.load h ⟨some t, st, none, ro⟩ = .nil
        · simp [invokeMember, Value.Kind, hk, Value.IsValid, Value.zero,
            Value.MethodByName, hm, hi, Value.CanAddr, Value.Type,
            bind, Except.bind, pure, Except.pure]
        · simp [invokeMember, Value.Kind, hk, Value.IsValid, Value.zero,
            Value.MethodByName, hm, hi, Value.CanAddr, Value.Type,
            bind, Except.bind, pure, Except.pure]
    · by_cases hp : name ∈ t.ptrMethods
      · by_cases hk : t.kind = .Struct
        · cases hf : RFields.find name t.fields 0 <;> cases st <;> cases ro <;>
          simp [invokeMember, Value.Kind, hk, Value.FieldByName, hf, Value.IsValid, Value.zero,
            Value.MethodByName, hm, Value.CanAddr, Value.Type, New, Value.Elem, Value.load, hp,
            Value.Set, assignable, Heap.write, Data.update, Value.Addr,
            bind, Except.bind, pure, Except.pure]
        · cases st <;>
          simp [invokeMember, Value.Kind, hk, Value.IsValid, Value.zero,
            Value.MethodByName, hm, Value.CanAddr, Value.Type, hp, Value.Addr,
            bind, Except.bind, pure, Except.pure]
      · by_cases hk : t.kind = .Struct
        · cases hf : RFields.find name t.fields 0 <;> cases st <;> cases ro <;>
          simp [invokeMember, Value.Kind, hk, Value.FieldByName, hf, Value.IsValid, Value.zero,
            Value.MethodByName, hm, Value.CanAddr, Value.Type, New, Value.Elem, Value.load, hp,
            Value.Set, assignable, Heap.write, Data.update, Value.Addr,
            bind, Except.bind, pure, Except.pure]
        · cases st <;>
          simp [invokeMember, Value.Kind, hk, Value.IsValid, Value.zero,
            Value.MethodByName, hm, Value.CanAddr, Value.Type, hp, Value.Addr,
            bind, Except.bind, pure, Except.pure]

/-- C2 at the `User` value and the name `Age`, which it does not have, and at
the method value `user.SayHello`, whose type prints as `func()`. -/
theorem invokeMember_error_iff_user :
    userValue.typ = some userType ∧
    (∃ val e h', invokeMember [] userValue "Age" = .ok (val, some e, h')) ∧
    (∀ val e h', invokeMember [] userValue "Age" = .ok (val, some e, h') →
      val = Value.zero ∧ ∃ ty, userValue.Type = .ok ty ∧
        e = .text ("no member named \x27" ++ "Age" ++ "\x27 for " ++ ty.str)) ∧
    invokeMember [] userValue "Age" =
      .ok (Value.zero, some (.text "no member named \x27Age\x27 for main.User"),
        [.struct (.cons (.str "Michel") .nil)]) ∧
    invokeMember [.struct (.cons (.str "Michel") .nil)]
        ⟨some (PtrTo userType), .imm (.ptr ⟨0, []⟩), some "SayHello", false⟩ "Foo" =
      .ok (Value.zero, some (.text "no member named \x27Foo\x27 for func()"),
        [.struct (.cons (.str "Michel") .nil)]) :=
  ⟨rfl,
    (invokeMember_error_iff [] userValue "Age" userType rfl).1.mpr
      ⟨by decide, by decide, by decide, by decide⟩,
    (invokeMember_error_iff [] userValue "Age" userType rfl).2, rfl, rfl⟩

/-- On a struct value, a name that is a field resolves to the field, which is
no method value. -/
theorem invokeMember_field (h : Heap) (t : RType) (st : Store) (ro : Bool) (name : String)
    (hk : t.kind = .Struct) (i : Nat) (ft : RType)
    (hf : RFields.find name t.fields 0 = some (i, ft)) :
    ∃ f, invokeMember h ⟨some t, st, none, ro⟩ name = .ok (f, none, h) ∧ f.method = none := by
  cases st <;>
  simp [invokeMember, Value.Kind, hk, Value.FieldByName, hf, Value.IsValid,
    bind, Except.bind, pure, Except.pure]

/-- C3 as stated fails for a struct value obtained through an unexported
field. The `User` in the field `u` of the `Outer` value is a struct value with
the pointer-receiver method `SayHello`, and it is not addressable; yet
`invokeMember` returns no method value bound to a copy of it, and nothing at
all: it panics in `Set`. -/
theorem invokeMember_no_copy_of_read_only :
    invokeMember [] outerValue "u" = .ok (hiddenUser, none, []) ∧
    hiddenUser.typ = some userType ∧ hiddenUser.Kind = .Struct ∧
    "SayHello" ∈ userType.ptrMethods ∧ "SayHello" ∉ userType.methods ∧
    hiddenUser.CanAddr = false ∧
    ¬ ∃ m e h', invokeMember [] hiddenUser "SayHello" = .ok (m, e, h') := by
  refine ⟨rfl, rfl, rfl, by decide, by decide, rfl, ?_⟩
  rintro ⟨m, e, h', hres⟩
  have hp : invokeMember [] hiddenUser "SayHello" =
      .error "reflect: reflect.Value.Set using value obtained using unexported field" := rfl
  rw [hp] at hres
  cases hres

/-- C3 (amended). Copy-versus-original asymmetry: for a struct value `v` of type
`t` and a name that is a pointer-receiver method of `t` (declared on `*t`, not
in the value-receiver method set), every method value that `invokeMember`
returns comes with a nil error and is that method bound to a pointer `a`. When
`v` is not addressable, `a` is a newly allocated cell whose contents equal `v`,
and every cell that existed before is unchanged; when `v` is addressable, `a`
is the address of `v` itself and the heap is unchanged. A method value is
returned whenever no field of `v` has the name and `v` is addressable or was
not obtained through an unexported field. -/
theorem invokeMember_receiver_copy_or_original (h : Heap) (v : Value) (name : String)
    (t : RType) (ht : v.typ = some t) (hk : v.Kind = .Struct)
    (hp : name ∈ t.ptrMethods) (hm : name ∉ t.methods) :
    (∀ m e h', invokeMember h v name = .ok (m, e, h') → m.method ≠ none →
      ∃ a, e = none ∧ m.method = some name ∧ m.typ = some (PtrTo t) ∧
        m.store = .imm (.ptr a) ∧
        (v.CanAddr = false →
          h.get? a.base = none ∧ a.path = [] ∧ Heap.read h' a = v.load h ∧
          ∀ b : Addr, b.base < h.length → Heap.read h' b = Heap.read h b) ∧
        (v.CanAddr = true → v.store = .loc a ∧ h' = h)) ∧
    (RFields.find name t.fields 0 = none → (v.CanAddr = true ∨ v.ro = false) →
      ∃ m h', invokeMember h v name = .ok (m, none, h') ∧ m.method = some name) := by
  obtain ⟨typ, st, meth, ro⟩ := v
  simp only at ht
  subst ht
  cases meth with
  | some m => simp [Value.Kind] at hk
  | none =>
    have hkt : t.kind = .Struct := by simpa [Value.Kind] using hk
    constructor
    · intro m e h' hres hmeth
      cases hf : RFields.find name t.fields 0 with
      | some p =>
        obtain ⟨f, hfres, hfm⟩ := invokeMember_field h t st ro name hkt p.1 p.2 hf
        rw [hfres] at hres
        simp only [Except.ok.injEq, Prod.mk.injEq] at hres
        obtain ⟨rfl, -, -⟩ := hres
        exact absurd hfm hmeth
      | none =>
        cases st with
        | loc a =>
          rw [invokeMember_addr h t a ro name hkt hf hm hp] at hres
          simp only [Except.ok.injEq, Prod.mk.injEq] at hres
          obtain ⟨rfl, rfl, rfl⟩ := hres
          refine ⟨a, rfl, rfl, rfl, rfl, ?_, ?_⟩
          · intro hc; simp [Value.CanAddr] at hc
          · intro _; exact ⟨rfl, rfl⟩
        | imm d =>
          cases ro with
          | true =>
            rw [invokeMember_copy_panics h t d name hkt hf hm] at hres
            cases hres
          | false =>
            rw [invokeMember_copy h t d name hkt hf hm hp] at hres
            simp only [Except.ok.injEq, Prod.mk.injEq] at hres
            obtain ⟨rfl, rfl, rfl⟩ := hres
            refine ⟨⟨h.length, []⟩, rfl, rfl, rfl, rfl, ?_, ?_⟩
            · intro _
              refine ⟨by simp, rfl, by simp [Heap.read, Data.sub, Value.load], ?_⟩
              intro b hb
              simp [Heap.read, List.getElem?_append_left hb]
            · intro hc; simp [Value.CanAddr] at hc
    · intro hf hro
      cases st with
      | loc a => exact ⟨_, _, invokeMember_addr h t a ro name hkt hf hm hp, rfl⟩
      | imm d =>
        have hfalse : ro = false := by
          rcases hro with hc | hr
          · simp [Value.CanAddr] at hc
          · exact hr
        subst hfalse
        exact ⟨_, _, invokeMember_copy h t d name hkt hf hm hp, rfl⟩

/-- C3 at `SayHello` for the `User` value of `test/main.go`, which is not
addressable, and for the addressable `User` stored in `userHeap`. -/
theorem invokeMember_receiver_copy_or_original_user :
    (userValue.typ = some userType ∧ userValue.Kind = .Struct ∧
      "SayHello" ∈ userType.ptrMethods ∧ "SayHello" ∉ userType.methods ∧
      userValue.CanAddr = false ∧ userValue.ro = false ∧
      ∃ m h', invokeMember [] userValue "SayHello" = .ok (m, none, h') ∧
        m.method = some "SayHello") ∧
    (userVar.typ = some userType ∧ userVar.Kind = .Struct ∧
      "SayHello" ∈ userType.ptrMethods ∧ "SayHello" ∉ userType.methods ∧
      userVar.CanAddr = true ∧
      ∃ m h', invokeMember userHeap userVar "SayHello" = .ok (m, none, h') ∧
        m.method = some "SayHello") :=
  ⟨⟨rfl, rfl, by decide, by decide, rfl, rfl,
    (invokeMember_receiver_copy_or_original [] userValue "SayHello" userType rfl rfl
      (by decide) (by decide)).2 rfl (Or.inr rfl)⟩,
   ⟨rfl, rfl, by decide, by decide, rfl,
    (invokeMember_receiver_copy_or_original userHeap userVar "SayHello" userType rfl rfl
      (by decide) (by decide)).2 rfl (Or.inl rfl)⟩⟩

/-- The two calls evaluated: on the `User` value the receiver is the new cell 0
of a heap that was empty, holding the same data; on the addressable `User` of
`userHeap` the receiver is its own cell and the heap is as before. For a name
that is neither field nor method the error names the member and the type. -/
theorem invokeMember_user_examples :
    invokeMember [] userValue "SayHello" =
      .ok (⟨some (PtrTo userType), .imm (.ptr ⟨0, []⟩), some "SayHello", false⟩, none,
        [.struct (.cons (.str "Michel") .nil)]) ∧
    invokeMember userHeap userVar "SayHello" =
      .ok (⟨some (PtrTo userType), .imm (.ptr ⟨0, []⟩), some "SayHello", false⟩, none,
        userHeap) ∧
    invokeMember [] userValue "Name" =
      .ok (⟨some (basicType .String), .imm (.str "Michel"), none, false⟩, none, []) ∧
    invokeMember userHeap userVar "Age" =
      .ok (Value.zero, some (.text "no member named \x27Age\x27 for main.User"), userHeap) :=
  ⟨rfl, rfl, rfl, rfl⟩

/-! ## Conversions -/

/-- C8. `toString` is not total: it panics on the zero Value and on every nil
pointer (`v.Interface()` is called on the zero Value that `Elem` returns); a nil
interface value renders as `<nil>`, unless it was obtained through an
unexported field: then `v.Interface()` panics as well. -/
theorem toString_panics_on_invalid_and_nil_pointer (L : Lib) (h : Heap) :
    toString L h Value.zero =
      .error "reflect: call of reflect.Value.Interface on zero Value" ∧
    (∀ v : Value, v.Kind = .Ptr → v.load h = .nil →
      toString L h v = .error "reflect: call of reflect.Value.Interface on zero Value") ∧
    (∀ v : Value, v.Kind = .Interface → v.load h = .nil →
      toString L h v = if v.ro then
        .error "reflect.Value.Interface: cannot return value obtained from unexported field or method"
      else .ok "<nil>") := by
  refine ⟨rfl, ?_, ?_⟩
  · intro v hk hn
    simp [toString, hk, Value.Elem, hn, bind, Except.bind, pure, Except.pure]
    rfl
  · intro v hk hn
    obtain ⟨typ, st, meth, ro⟩ := v
    cases typ with
    | none => simp [Value.Kind] at hk
    | some t =>
      cases meth with
      | some m => simp [Value.Kind] at hk
      | none =>
        have hkt : t.kind = .Interface := by simpa [Value.Kind] using hk
        cases ro <;>
        simp [toString, hk, Value.IsNil, hn, Value.Interface, hkt, fmtSprint,
          bind, Except.bind, pure, Except.pure]


/-- `tryToInt` applies its switch to the value after one dereference. -/
theorem tryToInt_eq_switch (h : Heap) (v : Value) :
    tryToInt h v = tryToIntSwitch h (derefOnce h v) := by
  unfold tryToInt derefOnce
  by_cases hk : v.Kind = .Ptr ∨ v.Kind = .Interface
  · obtain ⟨w, hw⟩ := Value.Elem_ok h v hk
    simp [hk, hw, bind, Except.bind]
  · simp [hk, bind, Except.bind, pure, Except.pure]

/-- The switch of `tryToInt` returns, with an error exactly on the kinds and
strings that have no integer value. -/
theorem tryToIntSwitch_spec (h : Heap) (w : Value) :
    ∃ i err, tryToIntSwitch h w = .ok (i, err) ∧
      (err ≠ none ↔
        ¬ (w.Kind = .Float32 ∨ w.Kind = .Float64 ∨ w.Kind = .Int ∨ w.Kind = .Int8 ∨
           w.Kind = .Int16 ∨ w.Kind = .Int32 ∨ w.Kind = .Int64 ∨ w.Kind = .Bool ∨
           (w.Kind = .String ∧
             (if HasPrefix (w.String h) "0x" then ParseInt (w.String h) 16
              else ParseInt (w.String h) 10).2 = none))) ∧
      (err ≠ none → i = 0 ∧ err = some errToInt) ∧
      (w.Kind = .Bool → ∀ b, w.load h = .bool b → i = if b then 1 else 0) := by
  rcases hk : w.Kind
  case String =>
    by_cases hp : (if HasPrefix (w.String h) "0x" then ParseInt (w.String h) 16
              else ParseInt (w.String h) 10).2 = none
    · refine ⟨wrapInt64 (if HasPrefix (w.String h) "0x" then ParseInt (w.String h) 16
              else ParseInt (w.String h) 10).1, none, ?_, ?_⟩
      · simp only [tryToIntSwitch, hk, hp]; rfl
      · simp [hp]
    · refine ⟨0, some errToInt, ?_, ?_⟩
      · simp only [tryToIntSwitch, hk, hp]; rfl
      · simp [hp]
  case Bool =>
    obtain ⟨b, hb, hb2⟩ : ∃ b, w.Bool h = .ok b ∧ ∀ c, w.load h = .bool c → b = c := by
      simp only [Value.Bool, hk]
      split
      · rename_i c hc; exact ⟨c, rfl, fun c2 h2 => by rw [hc] at h2; injection h2⟩
      · rename_i hc; exact ⟨false, rfl, fun c2 h2 => absurd h2 (hc c2)⟩
    refine ⟨if b then 1 else 0, none, ?_, by simp, by simp, ?_⟩
    · cases b <;> simp [tryToIntSwitch, hk, hb, bind, Except.bind, pure, Except.pure]
    · intro _ c hc; rw [hb2 c hc]
  case Int | Int8 | Int16 | Int32 | Int64 =>
    all_goals
      obtain ⟨i, hi⟩ : ∃ i, w.Int h = .ok i := by
        simp only [Value.Int, hk]
        split <;> exact ⟨_, rfl⟩
      refine ⟨wrapInt64 i, none, ?_, by simp, by simp, by simp⟩
      simp [tryToIntSwitch, hk, hi, bind, Except.bind, pure, Except.pure]
  case Float32 | Float64 =>
    all_goals
      obtain ⟨f, hf⟩ : ∃ f, w.Float h = .ok f := by
        simp only [Value.Float, hk]
        split <;> exact ⟨_, rfl⟩
      refine ⟨floatToInt f, none, ?_, by simp, by simp, by simp⟩
      simp [tryToIntSwitch, hk, hf, bind, Except.bind, pure, Except.pure]
  all_goals
    refine ⟨0, some errToInt, ?_, by simp, by simp, by simp⟩
    simp [tryToIntSwitch, hk, pure, Except.pure]

/-- C4. Typed failure of integer conversion: `tryToInt` never panics. With `w`
the value after at most one pointer or interface dereference, it returns a
non-nil error exactly when `w` is no float32/float64, no signed integer, no
bool, and no string that the integer parse accepts; with an error the integer
is 0 (and the error is the fixed conversion error); a bool gives 1 for true and
0 for false. In particular a nil pointer and the zero Value fail. -/
theorem tryToInt_typed_failure (h : Heap) (v : Value) :
    (∃ i err, tryToInt h v = .ok (i, err) ∧
      (err ≠ none ↔
        ¬ ((derefOnce h v).Kind = .Float32 ∨ (derefOnce h v).Kind = .Float64 ∨
           (derefOnce h v).Kind = .Int ∨ (derefOnce h v).Kind = .Int8 ∨
           (derefOnce h v).Kind = .Int16 ∨ (derefOnce h v).Kind = .Int32 ∨
           (derefOnce h v).Kind = .Int64 ∨ (derefOnce h v).Kind = .Bool ∨
           ((derefOnce h v).Kind = .String ∧
             (if HasPrefix ((derefOnce h v).String h) "0x"
              then ParseInt ((derefOnce h v).String h) 16
              else ParseInt ((derefOnce h v).String h) 10).2 = none))) ∧
      (err ≠ none → i = 0 ∧ err = some errToInt) ∧
      ((derefOnce h v).Kind = .Bool →
        ∀ b, (derefOnce h v).load h = .bool b → i = if b then 1 else 0)) ∧
    tryToInt h Value.zero = .ok (0, some errToInt) ∧
    (v.Kind = .Ptr → v.load h = .nil → tryToInt h v = .ok (0, some errToInt)) := by
  refine ⟨?_, rfl, ?_⟩
  · rw [tryToInt_eq_switch]
    exact tryToIntSwitch_spec h (derefOnce h v)
  · intro hk hn
    simp [tryToInt, hk, Value.Elem, hn, bind, Except.bind]
    rfl

/-- C10. Truthiness table, for `toBool` over the conversion `tryToBool` as the
specification describes it: `toBool` returns for every value; nil is false, a
bool is itself, a numeric zero is false and every other number true, the empty
string is false and every other string true; and two calls on the same value
agree. -/
theorem toBool_truthiness_table (h : Heap) (v : Value) :
    (∃ b, toBool h v = .ok b) ∧
    toBool h Value.zero = .ok false ∧
    (v.load h = .nil → toBool h v = .ok false) ∧
    (∀ b, v.IsValid = true → v.load h = .bool b → toBool h v = .ok b) ∧
    (∀ i, v.IsValid = true → v.load h = .int i → toBool h v = .ok (decide (i ≠ 0))) ∧
    (∀ n, v.IsValid = true → v.load h = .uint n → toBool h v = .ok (decide (n ≠ 0))) ∧
    (∀ f, v.IsValid = true → v.load h = .float f →
      toBool h v = .ok (decide (f % 2 ^ 63 ≠ 0))) ∧
    (∀ s, v.IsValid = true → v.load h = .str s → toBool h v = .ok (decide (s ≠ ""))) ∧
    toBool h v = toBool h v := by
  obtain ⟨typ, st, meth, ro⟩ := v
  cases typ with
  | none =>
    simp [toBool, tryToBool, Value.IsValid, Value.zero, bind, Except.bind, pure, Except.pure]
  | some t =>
    refine ⟨⟨_, rfl⟩, rfl, ?_, ?_, ?_, ?_, ?_, ?_, rfl⟩ <;>
    · intros
      simp_all [toBool, tryToBool, Data.truthy, bind, Except.bind, pure, Except.pure]

/-! ## Decimal text of integers -/

theorem fmtDigits_eq : ∀ (u fuel : Nat) (acc : List Char), u < fuel →
    fmtDigits fuel u acc = decimal u ++ acc := by
  intro u
  induction u using Nat.strong_induction_on with
  | _ u ih =>
    intro fuel acc hf
    obtain ⟨f, rfl⟩ : ∃ f, fuel = f + 1 := ⟨fuel - 1, by omega⟩
    by_cases h10 : u ≥ 10
    · have hlt : u / 10 < u := Nat.div_lt_self (by omega) (by omega)
      have e1 : fmtDigits (f + 1) u acc
          = fmtDigits f (u / 10) (Char.ofNat (48 + u % 10) :: acc) := by
        simp [fmtDigits, h10]
      have e2 : decimal u = fmtDigits u (u / 10) [Char.ofNat (48 + u % 10)] := by
        simp [decimal, fmtDigits, h10]
      rw [e1, e2, ih (u / 10) hlt f _ (by omega), ih (u / 10) hlt u _ hlt]
      simp
    · simp [fmtDigits, h10, decimal]

theorem decimal_lt {u : Nat} (h : u < 10) : decimal u = [Char.ofNat (48 + u)] := by
  simp [decimal, fmtDigits]; omega

theorem decimal_ge {u : Nat} (h : 10 ≤ u) :
    decimal u = decimal (u / 10) ++ [Char.ofNat (48 + u % 10)] := by
  have hlt : u / 10 < u := Nat.div_lt_self (by omega) (by omega)
  have e2 : decimal u = fmtDigits u (u / 10) [Char.ofNat (48 + u % 10)] := by
    simp [decimal, fmtDigits, h]
  rw [e2, fmtDigits_eq _ _ _ hlt]

theorem digitVal_digit {k : Nat} (h : k < 10) : digitVal (Char.ofNat (48 + k)) = some k := by
  interval_cases k <;> rfl

theorem decimal_digits (u : Nat) : ∀ c ∈ decimal u, ∃ k, k < 10 ∧ c = Char.ofNat (48 + k) := by
  induction u using Nat.strong_induction_on with
  | _ u ih =>
    by_cases h10 : 10 ≤ u
    · rw [decimal_ge h10]
      intro c hc
      rcases List.mem_append.mp hc with hc | hc
      · exact ih (u / 10) (Nat.div_lt_self (by omega) (by omega)) c hc
      · exact ⟨u % 10, Nat.mod_lt _ (by omega), by simpa using hc⟩
    · rw [decimal_lt (by omega)]
      intro c hc
      exact ⟨u, by omega, by simpa using hc⟩

theorem decimal_ne_nil (u : Nat) : decimal u ≠ [] := by
  by_cases h10 : 10 ≤ u
  · rw [decimal_ge h10]; simp
  · rw [decimal_lt (by omega)]; simp

theorem parseUintLoop_append (base bitSize : Nat) :
    ∀ (xs ys : List Char) (n m : Nat), parseUintLoop base bitSize xs n = (m, none) →
      parseUintLoop base bitSize (xs ++ ys) n = parseUintLoop base bitSize ys m := by
  intro xs
  induction xs with
  | nil => intro ys n m h; simp [parseUintLoop] at h; simp [h]
  | cons c cs ih =>
    intro ys n m h
    simp only [parseUintLoop, List.cons_append] at h ⊢
    cases hd : digitVal c with
    | none => simp [hd] at h
    | some d =>
      simp only [hd] at h ⊢
      split_ifs at h ⊢ with h1 h2 h3
      · simp at h
      · simp at h
      · simp at h
      · exact ih ys _ m h

theorem parseUintLoop_digit (n k : Nat) (cs : List Char) (hk : k < 10)
    (hn : n * 10 + k < 2 ^ 64) :
    parseUintLoop 10 64 (Char.ofNat (48 + k) :: cs) n = parseUintLoop 10 64 cs (n * 10 + k) := by
  have e0 : n * 10 % 2 ^ 64 = n * 10 := Nat.mod_eq_of_lt (by omega)
  have e1 : (n * 10 + k) % 2 ^ 64 = n * 10 + k := Nat.mod_eq_of_lt hn
  have c1 : ¬ (k ≥ 10) := by omega
  have c2 : ¬ (n ≥ maxUint64 / 10 + 1) := by
    simp only [maxUint64]; omega
  have c3 : ¬ (n * 10 + k < n * 10 ∨ n * 10 + k > 2 ^ 64 - 1) := by omega
  simp only [parseUintLoop, digitVal_digit hk, e0, e1, if_neg c1, if_neg c2, if_neg c3]

theorem parseUintLoop_decimal (u : Nat) (hu : u < 2 ^ 64) :
    parseUintLoop 10 64 (decimal u) 0 = (u, none) := by
  induction u using Nat.strong_induction_on with
  | _ u ih =>
    by_cases h10 : 10 ≤ u
    · rw [decimal_ge h10,
        parseUintLoop_append 10 64 _ _ 0 (u / 10)
          (ih (u / 10) (Nat.div_lt_self (by omega) (by omega)) (by omega)),
        parseUintLoop_digit _ _ _ (Nat.mod_lt u (by omega)) (by omega)]
      simp only [parseUintLoop]
      congr 1
      omega
    · rw [decimal_lt (by omega), parseUintLoop_digit _ _ _ (by omega) (by omega)]
      simp [parseUintLoop]

theorem digit_ne_sign {k : Nat} (h : k < 10) :
    Char.ofNat (48 + k) ≠ '-' ∧ Char.ofNat (48 + k) ≠ '+' ∧ Char.ofNat (48 + k) ≠ 'x' ∧
    Char.ofNat (48 + k) ≠ '.' ∧ Char.ofNat (48 + k) ≠ 'e' := by
  interval_cases k <;> decide

theorem wrapInt64_of_range (i : Int) (h1 : -(2 ^ 63) ≤ i) (h2 : i < 2 ^ 63) : wrapInt64 i = i := by
  simp only [wrapInt64]; omega

theorem ParseInt_decimal (u : Nat) (hu : u < 2 ^ 63) :
    ParseInt (String.mk (decimal u)) 10 = ((u : Int), none) := by
  have hp := parseUintLoop_decimal u (by omega)
  obtain ⟨c, cs, hcs⟩ : ∃ c cs, decimal u = c :: cs := by
    cases hd : decimal u with
    | nil => exact absurd hd (decimal_ne_nil u)
    | cons c cs => exact ⟨c, cs, rfl⟩
  obtain ⟨k, hk, hc⟩ := decimal_digits u c (by rw [hcs]; simp)
  have hs := digit_ne_sign hk
  rw [← hc] at hs
  rw [hcs] at hp
  have hw := wrapInt64_of_range (u : Int) (by omega) (by omega)
  have hu2 : ¬ (2 ^ 63 ≤ u) := by omega
  simp [ParseInt, hcs, hs.1, hs.2.1, ParseUint, hp, hw, hu2]
  omega

theorem ParseInt_neg_decimal (u : Nat) (hu : u ≤ 2 ^ 63) :
    ParseInt (String.mk ('-' :: decimal u)) 10 = (wrapInt64 (-wrapInt64 (u : Int)), none) := by
  have hp := parseUintLoop_decimal u (by omega)
  have hu2 : ¬ (2 ^ 63 < u) := by omega
  simp [ParseInt, ParseUint, decimal_ne_nil, hp, hu2]
  omega

/-- `strconv.ParseInt` reads the decimal text of an `int64` back. -/
theorem ParseInt_formatInt (n : Int) (h1 : -(2 ^ 63) ≤ n) (h2 : n < 2 ^ 63) :
    ParseInt (formatInt n) 10 = (n, none) := by
  by_cases hn : n < 0
  · have e : formatInt n = String.mk ('-' :: decimal (-n).toNat) := by
      simp [formatInt, hn, decimal]
    have e1 : (((-n).toNat : Nat) : Int) = -n := Int.toNat_of_nonneg (by omega)
    rw [e, ParseInt_neg_decimal _ (by omega), e1]
    have e2 : wrapInt64 (-wrapInt64 (-n)) = n := by
      unfold wrapInt64
      omega
    rw [e2]
  · have e : formatInt n = String.mk (decimal n.toNat) := by
      simp [formatInt, hn, formatUint, decimal]
    rw [e, ParseInt_decimal _ (by omega)]
    congr 1
    omega


theorem digitChar_eq {k : Nat} (h : k < 10) : Nat.digitChar k = Char.ofNat (48 + k) := by
  interval_cases k <;> rfl

theorem toDigitsCore_eq : ∀ (u fuel : Nat) (acc : List Char), u < fuel →
    Nat.toDigitsCore 10 fuel u acc = decimal u ++ acc := by
  intro u
  induction u using Nat.strong_induction_on with
  | _ u ih =>
    intro fuel acc hf
    obtain ⟨f, rfl⟩ : ∃ f, fuel = f + 1 := ⟨fuel - 1, by omega⟩
    by_cases h10 : 10 ≤ u
    · have hlt : u / 10 < u := Nat.div_lt_self (by omega) (by omega)
      have hne : u / 10 ≠ 0 := by omega
      simp only [Nat.toDigitsCore, hne, if_false]
      rw [ih (u / 10) hlt f _ (by omega), decimal_ge h10, digitChar_eq (Nat.mod_lt u (by omega))]
      simp
    · have h0 : u / 10 = 0 := by omega
      have hm : u % 10 = u := by omega
      simp only [Nat.toDigitsCore, h0, if_true, hm]
      rw [decimal_lt (by omega), digitChar_eq (by omega)]
      simp

/-- The text `formatUint` produces is the decimal representation of the number. -/
theorem formatUint_eq_repr (u : Nat) : formatUint u = Nat.repr u := by
  simp only [formatUint, Nat.repr, Nat.toDigits, List.asString]
  rw [toDigitsCore_eq u (u + 1) [] (by omega)]
  simp [decimal]

/-- The text `formatInt` produces is the decimal representation of the number. -/
theorem formatInt_eq_repr (n : Int) : formatInt n = ToString.toString n := by
  cases n with
  | ofNat m =>
    have h : ¬ ((m : Int) < 0) := by omega
    have e := formatUint_eq_repr m
    simp only [formatInt, Int.ofNat_eq_coe, h, if_false, Int.toNat_ofNat, e]
    rfl
  | negSucc m =>
    have h : Int.negSucc m < 0 := Int.negSucc_lt_zero m
    have e : (-Int.negSucc m).toNat = m + 1 := by
      simp [Int.neg_negSucc]
    have e2 := formatUint_eq_repr (m + 1)
    simp only [formatUint] at e2
    simp only [formatInt, h, if_true, e]
    show String.mk ('-' :: fmtDigits (m + 1 + 1) (m + 1) []) = "-" ++ Nat.repr (m + 1)
    rw [← e2]
    rfl


theorem formatInt_toList (n : Int) :
    (formatInt n).toList = if n < 0 then '-' :: decimal (-n).toNat else decimal n.toNat := by
  by_cases hn : n < 0 <;> simp [formatInt, hn, formatUint, decimal]

theorem decimal_no_0x (u : Nat) : List.isPrefixOf ['0', 'x'] (decimal u) = false := by
  cases hd : decimal u with
  | nil => rfl
  | cons c cs =>
    cases cs with
    | nil => simp [List.isPrefixOf]
    | cons c2 cs2 =>
      obtain ⟨k, hk, hc⟩ := decimal_digits u c2 (by rw [hd]; simp)
      have := (digit_ne_sign hk).2.2.1
      rw [← hc] at this
      simp only [List.isPrefixOf, Bool.and_true, Bool.and_eq_false_imp, beq_iff_eq,
        beq_eq_false_iff_ne]
      intro _ hx
      exact this hx.symm

theorem HasPrefix_formatInt (n : Int) : HasPrefix (formatInt n) "0x" = false := by
  simp only [HasPrefix, formatInt_toList]
  by_cases hn : n < 0
  · simp [hn, List.isPrefixOf]
  · simp only [hn, if_false]
    exact decimal_no_0x _

/-- C7. `tryToInt` inverts `toString` on integers: for every 64-bit signed
integer `n`, the minimum included, `toString` of the int64 value `n` is the
decimal text of `n`, and `tryToInt` of the string value holding that text
returns `n` and a nil error. -/
theorem tryToInt_inverts_toString (L : Lib) (h : Heap) (n : Int)
    (h1 : -(2 ^ 63) ≤ n) (h2 : n < 2 ^ 63) :
    toString L h (ValueOf (basicType .Int64) (.int n)) = .ok (ToString.toString n) ∧
    tryToInt h (ValueOf (basicType .String) (.str (ToString.toString n))) = .ok (n, none) := by
  constructor
  · rw [← formatInt_eq_repr]
    rfl
  · rw [← formatInt_eq_repr, tryToInt_eq_switch]
    have hd : derefOnce h (ValueOf (basicType .String) (.str (formatInt n)))
        = ValueOf (basicType .String) (.str (formatInt n)) := rfl
    have hk : (ValueOf (basicType .String) (.str (formatInt n))).Kind = .String := rfl
    have hs : (ValueOf (basicType .String) (.str (formatInt n))).String h = formatInt n := rfl
    rw [hd]
    simp only [tryToIntSwitch, hk, hs, HasPrefix_formatInt, ParseInt_formatInt n h1 h2]
    simp [pure, Except.pure, wrapInt64_of_range n h1 h2]

/-- C7 at the smallest 64-bit integer. -/
theorem tryToInt_inverts_toString_min :
    -(2 ^ 63) ≤ (-9223372036854775808 : Int) ∧ (-9223372036854775808 : Int) < 2 ^ 63 ∧
    toString plainLib [] (ValueOf (basicType .Int64) (.int (-9223372036854775808))) =
      .ok (ToString.toString (-9223372036854775808 : Int)) ∧
    tryToInt [] (ValueOf (basicType .String)
      (.str (ToString.toString (-9223372036854775808 : Int)))) =
      .ok (-9223372036854775808, none) :=
  ⟨by norm_num, by norm_num,
    tryToInt_inverts_toString plainLib [] (-9223372036854775808) (by norm_num) (by norm_num)⟩

/-! ## Conversion of floating-point numbers -/

theorem floatAbs_nonneg (bits : Nat) : 0 ≤ floatAbs bits := by
  unfold floatAbs
  positivity

theorem floor_scaled (m e1 : Nat) :
    ⌊(m : ℚ) * (2 : ℚ) ^ ((e1 : Int) - 1075)⌋ =
      ((if 1075 ≤ e1 then m * 2 ^ (e1 - 1075) else m / 2 ^ (1075 - e1) : Nat) : Int) := by
  by_cases he : 1075 ≤ e1
  · have e : ((e1 : Int) - 1075) = ((e1 - 1075 : Nat) : Int) := by omega
    rw [if_pos he, e, zpow_natCast]
    have : (m : ℚ) * 2 ^ (e1 - 1075) = ((m * 2 ^ (e1 - 1075) : Nat) : ℚ) := by push_cast; rfl
    rw [this, Int.floor_natCast]
  · have e : ((e1 : Int) - 1075) = -((1075 - e1 : Nat) : Int) := by omega
    rw [if_neg he, e, zpow_neg, zpow_natCast]
    have : (m : ℚ) * ((2 : ℚ) ^ (1075 - e1))⁻¹ = (m : ℚ) / ((2 ^ (1075 - e1) : Nat) : ℚ) := by
      push_cast; rfl
    rw [this, Rat.floor_natCast_div_natCast]
    rfl

theorem floor_floatAbs (bits : Nat) : ⌊floatAbs bits⌋ = (floatMag bits : Int) :=
  floor_scaled _ _

theorem floatToInt_eq (bits : Nat) (hfin : bits / 2 ^ 52 % 2 ^ 11 ≠ 2047) :
    floatToInt bits =
      if bits / 2 ^ 63 % 2 = 0 then
        (if floatMag bits < 2 ^ 63 then (floatMag bits : Int) else minInt64)
      else (if floatMag bits ≤ 2 ^ 63 then -(floatMag bits : Int) else minInt64) := by
  simp only [floatToInt, floatMag, if_neg hfin]

/-- Conversion of a finite `float64` that fits discards the fraction. -/
theorem floatToInt_trunc (bits : Nat) (hfin : bits / 2 ^ 52 % 2 ^ 11 ≠ 2047)
    (hr : |floatValue bits| < 2 ^ 63) :
    (0 ≤ floatValue bits → floatToInt bits = ⌊floatValue bits⌋) ∧
    (floatValue bits ≤ 0 → floatToInt bits = ⌈floatValue bits⌉) := by
  have hnn := floatAbs_nonneg bits
  have hfl := floor_floatAbs bits
  have habs : floatAbs bits < 2 ^ 63 := by
    unfold floatValue at hr
    split_ifs at hr
    · rwa [abs_of_nonneg hnn] at hr
    · rwa [abs_neg, abs_of_nonneg hnn] at hr
  have hmag : floatMag bits < 2 ^ 63 := by
    have h1 : ((⌊floatAbs bits⌋ : Int) : ℚ) ≤ floatAbs bits := Int.floor_le _
    rw [hfl] at h1
    have h2 : ((floatMag bits : Int) : ℚ) < 2 ^ 63 := lt_of_le_of_lt h1 habs
    have h3 : ((floatMag bits : Int) : ℚ) < ((2 ^ 63 : Nat) : ℚ) := by
      push_cast; exact h2
    exact_mod_cast h3
  rw [floatToInt_eq bits hfin]
  unfold floatValue
  by_cases hs : bits / 2 ^ 63 % 2 = 0
  · simp only [hs, if_true, if_pos hmag]
    refine ⟨fun _ => hfl.symm, fun h0 => ?_⟩
    have hz : floatAbs bits = 0 := le_antisymm h0 hnn
    rw [hz] at hfl ⊢
    simp at hfl ⊢
    exact_mod_cast hfl.symm
  · simp only [hs, if_false, if_pos (le_of_lt hmag)]
    refine ⟨fun h0 => ?_, fun _ => ?_⟩
    · have hz : floatAbs bits = 0 := by linarith
      rw [hz] at hfl ⊢
      simp at hfl ⊢
      exact_mod_cast hfl.symm
    · rw [Int.ceil_neg, hfl]


/-- C9. Float to integer conversion truncates toward zero: for a float32 or
float64 value that is finite and of magnitude below 2^63, `tryToInt` returns a
nil error and the integer obtained by discarding the fraction: the floor of a
value that is not negative and the ceiling of a value that is not positive. -/
theorem tryToInt_float_truncates (h : Heap) (v : Value) (bits : Nat)
    (hk : v.Kind = .Float32 ∨ v.Kind = .Float64) (hl : v.load h = .float bits)
    (hfin : bits / 2 ^ 52 % 2 ^ 11 ≠ 2047) (hr : |floatValue bits| < 2 ^ 63) :
    ∃ t, tryToInt h v = .ok (t, none) ∧
      (0 ≤ floatValue bits → t = ⌊floatValue bits⌋) ∧
      (floatValue bits ≤ 0 → t = ⌈floatValue bits⌉) := by
  refine ⟨floatToInt bits, ?_, floatToInt_trunc bits hfin hr⟩
  rw [tryToInt_eq_switch]
  rcases hk with hk | hk
  · have hd : derefOnce h v = v := by simp [derefOnce, hk]
    rw [hd]
    simp [tryToIntSwitch, hk, Value.Float, hl, bind, Except.bind, pure, Except.pure]
  · have hd : derefOnce h v = v := by simp [derefOnce, hk]
    rw [hd]
    simp [tryToIntSwitch, hk, Value.Float, hl, bind, Except.bind, pure, Except.pure]

/-- C9 at 2.9 (bit pattern 0x4007333333333333). -/
theorem tryToInt_float_truncates_2_9 :
    ((ValueOf (basicType .Float64) (.float 0x4007333333333333)).Kind = .Float32 ∨
      (ValueOf (basicType .Float64) (.float 0x4007333333333333)).Kind = .Float64) ∧
    (ValueOf (basicType .Float64) (.float 0x4007333333333333)).load [] =
      .float 0x4007333333333333 ∧
    0x4007333333333333 / 2 ^ 52 % 2 ^ 11 ≠ 2047 ∧
    |floatValue 0x4007333333333333| < 2 ^ 63 ∧
    ∃ t, tryToInt [] (ValueOf (basicType .Float64) (.float 0x4007333333333333)) = .ok (t, none) ∧
      (0 ≤ floatValue 0x4007333333333333 → t = ⌊floatValue 0x4007333333333333⌋) ∧
      (floatValue 0x4007333333333333 ≤ 0 → t = ⌈floatValue 0x4007333333333333⌉) :=
  ⟨Or.inr rfl, rfl, by norm_num, by norm_num [floatValue, floatAbs, abs_lt],
    tryToInt_float_truncates [] (ValueOf (basicType .Float64) (.float 0x4007333333333333))
      0x4007333333333333 (Or.inr rfl) rfl (by norm_num)
      (by norm_num [floatValue, floatAbs, abs_lt])⟩

/-- The conversion at 2.9 and at -2.9 (bit patterns 0x4007333333333333 and
0xC007333333333333): the results are 2 and -2. -/
theorem tryToInt_float_examples :
    tryToInt [] (ValueOf (basicType .Float64) (.float 0x4007333333333333)) = .ok (2, none) ∧
    tryToInt [] (ValueOf (basicType .Float64) (.float 0xC007333333333333)) = .ok (-2, none) :=
  ⟨rfl, rfl⟩

/-- A string with the prefix `0x` is parsed in base 16 with the prefix left in
place, so the parse rejects it. -/
theorem tryToInt_hex_text :
    tryToInt [] (ValueOf (basicType .String) (.str "0x10")) = .ok (0, some errToInt) := by
  rfl

/-! ## The scanner on numeric and string literals -/

theorem Scanner.peek_lt (src : List Int) (i : Nat) (lh ln : Int) (r : Int)
    (hr : src[i]? = some r) : Scanner.peek ⟨src, i, lh, ln⟩ = .ok r := by
  have hi : i < src.length := by
    by_contra hc
    rw [List.getElem?_eq_none (by omega)] at hr
    cases hr
  have h1 : ¬ ((src.length : Int) ≤ (i : Int)) := by omega
  simp [Scanner.peek, Scanner.reachEOF, h1, Scanner.srcAt, hr]

theorem Scanner.peek_end (src : List Int) (i : Nat) (lh ln : Int) (hi : src.length ≤ i) :
    Scanner.peek ⟨src, i, lh, ln⟩ = .ok EOF := by
  have h1 : ((src.length : Int) ≤ (i : Int)) := by omega
  simp [Scanner.peek, Scanner.reachEOF, h1]

theorem Scanner.next_lt (src : List Int) (i : Nat) (lh ln : Int) (r : Int)
    (hr : src[i]? = some r) (hne : r ≠ 10) :
    Scanner.next ⟨src, i, lh, ln⟩ = .ok ⟨src, (i + 1 : Nat), lh, ln⟩ := by
  have hi : i < src.length := by
    by_contra hc
    rw [List.getElem?_eq_none (by omega)] at hr
    cases hr
  have h1 : ¬ ((src.length : Int) ≤ (i : Int)) := by omega
  have hp := Scanner.peek_lt src i lh ln r hr
  simp [Scanner.next, Scanner.reachEOF, h1, hp, hne, bind, Except.bind, pure, Except.pure]

theorem Scanner.next_end (src : List Int) (i : Nat) (lh ln : Int) (hi : src.length ≤ i) :
    Scanner.next ⟨src, i, lh, ln⟩ = .ok ⟨src, i, lh, ln⟩ := by
  have h1 : ((src.length : Int) ≤ (i : Int)) := by omega
  simp [Scanner.next, Scanner.reachEOF, h1, pure, Except.pure]

theorem isLetter_EOF (L : Lib) : isLetter L EOF = false := by
  simp [isLetter, unicodeIsLetter, EOF]

theorem isLetter_digit (L : Lib) (r : Int) (h : isDigit r = true) : isLetter L r = false := by
  simp only [isDigit, Bool.and_eq_true, decide_eq_true_eq] at h
  have h0 : 0 ≤ r := by omega
  have h1 : r ≤ 255 := by omega
  have h2 : r ≠ 95 := by omega
  have h3 : latin1Letter r.toNat = false := by
    simp only [latin1Letter]
    have : r.toNat = r.toNat := rfl
    simp only [Bool.or_eq_false_iff, Bool.and_eq_false_imp, decide_eq_true_eq,
      decide_eq_false_iff_not]
    omega
  simp [isLetter, unicodeIsLetter, h0, h1, h2, h3]

/-- The non-hex loop of `scanNumber` on a run of decimal digits up to the end of
the source collects all of them. -/
theorem Scanner.scanDecLoop_digits (src : List Int) (lh ln : Int)
    (hd : ∀ r ∈ src, isDigit r = true) :
    ∀ (k i fuel : Nat) (found : Bool) (result : List Int), i + k = src.length → k < fuel →
      Scanner.scanDecLoop fuel ⟨src, i, lh, ln⟩ found result =
        .ok ((result ++ src.drop i, none), ⟨src, (src.length : Nat), lh, ln⟩) := by
  intro k
  induction k with
  | zero =>
    intro i fuel found result hi hf
    obtain ⟨f, rfl⟩ : ∃ f, fuel = f + 1 := ⟨fuel - 1, by omega⟩
    have hpe := Scanner.peek_end src i lh ln (by omega)
    have hi' : i = src.length := by omega
    subst hi'
    simp [Scanner.scanDecLoop, hpe, EOF, isDigit, bind, Except.bind, pure, Except.pure]
  | succ k ih =>
    intro i fuel found result hi hf
    obtain ⟨f, rfl⟩ : ∃ f, fuel = f + 1 := ⟨fuel - 1, by omega⟩
    have hlt : i < src.length := by omega
    have hr : src[i]? = some src[i] := List.getElem?_eq_getElem hlt
    have hdig : isDigit src[i] = true := hd _ (List.getElem_mem _)
    have hne : src[i] ≠ 10 := by
      simp only [isDigit, Bool.and_eq_true, decide_eq_true_eq] at hdig
      omega
    have hp := Scanner.peek_lt src i lh ln _ hr
    have hn := Scanner.next_lt src i lh ln _ hr hne
    rw [Scanner.scanDecLoop]
    simp only [hp, hn, hdig, bind, Except.bind, if_true]
    rw [ih (i + 1) f found _ (by omega) (by omega)]
    rw [List.drop_eq_getElem_cons hlt, List.append_assoc]
    rfl


theorem isDigit_bounds {r : Int} (h : isDigit r = true) : 48 ≤ r ∧ r ≤ 57 := by
  simpa [isDigit] using h

/-- `scanNumber` on a source that is a run of decimal digits returns the whole
source and stops at its end. -/
theorem Scanner.scanNumber_digits (L : Lib) (src : List Int) (lh ln : Int) (hne : src ≠ [])
    (hd : ∀ r ∈ src, isDigit r = true) :
    Scanner.scanNumber L ⟨src, 0, lh, ln⟩ =
      .ok ((runesToString src, none), ⟨src, (src.length : Nat), lh, ln⟩) := by
  obtain ⟨c, rest, rfl⟩ : ∃ c rest, src = c :: rest := by
    cases src with
    | nil => exact absurd rfl hne
    | cons c rest => exact ⟨c, rest, rfl⟩
  have hc := isDigit_bounds (hd c (by simp))
  have hp0 : Scanner.peek ⟨c :: rest, 0, lh, ln⟩ = .ok c := by
    simpa using Scanner.peek_lt (c :: rest) 0 lh ln c (by simp)
  have hn0 : Scanner.next ⟨c :: rest, 0, lh, ln⟩ = .ok ⟨c :: rest, 1, lh, ln⟩ := by
    simpa using Scanner.next_lt (c :: rest) 0 lh ln c (by simp) (by omega)
  obtain ⟨p, hp1, hpx⟩ : ∃ p, Scanner.peek ⟨c :: rest, 1, lh, ln⟩ = .ok p ∧ p ≠ 120 ∧ p ≠ 88 := by
    cases rest with
    | nil =>
      refine ⟨EOF, by simpa using Scanner.peek_end [c] 1 lh ln (by simp), by decide, by decide⟩
    | cons c2 rest2 =>
      have hc2 := isDigit_bounds (hd c2 (by simp))
      refine ⟨c2, by simpa using Scanner.peek_lt (c :: c2 :: rest2) 1 lh ln c2 (by simp), ?_, ?_⟩ <;>
        omega
  have hloop := Scanner.scanDecLoop_digits (c :: rest) lh ln hd rest.length 1
    (Scanner.bound ⟨c :: rest, 1, lh, ln⟩) false [c] (by simp; omega) (by simp [Scanner.bound]; omega)
  have hpe : Scanner.peek ⟨c :: rest, ((c :: rest).length : Nat), lh, ln⟩ = .ok EOF :=
    Scanner.peek_end (c :: rest) _ lh ln (le_refl _)
  simp only [Nat.cast_one] at hloop
  simp only [Scanner.scanNumber, hp0, hn0, hp1, hpx, bind, Except.bind, or_self, and_false,
    if_false, hloop, Option.isSome_none, Bool.false_eq_true, hpe, isLetter_EOF, pure,
    Except.pure]
  simp


theorem runeToChar_toNat (c : Char) : runeToChar (c.toNat : Int) = c := by
  have hv : Nat.isValidChar c.toNat := c.valid
  simp [runeToChar, hv, Char.ofNat_toNat]

/-- Converting a string to runes and back gives the string. -/
theorem runesToString_runes (s : String) : runesToString (runes s) = s := by
  simp only [runesToString, runes, List.map_map]
  have : (runeToChar ∘ fun c : Char => (c.toNat : Int)) = id := by
    funext c
    exact runeToChar_toNat c
  rw [this, List.map_id]
  rfl

theorem isBlank_digit (r : Int) (h : isDigit r = true) : isBlank r = false := by
  have := isDigit_bounds h
  simp only [isBlank, Bool.or_eq_false_iff, decide_eq_false_iff_not]
  omega

/-- `Scan` on a source that is a run of decimal digits returns one NUMBER token
holding the whole source, at line 1, column 1. -/
theorem Scanner.Scan_digits (T : Tokens) (L : Lib) (src : List Int) (hne : src ≠ [])
    (hd : ∀ r ∈ src, isDigit r = true) :
    Scanner.Scan T L ⟨src, 0, 0, 0⟩ =
      .ok (⟨T.NUMBER, runesToString src, ⟨1, 1⟩, none⟩, ⟨src, (src.length : Nat), 0, 0⟩) := by
  obtain ⟨c, rest, hsrc⟩ : ∃ c rest, src = c :: rest := by
    cases src with
    | nil => exact absurd rfl hne
    | cons c rest => exact ⟨c, rest, rfl⟩
  have hc : isDigit c = true := hd c (by simp [hsrc])
  have hp0 : Scanner.peek ⟨src, 0, 0, 0⟩ = .ok c := by
    simpa using Scanner.peek_lt src 0 0 0 c (by simp [hsrc])
  have hsb : Scanner.skipBlank ⟨src, 0, 0, 0⟩ = .ok ⟨src, 0, 0, 0⟩ := by
    simp [Scanner.skipBlank, Scanner.bound, Scanner.skipBlankLoop, hp0, isBlank_digit c hc,
      bind, Except.bind, pure, Except.pure]
  have hnum := Scanner.scanNumber_digits L src 0 0 hne hd
  simp [Scanner.Scan, Scanner.bound, Scanner.scanLoop, Scanner.scanPass, hsb, hp0,
    isLetter_digit L c hc, hc, hnum, Scanner.pos, bind, Except.bind, pure, Except.pure]


theorem digit_toNat {k : Nat} (h : k < 10) : (Char.ofNat (48 + k)).toNat = 48 + k := by
  interval_cases k <;> rfl

theorem runes_decimal_digits (u : Nat) : ∀ r ∈ runes (String.mk (decimal u)), isDigit r = true := by
  intro r hr
  simp only [runes, List.mem_map] at hr
  obtain ⟨c, hc, rfl⟩ := hr
  obtain ⟨k, hk, rfl⟩ := decimal_digits u c hc
  rw [digit_toNat hk]
  simp only [isDigit, Bool.and_eq_true, decide_eq_true_eq]
  omega

theorem decimal_take_two (u : Nat) : (decimal u).take 2 ≠ ['0', 'x'] := by
  intro h
  cases hd : decimal u with
  | nil => simp [hd] at h
  | cons c cs =>
    cases cs with
    | nil => simp [hd] at h
    | cons c2 cs2 =>
      obtain ⟨k, hk, hc⟩ := decimal_digits u c2 (by rw [hd]; simp)
      have hx := (digit_ne_sign hk).2.2.1
      rw [hd] at h
      simp only [List.take_succ_cons, List.take_zero, List.cons.injEq, and_true] at h
      exact hx (hc ▸ h.2)

theorem decimal_take_three (u : Nat) : (decimal u).take 3 ≠ ['-', '0', 'x'] := by
  intro h
  cases hd : decimal u with
  | nil => simp [hd] at h
  | cons c cs =>
    obtain ⟨k, hk, hc⟩ := decimal_digits u c (by rw [hd]; simp)
    have hx := (digit_ne_sign hk).1
    rw [hd] at h
    cases cs with
    | nil => simp at h
    | cons c2 cs2 =>
      simp only [List.take_succ_cons, List.cons.injEq] at h
      exact hx (hc ▸ h.1)

theorem decimal_no_point (u : Nat) : '.' ∉ decimal u ∧ 'e' ∉ decimal u := by
  constructor <;> intro h
  · obtain ⟨k, hk, hc⟩ := decimal_digits u _ h
    exact (digit_ne_sign hk).2.2.2.1 hc.symm
  · obtain ⟨k, hk, hc⟩ := decimal_digits u _ h
    exact (digit_ne_sign hk).2.2.2.2 hc.symm

/-- `toNumber` on the decimal text of a number below 2^63 is that `int64`. -/
theorem toNumber_decimal (L : Lib) (u : Nat) (hu : u < 2 ^ 63) :
    toNumber L (String.mk (decimal u)) = (ValueOf (basicType .Int64) (.int u), none) := by
  simp [toNumber, decimal_take_two, decimal_take_three, decimal_no_point, ParseInt_decimal u hu]

/-- `next` inside the source moves the offset by one, whatever the rune is. -/
theorem Scanner.next_some (src : List Int) (i : Nat) (lh ln : Int) (r : Int)
    (hr : src[i]? = some r) :
    ∃ lh' ln', Scanner.next ⟨src, i, lh, ln⟩ = .ok ⟨src, (i + 1 : Nat), lh', ln'⟩ := by
  have hi : i < src.length := by
    by_contra hc
    rw [List.getElem?_eq_none (by omega)] at hr
    cases hr
  have h1 : ¬ ((src.length : Int) ≤ (i : Int)) := by omega
  have hp := Scanner.peek_lt src i lh ln r hr
  by_cases hne : r = 10
  · exact ⟨(i : Int) + 1, ln + 1, by
      simp [Scanner.next, Scanner.reachEOF, h1, hp, hne, bind, Except.bind, pure, Except.pure]⟩
  · exact ⟨lh, ln, by
      simp [Scanner.next, Scanner.reachEOF, h1, hp, hne, bind, Except.bind, pure, Except.pure]⟩

theorem quoted_getElem_body (q : Int) (body : List Int) (i : Nat) (hi : i < body.length) :
    (q :: (body ++ [q]))[i + 1]? = some body[i] := by
  simp [List.getElem?_append_left hi, List.getElem?_eq_getElem hi]

theorem quoted_getElem_close (q : Int) (body : List Int) :
    (q :: (body ++ [q]))[body.length + 1]? = some q := by
  simp

theorem quoted_getElem_some (q : Int) (body : List Int) (i : Nat) (hi : i ≤ body.length) :
    ∃ r, (q :: (body ++ [q]))[i]? = some r ∧ r ∈ q :: body := by
  cases i with
  | zero => exact ⟨q, by simp, by simp⟩
  | succ j =>
    exact ⟨body[j], quoted_getElem_body q body j (by omega), by simp⟩

/-- The loop of `scanString` on a literal without escapes: it collects the runes
between the quotes and stops after the closing quote. -/
theorem Scanner.scanStringLoop_plain (T : Tokens) (q : Int) (body : List Int) (lh ln : Int)
    (hq : q ≠ 10 ∧ q ≠ -1)
    (hb : ∀ r ∈ body, r ≠ 10 ∧ r ≠ -1 ∧ r ≠ q ∧ r ≠ 92) :
    ∀ (k i fuel : Nat) (ret : List Int), i + k = body.length → k < fuel →
      Scanner.scanStringLoop T q fuel ⟨q :: (body ++ [q]), i, lh, ln⟩ ret =
        .ok ((ret ++ body.drop i, none),
          ⟨q :: (body ++ [q]), (body.length + 2 : Nat), lh, ln⟩) := by
  have hall : ∀ r ∈ q :: body, r ≠ 10 := by
    intro r hr
    rcases List.mem_cons.mp hr with rfl | hr
    · exact hq.1
    · exact (hb r hr).1
  intro k
  induction k with
  | zero =>
    intro i fuel ret hi hf
    obtain ⟨f, rfl⟩ : ∃ f, fuel = f + 1 := ⟨fuel - 1, by omega⟩
    have hi' : i = body.length := by omega
    subst hi'
    obtain ⟨r, hr, hmem⟩ := quoted_getElem_some q body body.length (le_refl _)
    have hn := Scanner.next_lt _ body.length lh ln r hr (hall r hmem)
    have hp := Scanner.peek_lt _ (body.length + 1) lh ln q (quoted_getElem_close q body)
    have hn2 := Scanner.next_lt _ (body.length + 1) lh ln q (quoted_getElem_close q body) hq.1
    rw [Scanner.scanStringLoop]
    simp only [hn, hp, hn2, bind, Except.bind, EOL, EOF, hq.1, hq.2, if_false, if_true, pure,
      Except.pure]
    simp
    omega
  | succ k ih =>
    intro i fuel ret hi hf
    obtain ⟨f, rfl⟩ : ∃ f, fuel = f + 1 := ⟨fuel - 1, by omega⟩
    have hlt : i < body.length := by omega
    obtain ⟨r, hr, hmem⟩ := quoted_getElem_some q body i (by omega)
    have hn := Scanner.next_lt _ i lh ln r hr (hall r hmem)
    have hp := Scanner.peek_lt _ (i + 1) lh ln _ (quoted_getElem_body q body i hlt)
    have hbi := hb body[i] (List.getElem_mem _)
    rw [Scanner.scanStringLoop]
    simp only [hn, hp, bind, Except.bind, EOL, EOF, hbi.1, hbi.2.1, hbi.2.2.1, hbi.2.2.2,
      if_false]
    rw [ih (i + 1) f _ (by omega) (by omega), List.drop_eq_getElem_cons hlt, List.append_assoc]
    rfl

/-- The loop of `scanRawString` on a literal: it collects the runes between the
delimiters and stops after the closing one. -/
theorem Scanner.scanRawStringLoop_plain (q : Int) (body : List Int)
    (hq : q ≠ -1) (hb : ∀ r ∈ body, r ≠ -1 ∧ r ≠ q) :
    ∀ (k i fuel : Nat) (lh ln : Int) (ret : List Int), i + k = body.length → k < fuel →
      ∃ lh' ln', Scanner.scanRawStringLoop q fuel ⟨q :: (body ++ [q]), i, lh, ln⟩ ret =
        .ok ((ret ++ body.drop i, none),
          ⟨q :: (body ++ [q]), (body.length + 2 : Nat), lh', ln'⟩) := by
  intro k
  induction k with
  | zero =>
    intro i fuel lh ln ret hi hf
    obtain ⟨f, rfl⟩ : ∃ f, fuel = f + 1 := ⟨fuel - 1, by omega⟩
    have hi' : i = body.length := by omega
    subst hi'
    obtain ⟨r, hr, _⟩ := quoted_getElem_some q body body.length (le_refl _)
    obtain ⟨lh1, ln1, hn⟩ := Scanner.next_some _ body.length lh ln r hr
    have hp := Scanner.peek_lt _ (body.length + 1) lh1 ln1 q (quoted_getElem_close q body)
    obtain ⟨lh2, ln2, hn2⟩ :=
      Scanner.next_some _ (body.length + 1) lh1 ln1 q (quoted_getElem_close q body)
    refine ⟨lh2, ln2, ?_⟩
    rw [Scanner.scanRawStringLoop]
    simp only [hn, hp, hn2, bind, Except.bind, EOF, hq, if_false, if_true, pure, Except.pure]
    simp
    omega
  | succ k ih =>
    intro i fuel lh ln ret hi hf
    obtain ⟨f, rfl⟩ : ∃ f, fuel = f + 1 := ⟨fuel - 1, by omega⟩
    have hlt : i < body.length := by omega
    obtain ⟨r, hr, _⟩ := quoted_getElem_some q body i (by omega)
    obtain ⟨lh1, ln1, hn⟩ := Scanner.next_some _ i lh ln r hr
    have hp := Scanner.peek_lt _ (i + 1) lh1 ln1 _ (quoted_getElem_body q body i hlt)
    have hbi := hb body[i] (List.getElem_mem _)
    obtain ⟨lh2, ln2, hrec⟩ := ih (i + 1) f lh1 ln1 (ret ++ [body[i]]) (by omega) (by omega)
    refine ⟨lh2, ln2, ?_⟩
    rw [Scanner.scanRawStringLoop]
    simp only [hn, hp, bind, Except.bind, EOF, hbi.1, hbi.2, if_false]
    rw [hrec, List.drop_eq_getElem_cons hlt, List.append_assoc]
    rfl


theorem isLetter_quote (L : Lib) (q : Int) (hq : q = 34 ∨ q = 39 ∨ q = 96) :
    isLetter L q = false ∧ isDigit q = false ∧ isBlank q = false := by
  rcases hq with rfl | rfl | rfl <;> exact ⟨by simp [isLetter, unicodeIsLetter, latin1Letter], rfl, rfl⟩

/-- `Scan` on a literal in double or single quotes that has no escape. -/
theorem Scanner.Scan_quoted (T : Tokens) (L : Lib) (q : Int) (body : List Int)
    (hq : q = 34 ∨ q = 39) (hb : ∀ r ∈ body, r ≠ 10 ∧ r ≠ -1 ∧ r ≠ q ∧ r ≠ 92) :
    Scanner.Scan T L ⟨q :: (body ++ [q]), 0, 0, 0⟩ =
      .ok (⟨T.STRING, runesToString body, ⟨1, 1⟩, none⟩,
        ⟨q :: (body ++ [q]), (body.length + 2 : Nat), 0, 0⟩) := by
  have hq2 : q ≠ 10 ∧ q ≠ -1 := by rcases hq with rfl | rfl <;> decide
  obtain ⟨hl, hd, hbl⟩ := isLetter_quote L q (by tauto)
  have hp0 : Scanner.peek ⟨q :: (body ++ [q]), 0, 0, 0⟩ = .ok q := by
    simpa using Scanner.peek_lt (q :: (body ++ [q])) 0 0 0 q (by simp)
  have hsb : Scanner.skipBlank ⟨q :: (body ++ [q]), 0, 0, 0⟩ = .ok ⟨q :: (body ++ [q]), 0, 0, 0⟩ := by
    simp [Scanner.skipBlank, Scanner.bound, Scanner.skipBlankLoop, hp0, hbl,
      bind, Except.bind, pure, Except.pure]
  have hloop := Scanner.scanStringLoop_plain T q body 0 0 hq2 hb body.length 0
    (Scanner.bound ⟨q :: (body ++ [q]), 0, 0, 0⟩) [] (by simp) (by simp [Scanner.bound]; omega)
  simp only [Nat.cast_zero, List.drop_zero, List.nil_append] at hloop
  have hstr : Scanner.scanString T q ⟨q :: (body ++ [q]), 0, 0, 0⟩ =
      .ok ((runesToString body, none), ⟨q :: (body ++ [q]), (body.length + 2 : Nat), 0, 0⟩) := by
    simp only [Scanner.scanString, hloop, bind, Except.bind, Option.isSome_none,
      Bool.false_eq_true, if_false, pure, Except.pure]
  rcases hq with rfl | rfl
  · simp [Scanner.Scan, Scanner.bound, Scanner.scanLoop, Scanner.scanPass, hsb, hp0, hl, hd,
      hstr, Scanner.pos, bind, Except.bind, pure, Except.pure]
  · simp [Scanner.Scan, Scanner.bound, Scanner.scanLoop, Scanner.scanPass, hsb, hp0, hl, hd,
      hstr, Scanner.pos, bind, Except.bind, pure, Except.pure]

/-- `Scan` on a raw literal between backticks. -/
theorem Scanner.Scan_raw (T : Tokens) (L : Lib) (body : List Int)
    (hb : ∀ r ∈ body, r ≠ -1 ∧ r ≠ 96) :
    ∃ lh ln, Scanner.Scan T L ⟨96 :: (body ++ [96]), 0, 0, 0⟩ =
      .ok (⟨T.STRING, runesToString body, ⟨1, 1⟩, none⟩,
        ⟨96 :: (body ++ [96]), (body.length + 2 : Nat), lh, ln⟩) := by
  obtain ⟨hl, hd, hbl⟩ := isLetter_quote L 96 (by tauto)
  have hp0 : Scanner.peek ⟨96 :: (body ++ [96]), 0, 0, 0⟩ = .ok 96 := by
    simpa using Scanner.peek_lt (96 :: (body ++ [96])) 0 0 0 96 (by simp)
  have hsb : Scanner.skipBlank ⟨96 :: (body ++ [96]), 0, 0, 0⟩ =
      .ok ⟨96 :: (body ++ [96]), 0, 0, 0⟩ := by
    simp [Scanner.skipBlank, Scanner.bound, Scanner.skipBlankLoop, hp0, hbl,
      bind, Except.bind, pure, Except.pure]
  obtain ⟨lh, ln, hloop⟩ := Scanner.scanRawStringLoop_plain 96 body (by decide) hb body.length 0
    (Scanner.bound ⟨96 :: (body ++ [96]), 0, 0, 0⟩) 0 0 [] (by simp)
    (by simp [Scanner.bound]; omega)
  simp only [Nat.cast_zero, List.drop_zero, List.nil_append] at hloop
  have hstr : Scanner.scanRawString 96 ⟨96 :: (body ++ [96]), 0, 0, 0⟩ =
      .ok ((runesToString body, none),
        ⟨96 :: (body ++ [96]), (body.length + 2 : Nat), lh, ln⟩) := by
    simp only [Scanner.scanRawString, hloop, bind, Except.bind, Option.isSome_none,
      Bool.false_eq_true, if_false, pure, Except.pure]
  refine ⟨lh, ln, ?_⟩
  simp [Scanner.Scan, Scanner.bound, Scanner.scanLoop, Scanner.scanPass, hsb, hp0, hl, hd,
    hstr, Scanner.pos, bind, Except.bind, pure, Except.pure]

theorem char_eq_of_toNat (c d : Char) (h : (c.toNat : Int) = (d.toNat : Int)) : c = d := by
  have h' : c.toNat = d.toNat := by exact_mod_cast h
  rw [← Char.ofNat_toNat c, ← Char.ofNat_toNat d, h']

theorem runes_plain (t : String) (q : Char)
    (ht : ∀ c ∈ t.toList, c ≠ q ∧ c ≠ '\\' ∧ c ≠ '\n') :
    ∀ r ∈ runes t, r ≠ 10 ∧ r ≠ -1 ∧ r ≠ (q.toNat : Int) ∧ r ≠ 92 := by
  intro r hr
  simp only [runes, List.mem_map] at hr
  obtain ⟨c, hc, rfl⟩ := hr
  obtain ⟨h1, h2, h3⟩ := ht c hc
  refine ⟨fun h => h3 (char_eq_of_toNat c '\n' h), by omega,
    fun h => h1 (char_eq_of_toNat c q h), fun h => h2 (char_eq_of_toNat c '\\' h)⟩

theorem runes_raw (t : String) (ht : ∀ c ∈ t.toList, c ≠ '`') :
    ∀ r ∈ runes t, r ≠ -1 ∧ r ≠ 96 := by
  intro r hr
  simp only [runes, List.mem_map] at hr
  obtain ⟨c, hc, rfl⟩ := hr
  exact ⟨by omega, fun h => ht c hc (char_eq_of_toNat c '`' h)⟩

/-- C5. Integer literal round trip: for every integer `n` with
`0 ≤ n ≤ 2^63 - 1` and `s` its decimal text, `Scan` on a new scanner over `s`
returns `(NUMBER, s)` at line 1, column 1 with no error (and stops at the end
of the source), `toNumber s` is the int64 value `n` with no error, and
`toString` of that value is `s` again. -/
theorem integer_literal_round_trip (T : Tokens) (L : Lib) (h : Heap) (n : Nat)
    (hn : n ≤ 2 ^ 63 - 1) :
    Scanner.Scan T L (Scanner.new (ToString.toString n)) =
      .ok (⟨T.NUMBER, ToString.toString n, ⟨1, 1⟩, none⟩,
        ⟨runes (ToString.toString n), ((runes (ToString.toString n)).length : Nat), 0, 0⟩) ∧
    toNumber L (ToString.toString n) = (ValueOf (basicType .Int64) (.int n), none) ∧
    toString L h (toNumber L (ToString.toString n)).1 = .ok (ToString.toString n) := by
  have hs : (ToString.toString n : String) = String.mk (decimal n) := by
    show Nat.repr n = _
    rw [← formatUint_eq_repr]
    rfl
  have hnum := toNumber_decimal L n (by omega)
  have hne : runes (String.mk (decimal n)) ≠ [] := by
    simp [runes, decimal_ne_nil]
  refine ⟨?_, ?_, ?_⟩
  · rw [hs]
    have := Scanner.Scan_digits T L _ hne (runes_decimal_digits n)
    rw [runesToString_runes] at this
    exact this
  · rw [hs]; exact hnum
  · rw [hs, hnum]
    have e : String.mk (decimal n) = formatInt (n : Int) := by
      have : ¬ ((n : Int) < 0) := by omega
      simp [formatInt, this, formatUint, decimal]
    rw [e]
    rfl


/-- C5 at the literal `12345`. -/
theorem integer_literal_round_trip_12345 :
    12345 ≤ 2 ^ 63 - 1 ∧
    Scanner.Scan sampleTokens plainLib (Scanner.new (ToString.toString 12345)) =
      .ok (⟨sampleTokens.NUMBER, ToString.toString 12345, ⟨1, 1⟩, none⟩,
        ⟨runes (ToString.toString 12345), ((runes (ToString.toString 12345)).length : Nat),
          0, 0⟩) ∧
    toNumber plainLib (ToString.toString 12345) =
      (ValueOf (basicType .Int64) (.int (12345 : Nat)), none) ∧
    toString plainLib [] (toNumber plainLib (ToString.toString 12345)).1 =
      .ok (ToString.toString 12345) :=
  ⟨by norm_num, integer_literal_round_trip sampleTokens plainLib [] 12345 (by norm_num)⟩

/-- C6. String literal round trip: for a quote `q` that is the double or the
single quote and a text `t` without `q`, backslash and newline, `Scan` on a new
scanner over `q t q` returns `(STRING, t)` at line 1, column 1 with no error and
leaves the offset just past the closing quote; for a text `t` without a
backtick, the same holds of the raw literal between backticks; and
`toString (stringToValue t)` is `t`. -/
theorem string_literal_round_trip (T : Tokens) (L : Lib) (h : Heap) (t : String) :
    (∀ q : Char, q = '"' ∨ q = '\'' → (∀ c ∈ t.toList, c ≠ q ∧ c ≠ '\\' ∧ c ≠ '\n') →
      ∃ s', Scanner.Scan T L (Scanner.new (String.mk (q :: (t.toList ++ [q])))) =
          .ok (⟨T.STRING, t, ⟨1, 1⟩, none⟩, s') ∧
        s'.offset = ((t.length + 2 : Nat) : Int)) ∧
    ((∀ c ∈ t.toList, c ≠ '`') →
      ∃ s', Scanner.Scan T L (Scanner.new (String.mk ('`' :: (t.toList ++ ['`'])))) =
          .ok (⟨T.STRING, t, ⟨1, 1⟩, none⟩, s') ∧
        s'.offset = ((t.length + 2 : Nat) : Int)) ∧
    toString L h (stringToValue t) = .ok t := by
  have hlen : (runes t).length = t.length := by
    unfold runes
    rw [List.length_map]
    rfl
  have hnew : ∀ q : Char, Scanner.new (String.mk (q :: (t.toList ++ [q]))) =
      ⟨(q.toNat : Int) :: (runes t ++ [(q.toNat : Int)]), 0, 0, 0⟩ := by
    intro q
    simp [Scanner.new, runes]
  refine ⟨?_, ?_, rfl⟩
  · intro q hq ht
    have hb := runes_plain t q ht
    have hq' : (q.toNat : Int) = 34 ∨ (q.toNat : Int) = 39 := by
      rcases hq with rfl | rfl
      · left; rfl
      · right; rfl
    have hs := Scanner.Scan_quoted T L (q.toNat : Int) (runes t) hq' hb
    rw [runesToString_runes, hlen] at hs
    rw [hnew]
    exact ⟨_, hs, rfl⟩
  · intro ht
    obtain ⟨lh, ln, hs⟩ := Scanner.Scan_raw T L (runes t) (runes_raw t ht)
    rw [runesToString_runes, hlen] at hs
    rw [hnew]
    exact ⟨_, hs, rfl⟩


/-- C6 at the literal `"it's"` in double quotes and at a raw literal of two
lines. -/
theorem string_literal_round_trip_examples :
    (∃ s', Scanner.Scan sampleTokens plainLib
        (Scanner.new (String.mk ('"' :: ("it's".toList ++ ['"'])))) =
          .ok (⟨sampleTokens.STRING, "it's", ⟨1, 1⟩, none⟩, s') ∧
        s'.offset = (("it's".length + 2 : Nat) : Int)) ∧
    (∃ s', Scanner.Scan sampleTokens plainLib
        (Scanner.new (String.mk ('`' :: ("a\\b\nc".toList ++ ['`'])))) =
          .ok (⟨sampleTokens.STRING, "a\\b\nc", ⟨1, 1⟩, none⟩, s') ∧
        s'.offset = (("a\\b\nc".length + 2 : Nat) : Int)) :=
  ⟨(string_literal_round_trip sampleTokens plainLib [] "it's").1 '"' (Or.inl rfl) (by decide),
   (string_literal_round_trip sampleTokens plainLib [] "a\\b\nc").2.1 (by decide)⟩

/-! ## `vm/vmUtils.go`: map lookup, nil test, allocation -/

/-- C11, as stated, fails: the key is valid and of the key type of the map
(`interface{}`), the map is a valid map, and `getMapIndex` panics because the
key holds a slice, which cannot be hashed. -/
theorem getMapIndex_unhashable :
    sliceInAny.IsValid = true ∧ emptyAnyIntMap.IsValid = true ∧ emptyAnyIntMap.Kind = .Map ∧
    sliceInAny.typ = anyIntMapType.key ∧
    getMapIndex [] sliceInAny emptyAnyIntMap =
      .error "runtime error: hash of unhashable type" :=
  ⟨rfl, rfl, rfl, rfl, rfl⟩

/-- C11, amended. Map lookup reports a missing key as nil without failing: for a
valid map `m` and a valid key of the key type of `m` whose stored value can be
hashed, `getMapIndex` returns the element stored under the key when the key is
present, and the zero Value when it is absent or the map is nil; whenever the
key is invalid, `m` is invalid or `m` is no map, it returns the zero Value. In
none of these cases does it panic. -/
theorem getMapIndex_lookup (h : Heap) (key m : Value) :
    (∀ t tk, m.typ = some t → m.Kind = .Map → t.key = some tk → key.Type = .ok tk →
      Data.hashable (key.payload h) = true →
      (∀ ks vs e, m.load h = .map ks vs → mapLookup ks vs (key.payload h) = some e →
        getMapIndex h key m = .ok ⟨t.elem, .imm e, none, m.ro || key.ro⟩) ∧
      (∀ ks vs, m.load h = .map ks vs → mapLookup ks vs (key.payload h) = none →
        getMapIndex h key m = .ok Value.zero) ∧
      (m.load h = .nil → getMapIndex h key m = .ok Value.zero)) ∧
    (key.IsValid = false ∨ m.IsValid = false ∨ m.Kind ≠ .Map →
      getMapIndex h key m = .ok Value.zero) := by
  constructor
  · intro t tk hm hk htk hkey hh
    have hkv : key.IsValid = true := by
      cases hkt : key.typ with
      | none => simp [Value.Type, hkt] at hkey
      | some kt => simp [Value.IsValid, hkt]
    have hmv : m.IsValid = true := by simp [Value.IsValid, hm]
    have hg : getMapIndex h key m = m.MapIndex h key := by
      simp [getMapIndex, hkv, hmv, hk]
    rw [hg]
    refine ⟨?_, ?_, ?_⟩
    · intro ks vs e hl hlk
      simp [Value.MapIndex, hk, hm, hkey, htk, assignable, hh, hl, hlk]
    · intro ks vs hl hlk
      simp [Value.MapIndex, hk, hm, hkey, htk, assignable, hh, hl, hlk]
    · intro hl
      simp [Value.MapIndex, hk, hm, hkey, htk, assignable, hh, hl]
  · intro hc
    rcases hc with hc | hc | hc <;> simp [getMapIndex, hc]

/-- C11 at the map `map[string]int{"a": 1}`: the key `"a"` gives 1, the key `"b"`
and the zero Value as key give the zero Value. -/
theorem getMapIndex_examples :
    getMapIndex [] (ValueOf (basicType .String) (.str "a")) oneEntryMap =
      .ok (ValueOf (basicType .Int) (.int 1)) ∧
    getMapIndex [] (ValueOf (basicType .String) (.str "b")) oneEntryMap = .ok Value.zero ∧
    getMapIndex [] Value.zero oneEntryMap = .ok Value.zero :=
  ⟨((getMapIndex_lookup [] (ValueOf (basicType .String) (.str "a")) oneEntryMap).1
      _ _ rfl rfl rfl rfl rfl).1 _ _ _ rfl rfl,
   ((getMapIndex_lookup [] (ValueOf (basicType .String) (.str "b")) oneEntryMap).1
      _ _ rfl rfl rfl rfl rfl).2.1 _ _ rfl rfl,
   (getMapIndex_lookup [] Value.zero oneEntryMap).2 (Or.inl rfl)⟩

/-- A value whose kind is not Func and not Invalid is no method value. -/
theorem Value.method_none_of_kind {v : Value} (h1 : v.Kind ≠ .Func) (h2 : v.Kind ≠ .Invalid) :
    v.method = none := by
  obtain ⟨typ, st, meth, ro⟩ := v
  cases typ with
  | none => simp [Value.Kind] at h2
  | some t =>
    cases meth with
    | none => rfl
    | some m => simp [Value.Kind] at h1

/-- C12. `isNil` is total and true exactly for nil values of nilable kinds: it
returns for every value, and returns true if and only if the kind is chan, func,
interface, map, pointer or slice and the value holds nil (a method value holds
its function); on the zero Value it returns false. -/
theorem isNil_iff (h : Heap) (v : Value) :
    (∃ b, isNil h v = .ok b ∧
      (b = true ↔
        ((v.Kind = .Chan ∨ v.Kind = .Func ∨ v.Kind = .Interface ∨ v.Kind = .Map ∨
          v.Kind = .Ptr ∨ v.Kind = .Slice) ∧ v.method = none ∧ v.load h = .nil))) ∧
    isNil h Value.zero = .ok false := by
  refine ⟨?_, rfl⟩
  rcases hk : v.Kind
  case Func =>
    cases hm : v.method with
    | none => exact ⟨decide (v.load h = .nil), by simp [isNil, hk, Value.IsNil, hm], by simp⟩
    | some m => exact ⟨false, by simp [isNil, hk, Value.IsNil, hm], by simp⟩
  case Chan | Map | Ptr | Interface | Slice =>
    all_goals
      have hm : v.method = none := Value.method_none_of_kind (by rw [hk]; decide) (by rw [hk]; decide)
      exact ⟨decide (v.load h = .nil), by simp [isNil, hk, Value.IsNil, hm], by simp [hm]⟩
  all_goals exact ⟨false, by simp [isNil, hk], by simp⟩

/-- C13. `makeValue` allocates a zero-valued instance: for a type `t` that is not a
pointer type it returns a nil error and a value of type `t`, not addressable,
holding the zero value of `t`, and the heap is as before; for a pointer type
with element type `e` it returns a nil error and a pointer that is not nil and
points to a new cell holding the zero value of `e`, every older cell being
unchanged. -/
theorem makeValue_zero (h : Heap) (t : RType) :
    (t.kind ≠ .Ptr →
      ∃ v, makeValue h t = .ok ((v, none), h) ∧ v.typ = some t ∧ v.CanAddr = false ∧
        v.load h = zeroData t) ∧
    (t.kind = .Ptr → ∀ e, t.elem = some e →
      ∃ p h', makeValue h t = .ok ((p, none), h') ∧ p.Kind = .Ptr ∧ p.typ = some (PtrTo e) ∧
        p.IsNil h' = .ok false ∧
        (∃ w, p.Elem h' = .ok w ∧ w.typ = some e ∧ w.load h' = zeroData e) ∧
        ∀ b : Addr, b.base < h.length → Heap.read h' b = Heap.read h b) := by
  constructor
  · intro hk
    exact ⟨Zero t, by simp [makeValue, hk], rfl, rfl, rfl⟩
  · intro hk e he
    refine ⟨(New h e).1, (New h e).2, by simp [makeValue, hk, he], rfl, rfl, ?_, ?_, ?_⟩
    · simp [Value.IsNil, Value.Kind, New, Value.load]
    · refine ⟨⟨some e, .loc ⟨h.length, []⟩, none, false⟩, ?_, rfl, ?_⟩
      · simp [Value.Elem, Value.Kind, New, Value.load]
      · simp [Value.load, New, Heap.read, Data.sub]
    · intro b hb
      simp [New, Heap.read, List.getElem?_append_left hb]

/-- C13 at the types `int` and `*int`, on the empty heap. -/
theorem makeValue_zero_examples :
    (∃ v, makeValue [] (basicType .Int) = .ok ((v, none), []) ∧ v.typ = some (basicType .Int) ∧
      v.CanAddr = false ∧ v.load [] = zeroData (basicType .Int)) ∧
    (∃ p h', makeValue [] (PtrTo (basicType .Int)) = .ok ((p, none), h') ∧ p.Kind = .Ptr ∧
      p.typ = some (PtrTo (basicType .Int)) ∧ p.IsNil h' = .ok false ∧
      (∃ w, p.Elem h' = .ok w ∧ w.typ = some (basicType .Int) ∧
        w.load h' = zeroData (basicType .Int)) ∧
      ∀ b : Addr, b.base < ([] : Heap).length → Heap.read h' b = Heap.read [] b) :=
  ⟨(makeValue_zero [] (basicType .Int)).1 (by decide),
   (makeValue_zero [] (PtrTo (basicType .Int))).2 rfl (basicType .Int) rfl⟩

/-! ## The lexer -/

/-- C14. The Fatal flag separates scanner errors from parser errors: when `Scan`
returns `r`, `Lex` returns the token of `r`, hands token, literal and position
to the parser and keeps literal and position; when `r` carries an error, `Lex`
stores an `Error` with `Fatal = true`, the text of that error as `Message` and
the position of `r` as `Pos`, and without an error it leaves the stored error
as it was. `Lexer.Error msg` stores an `Error` with `Fatal = false`,
`Message = msg` and `Pos` the position the lexer holds, which after `Lex` is
the position of the token just lexed. -/
theorem Lex_fatal_flag (T : Tokens) (L : Lib) (l : Lexer) :
    (∀ r s', l.s.Scan T L = .ok (r, s') →
      ∃ l', l.Lex T L = .ok (r.tok, ⟨r.pos, r.tok, r.lit⟩, l') ∧
        l'.s = s' ∧ l'.pos = r.pos ∧ l'.lit = r.lit ∧
        (∀ err, r.err = some err →
          l'.e = some { Message := errorText err, Pos := r.pos, Filename := "", Fatal := true }) ∧
        (r.err = none → l'.e = l.e) ∧
        ∀ msg, (l'.Error msg).e =
          some { Message := msg, Pos := r.pos, Filename := "", Fatal := false }) ∧
    (∀ msg, (l.Error msg).e =
        some { Message := msg, Pos := l.pos, Filename := "", Fatal := false } ∧
      (l.Error msg).pos = l.pos ∧ (l.Error msg).s = l.s ∧ (l.Error msg).lit = l.lit) := by
  refine ⟨?_, fun msg => ⟨rfl, rfl, rfl, rfl⟩⟩
  intro r s' hs
  cases he : r.err with
  | none =>
    refine ⟨⟨s', r.lit, r.pos, l.e⟩, ?_, rfl, rfl, rfl, ?_, fun _ => rfl, fun msg => rfl⟩
    · simp [Lexer.Lex, hs, he, bind, Except.bind, pure, Except.pure]
    · intro err h2; cases h2
  | some err =>
    refine ⟨⟨s', r.lit, r.pos, some ⟨errorText err, r.pos, "", true⟩⟩, ?_, rfl, rfl, rfl, ?_,
      ?_, fun msg => rfl⟩
    · simp [Lexer.Lex, hs, he, bind, Except.bind, pure, Except.pure]
    · intro err2 h2
      cases h2
      rfl
    · intro h2; cases h2

/-- C14 on the source `x @`: the first `Lex` returns IDENT and stores no error,
the second meets `@`, stores a fatal error at 1:3 and returns the token of `@`;
`Error` called then stores an error at 1:3 that is not fatal. -/
theorem Lex_fatal_flag_example :
    ∃ l', Lexer.Lex sampleTokens plainLib ⟨Scanner.new "x @", "", ⟨0, 0⟩, none⟩ =
        .ok (sampleTokens.IDENT, ⟨⟨1, 1⟩, sampleTokens.IDENT, "x"⟩, l') ∧
      l'.e = none ∧
      ∃ l'', Lexer.Lex sampleTokens plainLib l' = .ok (64, ⟨⟨1, 3⟩, 64, "@"⟩, l'') ∧
        l''.e = some { Message := "syntax error on \x27@\x27 at 1:3", Pos := ⟨1, 3⟩,
                       Filename := "", Fatal := true } ∧
        (l''.Error "syntax error").e =
          some { Message := "syntax error", Pos := ⟨1, 3⟩, Filename := "", Fatal := false } :=
  ⟨_, rfl, rfl, _, rfl, rfl, rfl⟩

/-- C14 on the source `@`: `Scan` returns the token of `@` with a syntax error
at 1:1, and `Lex` stores it as a fatal error; `Error` called then stores an
error at 1:1 that is not fatal. -/
theorem Lex_fatal_flag_at_sign :
    ∃ l', Lexer.Lex sampleTokens plainLib ⟨Scanner.new "@", "", ⟨0, 0⟩, none⟩ =
        .ok (64, ⟨⟨1, 1⟩, 64, "@"⟩, l') ∧
      l'.e = some { Message := "syntax error on \x27@\x27 at 1:1", Pos := ⟨1, 1⟩,
                    Filename := "", Fatal := true } ∧
      ∀ msg, (l'.Error msg).e =
        some { Message := msg, Pos := ⟨1, 1⟩, Filename := "", Fatal := false } := by
  obtain ⟨l', h1, _, _, _, h5, _, h7⟩ :=
    (Lex_fatal_flag sampleTokens plainLib ⟨Scanner.new "@", "", ⟨0, 0⟩, none⟩).1
      ⟨64, "@", ⟨1, 1⟩, some (.text "syntax error on \x27@\x27 at 1:1")⟩ ⟨runes "@", 0, 0, 0⟩ rfl
  exact ⟨l', h1, h5 _ rfl, h7⟩

/-- C17. The rune after a `\u` escape is lost: the literal `"a\u0041bc"` scans
as `aAc`, because `scanEscape` leaves the offset on the rune after the four
digits and the loop of `scanString` then steps over it. When the escape ends the
literal, the closing quote is stepped over and `Scan` fails with `unexpected
EOF`. An escape that is cut short, has a digit that is not hexadecimal, or
denotes a surrogate makes `Scan` return an error. -/
theorem Scan_unicode_escape_skips_rune :
    (Scanner.new "\"a\\u0041bc\"").Scan sampleTokens plainLib =
      .ok (⟨sampleTokens.STRING, "aAc", ⟨1, 1⟩, none⟩, ⟨runes "\"a\\u0041bc\"", 11, 0, 0⟩) ∧
    (Scanner.new "\"\\u0041\"").Scan sampleTokens plainLib =
      .ok (⟨sampleTokens.STRING, "", ⟨1, 1⟩, some (.text "unexpected EOF")⟩,
        ⟨runes "\"\\u0041\"", 8, 0, 0⟩) ∧
    (Scanner.new "\"\\u00\"").Scan sampleTokens plainLib =
      .ok (⟨sampleTokens.STRING, "", ⟨1, 1⟩, some (.text "incomplete Unicode escape")⟩,
        ⟨runes "\"\\u00\"", 3, 0, 0⟩) ∧
    (Scanner.new "\"\\u00zz\"").Scan sampleTokens plainLib =
      .ok (⟨sampleTokens.STRING, "", ⟨1, 1⟩,
          some (.text "invalid Unicode escape \\u00zz")⟩, ⟨runes "\"\\u00zz\"", 7, 0, 0⟩) ∧
    (Scanner.new "\"\\uD800\"").Scan sampleTokens plainLib =
      .ok (⟨sampleTokens.STRING, "", ⟨1, 1⟩, some (.text "invalid Unicode rune \\uD800")⟩,
        ⟨runes "\"\\uD800\"", 7, 0, 0⟩) :=
  ⟨rfl, rfl, rfl, rfl, rfl⟩

/-- C18. `Init` replaces the source and nothing else: a scanner that has read
the two lines of `a`, newline, `b` to the end by three calls of `Scan` (offset
3, line 1, line head 2) and is given the source `x` by `Init` returns EOF at
position 2:2 from the next `Scan`, where a new scanner over `x` returns the
identifier at 1:1. -/
theorem Init_keeps_offset_and_line :
    Scanned sampleTokens plainLib "a\nb" ⟨runes "a\nb", 3, 2, 1⟩ ∧
    Scanner.Init ⟨runes "a\nb", 3, 2, 1⟩ "x" = ⟨runes "x", 3, 2, 1⟩ ∧
    (Scanner.Init ⟨runes "a\nb", 3, 2, 1⟩ "x").Scan sampleTokens plainLib =
      .ok (⟨EOF, "", ⟨2, 2⟩, none⟩, ⟨runes "x", 3, 2, 1⟩) ∧
    (Scanner.new "x").Scan sampleTokens plainLib =
      .ok (⟨sampleTokens.IDENT, "x", ⟨1, 1⟩, none⟩, ⟨runes "x", 1, 0, 0⟩) :=
  ⟨.scan ⟨runes "a\nb", 2, 2, 1⟩ ⟨runes "a\nb", 3, 2, 1⟩ ⟨sampleTokens.IDENT, "b", ⟨2, 1⟩, none⟩
      (.scan ⟨runes "a\nb", 1, 0, 0⟩ ⟨runes "a\nb", 2, 2, 1⟩ ⟨10, "\n", ⟨1, 2⟩, none⟩
        (.scan (Scanner.new "a\nb") ⟨runes "a\nb", 1, 0, 0⟩
          ⟨sampleTokens.IDENT, "a", ⟨1, 1⟩, none⟩ .fresh rfl rfl) rfl rfl) rfl rfl,
   rfl, rfl, rfl⟩

/-! ## The scanner on identifiers and reserved words -/

theorem split_getElem (pre post : List Int) (c : Int) :
    (pre ++ c :: post)[pre.length]? = some c := by
  rw [List.getElem?_append_right (le_refl _)]
  simp

/-- At the boundary of a split of the source, `peek` returns the first rune of
the second part, or EOF when that part is empty. -/
theorem Scanner.peek_split (src pre post : List Int) (lh ln : Int) (h : src = pre ++ post) :
    Scanner.peek ⟨src, (pre.length : Nat), lh, ln⟩ = .ok (post.head?.getD EOF) := by
  subst h
  cases post with
  | nil =>
    rw [List.append_nil]
    exact Scanner.peek_end pre pre.length lh ln (le_refl _)
  | cons c post =>
    simpa using Scanner.peek_lt (pre ++ c :: post) pre.length lh ln c (split_getElem pre post c)

/-- `next` over a rune that is no newline, at the boundary of a split. -/
theorem Scanner.next_split (src pre post : List Int) (c : Int) (lh ln : Int)
    (h : src = pre ++ c :: post) (hc : c ≠ 10) :
    Scanner.next ⟨src, (pre.length : Nat), lh, ln⟩ = .ok ⟨src, (pre.length + 1 : Nat), lh, ln⟩ := by
  subst h
  exact Scanner.next_lt (pre ++ c :: post) pre.length lh ln c (split_getElem pre post c) hc

theorem isBlank_ne_newline {r : Int} (h : isBlank r = true) : r ≠ 10 := by
  simp only [isBlank, Bool.or_eq_true, decide_eq_true_eq] at h
  omega

/-- `skipBlank` over a run of blanks stops at the first rune that is not blank. -/
theorem Scanner.skipBlankLoop_blanks (lh ln : Int) :
    ∀ (bl pre post src : List Int) (fuel : Nat), src = pre ++ (bl ++ post) →
      (∀ r ∈ bl, isBlank r = true) → isBlank (post.head?.getD EOF) = false →
      bl.length < fuel →
      Scanner.skipBlankLoop fuel ⟨src, (pre.length : Nat), lh, ln⟩ =
        .ok ⟨src, (pre.length + bl.length : Nat), lh, ln⟩ := by
  intro bl
  induction bl with
  | nil =>
    intro pre post src fuel hsrc _ hpost hf
    obtain ⟨f, rfl⟩ : ∃ f, fuel = f + 1 := ⟨fuel - 1, by simp at hf; omega⟩
    have hp := Scanner.peek_split src pre post lh ln (by simpa using hsrc)
    simp [Scanner.skipBlankLoop, hp, hpost, bind, Except.bind, pure, Except.pure]
  | cons c bl ih =>
    intro pre post src fuel hsrc hbl hpost hf
    obtain ⟨f, rfl⟩ : ∃ f, fuel = f + 1 := ⟨fuel - 1, by simp at hf; omega⟩
    have hc : isBlank c = true := hbl c (by simp)
    have hp := Scanner.peek_split src pre (c :: (bl ++ post)) lh ln (by simpa using hsrc)
    have hn := Scanner.next_split src pre (bl ++ post) c lh ln (by simpa using hsrc)
      (isBlank_ne_newline hc)
    have hrec := ih (pre ++ [c]) post src f (by simpa using hsrc)
      (fun r hr => hbl r (by simp [hr])) hpost (by simp at hf; omega)
    simp only [List.length_append, List.length_singleton] at hrec
    rw [Scanner.skipBlankLoop]
    simp only [hp, List.head?_cons, Option.getD_some, hc, hn, bind, Except.bind, if_true]
    rw [hrec]
    simp only [List.length_cons]
    congr 3
    omega

theorem isIdent_ne_newline (L : Lib) {r : Int} (h : isLetter L r = true ∨ isDigit r = true) :
    r ≠ 10 := by
  rintro rfl
  rcases h with h | h
  · simp [isLetter, unicodeIsLetter, latin1Letter] at h
  · simp [isDigit] at h

/-- The loop of `scanIdentifier` over a run of letters and digits stops at the
first rune that is neither. -/
theorem Scanner.scanIdentifierLoop_run (L : Lib) (lh ln : Int) :
    ∀ (id pre post src ret : List Int) (fuel : Nat), src = pre ++ (id ++ post) →
      (∀ r ∈ id, isLetter L r = true ∨ isDigit r = true) →
      isLetter L (post.head?.getD EOF) = false → isDigit (post.head?.getD EOF) = false →
      id.length < fuel →
      Scanner.scanIdentifierLoop L fuel ⟨src, (pre.length : Nat), lh, ln⟩ ret =
        .ok (ret ++ id, ⟨src, (pre.length + id.length : Nat), lh, ln⟩) := by
  intro id
  induction id with
  | nil =>
    intro pre post src ret fuel hsrc _ hpl hpd hf
    obtain ⟨f, rfl⟩ : ∃ f, fuel = f + 1 := ⟨fuel - 1, by simp at hf; omega⟩
    have hp := Scanner.peek_split src pre post lh ln (by simpa using hsrc)
    simp [Scanner.scanIdentifierLoop, hp, hpl, hpd, bind, Except.bind, pure, Except.pure]
  | cons c id ih =>
    intro pre post src ret fuel hsrc hid hpl hpd hf
    obtain ⟨f, rfl⟩ : ∃ f, fuel = f + 1 := ⟨fuel - 1, by simp at hf; omega⟩
    have hc := hid c (by simp)
    have hp := Scanner.peek_split src pre (c :: (id ++ post)) lh ln (by simpa using hsrc)
    have hn := Scanner.next_split src pre (id ++ post) c lh ln (by simpa using hsrc)
      (isIdent_ne_newline L hc)
    have hrec := ih (pre ++ [c]) post src (ret ++ [c]) f (by simpa using hsrc)
      (fun r hr => hid r (by simp [hr])) hpl hpd (by simp at hf; omega)
    simp only [List.length_append, List.length_singleton] at hrec
    have hcond : (!isLetter L c && !isDigit c) = false := by
      rcases hc with hc | hc <;> simp [hc]
    rw [Scanner.scanIdentifierLoop]
    simp only [hp, List.head?_cons, Option.getD_some, hcond, hn, bind, Except.bind]
    simp only [Bool.false_eq_true, if_false]
    rw [hrec]
    simp only [List.length_cons, List.append_assoc, List.singleton_append]
    congr 3
    omega


theorem opName_words (T : Tokens) : (opName T).map Prod.fst = reservedWords := rfl

/-- Every entry of `opName` is found by its word. -/
theorem opName_lookup_mem (T : Tokens) (w : String) (k : Int) (h : (w, k) ∈ opName T) :
    (opName T).lookup w = some k := by
  simp only [opName, List.mem_cons, Prod.mk.injEq, List.mem_singleton, List.not_mem_nil,
    or_false] at h
  rcases h with ⟨rfl, rfl⟩ | ⟨rfl, rfl⟩ | ⟨rfl, rfl⟩ | ⟨rfl, rfl⟩ | ⟨rfl, rfl⟩ | ⟨rfl, rfl⟩ | ⟨rfl, rfl⟩ | ⟨rfl, rfl⟩ | ⟨rfl, rfl⟩ | ⟨rfl, rfl⟩ | ⟨rfl, rfl⟩ | ⟨rfl, rfl⟩ | ⟨rfl, rfl⟩ | ⟨rfl, rfl⟩ | ⟨rfl, rfl⟩ | ⟨rfl, rfl⟩ | ⟨rfl, rfl⟩ | ⟨rfl, rfl⟩ | ⟨rfl, rfl⟩ | ⟨rfl, rfl⟩ | ⟨rfl, rfl⟩ | ⟨rfl, rfl⟩ | ⟨rfl, rfl⟩ | ⟨rfl, rfl⟩ | ⟨rfl, rfl⟩ | ⟨rfl, rfl⟩ | ⟨rfl, rfl⟩ | ⟨rfl, rfl⟩ | ⟨rfl, rfl⟩ | ⟨rfl, rfl⟩ | ⟨rfl, rfl⟩ <;> rfl

theorem lookup_none_of_not_mem (w : String) :
    ∀ l : List (String × Int), w ∉ l.map Prod.fst → l.lookup w = none := by
  intro l
  induction l with
  | nil => intro _; rfl
  | cons p l ih =>
    intro h
    obtain ⟨a, b⟩ := p
    simp only [List.map_cons, List.mem_cons, not_or] at h
    have hne : (w == a) = false := by simpa using h.1
    simp only [List.lookup, hne]
    exact ih h.2

/-- A text that is no reserved word is not found in `opName`. -/
theorem opName_lookup_none (T : Tokens) (w : String) (h : w ∉ reservedWords) :
    (opName T).lookup w = none :=
  lookup_none_of_not_mem w (opName T) (by rw [opName_words]; exact h)

/-- `Scan` on blanks followed by a run of letters and digits that starts with a
letter. -/
theorem Scanner.Scan_identifier_run (T : Tokens) (L : Lib) (bl id post : List Int) (c : Int)
    (id' : List Int) (hid0 : id = c :: id') (hc : isLetter L c = true)
    (hbl : ∀ r ∈ bl, isBlank r = true)
    (hid : ∀ r ∈ id, isLetter L r = true ∨ isDigit r = true)
    (hpl : isLetter L (post.head?.getD EOF) = false)
    (hpd : isDigit (post.head?.getD EOF) = false) :
    Scanner.Scan T L ⟨bl ++ (id ++ post), 0, 0, 0⟩ =
      .ok (⟨((opName T).lookup (runesToString id)).getD T.IDENT, runesToString id,
          ⟨1, (bl.length : Int) + 1⟩, none⟩,
        ⟨bl ++ (id ++ post), (bl.length + id.length : Nat), 0, 0⟩) := by
  have hcb : isBlank c = false := by
    cases hb : isBlank c with
    | false => rfl
    | true =>
      exfalso
      simp only [isBlank, Bool.or_eq_true, decide_eq_true_eq] at hb
      rcases hb with (rfl | rfl) | rfl <;> simp [isLetter, unicodeIsLetter, latin1Letter] at hc
  have hsb := Scanner.skipBlankLoop_blanks 0 0 bl [] (id ++ post) (bl ++ (id ++ post))
    (Scanner.bound ⟨bl ++ (id ++ post), 0, 0, 0⟩) (by simp)
    hbl (by simp [hid0, hcb]) (by simp [Scanner.bound]; omega)
  simp only [List.length_nil, Nat.cast_zero, Nat.zero_add] at hsb
  have hp := Scanner.peek_split (bl ++ (id ++ post)) bl (id ++ post) 0 0 rfl
  have hloop := Scanner.scanIdentifierLoop_run L 0 0 id bl post (bl ++ (id ++ post)) []
    (Scanner.bound ⟨bl ++ (id ++ post), (bl.length : Nat), 0, 0⟩) rfl hid hpl hpd
    (by simp [Scanner.bound]; omega)
  simp only [List.nil_append] at hloop
  have hh : (id ++ post).head?.getD EOF = c := by simp [hid0]
  rw [hh] at hp
  simp only [Scanner.Scan, Scanner.bound, Scanner.scanLoop, Scanner.scanPass, Scanner.skipBlank,
    bind, Except.bind] at hsb hloop ⊢
  simp only [hsb, hp, hc, if_true, Scanner.scanIdentifier, Scanner.bound, hloop, bind,
    Except.bind, pure, Except.pure, Option.isSome_none, Bool.false_eq_true, if_false, Scanner.pos]
  cases hlk : (opName T).lookup (runesToString id) <;> simp


theorem isLetter_or_digit_EOF (L : Lib) : isIdentRune L EOF = false := by
  have := isLetter_EOF L
  simp [isIdentRune, this]
  decide

/-- C15, amended. Keywords versus identifiers: for every source whose first
rune that is not blank (space, tab, carriage return) is a letter or underscore,
`Scan` on a fresh scanner returns no error and `lit` equal to the maximal run of
letters, digits and underscores starting there, leaves the offset just past that
run (the blanks skipped plus the length of `lit`), and returns the token that
`opName` maps `lit` to when `lit` is one of the 31 reserved words and IDENT for
every other `lit`. -/
theorem Scan_keyword_or_identifier (T : Tokens) (L : Lib) (src : List Int) (c : Int)
    (hfirst : (src.dropWhile isBlank).head? = some c) (hc : isLetter L c = true) :
    ∃ r s', Scanner.Scan T L ⟨src, 0, 0, 0⟩ = .ok (r, s') ∧ r.err = none ∧
      r.lit = runesToString ((src.dropWhile isBlank).takeWhile (isIdentRune L)) ∧
      s'.offset = (((src.takeWhile isBlank).length +
        ((src.dropWhile isBlank).takeWhile (isIdentRune L)).length : Nat) : Int) ∧
      (∀ k, (r.lit, k) ∈ opName T → r.tok = k) ∧
      (r.lit ∉ reservedWords → r.tok = T.IDENT) := by
  obtain ⟨bl, hbl⟩ : ∃ bl, bl = src.takeWhile isBlank := ⟨_, rfl⟩
  obtain ⟨rest, hrest⟩ : ∃ rest, rest = src.dropWhile isBlank := ⟨_, rfl⟩
  obtain ⟨id, hid⟩ : ∃ id, id = rest.takeWhile (isIdentRune L) := ⟨_, rfl⟩
  obtain ⟨post, hpost⟩ : ∃ post, post = rest.dropWhile (isIdentRune L) := ⟨_, rfl⟩
  have h1 : src = bl ++ rest := by rw [hbl, hrest, List.takeWhile_append_dropWhile]
  have h2 : rest = id ++ post := by rw [hid, hpost, List.takeWhile_append_dropWhile]
  have hsrc : src = bl ++ (id ++ post) := by rw [h1, h2]
  have hblank : ∀ r ∈ bl, isBlank r = true := by
    intro r hr
    rw [hbl] at hr
    exact (List.mem_takeWhile_imp hr)
  have hident : ∀ r ∈ id, isLetter L r = true ∨ isDigit r = true := by
    intro r hr
    rw [hid] at hr
    have := List.mem_takeWhile_imp hr
    simpa [isIdentRune] using this
  have hpostc : isIdentRune L (post.head?.getD EOF) = false := by
    have := List.head?_dropWhile_not (isIdentRune L) rest
    rw [← hpost] at this
    cases hh : post.head? with
    | none => simpa using isLetter_or_digit_EOF L
    | some x =>
      rw [hh] at this
      simpa using this
  have hpost2 : isLetter L (post.head?.getD EOF) = false ∧ isDigit (post.head?.getD EOF) = false := by
    simpa [isIdentRune] using hpostc
  rw [← hrest] at hfirst
  obtain ⟨rest', hr'⟩ : ∃ rest', rest = c :: rest' := by
    cases rest with
    | nil => simp at hfirst
    | cons a rest' =>
      simp only [List.head?_cons, Option.some.injEq] at hfirst
      exact ⟨rest', by rw [hfirst]⟩
  have hidc : id = c :: rest'.takeWhile (isIdentRune L) := by
    rw [hid, hr', List.takeWhile_cons_of_pos (by simp [isIdentRune, hc])]
  have hscan := Scanner.Scan_identifier_run T L bl id post c _ hidc hc hblank hident
    hpost2.1 hpost2.2
  rw [← hsrc] at hscan
  rw [← hrest, ← hid, ← hbl]
  refine ⟨_, _, hscan, rfl, rfl, rfl, ?_, ?_⟩
  · intro k hk
    simp only [opName_lookup_mem T _ k hk, Option.getD_some]
  · intro hn
    simp only [opName_lookup_none T _ hn, Option.getD_none]

/-- C15 as stated fails in two details. `opName` has 31 reserved words, all
different, the 31 words that the property lists, not 30. And on the source
`  if x` the call of `Scan` moves the offset from 0 to 4, over the two blanks
and the two runes of `if`, which is not the length of `lit`. -/
theorem Scan_keyword_count_and_offset :
    (opName sampleTokens).length = 31 ∧ ((opName sampleTokens).map Prod.fst).Nodup ∧
    (opName sampleTokens).map Prod.fst = reservedWords ∧ reservedWords.length ≠ 30 ∧
    (Scanner.new "  if x").offset = 0 ∧
    Scanner.Scan sampleTokens plainLib (Scanner.new "  if x") =
      .ok (⟨sampleTokens.IF, "if", ⟨1, 3⟩, none⟩, ⟨runes "  if x", 4, 0, 0⟩) ∧
    (4 : Int) - (Scanner.new "  if x").offset ≠ ("if".length : Int) := by
  refine ⟨rfl, ?_, rfl, by decide, rfl, rfl, by decide⟩
  decide

/-- C15 at the sources `  if x` (a reserved word after two blanks) and `iff`. -/
theorem Scan_keyword_or_identifier_examples :
    (∃ r s', Scanner.Scan sampleTokens plainLib ⟨runes "  if x", 0, 0, 0⟩ = .ok (r, s') ∧
      r.err = none ∧
      r.lit = runesToString (((runes "  if x").dropWhile isBlank).takeWhile
        (isIdentRune plainLib)) ∧
      s'.offset = ((((runes "  if x").takeWhile isBlank).length +
        (((runes "  if x").dropWhile isBlank).takeWhile (isIdentRune plainLib)).length : Nat) : Int) ∧
      (∀ k, (r.lit, k) ∈ opName sampleTokens → r.tok = k) ∧
      (r.lit ∉ reservedWords → r.tok = sampleTokens.IDENT)) ∧
    Scanner.Scan sampleTokens plainLib ⟨runes "  if x", 0, 0, 0⟩ =
      .ok (⟨sampleTokens.IF, "if", ⟨1, 3⟩, none⟩, ⟨runes "  if x", 4, 0, 0⟩) ∧
    Scanner.Scan sampleTokens plainLib ⟨runes "iff", 0, 0, 0⟩ =
      .ok (⟨sampleTokens.IDENT, "iff", ⟨1, 1⟩, none⟩, ⟨runes "iff", 3, 0, 0⟩) :=
  ⟨Scan_keyword_or_identifier sampleTokens plainLib (runes "  if x") 105 rfl rfl, rfl, rfl⟩

/-! ## Backslash escapes in quoted strings -/

theorem getElem?_of_split (src pre seg post : List Int) (h : src = pre ++ (seg ++ post))
    (j : Nat) (hj : j < seg.length) : src[pre.length + j]? = some seg[j] := by
  subst h
  rw [List.getElem?_append_right (by omega)]
  simp [List.getElem?_append_left hj, List.getElem?_eq_getElem hj]

/-- The loop of `scanString` over runes that are no quote, backslash, newline or
EOF collects them. -/
theorem Scanner.scanStringLoop_seg (T : Tokens) (q : Int) (src : List Int) :
    ∀ (seg : List Int) (i : Nat) (ret : List Int) (fuel : Nat) (lh ln : Int),
      i < src.length → (∀ j (hj : j < seg.length), src[i + 1 + j]? = some seg[j]) →
      (∀ r ∈ seg, r ≠ 10 ∧ r ≠ -1 ∧ r ≠ q ∧ r ≠ 92) →
      ∃ lh' ln', Scanner.scanStringLoop T q (fuel + seg.length) ⟨src, i, lh, ln⟩ ret =
        Scanner.scanStringLoop T q fuel ⟨src, (i + seg.length : Nat), lh', ln'⟩ (ret ++ seg) := by
  intro seg
  induction seg with
  | nil =>
    intro i ret fuel lh ln _ _ _
    exact ⟨lh, ln, by simp⟩
  | cons c seg ih =>
    intro i ret fuel lh ln hi hseg hplain
    obtain ⟨lh1, ln1, hn⟩ := Scanner.next_some src i lh ln src[i] (List.getElem?_eq_getElem hi)
    have hc0 := hseg 0 (by simp)
    simp only [Nat.add_zero, List.getElem_cons_zero] at hc0
    have hi1 : i + 1 < src.length := by
      by_contra hcon
      rw [List.getElem?_eq_none (by omega)] at hc0
      cases hc0
    have hp := Scanner.peek_lt src (i + 1) lh1 ln1 c hc0
    have hpl := hplain c (by simp)
    obtain ⟨lh2, ln2, hrec⟩ := ih (i + 1) (ret ++ [c]) fuel lh1 ln1 hi1
      (fun j hj => by
        have := hseg (j + 1) (by simp; omega)
        simp only [List.getElem_cons_succ] at this
        rw [← this]
        congr 1
        omega)
      (fun r hr => hplain r (by simp [hr]))
    refine ⟨lh2, ln2, ?_⟩
    have hf : fuel + (c :: seg).length = (fuel + seg.length) + 1 := by simp; omega
    rw [hf, Scanner.scanStringLoop]
    simp only [hn, hp, bind, Except.bind, EOL, EOF, hpl.1, hpl.2.1, hpl.2.2.1, hpl.2.2.2,
      if_false]
    rw [hrec]
    simp only [List.append_assoc, List.singleton_append, List.length_cons]
    congr 3
    omega

/-- One pass of the loop of `scanString` over an escape `\x`, `x` other than
`u`. -/
theorem Scanner.scanStringLoop_escape (T : Tokens) (q : Int) (src : List Int) (i : Nat)
    (x : Int) (ret : List Int) (fuel : Nat) (lh ln : Int) (hq : q ≠ 92)
    (hi : i < src.length) (h1 : src[i + 1]? = some 92) (h2 : src[i + 2]? = some x)
    (hx : x ≠ 117) :
    ∃ lh' ln', Scanner.scanStringLoop T q (fuel + 1) ⟨src, i, lh, ln⟩ ret =
      Scanner.scanStringLoop T q fuel ⟨src, (i + 2 : Nat), lh', ln'⟩ (ret ++ [escapeRune x]) := by
  obtain ⟨lh1, ln1, hn⟩ := Scanner.next_some src i lh ln src[i] (List.getElem?_eq_getElem hi)
  have hp := Scanner.peek_lt src (i + 1) lh1 ln1 92 h1
  have hn2 := Scanner.next_lt src (i + 1) lh1 ln1 92 h1 (by decide)
  have hp2 := Scanner.peek_lt src (i + 1 + 1) lh1 ln1 x h2
  refine ⟨lh1, ln1, ?_⟩
  rw [Scanner.scanStringLoop]
  simp only [hn, hp, hn2, hp2, bind, Except.bind, EOL, EOF, hq.symm, if_false, if_true]
  simp only [show (92 : Int) ≠ 10 by decide, show (92 : Int) ≠ -1 by decide, if_false, hx]
  simp only [escapeRune]
  split_ifs <;> rfl

/-- The pass of the loop of `scanString` that meets the closing quote. -/
theorem Scanner.scanStringLoop_close (T : Tokens) (q : Int) (src : List Int) (i : Nat)
    (ret : List Int) (fuel : Nat) (lh ln : Int) (hq : q ≠ 10 ∧ q ≠ -1)
    (hi : i < src.length) (h1 : src[i + 1]? = some q) :
    ∃ lh' ln', Scanner.scanStringLoop T q (fuel + 1) ⟨src, i, lh, ln⟩ ret =
      .ok ((ret, none), ⟨src, (i + 2 : Nat), lh', ln'⟩) := by
  obtain ⟨lh1, ln1, hn⟩ := Scanner.next_some src i lh ln src[i] (List.getElem?_eq_getElem hi)
  have hp := Scanner.peek_lt src (i + 1) lh1 ln1 q h1
  have hn2 := Scanner.next_lt src (i + 1) lh1 ln1 q h1 hq.1
  refine ⟨lh1, ln1, ?_⟩
  rw [Scanner.scanStringLoop]
  simp only [hn, hp, hn2, bind, Except.bind, EOL, EOF, hq.1, hq.2, if_false, if_true, pure,
    Except.pure]

theorem escapeRune_toNat (x : Char) : runeToChar (escapeRune (x.toNat : Int)) = escapeChar x := by
  unfold escapeRune escapeChar
  by_cases h1 : x = 'b'
  · subst h1; rfl
  by_cases h2 : x = 'f'
  · subst h2; rfl
  by_cases h3 : x = 'r'
  · subst h3; rfl
  by_cases h4 : x = 'n'
  · subst h4; rfl
  by_cases h5 : x = 't'
  · subst h5; rfl
  have e1 : (x.toNat : Int) ≠ 98 := fun h => h1 (char_eq_of_toNat x 'b' h)
  have e2 : (x.toNat : Int) ≠ 102 := fun h => h2 (char_eq_of_toNat x 'f' h)
  have e3 : (x.toNat : Int) ≠ 114 := fun h => h3 (char_eq_of_toNat x 'r' h)
  have e4 : (x.toNat : Int) ≠ 110 := fun h => h4 (char_eq_of_toNat x 'n' h)
  have e5 : (x.toNat : Int) ≠ 116 := fun h => h5 (char_eq_of_toNat x 't' h)
  simp only [h1, h2, h3, h4, h5, e1, e2, e3, e4, e5, if_false]
  exact runeToChar_toNat x

/-- `Scan` on a literal in double or single quotes with one escape `\x`, `x`
other than `u`, between two texts without escape. -/
theorem Scanner.Scan_escape (T : Tokens) (L : Lib) (q x : Int) (p r : List Int)
    (hq : q = 34 ∨ q = 39) (hx : x ≠ 117)
    (hp : ∀ c ∈ p, c ≠ 10 ∧ c ≠ -1 ∧ c ≠ q ∧ c ≠ 92)
    (hr : ∀ c ∈ r, c ≠ 10 ∧ c ≠ -1 ∧ c ≠ q ∧ c ≠ 92) :
    ∃ lh ln, Scanner.Scan T L ⟨q :: (p ++ 92 :: x :: (r ++ [q])), 0, 0, 0⟩ =
      .ok (⟨T.STRING, runesToString (p ++ escapeRune x :: r), ⟨1, 1⟩, none⟩,
        ⟨q :: (p ++ 92 :: x :: (r ++ [q])), (p.length + r.length + 4 : Nat), lh, ln⟩) := by
  have hq2 : q ≠ 10 ∧ q ≠ -1 := by rcases hq with rfl | rfl <;> decide
  have hq3 : q ≠ 92 := by rcases hq with rfl | rfl <;> decide
  obtain ⟨hl, hd, hbl⟩ := isLetter_quote L q (by tauto)
  generalize hsrc : q :: (p ++ 92 :: x :: (r ++ [q])) = src
  have hlen : src.length = p.length + r.length + 4 := by
    subst hsrc; simp; omega
  have e1 : src = [q] ++ (p ++ 92 :: x :: (r ++ [q])) := by subst hsrc; simp
  have e2 : src = (q :: p) ++ ([92, x] ++ (r ++ [q])) := by subst hsrc; simp
  have e3 : src = (q :: (p ++ [92, x])) ++ (r ++ [q]) := by subst hsrc; simp
  have e4 : src = (q :: (p ++ 92 :: x :: r)) ++ ([q] ++ []) := by subst hsrc; simp
  have hp0 : Scanner.peek ⟨src, 0, 0, 0⟩ = .ok q := by
    simpa using Scanner.peek_lt src 0 0 0 q (by subst hsrc; simp)
  have hsb : Scanner.skipBlank ⟨src, 0, 0, 0⟩ = .ok ⟨src, 0, 0, 0⟩ := by
    simp [Scanner.skipBlank, Scanner.bound, Scanner.skipBlankLoop, hp0, hbl,
      bind, Except.bind, pure, Except.pure]
  -- the text before the escape
  obtain ⟨lh1, ln1, h1⟩ := Scanner.scanStringLoop_seg T q src p 0 [] (r.length + 5) 0 0
    (by omega)
    (fun j hj => by
      have := getElem?_of_split src [q] p _ e1 j hj
      simpa [Nat.add_comm] using this)
    hp
  -- the escape
  obtain ⟨lh2, ln2, h2⟩ := Scanner.scanStringLoop_escape T q src (0 + p.length) x ([] ++ p)
    (r.length + 4) lh1 ln1 hq3 (by omega)
    (by
      have := getElem?_of_split src (q :: p) [92, x] _ e2 0 (by simp)
      simpa [Nat.add_comm] using this)
    (by
      have := getElem?_of_split src (q :: p) [92, x] _ e2 1 (by simp)
      simpa [Nat.add_comm, Nat.add_left_comm] using this)
    hx
  -- the text after the escape
  obtain ⟨lh3, ln3, h3⟩ := Scanner.scanStringLoop_seg T q src r (0 + p.length + 2)
    ([] ++ p ++ [escapeRune x]) 4 lh2 ln2 (by omega)
    (fun j hj => by
      have := getElem?_of_split src (q :: (p ++ [92, x])) r _ e3 j hj
      rw [← this]
      congr 1
      simp)
    hr
  -- the closing quote
  obtain ⟨lh4, ln4, h4⟩ := Scanner.scanStringLoop_close T q src (0 + p.length + 2 + r.length)
    ([] ++ p ++ [escapeRune x] ++ r) 3 lh3 ln3 hq2 (by omega)
    (by
      have : src[(q :: (p ++ 92 :: x :: r)).length + 0]? = some q :=
        getElem?_of_split src (q :: (p ++ 92 :: x :: r)) [q] _ e4 0 (by simp)
      rw [← this]
      congr 1
      simp
      omega)
  have hfuel : Scanner.bound ⟨src, 0, 0, 0⟩ = r.length + 5 + p.length := by
    show src.length + 1 = _
    omega
  have hloop : Scanner.scanStringLoop T q (Scanner.bound ⟨src, 0, 0, 0⟩) ⟨src, 0, 0, 0⟩ [] =
      .ok ((p ++ escapeRune x :: r, none),
        ⟨src, (p.length + r.length + 4 : Nat), lh4, ln4⟩) := by
    rw [hfuel]
    have h1' := h1
    simp only [Nat.cast_zero] at h1'
    rw [h1', h2]
    have h3' : r.length + 4 = 4 + r.length := by omega
    rw [h3', h3, h4]
    simp
    omega
  have hstr : Scanner.scanString T q ⟨src, 0, 0, 0⟩ =
      .ok ((runesToString (p ++ escapeRune x :: r), none),
        ⟨src, (p.length + r.length + 4 : Nat), lh4, ln4⟩) := by
    simp only [Scanner.scanString, hloop, bind, Except.bind, Option.isSome_none,
      Bool.false_eq_true, if_false, pure, Except.pure]
  refine ⟨lh4, ln4, ?_⟩
  rcases hq with rfl | rfl
  · simp [Scanner.Scan, Scanner.bound, Scanner.scanLoop, Scanner.scanPass, hsb, hp0, hl, hd,
      hstr, Scanner.pos, bind, Except.bind, pure, Except.pure]
  · simp [Scanner.Scan, Scanner.bound, Scanner.scanLoop, Scanner.scanPass, hsb, hp0, hl, hd,
      hstr, Scanner.pos, bind, Except.bind, pure, Except.pure]

/-- C16. Backslash escapes in quoted strings: for a quote `q` that is the double
or the single quote, texts `p` and `r` without `q`, backslash and newline, and a
character `x` other than `u`, `Scan` on a new scanner over `q p \x r q` returns
a STRING token at line 1, column 1 with no error whose value is `p c r`, where
`c` is backspace, form feed, carriage return, newline or tab when `x` is `b`,
`f`, `r`, `n` or `t` and `x` itself otherwise, and leaves the offset just past
the closing quote; so an escaped backslash stands for one backslash and an
escaped quote for the quote. -/
theorem Scan_backslash_escape (T : Tokens) (L : Lib) (q x : Char) (p r : String)
    (hq : q = '"' ∨ q = '\'') (hx : x ≠ 'u')
    (hp : ∀ c ∈ p.toList, c ≠ q ∧ c ≠ '\\' ∧ c ≠ '\n')
    (hr : ∀ c ∈ r.toList, c ≠ q ∧ c ≠ '\\' ∧ c ≠ '\n') :
    (∃ s', Scanner.Scan T L
        (Scanner.new (String.mk (q :: (p.toList ++ '\\' :: x :: (r.toList ++ [q]))))) =
          .ok (⟨T.STRING, String.mk (p.toList ++ escapeChar x :: r.toList), ⟨1, 1⟩, none⟩, s') ∧
        s'.offset = ((p.length + r.length + 4 : Nat) : Int)) ∧
    escapeChar '\\' = '\\' ∧ escapeChar q = q := by
  have hq' : (q.toNat : Int) = 34 ∨ (q.toNat : Int) = 39 := by
    rcases hq with rfl | rfl
    · left; rfl
    · right; rfl
  have hx' : (x.toNat : Int) ≠ 117 := fun h => hx (char_eq_of_toNat x 'u' h)
  have hlen : ∀ t : String, (runes t).length = t.length := by
    intro t
    unfold runes
    rw [List.length_map]
    rfl
  have hnew : Scanner.new (String.mk (q :: (p.toList ++ '\\' :: x :: (r.toList ++ [q])))) =
      ⟨(q.toNat : Int) :: (runes p ++ 92 :: (x.toNat : Int) :: (runes r ++ [(q.toNat : Int)])),
        0, 0, 0⟩ := by
    simp [Scanner.new, runes]
  have hlit : runesToString (runes p ++ escapeRune (x.toNat : Int) :: runes r) =
      String.mk (p.toList ++ escapeChar x :: r.toList) := by
    simp only [runesToString, runes, List.map_append, List.map_cons, List.map_map,
      escapeRune_toNat]
    have : (runeToChar ∘ fun c : Char => (c.toNat : Int)) = id := by
      funext c
      exact runeToChar_toNat c
    rw [this, List.map_id, List.map_id]
  obtain ⟨lh, ln, hs⟩ := Scanner.Scan_escape T L (q.toNat : Int) (x.toNat : Int) (runes p)
    (runes r) hq' hx' (runes_plain p q hp) (runes_plain r q hr)
  rw [hlit, hlen, hlen] at hs
  refine ⟨⟨_, by rw [hnew]; exact hs, rfl⟩, rfl, ?_⟩
  rcases hq with rfl | rfl <;> rfl

/-- C16 at the literals `"a\nb"`, `"say \"hi\""` and `'\\'`. -/
theorem Scan_backslash_escape_examples :
    (∃ s', Scanner.Scan sampleTokens plainLib (Scanner.new "\"a\\nb\"") =
        .ok (⟨sampleTokens.STRING, "a\nb", ⟨1, 1⟩, none⟩, s') ∧ s'.offset = 6) ∧
    (∃ s', Scanner.Scan sampleTokens plainLib (Scanner.new "'\\\\'") =
        .ok (⟨sampleTokens.STRING, "\\", ⟨1, 1⟩, none⟩, s') ∧ s'.offset = 4) :=
  ⟨(Scan_backslash_escape sampleTokens plainLib '"' 'n' "a" "b" (Or.inl rfl) (by decide)
      (by decide) (by decide)).1,
   (Scan_backslash_escape sampleTokens plainLib '\'' '\\' "" "" (Or.inr rfl) (by decide)
      (by decide) (by decide)).1⟩

/-! ## Scanners that keep exact count of lines -/

theorem take_succ_getElem (src : List Int) (i : Nat) (c : Int) (h : src[i]? = some c) :
    src.take (i + 1) = src.take i ++ [c] := by
  rw [List.take_succ, h]
  rfl

theorem newlinesBefore_succ (src : List Int) (i : Nat) (c : Int) (h : src[i]? = some c) :
    newlinesBefore src (i + 1) = newlinesBefore src i + (if c = 10 then 1 else 0) := by
  unfold newlinesBefore
  rw [take_succ_getElem src i c h, List.count_append]
  by_cases hc : c = 10
  · subst hc; simp
  · have : ¬ (10 : Int) = c := fun h => hc h.symm
    simp [hc, List.count_cons, this]

theorem runesSinceNewline_succ (src : List Int) (i : Nat) (c : Int) (h : src[i]? = some c) :
    runesSinceNewline src (i + 1) = if c = 10 then 0 else runesSinceNewline src i + 1 := by
  unfold runesSinceNewline
  rw [take_succ_getElem src i c h, List.reverse_append]
  by_cases hc : c = 10
  · subst hc; simp
  · simp [hc, List.takeWhile_cons]

theorem runesSinceNewline_le (src : List Int) (i : Nat) : runesSinceNewline src i ≤ i := by
  unfold runesSinceNewline
  refine le_trans (List.Sublist.length_le (List.takeWhile_sublist _)) ?_
  rw [List.length_reverse, List.length_take]
  exact Nat.min_le_left _ _

theorem Scanner.atOffset_zero (src : List Int) : Scanner.atOffset src 0 = ⟨src, 0, 0, 0⟩ := by
  simp [Scanner.atOffset, runesSinceNewline, newlinesBefore]

theorem Scanner.peek_atOffset (src : List Int) (i : Nat) :
    (Scanner.atOffset src i).peek = .ok (src[i]?.getD EOF) := by
  unfold Scanner.atOffset
  cases h : src[i]? with
  | none =>
    have : src.length ≤ i := by
      by_contra hcon
      rw [List.getElem?_eq_getElem (by omega)] at h
      cases h
    exact Scanner.peek_end src i _ _ this
  | some c => exact Scanner.peek_lt src i _ _ c h

theorem Scanner.next_atOffset (src : List Int) (i : Nat) (c : Int) (h : src[i]? = some c) :
    (Scanner.atOffset src i).next = .ok (Scanner.atOffset src (i + 1)) := by
  have hi : i < src.length := by
    by_contra hcon
    rw [List.getElem?_eq_none (by omega)] at h
    cases h
  have hp := Scanner.peek_atOffset src i
  rw [h] at hp
  have hr : (Scanner.atOffset src i).reachEOF = false := by
    simp [Scanner.reachEOF, Scanner.atOffset]; omega
  have hle := runesSinceNewline_le src i
  simp only [Scanner.next, hr, hp, bind, Except.bind, pure, Except.pure, Bool.not_false, if_true,
    Option.getD_some]
  simp only [Scanner.atOffset, newlinesBefore_succ src i c h, runesSinceNewline_succ src i c h]
  by_cases hc : c = 10
  · simp [hc]
  · simp [hc]

theorem Scanner.next_atOffset_end (src : List Int) :
    (Scanner.atOffset src src.length).next = .ok (Scanner.atOffset src src.length) := by
  have hr : (Scanner.atOffset src src.length).reachEOF = true := by
    simp [Scanner.reachEOF, Scanner.atOffset]
  simp [Scanner.next, hr, pure, Except.pure]

theorem Scanner.back_atOffset (src : List Int) (i : Nat) (c : Int) (h : src[i]? = some c)
    (hc : c ≠ 10) : (Scanner.atOffset src (i + 1)).back = Scanner.atOffset src i := by
  simp only [Scanner.back, Scanner.atOffset, newlinesBefore_succ src i c h,
    runesSinceNewline_succ src i c h, hc, if_false]
  simp

/-- `next` keeps a scanner exact. -/
theorem Scanner.next_After (src : List Int) (i : Nat) (hi : i ≤ src.length) :
    ∃ j, i ≤ j ∧ j ≤ i + 1 ∧ j ≤ src.length ∧ (i < src.length → j = i + 1) ∧
      (Scanner.atOffset src i).next = .ok (Scanner.atOffset src j) := by
  by_cases h : i < src.length
  · exact ⟨i + 1, by omega, by omega, by omega, fun _ => rfl,
      Scanner.next_atOffset src i src[i] (List.getElem?_eq_getElem h)⟩
  · have : i = src.length := by omega
    subst this
    exact ⟨src.length, le_refl _, by omega, le_refl _, fun h' => absurd h' h,
      Scanner.next_atOffset_end src⟩

theorem Scanner.After.mono {src : List Int} {i j : Nat} {s : Scanner} (hij : i ≤ j)
    (h : Scanner.After src j s) : Scanner.After src i s := by
  obtain ⟨k, h1, h2, h3⟩ := h
  exact ⟨k, by omega, h2, h3⟩

theorem Scanner.After.refl (src : List Int) (i : Nat) (hi : i ≤ src.length) :
    Scanner.After src i (Scanner.atOffset src i) := ⟨i, le_refl _, hi, rfl⟩

/-- `skipBlank` keeps a scanner exact and stops at a rune that is not blank. -/
theorem Scanner.skipBlankLoop_After (src : List Int) :
    ∀ (fuel i : Nat) (s' : Scanner), i ≤ src.length →
      Scanner.skipBlankLoop fuel (Scanner.atOffset src i) = .ok s' →
      ∃ j, i ≤ j ∧ j ≤ src.length ∧ s' = Scanner.atOffset src j ∧
        isBlank (src[j]?.getD EOF) = false := by
  intro fuel
  induction fuel with
  | zero => intro i s' _ h; simp [Scanner.skipBlankLoop] at h
  | succ f ih =>
    intro i s' hi h
    rw [Scanner.skipBlankLoop] at h
    simp only [Scanner.peek_atOffset, bind, Except.bind] at h
    obtain ⟨j, h1, _, h3, _, hn⟩ := Scanner.next_After src i hi
    by_cases hb : isBlank (src[i]?.getD EOF) = true
    · simp only [hb, if_true, hn] at h
      obtain ⟨k, hk1, hk2, hk3, hk4⟩ := ih j s' h3 h
      exact ⟨k, by omega, hk2, hk3, hk4⟩
    · simp only [hb, Bool.false_eq_true, if_false, pure, Except.pure, Except.ok.injEq] at h
      exact ⟨i, le_refl _, hi, h.symm, by simpa using hb⟩

theorem Scanner.scanIdentifierLoop_After (L : Lib) (src : List Int) :
    ∀ (fuel i : Nat) (ret ret' : List Int) (s' : Scanner), i ≤ src.length →
      Scanner.scanIdentifierLoop L fuel (Scanner.atOffset src i) ret = .ok (ret', s') →
      Scanner.After src i s' := by
  intro fuel
  induction fuel with
  | zero => intro i ret ret' s' _ h; simp [Scanner.scanIdentifierLoop] at h
  | succ f ih =>
    intro i ret ret' s' hi h
    rw [Scanner.scanIdentifierLoop] at h
    simp only [Scanner.peek_atOffset, bind, Except.bind] at h
    obtain ⟨j, h1, _, h3, _, hn⟩ := Scanner.next_After src i hi
    split_ifs at h with hb
    · simp only [pure, Except.pure, Except.ok.injEq, Prod.mk.injEq] at h
      exact ⟨i, le_refl _, hi, h.2.symm⟩
    · simp only [hn] at h
      exact (ih j _ ret' s' h3 h).mono h1

theorem Scanner.scanHexLoop_After (src : List Int) :
    ∀ (fuel i : Nat) (ret ret' : List Int) (s' : Scanner), i ≤ src.length →
      Scanner.scanHexLoop fuel (Scanner.atOffset src i) ret = .ok (ret', s') →
      Scanner.After src i s' := by
  intro fuel
  induction fuel with
  | zero => intro i ret ret' s' _ h; simp [Scanner.scanHexLoop] at h
  | succ f ih =>
    intro i ret ret' s' hi h
    rw [Scanner.scanHexLoop] at h
    simp only [Scanner.peek_atOffset, bind, Except.bind] at h
    obtain ⟨j, h1, _, h3, _, hn⟩ := Scanner.next_After src i hi
    split_ifs at h with hb
    · simp only [hn] at h
      exact (ih j _ ret' s' h3 h).mono h1
    · simp only [pure, Except.pure, Except.ok.injEq, Prod.mk.injEq] at h
      exact ⟨i, le_refl _, hi, h.2.symm⟩

theorem Scanner.skipLineLoop_After (src : List Int) :
    ∀ (fuel i : Nat) (s' : Scanner), i ≤ src.length →
      Scanner.skipLineLoop fuel (Scanner.atOffset src i) = .ok s' →
      Scanner.After src i s' := by
  intro fuel
  induction fuel with
  | zero => intro i s' _ h; simp [Scanner.skipLineLoop] at h
  | succ f ih =>
    intro i s' hi h
    rw [Scanner.skipLineLoop] at h
    simp only [Scanner.peek_atOffset, bind, Except.bind] at h
    obtain ⟨j, h1, _, h3, _, hn⟩ := Scanner.next_After src i hi
    split_ifs at h with hb
    · simp only [hn] at h
      exact (ih j s' h3 h).mono h1
    · simp only [pure, Except.pure, Except.ok.injEq] at h
      exact ⟨i, le_refl _, hi, h.symm⟩

/-- The loop over a line comment from a rune that does not end the line moves
on. -/
theorem Scanner.skipLineLoop_step (src : List Int) (fuel j : Nat) (s' : Scanner) (c : Int)
    (hj : src[j]? = some c) (hc : isEOL c = false)
    (h : Scanner.skipLineLoop fuel (Scanner.atOffset src j) = .ok s') :
    Scanner.After src (j + 1) s' := by
  have hjl : j < src.length := by
    by_contra hcon
    rw [List.getElem?_eq_none (by omega)] at hj
    cases hj
  cases fuel with
  | zero => simp [Scanner.skipLineLoop] at h
  | succ f =>
    rw [Scanner.skipLineLoop] at h
    simp only [Scanner.peek_atOffset, hj, Option.getD_some, hc, Bool.not_false, if_true,
      Scanner.next_atOffset src j c hj, bind, Except.bind] at h
    exact Scanner.skipLineLoop_After src f (j + 1) s' (by omega) h

theorem Scanner.scanDecLoop_After (src : List Int) :
    ∀ (fuel i : Nat) (found : Bool) (ret : List Int) (res : List Int × Option Error)
      (s' : Scanner), i ≤ src.length →
      Scanner.scanDecLoop fuel (Scanner.atOffset src i) found ret = .ok (res, s') →
      Scanner.After src i s' := by
  intro fuel
  induction fuel with
  | zero => intro i found ret res s' _ h; simp [Scanner.scanDecLoop] at h
  | succ f ih =>
    intro i found ret res s' hi h
    rw [Scanner.scanDecLoop] at h
    simp only [Scanner.peek_atOffset, bind, Except.bind] at h
    obtain ⟨j, h1, _, h3, _, hn⟩ := Scanner.next_After src i hi
    obtain ⟨k, k1, _, k3, _, kn⟩ := Scanner.next_After src j h3
    simp only [hn, Scanner.peek_atOffset, kn] at h
    split_ifs at h
    all_goals first
      | exact (ih j _ _ res s' h3 h).mono h1
      | exact (ih k _ _ res s' k3 h).mono (by omega)
      | (simp only [pure, Except.pure, Except.ok.injEq, Prod.mk.injEq] at h
         exact ⟨i, le_refl _, hi, h.2.symm⟩)

theorem Scanner.scanNumber_After (L : Lib) (src : List Int) (i : Nat)
    (res : String × Option Error) (s' : Scanner) (hi : i ≤ src.length)
    (h : Scanner.scanNumber L (Scanner.atOffset src i) = .ok (res, s')) :
    Scanner.After src i s' := by
  unfold Scanner.scanNumber at h
  obtain ⟨j, h1, _, h3, _, hn⟩ := Scanner.next_After src i hi
  obtain ⟨k, k1, _, k3, _, kn⟩ := Scanner.next_After src j h3
  simp only [Scanner.peek_atOffset, hn, kn, bind, Except.bind, List.singleton_append] at h
  split_ifs at h with hc
  · cases hx : Scanner.scanHexLoop (Scanner.atOffset src k).bound (Scanner.atOffset src k)
        [src[i]?.getD EOF, 120] with
    | error e => simp [hx] at h
    | ok v =>
      obtain ⟨r2, s2⟩ := v
      obtain ⟨m, m1, m2, rfl⟩ := Scanner.scanHexLoop_After src _ k _ r2 s2 k3 hx
      simp only [hx, pure, Except.pure, Option.isSome_none, Bool.false_eq_true, if_false,
        Scanner.peek_atOffset] at h
      split_ifs at h
      all_goals
        simp only [Except.ok.injEq, Prod.mk.injEq] at h
        exact ⟨m, by omega, m2, h.2.symm⟩
  · cases hx : Scanner.scanDecLoop (Scanner.atOffset src j).bound (Scanner.atOffset src j) false
        [src[i]?.getD EOF] with
    | error e => simp [hx] at h
    | ok v =>
      obtain ⟨⟨r2, e2⟩, s2⟩ := v
      obtain ⟨m, m1, m2, rfl⟩ := Scanner.scanDecLoop_After src _ j _ _ (r2, e2) s2 h3 hx
      simp only [hx, pure, Except.pure, Scanner.peek_atOffset] at h
      split_ifs at h
      all_goals
        simp only [Except.ok.injEq, Prod.mk.injEq] at h
        exact ⟨m, by omega, m2, h.2.symm⟩

/-- When `scanRawString` finds the closing rune, the scanner is exact and stands
just after that rune. -/
theorem Scanner.scanRawStringLoop_After (l : Int) (src : List Int) :
    ∀ (fuel i : Nat) (ret ret' : List Int) (s' : Scanner), i ≤ src.length →
      Scanner.scanRawStringLoop l fuel (Scanner.atOffset src i) ret = .ok ((ret', none), s') →
      ∃ k, i < k ∧ src[k]? = some l ∧ s' = Scanner.atOffset src (k + 1) := by
  intro fuel
  induction fuel with
  | zero => intro i ret ret' s' _ h; simp [Scanner.scanRawStringLoop] at h
  | succ f ih =>
    intro i ret ret' s' hi h
    rw [Scanner.scanRawStringLoop] at h
    obtain ⟨j, h1, _, h3, h4, hn⟩ := Scanner.next_After src i hi
    simp only [hn, Scanner.peek_atOffset, bind, Except.bind] at h
    split_ifs at h with he hl
    · simp [pure, Except.pure] at h
    · cases hj : src[j]? with
      | none => rw [hj] at he; exact absurd rfl he
      | some c =>
        rw [hj] at hl
        simp only [Option.getD_some] at hl
        subst hl
        rw [Scanner.next_atOffset src j _ hj] at h
        simp only [pure, Except.pure, Except.ok.injEq, Prod.mk.injEq] at h
        have hjl : j < src.length := by
          by_contra hcon
          rw [List.getElem?_eq_none (by omega)] at hj
          cases hj
        exact ⟨j, by omega, hj, h.2.symm⟩
    · obtain ⟨k, k1, k2, k3⟩ := ih j _ ret' s' h3 h
      exact ⟨k, by omega, k2, k3⟩

theorem Scanner.scanRawString_After (l : Int) (src : List Int) (i : Nat) (lit : String)
    (s' : Scanner) (hi : i ≤ src.length)
    (h : Scanner.scanRawString l (Scanner.atOffset src i) = .ok ((lit, none), s')) :
    ∃ k, i < k ∧ src[k]? = some l ∧ s' = Scanner.atOffset src (k + 1) := by
  unfold Scanner.scanRawString at h
  cases hx : Scanner.scanRawStringLoop l (Scanner.atOffset src i).bound (Scanner.atOffset src i) []
    with
  | error e => simp [hx, bind, Except.bind] at h
  | ok v =>
    obtain ⟨⟨r2, e2⟩, s2⟩ := v
    simp only [hx, bind, Except.bind] at h
    cases e2 with
    | some e => simp [pure, Except.pure] at h
    | none =>
      simp only [Option.isSome_none, Bool.false_eq_true, if_false, pure, Except.pure,
        Except.ok.injEq, Prod.mk.injEq] at h
      obtain ⟨k, k1, k2, k3⟩ := Scanner.scanRawStringLoop_After l src _ i [] r2 s2 hi hx
      exact ⟨k, k1, k2, by rw [← h.2]; exact k3⟩

/-- Moving the offset over runes that are no newline keeps a scanner exact. -/
theorem Scanner.atOffset_skip (src : List Int) (i : Nat) :
    ∀ k, (∀ j, j < k → ∃ c, src[i + j]? = some c ∧ c ≠ 10) →
      Scanner.atOffset src (i + k) = { Scanner.atOffset src i with offset := ((i + k : Nat) : Int) } := by
  intro k
  induction k with
  | zero => intro _; rfl
  | succ k ih =>
    intro h
    obtain ⟨c, hc, hne⟩ := h k (by omega)
    have e := ih (fun j hj => h j (by omega))
    have hb := Scanner.back_atOffset src (i + k) c hc hne
    rw [e] at hb
    have : Scanner.atOffset src (i + (k + 1)) = Scanner.atOffset src (i + k + 1) := rfl
    rw [this]
    generalize Scanner.atOffset src (i + k + 1) = t at hb
    obtain ⟨a, b, c', d⟩ := t
    simp only [Scanner.back, Scanner.atOffset, Scanner.mk.injEq] at hb ⊢
    refine ⟨hb.1, ?_, hb.2.2.1, hb.2.2.2⟩
    have := hb.2.1
    push_cast at this ⊢
    omega

theorem runeToChar_newline_not_hex :
    ("0123456789ABCDEFabcdef".toList.contains (runeToChar 10)) = false := by decide

theorem getElem?_some_of_lt (src : List Int) (i : Nat) (h : i < src.length) :
    ∃ c, src[i]? = some c := ⟨src[i], List.getElem?_eq_getElem h⟩

/-- When `scanEscape` does not return ILLEGAL, the runes it moved the offset
over hold no newline, so the scanner is exact. -/
theorem Scanner.scanEscape_After (T : Tokens) (src : List Int) (i : Nat) (tok : Int)
    (val : String) (s' : Scanner)
    (h : Scanner.scanEscape T (Scanner.atOffset src i) = .ok ((tok, val), s'))
    (ht : tok ≠ ILLEGAL) : Scanner.After src i s' := by
  unfold Scanner.scanEscape at h
  have hoff : (Scanner.atOffset src i).offset = (i : Int) := rfl
  have hsrc : (Scanner.atOffset src i).src = src := rfl
  simp only [hoff, hsrc] at h
  by_cases h0 : (i : Int) ≥ (src.length : Int)
  · rw [if_pos h0] at h
    simp only [pure, Except.pure, Except.ok.injEq, Prod.mk.injEq] at h
    exact absurd h.1.1.symm ht
  · rw [if_neg h0] at h
    have hlt : i < src.length := by omega
    obtain ⟨c, hc⟩ := getElem?_some_of_lt src i hlt
    have hat : (Scanner.atOffset src i).srcAt (i : Int) = .ok c := by
      simp [Scanner.srcAt, Scanner.atOffset, hc]
    simp only [hat, bind, Except.bind] at h
    have skip : ∀ (k : Nat) (o : Int), o = (i : Int) + k →
        (∀ j, j < k → ∃ c, src[i + j]? = some c ∧ c ≠ 10) →
        (⟨src, o, (Scanner.atOffset src i).lineHead, (Scanner.atOffset src i).line⟩ : Scanner) =
          Scanner.atOffset src (i + k) := by
      intro k o ho hk
      rw [Scanner.atOffset_skip src i k hk, ho]
      simp [Scanner.atOffset]
    have one : c ≠ 10 → (⟨src, (i : Int) + 1, (Scanner.atOffset src i).lineHead,
        (Scanner.atOffset src i).line⟩ : Scanner) = Scanner.atOffset src (i + 1) := by
      intro hne
      exact skip 1 _ (by simp) (fun j hj => ⟨c, by
        have : j = 0 := by omega
        subst this
        exact hc, hne⟩)
    by_cases hu : c = 117
    · subst hu
      simp only [ne_eq, not_true_eq_false, if_false] at h
      by_cases h4 : (i : Int) + 1 + 4 > (src.length : Int)
      · rw [if_pos h4] at h
        simp only [pure, Except.pure, Except.ok.injEq, Prod.mk.injEq] at h
        exact absurd h.1.1.symm ht
      · rw [if_neg h4, if_neg (by omega)] at h
        have htn : ((i : Int) + 1).toNat = i + 1 := by omega
        rw [htn] at h
        by_cases hx : ((runesToString ((src.drop (i + 1)).take 4)).toList.any
            (fun h => !("0123456789ABCDEFabcdef".toList.contains h))) = true
        · rw [if_pos hx] at h
          simp only [pure, Except.pure, Except.ok.injEq, Prod.mk.injEq] at h
          exact absurd h.1.1.symm ht
        · rw [if_neg hx] at h
          have hhex : ∀ j, j < 5 → ∃ c, src[i + j]? = some c ∧ c ≠ 10 := by
            intro j hj
            obtain ⟨d, hd⟩ := getElem?_some_of_lt src (i + j) (by omega)
            refine ⟨d, hd, ?_⟩
            rintro rfl
            cases j with
            | zero =>
              rw [Nat.add_zero, hc] at hd
              cases hd
            | succ j =>
              apply hx
              simp only [runesToString, List.any_eq_true, Bool.not_eq_true']
              refine ⟨runeToChar 10, ?_, runeToChar_newline_not_hex⟩
              show runeToChar 10 ∈ List.map runeToChar ((src.drop (i + 1)).take 4)
              refine List.mem_map.2 ⟨10, ?_, rfl⟩
              rw [List.mem_iff_getElem?]
              refine ⟨j, ?_⟩
              rw [List.getElem?_take_of_lt (by omega), List.getElem?_drop]
              rw [← hd]
              congr 1
              omega
          have e5 := skip 5 ((i : Int) + 1 + 4) (by push_cast; omega) hhex
          rw [e5] at h
          have hres : s' = Scanner.atOffset src (i + 5) := by
            revert h
            cases ParseUint (runesToString ((src.drop (i + 1)).take 4)).toList 16 32 with
            | mk n o =>
              cases o with
              | some r =>
                intro h
                simp only [pure, Except.pure, Except.ok.injEq, Prod.mk.injEq] at h
                exact absurd h.1.1.symm ht
              | none =>
                intro h
                simp only [] at h
                split_ifs at h
                all_goals simp only [pure, Except.pure, Except.ok.injEq, Prod.mk.injEq] at h
                · exact absurd h.1.1.symm ht
                · exact h.2.symm
          exact ⟨i + 5, by omega, by omega, hres⟩
    · simp only [ne_eq, hu, not_false_eq_true, if_true] at h
      split_ifs at h with h1 h2 h3 h4
      all_goals simp only [pure, Except.pure, Except.ok.injEq, Prod.mk.injEq] at h
      · rw [one (by omega)] at h
        exact ⟨i + 1, by omega, by omega, h.2.symm⟩
      · rw [one (by omega)] at h
        exact ⟨i + 1, by omega, by omega, h.2.symm⟩
      · rw [one (by omega)] at h
        exact ⟨i + 1, by omega, by omega, h.2.symm⟩
      · rw [one (by omega)] at h
        exact ⟨i + 1, by omega, by omega, h.2.symm⟩
      · exact absurd h.1.1.symm ht

theorem Scanner.scanStringLoop_After (T : Tokens) (l : Int) (src : List Int) :
    ∀ (fuel i : Nat) (ret ret' : List Int) (s' : Scanner), i ≤ src.length →
      Scanner.scanStringLoop T l fuel (Scanner.atOffset src i) ret = .ok ((ret', none), s') →
      Scanner.After src i s' := by
  intro fuel
  induction fuel with
  | zero => intro i ret ret' s' _ h; simp [Scanner.scanStringLoop] at h
  | succ f ih =>
    intro i ret ret' s' hi h
    rw [Scanner.scanStringLoop] at h
    obtain ⟨j, h1, _, h3, _, hn⟩ := Scanner.next_After src i hi
    obtain ⟨k, k1, _, k3, _, kn⟩ := Scanner.next_After src j h3
    simp only [hn, bind, Except.bind] at h
    simp only [Scanner.peek_atOffset] at h
    simp only [kn] at h
    simp only [Scanner.peek_atOffset] at h
    generalize src[j]?.getD EOF = c at h
    generalize src[k]?.getD EOF = e at h
    by_cases c1 : c = EOL
    · rw [if_pos c1] at h
      simp [pure, Except.pure] at h
    rw [if_neg c1] at h
    by_cases c2 : c = EOF
    · rw [if_pos c2] at h
      simp [pure, Except.pure] at h
    rw [if_neg c2] at h
    by_cases c3 : c = l
    · rw [if_pos c3] at h
      simp only [pure, Except.pure, Except.ok.injEq, Prod.mk.injEq] at h
      exact ⟨k, by omega, k3, h.2.symm⟩
    rw [if_neg c3] at h
    by_cases c4 : c = 92
    swap
    · rw [if_neg c4] at h
      exact (ih j _ ret' s' h3 h).mono (by omega)
    rw [if_pos c4] at h
    by_cases e1 : e = 98
    · rw [if_pos e1] at h
      exact (ih k _ ret' s' k3 h).mono (by omega)
    rw [if_neg e1] at h
    by_cases e2 : e = 102
    · rw [if_pos e2] at h
      exact (ih k _ ret' s' k3 h).mono (by omega)
    rw [if_neg e2] at h
    by_cases e3 : e = 114
    · rw [if_pos e3] at h
      exact (ih k _ ret' s' k3 h).mono (by omega)
    rw [if_neg e3] at h
    by_cases e4 : e = 110
    · rw [if_pos e4] at h
      exact (ih k _ ret' s' k3 h).mono (by omega)
    rw [if_neg e4] at h
    by_cases e5 : e = 116
    · rw [if_pos e5] at h
      exact (ih k _ ret' s' k3 h).mono (by omega)
    rw [if_neg e5] at h
    by_cases e6 : e = 117
    swap
    · rw [if_neg e6] at h
      exact (ih k _ ret' s' k3 h).mono (by omega)
    rw [if_pos e6] at h
    cases hx : Scanner.scanEscape T (Scanner.atOffset src k) with
    | error e => simp [hx] at h
    | ok v =>
      obtain ⟨⟨tok, val⟩, s2⟩ := v
      simp only [hx] at h
      by_cases hill : tok = ILLEGAL
      · rw [if_pos hill] at h
        simp [pure, Except.pure] at h
      · rw [if_neg hill] at h
        obtain ⟨m, m1, m2, rfl⟩ := Scanner.scanEscape_After T src k tok val s2 hx hill
        exact (ih m _ ret' s' m2 h).mono (by omega)

theorem Scanner.scanString_After (T : Tokens) (l : Int) (src : List Int) (i : Nat) (lit : String)
    (s' : Scanner) (hi : i ≤ src.length)
    (h : Scanner.scanString T l (Scanner.atOffset src i) = .ok ((lit, none), s')) :
    Scanner.After src i s' := by
  unfold Scanner.scanString at h
  cases hx : Scanner.scanStringLoop T l (Scanner.atOffset src i).bound (Scanner.atOffset src i) []
    with
  | error e => simp [hx, bind, Except.bind] at h
  | ok v =>
    obtain ⟨⟨r2, e2⟩, s2⟩ := v
    simp only [hx, bind, Except.bind] at h
    cases e2 with
    | some e => simp [pure, Except.pure] at h
    | none =>
      simp only [Option.isSome_none, Bool.false_eq_true, if_false, pure, Except.pure,
        Except.ok.injEq, Prod.mk.injEq] at h
      rw [← h.2]
      exact Scanner.scanStringLoop_After T l src _ i [] r2 s2 hi hx

/-- The loop over a block comment keeps a scanner exact: the step back it takes
is over the `*` that `scanRawString` stopped after. -/
theorem Scanner.blockCommentLoop_After (src : List Int) :
    ∀ (fuel i : Nat) (s' : Scanner), i ≤ src.length →
      Scanner.blockCommentLoop fuel (Scanner.atOffset src i) = .ok (none, s') →
      Scanner.After src i s' := by
  intro fuel
  induction fuel with
  | zero => intro i s' _ h; simp [Scanner.blockCommentLoop] at h
  | succ f ih =>
    intro i s' hi h
    rw [Scanner.blockCommentLoop] at h
    cases hx : Scanner.scanRawString 42 (Scanner.atOffset src i) with
    | error e => simp [hx, bind, Except.bind] at h
    | ok v =>
      obtain ⟨⟨r2, e2⟩, s2⟩ := v
      simp only [hx, bind, Except.bind] at h
      cases e2 with
      | some e => simp [pure, Except.pure] at h
      | none =>
        obtain ⟨k, k1, k2, rfl⟩ := Scanner.scanRawString_After 42 src i r2 s2 hi hx
        have hk : k + 1 ≤ src.length := by
          by_contra hcon
          rw [List.getElem?_eq_none (by omega)] at k2
          cases k2
        obtain ⟨m, m1, _, m3, _, mn⟩ := Scanner.next_After src (k + 1) hk
        simp only [Option.isSome_none, Bool.false_eq_true, if_false, Scanner.peek_atOffset, mn,
          Scanner.back_atOffset src k 42 k2 (by decide)] at h
        split_ifs at h
        · simp only [pure, Except.pure, Except.ok.injEq, Prod.mk.injEq] at h
          exact ⟨m, by omega, m3, h.2.symm⟩
        · exact (ih k s' (by omega) h).mono (by omega)

theorem Scanner.peekPlus_atOffset (src : List Int) (i n : Nat) :
    (Scanner.atOffset src i).peekPlus n = .ok (src[i + n]?.getD EOF) := by
  cases h : src[i + n]? with
  | none =>
    have : src.length ≤ i + n := by
      by_contra hcon
      rw [List.getElem?_eq_getElem (by omega)] at h
      cases h
    have h1 : (src.length : Int) ≤ (i : Int) + (n : Int) := by omega
    simp [Scanner.peekPlus, Scanner.atOffset, h1]
  | some c =>
    have hi : i + n < src.length := by
      by_contra hcon
      rw [List.getElem?_eq_none (by omega)] at h
      cases h
    have h1 : ¬ ((src.length : Int) ≤ (i : Int) + (n : Int)) := by omega
    have h2 : ((i : Int) + (n : Int)).toNat = i + n := by omega
    have h3 : (0 : Int) ≤ (i : Int) + (n : Int) := by omega
    simp [Scanner.peekPlus, Scanner.atOffset, h1, Scanner.srcAt, h2, h3, h]

theorem Scanner.finish_exact (src : List Int) (j m : Nat) (tok : Int) (lit : String)
    (p : Pass) (hjm : j ≤ m) (hm : m ≤ src.length)
    (h : (Scanner.atOffset src m).finish tok lit (Scanner.atOffset src j).pos = .ok p) :
    Scanner.PassExact src j p := by
  obtain ⟨k, k1, _, k3, _, kn⟩ := Scanner.next_After src m hm
  simp only [Scanner.finish, kn, bind, Except.bind, pure, Except.pure, Except.ok.injEq] at h
  subst h
  exact ⟨rfl, fun _ => ⟨k, by omega, k3, rfl⟩⟩

theorem getElem?_of_getD (src : List Int) (j : Nat) (c : Int) (h : src[j]?.getD EOF = c)
    (hc : c ≠ EOF) : src[j]? = some c := by
  cases hs : src[j]? with
  | none => rw [hs] at h; exact absurd h.symm hc
  | some d => rw [hs] at h; simpa using h

/-- The end of a branch of `Scan` for an operator of one or two runes: after the
step over the first rune, with or without the step back. -/
theorem Scanner.operator_exact (src : List Int) (j : Nat) (c : Int) (hc : src[j]? = some c)
    (hne : c ≠ 10) (tok : Int) (lit : String) (p : Pass) :
    ((Scanner.atOffset src (j + 1)).finish tok lit (Scanner.atOffset src j).pos = .ok p →
      Scanner.PassExact src j p) ∧
    ((Scanner.atOffset src (j + 1)).back.finish tok lit (Scanner.atOffset src j).pos = .ok p →
      Scanner.PassExact src j p) := by
  have hj : j < src.length := by
    by_contra hcon
    rw [List.getElem?_eq_none (by omega)] at hc
    cases hc
  refine ⟨fun h => Scanner.finish_exact src j (j + 1) tok lit p (by omega) (by omega) h, ?_⟩
  intro h
  rw [Scanner.back_atOffset src j c hc hne] at h
  exact Scanner.finish_exact src j j tok lit p (le_refl _) (by omega) h

theorem Scanner.scanIdentifier_After (L : Lib) (src : List Int) (i : Nat)
    (res : String × Option Error) (s' : Scanner) (hi : i ≤ src.length)
    (h : Scanner.scanIdentifier L (Scanner.atOffset src i) = .ok (res, s')) :
    res.2 = none ∧ Scanner.After src i s' := by
  unfold Scanner.scanIdentifier at h
  cases hx : Scanner.scanIdentifierLoop L (Scanner.atOffset src i).bound (Scanner.atOffset src i)
    [] with
  | error e => simp [hx, bind, Except.bind] at h
  | ok v =>
    obtain ⟨r2, s2⟩ := v
    simp only [hx, bind, Except.bind, pure, Except.pure, Except.ok.injEq, Prod.mk.injEq] at h
    obtain ⟨h1, h2⟩ := h
    subst h1 h2
    exact ⟨rfl, Scanner.scanIdentifierLoop_After L src _ i [] r2 s2 hi hx⟩

/-- The pass of `Scan` from a scanner that stands at a rune that is not blank. -/
theorem Scanner.scanPass_body_exact (T : Tokens) (L : Lib) (src : List Int) (j : Nat) (p : Pass)
    (hj0 : j ≤ src.length) (hsb : (Scanner.atOffset src j).skipBlank = .ok (Scanner.atOffset src j))
    (h : Scanner.scanPass T L (Scanner.atOffset src j) = .ok p) :
    Scanner.PassExact src j p := by
  unfold Scanner.scanPass at h
  simp only [hsb, bind, Except.bind] at h
  simp only [Scanner.peek_atOffset] at h
  generalize hc : src[j]?.getD EOF = c at h
  by_cases cl : isLetter L c = true
  · rw [if_pos cl] at h
    cases hx : Scanner.scanIdentifier L (Scanner.atOffset src j) with
    | error e => simp [hx] at h
    | ok v =>
      obtain ⟨⟨lit, e2⟩, s2⟩ := v
      obtain ⟨he, ha⟩ := Scanner.scanIdentifier_After L src j (lit, e2) s2 hj0 hx
      simp only at he
      subst he
      simp only [hx, Option.isSome_none, Bool.false_eq_true, if_false] at h
      cases hl : (opName T).lookup lit with
      | none =>
        simp only [hl, pure, Except.pure, Except.ok.injEq] at h
        subst h
        exact ⟨rfl, fun _ => ha⟩
      | some name =>
        simp only [hl, pure, Except.pure, Except.ok.injEq] at h
        subst h
        exact ⟨rfl, fun _ => ha⟩
  rw [if_neg cl] at h
  by_cases cd : isDigit c = true
  · rw [if_pos cd] at h
    cases hx : Scanner.scanNumber L (Scanner.atOffset src j) with
    | error e => simp [hx] at h
    | ok v =>
      obtain ⟨⟨lit, e2⟩, s2⟩ := v
      simp only [hx, pure, Except.pure, Except.ok.injEq] at h
      subst h
      exact ⟨rfl, fun _ => Scanner.scanNumber_After L src j _ s2 hj0 hx⟩
  rw [if_neg cd] at h
  by_cases c34 : c = 34
  · rw [if_pos c34] at h
    cases hx : Scanner.scanString T 34 (Scanner.atOffset src j) with
    | error e => simp [hx] at h
    | ok v =>
      obtain ⟨⟨lit, e2⟩, s2⟩ := v
      simp only [hx, pure, Except.pure, Except.ok.injEq] at h
      subst h
      refine ⟨rfl, fun he => ?_⟩
      simp only at he
      subst he
      exact Scanner.scanString_After T 34 src j lit s2 hj0 hx
  rw [if_neg c34] at h
  by_cases c39 : c = 39
  · rw [if_pos c39] at h
    cases hx : Scanner.scanString T 39 (Scanner.atOffset src j) with
    | error e => simp [hx] at h
    | ok v =>
      obtain ⟨⟨lit, e2⟩, s2⟩ := v
      simp only [hx, pure, Except.pure, Except.ok.injEq] at h
      subst h
      refine ⟨rfl, fun he => ?_⟩
      simp only at he
      subst he
      exact Scanner.scanString_After T 39 src j lit s2 hj0 hx
  rw [if_neg c39] at h
  by_cases c96 : c = 96
  · rw [if_pos c96] at h
    cases hx : Scanner.scanRawString 96 (Scanner.atOffset src j) with
    | error e => simp [hx] at h
    | ok v =>
      obtain ⟨⟨lit, e2⟩, s2⟩ := v
      simp only [hx, pure, Except.pure, Except.ok.injEq] at h
      subst h
      refine ⟨rfl, fun he => ?_⟩
      simp only at he
      subst he
      obtain ⟨k, k1, k2, k3⟩ := Scanner.scanRawString_After 96 src j lit s2 hj0 hx
      have hk : k + 1 ≤ src.length := by
        by_contra hcon
        rw [List.getElem?_eq_none (by omega)] at k2
        cases k2
      exact ⟨k + 1, by omega, hk, k3⟩
  rw [if_neg c96] at h
  by_cases ce : c = EOF
  · rw [if_pos ce] at h
    exact Scanner.finish_exact src j j _ _ p (le_refl _) hj0 h
  rw [if_neg ce] at h
  by_cases c35 : c = 35
  · rw [if_pos c35] at h
    cases hx : Scanner.skipLineLoop (Scanner.atOffset src j).bound (Scanner.atOffset src j) with
    | error e => simp [hx] at h
    | ok s2 =>
      simp only [hx, pure, Except.pure, Except.ok.injEq] at h
      subst h
      exact Scanner.skipLineLoop_step src _ j s2 c (getElem?_of_getD src j c hc (by rw [c35]; decide))
        (by rw [c35]; rfl) hx
  rw [if_neg c35] at h
  by_cases c33 : c = 33
  · rw [if_pos c33] at h
    have hj := getElem?_of_getD src j c hc (by rw [c33]; decide)
    have op := Scanner.operator_exact src j c hj (by rw [c33]; decide)
    simp only [Scanner.next_atOffset src j c hj, Scanner.peek_atOffset] at h
    generalize src[j + 1]?.getD EOF = q at h
    split_ifs at h
    all_goals first
      | exact (op _ _ _).1 h
      | exact (op _ _ _).2 h
  rw [if_neg c33] at h
  by_cases c61 : c = 61
  · rw [if_pos c61] at h
    have hj := getElem?_of_getD src j c hc (by rw [c61]; decide)
    have hj1 : j + 1 ≤ src.length := by
      by_contra hcon
      rw [List.getElem?_eq_none (by omega)] at hj
      cases hj
    have op := Scanner.operator_exact src j c hj (by rw [c61]; decide)
    obtain ⟨k, k1, _, k3, _, kn⟩ := Scanner.next_After src (j + 1) hj1
    obtain ⟨m, m1, _, m3, _, mn⟩ := Scanner.next_After src k k3
    simp only [Scanner.next_atOffset src j c hj, Scanner.peek_atOffset] at h
    have hpp : ∀ n : Nat, (Scanner.atOffset src (j + 1)).peekPlus (n : Int) =
        .ok (src[j + 1 + n]?.getD EOF) := fun n => Scanner.peekPlus_atOffset src (j + 1) n
    have hpp1 := hpp 1
    have hpp2 := hpp 2
    simp only [Nat.cast_one, Nat.cast_ofNat] at hpp1 hpp2
    simp only [hpp1, hpp2] at h
    generalize src[j + 1]?.getD EOF = q at h
    generalize src[j + 1 + 1]?.getD EOF = q1 at h
    generalize src[j + 1 + 2]?.getD EOF = q2 at h
    by_cases d1 : q = 61
    · rw [if_pos d1] at h
      exact (op _ _ _).1 h
    rw [if_neg d1] at h
    by_cases d2 : q = 32
    swap
    · rw [if_neg d2] at h
      exact (op _ _ _).2 h
    rw [if_pos d2] at h
    by_cases d3 : q1 = 60
    · simp only [d3, if_true, pure, Except.pure, true_and] at h
      split_ifs at h
      · simp only [kn, mn] at h
        exact Scanner.finish_exact src j m _ _ p (by omega) m3 h
      · exact (op _ _ _).2 h
    · simp only [d3, if_false, pure, Except.pure, false_and] at h
      exact (op _ _ _).2 h
  rw [if_neg c61] at h
  by_cases c63 : c = 63
  · rw [if_pos c63] at h
    have hj := getElem?_of_getD src j c hc (by rw [c63]; decide)
    have op := Scanner.operator_exact src j c hj (by rw [c63]; decide)
    simp only [Scanner.next_atOffset src j c hj, Scanner.peek_atOffset] at h
    generalize src[j + 1]?.getD EOF = q at h
    split_ifs at h
    all_goals first
      | exact (op _ _ _).1 h
      | exact (op _ _ _).2 h
  rw [if_neg c63] at h
  by_cases c43 : c = 43
  · rw [if_pos c43] at h
    have hj := getElem?_of_getD src j c hc (by rw [c43]; decide)
    have op := Scanner.operator_exact src j c hj (by rw [c43]; decide)
    simp only [Scanner.next_atOffset src j c hj, Scanner.peek_atOffset] at h
    generalize src[j + 1]?.getD EOF = q at h
    split_ifs at h
    all_goals first
      | exact (op _ _ _).1 h
      | exact (op _ _ _).2 h
  rw [if_neg c43] at h
  by_cases c45 : c = 45
  · rw [if_pos c45] at h
    have hj := getElem?_of_getD src j c hc (by rw [c45]; decide)
    have op := Scanner.operator_exact src j c hj (by rw [c45]; decide)
    simp only [Scanner.next_atOffset src j c hj, Scanner.peek_atOffset] at h
    generalize src[j + 1]?.getD EOF = q at h
    split_ifs at h
    all_goals first
      | exact (op _ _ _).1 h
      | exact (op _ _ _).2 h
  rw [if_neg c45] at h
  by_cases c42 : c = 42
  · rw [if_pos c42] at h
    have hj := getElem?_of_getD src j c hc (by rw [c42]; decide)
    have op := Scanner.operator_exact src j c hj (by rw [c42]; decide)
    simp only [Scanner.next_atOffset src j c hj, Scanner.peek_atOffset] at h
    generalize src[j + 1]?.getD EOF = q at h
    split_ifs at h
    all_goals first
      | exact (op _ _ _).1 h
      | exact (op _ _ _).2 h
  rw [if_neg c42] at h
  by_cases c47 : c = 47
  · rw [if_pos c47] at h
    have hj := getElem?_of_getD src j c hc (by rw [c47]; decide)
    have hj1 : j + 1 ≤ src.length := by
      by_contra hcon
      rw [List.getElem?_eq_none (by omega)] at hj
      cases hj
    have op := Scanner.operator_exact src j c hj (by rw [c47]; decide)
    simp only [Scanner.next_atOffset src j c hj, Scanner.peek_atOffset] at h
    generalize src[j + 1]?.getD EOF = q at h
    by_cases d1 : q = 61
    · rw [if_pos d1] at h
      exact (op _ _ _).1 h
    rw [if_neg d1] at h
    by_cases d2 : q = 47
    · rw [if_pos d2] at h
      cases hx : Scanner.skipLineLoop (Scanner.atOffset src (j + 1)).bound
          (Scanner.atOffset src (j + 1)) with
      | error e => simp [hx] at h
      | ok s2 =>
        simp only [hx, pure, Except.pure, Except.ok.injEq] at h
        subst h
        exact Scanner.skipLineLoop_After src _ (j + 1) s2 hj1 hx
    rw [if_neg d2] at h
    by_cases d3 : q = 42
    · rw [if_pos d3] at h
      cases hx : Scanner.blockCommentLoop (Scanner.atOffset src (j + 1)).bound
          (Scanner.atOffset src (j + 1)) with
      | error e => simp [hx] at h
      | ok v =>
        obtain ⟨e2, s2⟩ := v
        simp only [hx] at h
        cases e2 with
        | some e =>
          simp only [Option.isSome_some, if_true, pure, Except.pure, Except.ok.injEq] at h
          subst h
          exact ⟨rfl, fun he => by simp at he⟩
        | none =>
          simp only [Option.isSome_none, Bool.false_eq_true, if_false, pure, Except.pure,
            Except.ok.injEq] at h
          subst h
          exact Scanner.blockCommentLoop_After src _ (j + 1) s2 hj1 hx
    rw [if_neg d3] at h
    exact (op _ _ _).2 h
  rw [if_neg c47] at h
  by_cases c62 : c = 62
  · rw [if_pos c62] at h
    have hj := getElem?_of_getD src j c hc (by rw [c62]; decide)
    have op := Scanner.operator_exact src j c hj (by rw [c62]; decide)
    simp only [Scanner.next_atOffset src j c hj, Scanner.peek_atOffset] at h
    generalize src[j + 1]?.getD EOF = q at h
    split_ifs at h
    all_goals first
      | exact (op _ _ _).1 h
      | exact (op _ _ _).2 h
  rw [if_neg c62] at h
  by_cases c60 : c = 60
  · rw [if_pos c60] at h
    have hj := getElem?_of_getD src j c hc (by rw [c60]; decide)
    have op := Scanner.operator_exact src j c hj (by rw [c60]; decide)
    simp only [Scanner.next_atOffset src j c hj, Scanner.peek_atOffset] at h
    generalize src[j + 1]?.getD EOF = q at h
    split_ifs at h
    all_goals first
      | exact (op _ _ _).1 h
      | exact (op _ _ _).2 h
  rw [if_neg c60] at h
  by_cases c124 : c = 124
  · rw [if_pos c124] at h
    have hj := getElem?_of_getD src j c hc (by rw [c124]; decide)
    have op := Scanner.operator_exact src j c hj (by rw [c124]; decide)
    simp only [Scanner.next_atOffset src j c hj, Scanner.peek_atOffset] at h
    generalize src[j + 1]?.getD EOF = q at h
    split_ifs at h
    all_goals first
      | exact (op _ _ _).1 h
      | exact (op _ _ _).2 h
  rw [if_neg c124] at h
  by_cases c38 : c = 38
  · rw [if_pos c38] at h
    have hj := getElem?_of_getD src j c hc (by rw [c38]; decide)
    have op := Scanner.operator_exact src j c hj (by rw [c38]; decide)
    simp only [Scanner.next_atOffset src j c hj, Scanner.peek_atOffset] at h
    generalize src[j + 1]?.getD EOF = q at h
    split_ifs at h
    all_goals first
      | exact (op _ _ _).1 h
      | exact (op _ _ _).2 h
  rw [if_neg c38] at h
  by_cases c46 : c = 46
  · rw [if_pos c46] at h
    have hj := getElem?_of_getD src j c hc (by rw [c46]; decide)
    have hj1 : j + 1 ≤ src.length := by
      by_contra hcon
      rw [List.getElem?_eq_none (by omega)] at hj
      cases hj
    have op := Scanner.operator_exact src j c hj (by rw [c46]; decide)
    obtain ⟨k, k1, _, k3, _, kn⟩ := Scanner.next_After src (j + 1) hj1
    simp only [Scanner.next_atOffset src j c hj, Scanner.peek_atOffset, kn] at h
    generalize src[j + 1]?.getD EOF = q at h
    generalize src[k]?.getD EOF = q1 at h
    split_ifs at h
    · exact Scanner.finish_exact src j k _ _ p (by omega) k3 h
    · simp only [pure, Except.pure, Except.ok.injEq] at h
      subst h
      exact ⟨rfl, fun he => by simp at he⟩
    · exact (op _ _ _).2 h
  rw [if_neg c46] at h
  split_ifs at h
  · exact Scanner.finish_exact src j j _ _ p (le_refl _) hj0 h
  · simp only [pure, Except.pure, Except.ok.injEq] at h
    subst h
    exact ⟨rfl, fun he => by simp at he⟩

theorem Scanner.skipBlank_exact (src : List Int) (i : Nat) (s0 : Scanner) (hi : i ≤ src.length)
    (h : (Scanner.atOffset src i).skipBlank = .ok s0) :
    ∃ j, i ≤ j ∧ j ≤ src.length ∧ s0 = Scanner.atOffset src j ∧
      isBlank (src[j]?.getD EOF) = false ∧
      (Scanner.atOffset src j).skipBlank = .ok (Scanner.atOffset src j) := by
  obtain ⟨j, h1, h2, h3, h4⟩ := Scanner.skipBlankLoop_After src _ i s0 hi h
  refine ⟨j, h1, h2, h3, h4, ?_⟩
  show Scanner.skipBlankLoop (src.length + 1) (Scanner.atOffset src j) = _
  rw [Scanner.skipBlankLoop]
  simp [Scanner.peek_atOffset, h4, bind, Except.bind, pure, Except.pure]

theorem Scanner.scanPass_skipBlank (T : Tokens) (L : Lib) (s s0 : Scanner)
    (h : s.skipBlank = .ok s0) (h0 : s0.skipBlank = .ok s0) :
    Scanner.scanPass T L s = Scanner.scanPass T L s0 := by
  unfold Scanner.scanPass
  rw [h, h0]

/-- One pass of `Scan` from an exact scanner: the index `j` where the blanks
end, from where the pass gives the same, and what the pass leaves. -/
theorem Scanner.scanPass_exact (T : Tokens) (L : Lib) (src : List Int) (i : Nat) (p : Pass)
    (hi : i ≤ src.length) (h : Scanner.scanPass T L (Scanner.atOffset src i) = .ok p) :
    ∃ j, i ≤ j ∧ j ≤ src.length ∧ isBlank (src[j]?.getD EOF) = false ∧
      Scanner.scanPass T L (Scanner.atOffset src j) = .ok p ∧ Scanner.PassExact src j p := by
  cases hsb : (Scanner.atOffset src i).skipBlank with
  | error e =>
    unfold Scanner.scanPass at h
    rw [hsb] at h
    cases h
  | ok s0 =>
    obtain ⟨j, h1, h2, rfl, h4, h5⟩ := Scanner.skipBlank_exact src i s0 hi hsb
    rw [Scanner.scanPass_skipBlank T L _ _ hsb h5] at h
    exact ⟨j, h1, h2, h4, h, Scanner.scanPass_body_exact T L src j p h2 h5 h⟩

theorem Scanner.scanLoop_exact (T : Tokens) (L : Lib) (src : List Int) :
    ∀ (fuel i : Nat) (r : ScanResult) (s' : Scanner), i ≤ src.length →
      Scanner.scanLoop T L fuel (Scanner.atOffset src i) = .ok (r, s') →
      ∃ j, i ≤ j ∧ j ≤ src.length ∧ isBlank (src[j]?.getD EOF) = false ∧
        Scanner.scanPass T L (Scanner.atOffset src j) = .ok (.ret r s') ∧
        r.pos = (Scanner.atOffset src j).pos ∧ (r.err = none → Scanner.After src j s') := by
  intro fuel
  induction fuel with
  | zero => intro i r s' _ h; simp [Scanner.scanLoop] at h
  | succ f ih =>
    intro i r s' hi h
    rw [Scanner.scanLoop] at h
    cases hp : Scanner.scanPass T L (Scanner.atOffset src i) with
    | error e => simp [hp, bind, Except.bind] at h
    | ok p =>
      obtain ⟨j, h1, h2, h3, h4, h5⟩ := Scanner.scanPass_exact T L src i p hi hp
      cases p with
      | ret r2 s2 =>
        simp only [hp, bind, Except.bind, pure, Except.pure, Except.ok.injEq,
          Prod.mk.injEq] at h
        obtain ⟨rfl, rfl⟩ := h
        exact ⟨j, h1, h2, h3, h4, h5.1, h5.2⟩
      | retry s2 =>
        simp only [hp, bind, Except.bind] at h
        obtain ⟨k, k1, k2, rfl⟩ := h5
        obtain ⟨m, m1, m2, m3, m4, m5, m6⟩ := ih k r s' k2 h
        exact ⟨m, by omega, m2, m3, m4, m5, m6⟩

theorem Scanner.pos_atOffset (src : List Int) (j : Nat) :
    (Scanner.atOffset src j).pos =
      ⟨1 + (newlinesBefore src j : Int), 1 + (runesSinceNewline src j : Int)⟩ := by
  simp only [Scanner.pos, Scanner.atOffset, Position.mk.injEq]
  constructor <;> omega

/-! ## `Scan` returns -/

theorem lt_length_of_getElem? {src : List Int} {j : Nat} {c : Int} (h : src[j]? = some c) :
    j < src.length := by
  by_contra hcon
  rw [List.getElem?_eq_none (by omega)] at h
  cases h

theorem isBlank_EOF : isBlank EOF = false := rfl

/-- `skipBlank` returns: every pass of its loop moves on in the source. -/
theorem Scanner.skipBlankLoop_returns (src : List Int) :
    ∀ (fuel i : Nat), i ≤ src.length → src.length - i < fuel →
      ∃ s', Scanner.skipBlankLoop fuel (Scanner.atOffset src i) = .ok s' := by
  intro fuel
  induction fuel with
  | zero => intro i _ hf; omega
  | succ f ih =>
    intro i hi hf
    rw [Scanner.skipBlankLoop]
    simp only [Scanner.peek_atOffset, bind, Except.bind]
    by_cases hb : isBlank (src[i]?.getD EOF) = true
    · have hj := getElem?_of_getD src i _ rfl (by
        intro he
        rw [he] at hb
        exact absurd hb (by decide))
      have hl := lt_length_of_getElem? hj
      simp only [hb, if_true, Scanner.next_atOffset src i _ hj]
      exact ih (i + 1) (by omega) (by omega)
    · simp only [hb, Bool.false_eq_true, if_false, pure, Except.pure]
      exact ⟨_, rfl⟩

theorem Scanner.scanIdentifierLoop_returns (L : Lib) (src : List Int) :
    ∀ (fuel i : Nat) (ret : List Int), i ≤ src.length → src.length - i < fuel →
      ∃ v, Scanner.scanIdentifierLoop L fuel (Scanner.atOffset src i) ret = .ok v := by
  intro fuel
  induction fuel with
  | zero => intro i _ _ hf; omega
  | succ f ih =>
    intro i ret hi hf
    rw [Scanner.scanIdentifierLoop]
    simp only [Scanner.peek_atOffset, bind, Except.bind]
    by_cases hb : (!isLetter L (src[i]?.getD EOF) && !isDigit (src[i]?.getD EOF)) = true
    · simp only [hb, if_true, pure, Except.pure]
      exact ⟨_, rfl⟩
    · have hj := getElem?_of_getD src i _ rfl (by
        intro he
        rw [he] at hb
        have := isLetter_EOF L
        simp [this] at hb
        exact absurd hb (by decide))
      have hl := lt_length_of_getElem? hj
      simp only [hb, Bool.false_eq_true, if_false, Scanner.next_atOffset src i _ hj]
      exact ih (i + 1) _ (by omega) (by omega)

theorem Scanner.scanHexLoop_returns (src : List Int) :
    ∀ (fuel i : Nat) (ret : List Int), i ≤ src.length → src.length - i < fuel →
      ∃ v, Scanner.scanHexLoop fuel (Scanner.atOffset src i) ret = .ok v := by
  intro fuel
  induction fuel with
  | zero => intro i _ _ hf; omega
  | succ f ih =>
    intro i ret hi hf
    rw [Scanner.scanHexLoop]
    simp only [Scanner.peek_atOffset, bind, Except.bind]
    by_cases hb : isHex (src[i]?.getD EOF) = true
    · have hj := getElem?_of_getD src i _ rfl (by
        intro he
        rw [he] at hb
        exact absurd hb (by decide))
      have hl := lt_length_of_getElem? hj
      simp only [hb, if_true, Scanner.next_atOffset src i _ hj]
      exact ih (i + 1) _ (by omega) (by omega)
    · simp only [hb, Bool.false_eq_true, if_false, pure, Except.pure]
      exact ⟨_, rfl⟩

theorem Scanner.skipLineLoop_returns (src : List Int) :
    ∀ (fuel i : Nat), i ≤ src.length → src.length - i < fuel →
      ∃ s', Scanner.skipLineLoop fuel (Scanner.atOffset src i) = .ok s' := by
  intro fuel
  induction fuel with
  | zero => intro i _ hf; omega
  | succ f ih =>
    intro i hi hf
    rw [Scanner.skipLineLoop]
    simp only [Scanner.peek_atOffset, bind, Except.bind]
    by_cases hb : (!isEOL (src[i]?.getD EOF)) = true
    · have hj := getElem?_of_getD src i _ rfl (by
        intro he
        rw [he] at hb
        exact absurd hb (by decide))
      have hl := lt_length_of_getElem? hj
      simp only [hb, if_true, Scanner.next_atOffset src i _ hj]
      exact ih (i + 1) (by omega) (by omega)
    · simp only [hb, Bool.false_eq_true, if_false, pure, Except.pure]
      exact ⟨_, rfl⟩

theorem Scanner.scanDecLoop_returns (src : List Int) :
    ∀ (fuel i : Nat) (found : Bool) (ret : List Int), i ≤ src.length → src.length - i < fuel →
      ∃ v, Scanner.scanDecLoop fuel (Scanner.atOffset src i) found ret = .ok v := by
  intro fuel
  induction fuel with
  | zero => intro i _ _ _ hf; omega
  | succ f ih =>
    intro i found ret hi hf
    rw [Scanner.scanDecLoop]
    simp only [Scanner.peek_atOffset, bind, Except.bind]
    generalize hc : src[i]?.getD EOF = c
    have adv : c ≠ EOF → (Scanner.atOffset src i).next = .ok (Scanner.atOffset src (i + 1)) ∧
        i + 1 ≤ src.length := by
      intro hne
      have hj := getElem?_of_getD src i c hc hne
      exact ⟨Scanner.next_atOffset src i c hj, lt_length_of_getElem? hj⟩
    by_cases h1 : isDigit c = true
    · obtain ⟨hn, hl⟩ := adv (by rintro rfl; exact absurd h1 (by decide))
      simp only [h1, if_true, hn]
      exact ih (i + 1) _ _ hl (by omega)
    simp only [h1, Bool.false_eq_true, if_false]
    by_cases h2 : c = 46
    · obtain ⟨hn, hl⟩ := adv (by rw [h2]; decide)
      simp only [h2, if_true, hn]
      exact ih (i + 1) _ _ hl (by omega)
    rw [if_neg h2]
    by_cases h3 : c = 101 ∨ c = 69
    · obtain ⟨hn, hl⟩ := adv (by rcases h3 with rfl | rfl <;> decide)
      rw [if_pos h3]
      cases found with
      | true => exact ⟨_, rfl⟩
      | false =>
        obtain ⟨k, k1, _, k3, _, kn⟩ := Scanner.next_After src (i + 1) hl
        simp only [Bool.false_eq_true, if_false, hn, Scanner.peek_atOffset, kn]
        split_ifs
        · exact ih k _ _ k3 (by omega)
        · exact ih (i + 1) _ _ hl (by omega)
    · rw [if_neg h3]
      exact ⟨_, rfl⟩

theorem Scanner.scanNumber_returns (L : Lib) (src : List Int) (i : Nat) (hi : i ≤ src.length) :
    ∃ v, Scanner.scanNumber L (Scanner.atOffset src i) = .ok v := by
  unfold Scanner.scanNumber
  obtain ⟨j, h1, _, h3, _, hn⟩ := Scanner.next_After src i hi
  obtain ⟨k, k1, _, k3, _, kn⟩ := Scanner.next_After src j h3
  simp only [Scanner.peek_atOffset, hn, kn, bind, Except.bind, List.singleton_append]
  split_ifs with hc
  · obtain ⟨⟨r2, s2⟩, hx⟩ := Scanner.scanHexLoop_returns src (Scanner.atOffset src k).bound k
      [src[i]?.getD EOF, 120] k3 (by simp [Scanner.bound, Scanner.atOffset]; omega)
    obtain ⟨m, m1, m2, rfl⟩ := Scanner.scanHexLoop_After src _ k _ r2 s2 k3 hx
    simp only [hx, pure, Except.pure, Option.isSome_none, Bool.false_eq_true, if_false,
      Scanner.peek_atOffset]
    split_ifs <;> exact ⟨_, rfl⟩
  · obtain ⟨⟨⟨r2, e2⟩, s2⟩, hx⟩ := Scanner.scanDecLoop_returns src (Scanner.atOffset src j).bound j
      false [src[i]?.getD EOF] h3 (by simp [Scanner.bound, Scanner.atOffset]; omega)
    obtain ⟨m, m1, m2, rfl⟩ := Scanner.scanDecLoop_After src _ j _ _ (r2, e2) s2 h3 hx
    simp only [hx, pure, Except.pure, Scanner.peek_atOffset]
    split_ifs <;> exact ⟨_, rfl⟩

theorem Scanner.scanRawStringLoop_returns (l : Int) (src : List Int) :
    ∀ (fuel i : Nat) (ret : List Int), i ≤ src.length → src.length - i < fuel →
      ∃ v, Scanner.scanRawStringLoop l fuel (Scanner.atOffset src i) ret = .ok v := by
  intro fuel
  induction fuel with
  | zero => intro i _ _ hf; omega
  | succ f ih =>
    intro i ret hi hf
    rw [Scanner.scanRawStringLoop]
    obtain ⟨j, h1, _, h3, h4, hn⟩ := Scanner.next_After src i hi
    obtain ⟨k, k1, _, k3, _, kn⟩ := Scanner.next_After src j h3
    simp only [hn, kn, Scanner.peek_atOffset, bind, Except.bind]
    by_cases he : src[j]?.getD EOF = EOF
    · rw [if_pos he]
      exact ⟨_, rfl⟩
    rw [if_neg he]
    have hj := lt_length_of_getElem? (getElem?_of_getD src j _ rfl he)
    split_ifs
    · exact ⟨_, rfl⟩
    · exact ih j _ h3 (by omega)

theorem Scanner.scanRawString_returns (l : Int) (src : List Int) (i : Nat)
    (hi : i ≤ src.length) : ∃ v, Scanner.scanRawString l (Scanner.atOffset src i) = .ok v := by
  unfold Scanner.scanRawString
  obtain ⟨⟨⟨r2, e2⟩, s2⟩, hx⟩ := Scanner.scanRawStringLoop_returns l src
    (Scanner.atOffset src i).bound i [] hi (by simp [Scanner.bound, Scanner.atOffset]; omega)
  simp only [hx, bind, Except.bind]
  split_ifs <;> exact ⟨_, rfl⟩

/-- `scanEscape` returns: the slice of four runes it takes lies within the
source. -/
theorem Scanner.scanEscape_returns (T : Tokens) (src : List Int) (i : Nat) :
    ∃ v, Scanner.scanEscape T (Scanner.atOffset src i) = .ok v := by
  unfold Scanner.scanEscape
  have hoff : (Scanner.atOffset src i).offset = (i : Int) := rfl
  have hsrc : (Scanner.atOffset src i).src = src := rfl
  simp only [hoff, hsrc]
  by_cases h0 : (i : Int) ≥ (src.length : Int)
  · rw [if_pos h0]
    exact ⟨_, rfl⟩
  · rw [if_neg h0]
    have hlt : i < src.length := by omega
    obtain ⟨c, hc⟩ := getElem?_some_of_lt src i hlt
    have hat : (Scanner.atOffset src i).srcAt (i : Int) = .ok c := by
      simp [Scanner.srcAt, Scanner.atOffset, hc]
    simp only [hat, bind, Except.bind]
    by_cases hu : c = 117
    · subst hu
      simp only [ne_eq, not_true_eq_false, if_false]
      by_cases h4 : (i : Int) + 1 + 4 > (src.length : Int)
      · rw [if_pos h4]
        exact ⟨_, rfl⟩
      · rw [if_neg h4, if_neg (by omega)]
        split_ifs
        · exact ⟨_, rfl⟩
        · cases ParseUint (runesToString ((src.drop ((i : Int) + 1).toNat).take 4)).toList 16 32
            with
          | mk n o =>
            cases o with
            | some r => exact ⟨_, rfl⟩
            | none =>
              simp only []
              split_ifs <;> exact ⟨_, rfl⟩
    · simp only [ne_eq, hu, not_false_eq_true, if_true]
      split_ifs <;> exact ⟨_, rfl⟩

theorem Scanner.scanStringLoop_returns (T : Tokens) (l : Int) (src : List Int) :
    ∀ (fuel i : Nat) (ret : List Int), i ≤ src.length → src.length - i < fuel →
      ∃ v, Scanner.scanStringLoop T l fuel (Scanner.atOffset src i) ret = .ok v := by
  intro fuel
  induction fuel with
  | zero => intro i _ _ hf; omega
  | succ f ih =>
    intro i ret hi hf
    rw [Scanner.scanStringLoop]
    obtain ⟨j, h1, _, h3, h4, hn⟩ := Scanner.next_After src i hi
    obtain ⟨k, k1, _, k3, _, kn⟩ := Scanner.next_After src j h3
    simp only [hn, bind, Except.bind]
    simp only [Scanner.peek_atOffset]
    simp only [kn]
    simp only [Scanner.peek_atOffset]
    generalize hc : src[j]?.getD EOF = c
    generalize src[k]?.getD EOF = e
    by_cases c1 : c = EOL
    · rw [if_pos c1]
      exact ⟨_, rfl⟩
    rw [if_neg c1]
    by_cases c2 : c = EOF
    · rw [if_pos c2]
      exact ⟨_, rfl⟩
    rw [if_neg c2]
    have hj := lt_length_of_getElem? (getElem?_of_getD src j c hc c2)
    have hfj : src.length - j < f := by omega
    have hfk : src.length - k < f := by omega
    by_cases c3 : c = l
    · rw [if_pos c3]
      exact ⟨_, rfl⟩
    rw [if_neg c3]
    by_cases c4 : c = 92
    swap
    · rw [if_neg c4]
      exact ih j _ h3 hfj
    rw [if_pos c4]
    by_cases e1 : e = 98
    · rw [if_pos e1]
      exact ih k _ k3 hfk
    rw [if_neg e1]
    by_cases e2 : e = 102
    · rw [if_pos e2]
      exact ih k _ k3 hfk
    rw [if_neg e2]
    by_cases e3 : e = 114
    · rw [if_pos e3]
      exact ih k _ k3 hfk
    rw [if_neg e3]
    by_cases e4 : e = 110
    · rw [if_pos e4]
      exact ih k _ k3 hfk
    rw [if_neg e4]
    by_cases e5 : e = 116
    · rw [if_pos e5]
      exact ih k _ k3 hfk
    rw [if_neg e5]
    by_cases e6 : e = 117
    swap
    · rw [if_neg e6]
      exact ih k _ k3 hfk
    rw [if_pos e6]
    obtain ⟨⟨⟨tok, val⟩, s2⟩, hx⟩ := Scanner.scanEscape_returns T src k
    simp only [hx]
    by_cases hill : tok = ILLEGAL
    · rw [if_pos hill]
      exact ⟨_, rfl⟩
    · rw [if_neg hill]
      obtain ⟨m, m1, m2, rfl⟩ := Scanner.scanEscape_After T src k tok val s2 hx hill
      exact ih m _ m2 (by omega)

theorem Scanner.scanString_returns (T : Tokens) (l : Int) (src : List Int) (i : Nat)
    (hi : i ≤ src.length) : ∃ v, Scanner.scanString T l (Scanner.atOffset src i) = .ok v := by
  unfold Scanner.scanString
  obtain ⟨⟨⟨r2, e2⟩, s2⟩, hx⟩ := Scanner.scanStringLoop_returns T l src
    (Scanner.atOffset src i).bound i [] hi (by simp [Scanner.bound, Scanner.atOffset]; omega)
  simp only [hx, bind, Except.bind]
  split_ifs <;> exact ⟨_, rfl⟩

/-- The loop over a block comment returns: after the step back it stands further
on than before. -/
theorem Scanner.blockCommentLoop_returns (src : List Int) :
    ∀ (fuel i : Nat), i ≤ src.length → src.length - i < fuel →
      ∃ v, Scanner.blockCommentLoop fuel (Scanner.atOffset src i) = .ok v := by
  intro fuel
  induction fuel with
  | zero => intro i _ hf; omega
  | succ f ih =>
    intro i hi hf
    rw [Scanner.blockCommentLoop]
    obtain ⟨⟨⟨r2, e2⟩, s2⟩, hx⟩ := Scanner.scanRawString_returns 42 src i hi
    simp only [hx, bind, Except.bind]
    cases e2 with
    | some e => exact ⟨_, rfl⟩
    | none =>
      obtain ⟨k, k1, k2, rfl⟩ := Scanner.scanRawString_After 42 src i r2 s2 hi hx
      have hk := lt_length_of_getElem? k2
      obtain ⟨m, m1, _, m3, _, mn⟩ := Scanner.next_After src (k + 1) hk
      simp only [Option.isSome_none, Bool.false_eq_true, if_false, Scanner.peek_atOffset, mn,
        Scanner.back_atOffset src k 42 k2 (by decide)]
      split_ifs
      · exact ⟨_, rfl⟩
      · exact ih k (by omega) (by omega)

theorem Scanner.finish_returns (src : List Int) (m : Nat) (tok : Int) (lit : String)
    (pos : Position) (hm : m ≤ src.length) :
    ∃ p, (Scanner.atOffset src m).finish tok lit pos = .ok p := by
  obtain ⟨k, _, _, _, _, kn⟩ := Scanner.next_After src m hm
  simp only [Scanner.finish, kn, bind, Except.bind, pure, Except.pure]
  exact ⟨_, rfl⟩

theorem Scanner.scanIdentifier_returns (L : Lib) (src : List Int) (i : Nat)
    (hi : i ≤ src.length) : ∃ v, Scanner.scanIdentifier L (Scanner.atOffset src i) = .ok v := by
  unfold Scanner.scanIdentifier
  obtain ⟨⟨r2, s2⟩, hx⟩ := Scanner.scanIdentifierLoop_returns L src
    (Scanner.atOffset src i).bound i [] hi (by simp [Scanner.bound, Scanner.atOffset]; omega)
  simp only [hx, bind, Except.bind]
  exact ⟨_, rfl⟩

/-- The pass of `Scan` from an exact scanner at a rune that is not blank returns:
no loop of it runs out of steps and no index leaves the source. -/
theorem Scanner.scanPass_body_returns (T : Tokens) (L : Lib) (src : List Int) (j : Nat)
    (hj0 : j ≤ src.length) (hsb : (Scanner.atOffset src j).skipBlank = .ok (Scanner.atOffset src j)) :
    ∃ p, Scanner.scanPass T L (Scanner.atOffset src j) = .ok p := by
  unfold Scanner.scanPass
  simp only [hsb, bind, Except.bind]
  simp only [Scanner.peek_atOffset]
  generalize hc : src[j]?.getD EOF = c
  by_cases cl : isLetter L c = true
  · rw [if_pos cl]
    obtain ⟨⟨⟨lit, e2⟩, s2⟩, hx⟩ := Scanner.scanIdentifier_returns L src j hj0
    simp only [hx]
    split_ifs
    · exact ⟨_, rfl⟩
    · cases (opName T).lookup lit <;> exact ⟨_, rfl⟩
  rw [if_neg cl]
  by_cases cd : isDigit c = true
  · rw [if_pos cd]
    obtain ⟨⟨⟨lit, e2⟩, s2⟩, hx⟩ := Scanner.scanNumber_returns L src j hj0
    simp only [hx]
    exact ⟨_, rfl⟩
  rw [if_neg cd]
  by_cases c34 : c = 34
  · rw [if_pos c34]
    obtain ⟨⟨⟨lit, e2⟩, s2⟩, hx⟩ := Scanner.scanString_returns T 34 src j hj0
    simp only [hx]
    exact ⟨_, rfl⟩
  rw [if_neg c34]
  by_cases c39 : c = 39
  · rw [if_pos c39]
    obtain ⟨⟨⟨lit, e2⟩, s2⟩, hx⟩ := Scanner.scanString_returns T 39 src j hj0
    simp only [hx]
    exact ⟨_, rfl⟩
  rw [if_neg c39]
  by_cases c96 : c = 96
  · rw [if_pos c96]
    obtain ⟨⟨⟨lit, e2⟩, s2⟩, hx⟩ := Scanner.scanRawString_returns 96 src j hj0
    simp only [hx]
    exact ⟨_, rfl⟩
  rw [if_neg c96]
  by_cases ce : c = EOF
  · rw [if_pos ce]
    exact Scanner.finish_returns src j _ _ _ hj0
  rw [if_neg ce]
  by_cases c35 : c = 35
  · rw [if_pos c35]
    obtain ⟨s2, hx⟩ := Scanner.skipLineLoop_returns src (Scanner.atOffset src j).bound j hj0
      (by simp [Scanner.bound, Scanner.atOffset]; omega)
    simp only [hx]
    exact ⟨_, rfl⟩
  rw [if_neg c35]
  by_cases c33 : c = 33
  · rw [if_pos c33]
    have hj := getElem?_of_getD src j c hc (by rw [c33]; decide)
    have hj1 : j + 1 ≤ src.length := lt_length_of_getElem? hj
    have hb := Scanner.back_atOffset src j c hj (by rw [c33]; decide)
    simp only [Scanner.next_atOffset src j c hj, Scanner.peek_atOffset]
    generalize src[j + 1]?.getD EOF = q
    split_ifs
    all_goals first
      | exact Scanner.finish_returns src (j + 1) _ _ _ hj1
      | (rw [hb]; exact Scanner.finish_returns src j _ _ _ hj0)
  rw [if_neg c33]
  by_cases c61 : c = 61
  · rw [if_pos c61]
    have hj := getElem?_of_getD src j c hc (by rw [c61]; decide)
    have hj1 : j + 1 ≤ src.length := lt_length_of_getElem? hj
    have hb := Scanner.back_atOffset src j c hj (by rw [c61]; decide)
    simp only [Scanner.next_atOffset src j c hj, Scanner.peek_atOffset]
    generalize src[j + 1]?.getD EOF = q
    obtain ⟨k, k1, _, k3, _, kn⟩ := Scanner.next_After src (j + 1) hj1
    obtain ⟨m, m1, _, m3, _, mn⟩ := Scanner.next_After src k k3
    have hpp : ∀ n : Nat, (Scanner.atOffset src (j + 1)).peekPlus (n : Int) =
        .ok (src[j + 1 + n]?.getD EOF) := fun n => Scanner.peekPlus_atOffset src (j + 1) n
    have hpp1 := hpp 1
    have hpp2 := hpp 2
    simp only [Nat.cast_one, Nat.cast_ofNat] at hpp1 hpp2
    simp only [hpp1, hpp2]
    generalize src[j + 1 + 1]?.getD EOF = q1
    generalize src[j + 1 + 2]?.getD EOF = q2
    by_cases d1 : q = 61
    · rw [if_pos d1]
      exact Scanner.finish_returns src (j + 1) _ _ _ hj1
    rw [if_neg d1]
    by_cases d2 : q = 32
    swap
    · rw [if_neg d2, hb]
      exact Scanner.finish_returns src j _ _ _ hj0
    rw [if_pos d2]
    by_cases d3 : q1 = 60
    · simp only [d3, if_true, pure, Except.pure, true_and]
      split_ifs
      · simp only [kn, mn]
        exact Scanner.finish_returns src m _ _ _ m3
      · rw [hb]
        exact Scanner.finish_returns src j _ _ _ hj0
    · simp only [d3, if_false, pure, Except.pure, false_and]
      rw [hb]
      exact Scanner.finish_returns src j _ _ _ hj0
  rw [if_neg c61]
  by_cases c63 : c = 63
  · rw [if_pos c63]
    have hj := getElem?_of_getD src j c hc (by rw [c63]; decide)
    have hj1 : j + 1 ≤ src.length := lt_length_of_getElem? hj
    have hb := Scanner.back_atOffset src j c hj (by rw [c63]; decide)
    simp only [Scanner.next_atOffset src j c hj, Scanner.peek_atOffset]
    generalize src[j + 1]?.getD EOF = q
    split_ifs
    all_goals first
      | exact Scanner.finish_returns src (j + 1) _ _ _ hj1
      | (rw [hb]; exact Scanner.finish_returns src j _ _ _ hj0)
  rw [if_neg c63]
  by_cases c43 : c = 43
  · rw [if_pos c43]
    have hj := getElem?_of_getD src j c hc (by rw [c43]; decide)
    have hj1 : j + 1 ≤ src.length := lt_length_of_getElem? hj
    have hb := Scanner.back_atOffset src j c hj (by rw [c43]; decide)
    simp only [Scanner.next_atOffset src j c hj, Scanner.peek_atOffset]
    generalize src[j + 1]?.getD EOF = q
    split_ifs
    all_goals first
      | exact Scanner.finish_returns src (j + 1) _ _ _ hj1
      | (rw [hb]; exact Scanner.finish_returns src j _ _ _ hj0)
  rw [if_neg c43]
  by_cases c45 : c = 45
  · rw [if_pos c45]
    have hj := getElem?_of_getD src j c hc (by rw [c45]; decide)
    have hj1 : j + 1 ≤ src.length := lt_length_of_getElem? hj
    have hb := Scanner.back_atOffset src j c hj (by rw [c45]; decide)
    simp only [Scanner.next_atOffset src j c hj, Scanner.peek_atOffset]
    generalize src[j + 1]?.getD EOF = q
    split_ifs
    all_goals first
      | exact Scanner.finish_returns src (j + 1) _ _ _ hj1
      | (rw [hb]; exact Scanner.finish_returns src j _ _ _ hj0)
  rw [if_neg c45]
  by_cases c42 : c = 42
  · rw [if_pos c42]
    have hj := getElem?_of_getD src j c hc (by rw [c42]; decide)
    have hj1 : j + 1 ≤ src.length := lt_length_of_getElem? hj
    have hb := Scanner.back_atOffset src j c hj (by rw [c42]; decide)
    simp only [Scanner.next_atOffset src j c hj, Scanner.peek_atOffset]
    generalize src[j + 1]?.getD EOF = q
    split_ifs
    all_goals first
      | exact Scanner.finish_returns src (j + 1) _ _ _ hj1
      | (rw [hb]; exact Scanner.finish_returns src j _ _ _ hj0)
  rw [if_neg c42]
  by_cases c47 : c = 47
  · rw [if_pos c47]
    have hj := getElem?_of_getD src j c hc (by rw [c47]; decide)
    have hj1 : j + 1 ≤ src.length := lt_length_of_getElem? hj
    have hb := Scanner.back_atOffset src j c hj (by rw [c47]; decide)
    simp only [Scanner.next_atOffset src j c hj, Scanner.peek_atOffset]
    generalize src[j + 1]?.getD EOF = q
    by_cases d1 : q = 61
    · rw [if_pos d1]
      exact Scanner.finish_returns src (j + 1) _ _ _ hj1
    rw [if_neg d1]
    by_cases d2 : q = 47
    · rw [if_pos d2]
      obtain ⟨s2, hx⟩ := Scanner.skipLineLoop_returns src (Scanner.atOffset src (j + 1)).bound
        (j + 1) hj1 (by simp [Scanner.bound, Scanner.atOffset]; omega)
      simp only [hx]
      exact ⟨_, rfl⟩
    rw [if_neg d2]
    by_cases d3 : q = 42
    · rw [if_pos d3]
      obtain ⟨⟨e2, s2⟩, hx⟩ := Scanner.blockCommentLoop_returns src
        (Scanner.atOffset src (j + 1)).bound (j + 1) hj1
        (by simp [Scanner.bound, Scanner.atOffset]; omega)
      simp only [hx]
      split_ifs <;> exact ⟨_, rfl⟩
    rw [if_neg d3, hb]
    exact Scanner.finish_returns src j _ _ _ hj0
  rw [if_neg c47]
  by_cases c62 : c = 62
  · rw [if_pos c62]
    have hj := getElem?_of_getD src j c hc (by rw [c62]; decide)
    have hj1 : j + 1 ≤ src.length := lt_length_of_getElem? hj
    have hb := Scanner.back_atOffset src j c hj (by rw [c62]; decide)
    simp only [Scanner.next_atOffset src j c hj, Scanner.peek_atOffset]
    generalize src[j + 1]?.getD EOF = q
    split_ifs
    all_goals first
      | exact Scanner.finish_returns src (j + 1) _ _ _ hj1
      | (rw [hb]; exact Scanner.finish_returns src j _ _ _ hj0)
  rw [if_neg c62]
  by_cases c60 : c = 60
  · rw [if_pos c60]
    have hj := getElem?_of_getD src j c hc (by rw [c60]; decide)
    have hj1 : j + 1 ≤ src.length := lt_length_of_getElem? hj
    have hb := Scanner.back_atOffset src j c hj (by rw [c60]; decide)
    simp only [Scanner.next_atOffset src j c hj, Scanner.peek_atOffset]
    generalize src[j + 1]?.getD EOF = q
    split_ifs
    all_goals first
      | exact Scanner.finish_returns src (j + 1) _ _ _ hj1
      | (rw [hb]; exact Scanner.finish_returns src j _ _ _ hj0)
  rw [if_neg c60]
  by_cases c124 : c = 124
  · rw [if_pos c124]
    have hj := getElem?_of_getD src j c hc (by rw [c124]; decide)
    have hj1 : j + 1 ≤ src.length := lt_length_of_getElem? hj
    have hb := Scanner.back_atOffset src j c hj (by rw [c124]; decide)
    simp only [Scanner.next_atOffset src j c hj, Scanner.peek_atOffset]
    generalize src[j + 1]?.getD EOF = q
    split_ifs
    all_goals first
      | exact Scanner.finish_returns src (j + 1) _ _ _ hj1
      | (rw [hb]; exact Scanner.finish_returns src j _ _ _ hj0)
  rw [if_neg c124]
  by_cases c38 : c = 38
  · rw [if_pos c38]
    have hj := getElem?_of_getD src j c hc (by rw [c38]; decide)
    have hj1 : j + 1 ≤ src.length := lt_length_of_getElem? hj
    have hb := Scanner.back_atOffset src j c hj (by rw [c38]; decide)
    simp only [Scanner.next_atOffset src j c hj, Scanner.peek_atOffset]
    generalize src[j + 1]?.getD EOF = q
    split_ifs
    all_goals first
      | exact Scanner.finish_returns src (j + 1) _ _ _ hj1
      | (rw [hb]; exact Scanner.finish_returns src j _ _ _ hj0)
  rw [if_neg c38]
  by_cases c46 : c = 46
  · rw [if_pos c46]
    have hj := getElem?_of_getD src j c hc (by rw [c46]; decide)
    have hj1 : j + 1 ≤ src.length := lt_length_of_getElem? hj
    have hb := Scanner.back_atOffset src j c hj (by rw [c46]; decide)
    simp only [Scanner.next_atOffset src j c hj, Scanner.peek_atOffset]
    generalize src[j + 1]?.getD EOF = q
    obtain ⟨k, k1, _, k3, _, kn⟩ := Scanner.next_After src (j + 1) hj1
    simp only [kn, Scanner.peek_atOffset]
    generalize src[k]?.getD EOF = q1
    split_ifs
    · exact Scanner.finish_returns src k _ _ _ k3
    · exact ⟨_, rfl⟩
    · rw [hb]
      exact Scanner.finish_returns src j _ _ _ hj0
  rw [if_neg c46]
  split_ifs
  · exact Scanner.finish_returns src j _ _ _ hj0
  · exact ⟨_, rfl⟩

theorem Scanner.scanPass_returns (T : Tokens) (L : Lib) (src : List Int) (i : Nat)
    (hi : i ≤ src.length) : ∃ p, Scanner.scanPass T L (Scanner.atOffset src i) = .ok p := by
  obtain ⟨s0, hsb⟩ := Scanner.skipBlankLoop_returns src (Scanner.atOffset src i).bound i hi
    (by simp [Scanner.bound, Scanner.atOffset]; omega)
  obtain ⟨j, _, h2, rfl, _, h5⟩ := Scanner.skipBlank_exact src i s0 hi hsb
  rw [Scanner.scanPass_skipBlank T L _ _ hsb h5]
  exact Scanner.scanPass_body_returns T L src j h2 h5

/-- The loop of `Scan` returns: every jump back to `retry` is taken further on in
the source. -/
theorem Scanner.scanLoop_returns (T : Tokens) (L : Lib) (src : List Int) :
    ∀ (fuel i : Nat), i ≤ src.length → src.length - i < fuel →
      ∃ v, Scanner.scanLoop T L fuel (Scanner.atOffset src i) = .ok v := by
  intro fuel
  induction fuel with
  | zero => intro i _ hf; omega
  | succ f ih =>
    intro i hi hf
    rw [Scanner.scanLoop]
    obtain ⟨p, hp⟩ := Scanner.scanPass_returns T L src i hi
    obtain ⟨j, h1, h2, _, _, h5⟩ := Scanner.scanPass_exact T L src i p hi hp
    simp only [hp, bind, Except.bind]
    cases p with
    | ret r2 s2 => exact ⟨_, rfl⟩
    | retry s2 =>
      obtain ⟨k, k1, k2, rfl⟩ := h5
      exact ih k k2 (by omega)

/-- `Scan` on an exact scanner returns. -/
theorem Scanner.Scan_returns (T : Tokens) (L : Lib) (src : List Int) (i : Nat)
    (hi : i ≤ src.length) : ∃ v, Scanner.Scan T L (Scanner.atOffset src i) = .ok v :=
  Scanner.scanLoop_returns T L src _ i hi (by simp [Scanner.bound, Scanner.atOffset]; omega)

/-! ## Positions of the tokens of a source -/

theorem Scanned_exact (T : Tokens) (L : Lib) (src : String) (s : Scanner)
    (h : Scanned T L src s) : Scanner.After (runes src) 0 s := by
  induction h with
  | fresh =>
    refine ⟨0, le_refl _, Nat.zero_le _, ?_⟩
    rw [Scanner.atOffset_zero]
    rfl
  | scan s s' r _ hs he ih =>
    obtain ⟨i, _, i2, rfl⟩ := ih
    obtain ⟨j, _, _, _, _, _, h6⟩ := Scanner.scanLoop_exact T L (runes src) _ i r s' i2 hs
    exact (h6 he).mono (Nat.zero_le _)

/-- C20. Token positions are exact: a scanner reached from a new scanner over
`src` by successive calls of `Scan` that return no error stands at an offset `i`
within the source, with `line` the number of newlines in `src[0:i]` and
`lineHead` the index just after the last of them, `lineHead ≤ offset`; the next
call of `Scan` returns, and what it returns reports the position of an index `j`
at or after the offset, the first rune of the token (the rune at `j` is not
blank and one pass of `Scan` from `j` returns this token): its line is 1 plus
the number of newlines before `j` and its column is 1 plus the number of runes
between the last newline before `j`, or the start of the source, and `j`. -/
theorem Scan_positions_exact (T : Tokens) (L : Lib) (src : String) (s : Scanner)
    (h : Scanned T L src s) :
    (∃ i : Nat, i ≤ (runes src).length ∧
      s = ⟨runes src, i, (i : Int) - runesSinceNewline (runes src) i,
        newlinesBefore (runes src) i⟩) ∧
    s.lineHead ≤ s.offset ∧
    (∃ r s', Scanner.Scan T L s = .ok (r, s')) ∧
    ∀ r s', Scanner.Scan T L s = .ok (r, s') →
      ∃ j : Nat, s.offset ≤ j ∧ j ≤ (runes src).length ∧
        isBlank ((runes src)[j]?.getD EOF) = false ∧
        Scanner.scanPass T L (Scanner.atOffset (runes src) j) = .ok (.ret r s') ∧
        r.pos = ⟨1 + (newlinesBefore (runes src) j : Int),
          1 + (runesSinceNewline (runes src) j : Int)⟩ := by
  obtain ⟨i, _, i2, rfl⟩ := Scanned_exact T L src s h
  refine ⟨⟨i, i2, rfl⟩, ?_, ?_, ?_⟩
  · show (i : Int) - (runesSinceNewline (runes src) i : Int) ≤ (i : Int)
    omega
  · obtain ⟨⟨r, s'⟩, hs⟩ := Scanner.Scan_returns T L (runes src) i i2
    exact ⟨r, s', hs⟩
  · intro r s' hs
    obtain ⟨j, j1, j2, j3, j4, j5, _⟩ := Scanner.scanLoop_exact T L (runes src) _ i r s' i2 hs
    refine ⟨j, ?_, j2, j3, j4, ?_⟩
    · show (i : Int) ≤ (j : Int)
      omega
    · rw [j5, Scanner.pos_atOffset]

/-- C20 on `sampleSource` after two calls of `Scan`: the scanner stands at offset
3 of line 1 after the step back of `=`, and the third call skips the comment and
reports the raw string at line 2, column 7, the position of index 15. -/
theorem Scan_positions_exact_example :
    ((∃ i : Nat, i ≤ (runes sampleSource).length ∧
      (⟨runes sampleSource, 3, 0, 0⟩ : Scanner) =
        ⟨runes sampleSource, i, (i : Int) - runesSinceNewline (runes sampleSource) i,
          newlinesBefore (runes sampleSource) i⟩) ∧
    (⟨runes sampleSource, 3, 0, 0⟩ : Scanner).lineHead ≤
      (⟨runes sampleSource, 3, 0, 0⟩ : Scanner).offset ∧
    (∃ r s', Scanner.Scan sampleTokens plainLib ⟨runes sampleSource, 3, 0, 0⟩ = .ok (r, s')) ∧
    ∀ r s', Scanner.Scan sampleTokens plainLib ⟨runes sampleSource, 3, 0, 0⟩ = .ok (r, s') →
      ∃ j : Nat, (⟨runes sampleSource, 3, 0, 0⟩ : Scanner).offset ≤ j ∧
        j ≤ (runes sampleSource).length ∧
        isBlank ((runes sampleSource)[j]?.getD EOF) = false ∧
        Scanner.scanPass sampleTokens plainLib (Scanner.atOffset (runes sampleSource) j) =
          .ok (.ret r s') ∧
        r.pos = ⟨1 + (newlinesBefore (runes sampleSource) j : Int),
          1 + (runesSinceNewline (runes sampleSource) j : Int)⟩) ∧
    Scanner.Scan sampleTokens plainLib ⟨runes sampleSource, 3, 0, 0⟩ =
      .ok (⟨sampleTokens.STRING, "r\ns", ⟨2, 7⟩, none⟩, ⟨runes sampleSource, 20, 18, 2⟩) ∧
    newlinesBefore (runes sampleSource) 15 = 1 ∧ runesSinceNewline (runes sampleSource) 15 = 6 :=
  ⟨Scan_positions_exact sampleTokens plainLib sampleSource ⟨runes sampleSource, 3, 0, 0⟩
    (.scan ⟨runes sampleSource, 1, 0, 0⟩ ⟨runes sampleSource, 3, 0, 0⟩
      ⟨61, "=", ⟨1, 3⟩, none⟩
      (.scan (Scanner.new sampleSource) ⟨runes sampleSource, 1, 0, 0⟩
        ⟨sampleTokens.IDENT, "a", ⟨1, 1⟩, none⟩ .fresh rfl rfl) rfl rfl),
   rfl, rfl, rfl⟩

/-! ## The scanner wherever the text stands: C21 to C24 -/

theorem getElem?_append_shift (pre r : List Int) (i : Nat) :
    (pre ++ r)[pre.length + i]? = r[i]? := by
  rw [List.getElem?_append_right (by omega)]
  congr 1
  omega

theorem Scanner.step_le (r : List Int) (i : Nat) (hi : i ≤ r.length) :
    i ≤ Scanner.step r i ∧ Scanner.step r i ≤ r.length ∧ Scanner.step r i ≤ i + 1 := by
  unfold Scanner.step
  split_ifs <;> omega

theorem Scanner.step_lt (r : List Int) (i : Nat) (c : Int) (h : r[i]? = some c) :
    Scanner.step r i = i + 1 := by
  have := lt_length_of_getElem? h
  simp [Scanner.step, this]

theorem Scanner.peek_within (pre r : List Int) (i : Nat) (lh ln : Int) :
    (Scanner.within pre r i lh ln).peek = .ok (r[i]?.getD EOF) := by
  unfold Scanner.within
  cases h : r[i]? with
  | none =>
    have : r.length ≤ i := by
      by_contra hcon
      rw [List.getElem?_eq_getElem (by omega)] at h
      cases h
    exact Scanner.peek_end (pre ++ r) _ lh ln (by simp; omega)
  | some c =>
    exact Scanner.peek_lt (pre ++ r) _ lh ln c (by rw [getElem?_append_shift]; exact h)

theorem Scanner.peekPlus_within (pre r : List Int) (i n : Nat) (lh ln : Int) :
    (Scanner.within pre r i lh ln).peekPlus n = .ok (r[i + n]?.getD EOF) := by
  have hsh : (pre ++ r)[pre.length + i + n]? = r[i + n]? := by
    rw [Nat.add_assoc]
    exact getElem?_append_shift pre r (i + n)
  cases h : r[i + n]? with
  | none =>
    have : r.length ≤ i + n := by
      by_contra hcon
      rw [List.getElem?_eq_getElem (by omega)] at h
      cases h
    have h1 : ((pre ++ r).length : Int) ≤ ((pre.length + i : Nat) : Int) + (n : Int) := by
      simp
      omega
    simp only [Scanner.peekPlus, Scanner.within, h1, if_true, Option.getD_none]
  | some c =>
    have hi := lt_length_of_getElem? h
    have h1 : ¬ (((pre ++ r).length : Int) ≤ ((pre.length + i : Nat) : Int) + (n : Int)) := by
      simp
      omega
    have h2 : (((pre.length + i : Nat) : Int) + (n : Int)).toNat = pre.length + i + n := by omega
    have h3 : (0 : Int) ≤ ((pre.length + i : Nat) : Int) + (n : Int) := by omega
    rw [h] at hsh
    simp only [Scanner.peekPlus, Scanner.within, h1, if_false, Scanner.srcAt, h3, if_true, h2,
      List.get?_eq_getElem?, hsh, Option.getD_some]

/-- `next` from index `i` of the text stands at index `step r i`. -/
theorem Scanner.next_within (pre r : List Int) (i : Nat) (lh ln : Int) :
    ∃ lh' ln', (Scanner.within pre r i lh ln).next =
      .ok (Scanner.within pre r (Scanner.step r i) lh' ln') := by
  unfold Scanner.within
  cases h : r[i]? with
  | none =>
    have hl : r.length ≤ i := by
      by_contra hcon
      rw [List.getElem?_eq_getElem (by omega)] at h
      cases h
    have hs : Scanner.step r i = i := by simp [Scanner.step]; omega
    rw [hs]
    exact ⟨lh, ln, Scanner.next_end (pre ++ r) _ lh ln (by simp; omega)⟩
  | some c =>
    rw [Scanner.step_lt r i c h]
    obtain ⟨lh', ln', hn⟩ := Scanner.next_some (pre ++ r) (pre.length + i) lh ln c
      (by rw [getElem?_append_shift]; exact h)
    exact ⟨lh', ln', hn⟩

theorem Scanner.back_within (pre r : List Int) (i : Nat) (lh ln : Int) :
    (Scanner.within pre r (i + 1) lh ln).back = Scanner.within pre r i lh ln := by
  simp only [Scanner.back, Scanner.within, Scanner.mk.injEq, true_and, and_true]
  push_cast
  omega

theorem Scanner.within_nil (r : List Int) (i : Nat) (lh ln : Int) :
    Scanner.within [] r i lh ln = ⟨r, (i : Int), lh, ln⟩ := by
  simp [Scanner.within]

theorem succ_of_le_fuel {n fuel : Nat} (h : n + 1 ≤ fuel) : ∃ f, fuel = f + 1 ∧ n ≤ f :=
  ⟨fuel - 1, by omega, by omega⟩

theorem getElem?_of_ne_EOF (r : List Int) (i : Nat) (h : r[i]?.getD EOF ≠ EOF) :
    r[i]? = some (r[i]?.getD EOF) ∧ i < r.length := by
  have := getElem?_of_getD r i _ rfl h
  exact ⟨this, lt_length_of_getElem? this⟩

/-- `skipBlank` runs the same way wherever the text stands in the source. -/
theorem Scanner.skipBlankLoop_runs (r : List Int) :
    ∀ (n i : Nat), r.length - i < n → i ≤ r.length →
      ∃ j, i ≤ j ∧ j ≤ r.length ∧ isBlank (r[j]?.getD EOF) = false ∧
        ∀ (fuel : Nat) (pre : List Int) (lh ln : Int), n ≤ fuel →
          ∃ lh' ln', Scanner.skipBlankLoop fuel (Scanner.within pre r i lh ln) =
            .ok (Scanner.within pre r j lh' ln') := by
  intro n
  induction n with
  | zero => intro i hn; omega
  | succ m ih =>
    intro i hn hi
    by_cases hb : isBlank (r[i]?.getD EOF) = true
    · obtain ⟨hj, hl⟩ := getElem?_of_ne_EOF r i (by
        intro he
        rw [he] at hb
        exact absurd hb (by decide))
      obtain ⟨j, j1, j2, j3, hrec⟩ := ih (i + 1) (by omega) (by omega)
      refine ⟨j, by omega, j2, j3, ?_⟩
      intro fuel pre lh ln hf
      obtain ⟨f, rfl, hf'⟩ := succ_of_le_fuel hf
      obtain ⟨lh1, ln1, hnx⟩ := Scanner.next_within pre r i lh ln
      rw [Scanner.step_lt r i _ hj] at hnx
      rw [Scanner.skipBlankLoop]
      simp only [Scanner.peek_within, bind, Except.bind, hb, if_true, hnx]
      exact hrec f pre lh1 ln1 hf'
    · refine ⟨i, le_refl _, hi, by simpa using hb, ?_⟩
      intro fuel pre lh ln hf
      obtain ⟨f, rfl, _⟩ := succ_of_le_fuel hf
      rw [Scanner.skipBlankLoop]
      simp only [Scanner.peek_within, bind, Except.bind, hb, Bool.false_eq_true, if_false, pure,
        Except.pure]
      exact ⟨lh, ln, rfl⟩

theorem Scanner.scanIdentifierLoop_runs (L : Lib) (r : List Int) :
    ∀ (n i : Nat) (ret : List Int), r.length - i < n → i ≤ r.length →
      ∃ v j, i ≤ j ∧ j ≤ r.length ∧
        ((isLetter L (r[i]?.getD EOF) || isDigit (r[i]?.getD EOF)) = true → i < j) ∧
        ∀ (fuel : Nat) (pre : List Int) (lh ln : Int), n ≤ fuel →
          ∃ lh' ln', Scanner.scanIdentifierLoop L fuel (Scanner.within pre r i lh ln) ret =
            .ok (v, Scanner.within pre r j lh' ln') := by
  intro n
  induction n with
  | zero => intro i _ hn; omega
  | succ m ih =>
    intro i ret hn hi
    by_cases hb : (!isLetter L (r[i]?.getD EOF) && !isDigit (r[i]?.getD EOF)) = true
    · refine ⟨ret, i, le_refl _, hi, ?_, ?_⟩
      · intro h
        simp only [Bool.and_eq_true, Bool.not_eq_true', Bool.or_eq_true] at hb h
        rcases h with h | h
        · rw [hb.1] at h; cases h
        · rw [hb.2] at h; cases h
      intro fuel pre lh ln hf
      obtain ⟨f, rfl, _⟩ := succ_of_le_fuel hf
      rw [Scanner.scanIdentifierLoop]
      simp only [Scanner.peek_within, bind, Except.bind, hb, if_true, pure, Except.pure]
      exact ⟨lh, ln, rfl⟩
    · obtain ⟨hj, hl⟩ := getElem?_of_ne_EOF r i (by
        intro he
        rw [he] at hb
        have := isLetter_EOF L
        simp [this] at hb
        exact absurd hb (by decide))
      obtain ⟨v, j, j1, j2, _, hrec⟩ := ih (i + 1) (ret ++ [r[i]?.getD EOF]) (by omega) (by omega)
      refine ⟨v, j, by omega, j2, fun _ => by omega, ?_⟩
      intro fuel pre lh ln hf
      obtain ⟨f, rfl, hf'⟩ := succ_of_le_fuel hf
      obtain ⟨lh1, ln1, hnx⟩ := Scanner.next_within pre r i lh ln
      rw [Scanner.step_lt r i _ hj] at hnx
      rw [Scanner.scanIdentifierLoop]
      simp only [Scanner.peek_within, bind, Except.bind, hb, Bool.false_eq_true, if_false, hnx]
      exact hrec f pre lh1 ln1 hf'

theorem Scanner.scanHexLoop_runs (r : List Int) :
    ∀ (n i : Nat) (ret : List Int), r.length - i < n → i ≤ r.length →
      ∃ v j, i ≤ j ∧ j ≤ r.length ∧
        ∀ (fuel : Nat) (pre : List Int) (lh ln : Int), n ≤ fuel →
          ∃ lh' ln', Scanner.scanHexLoop fuel (Scanner.within pre r i lh ln) ret =
            .ok (v, Scanner.within pre r j lh' ln') := by
  intro n
  induction n with
  | zero => intro i _ hn; omega
  | succ m ih =>
    intro i ret hn hi
    by_cases hb : isHex (r[i]?.getD EOF) = true
    · obtain ⟨hj, hl⟩ := getElem?_of_ne_EOF r i (by
        intro he
        rw [he] at hb
        exact absurd hb (by decide))
      obtain ⟨v, j, j1, j2, hrec⟩ := ih (i + 1) (ret ++ [r[i]?.getD EOF]) (by omega) (by omega)
      refine ⟨v, j, by omega, j2, ?_⟩
      intro fuel pre lh ln hf
      obtain ⟨f, rfl, hf'⟩ := succ_of_le_fuel hf
      obtain ⟨lh1, ln1, hnx⟩ := Scanner.next_within pre r i lh ln
      rw [Scanner.step_lt r i _ hj] at hnx
      rw [Scanner.scanHexLoop]
      simp only [Scanner.peek_within, bind, Except.bind, hb, if_true, hnx]
      exact hrec f pre lh1 ln1 hf'
    · refine ⟨ret, i, le_refl _, hi, ?_⟩
      intro fuel pre lh ln hf
      obtain ⟨f, rfl, _⟩ := succ_of_le_fuel hf
      rw [Scanner.scanHexLoop]
      simp only [Scanner.peek_within, bind, Except.bind, hb, Bool.false_eq_true, if_false, pure,
        Except.pure]
      exact ⟨lh, ln, rfl⟩

theorem Scanner.skipLineLoop_runs (r : List Int) :
    ∀ (n i : Nat), r.length - i < n → i ≤ r.length →
      ∃ j, i ≤ j ∧ j ≤ r.length ∧ (isEOL (r[i]?.getD EOF) = false → i < j) ∧
        ∀ (fuel : Nat) (pre : List Int) (lh ln : Int), n ≤ fuel →
          ∃ lh' ln', Scanner.skipLineLoop fuel (Scanner.within pre r i lh ln) =
            .ok (Scanner.within pre r j lh' ln') := by
  intro n
  induction n with
  | zero => intro i hn; omega
  | succ m ih =>
    intro i hn hi
    by_cases hb : (!isEOL (r[i]?.getD EOF)) = true
    · obtain ⟨hj, hl⟩ := getElem?_of_ne_EOF r i (by
        intro he
        rw [he] at hb
        exact absurd hb (by decide))
      obtain ⟨j, j1, j2, _, hrec⟩ := ih (i + 1) (by omega) (by omega)
      refine ⟨j, by omega, j2, fun _ => by omega, ?_⟩
      intro fuel pre lh ln hf
      obtain ⟨f, rfl, hf'⟩ := succ_of_le_fuel hf
      obtain ⟨lh1, ln1, hnx⟩ := Scanner.next_within pre r i lh ln
      rw [Scanner.step_lt r i _ hj] at hnx
      rw [Scanner.skipLineLoop]
      simp only [Scanner.peek_within, bind, Except.bind, hb, if_true, hnx]
      exact hrec f pre lh1 ln1 hf'
    · refine ⟨i, le_refl _, hi, ?_, ?_⟩
      · intro h
        rw [h] at hb
        exact absurd rfl hb
      intro fuel pre lh ln hf
      obtain ⟨f, rfl, _⟩ := succ_of_le_fuel hf
      rw [Scanner.skipLineLoop]
      simp only [Scanner.peek_within, bind, Except.bind, hb, Bool.false_eq_true, if_false, pure,
        Except.pure]
      exact ⟨lh, ln, rfl⟩

theorem Scanner.bound_within (pre r : List Int) (i : Nat) (lh ln : Int) :
    (Scanner.within pre r i lh ln).bound = (pre ++ r).length + 1 := rfl

theorem bound_enough (pre r : List Int) (i : Nat) :
    r.length - i + 1 ≤ (pre ++ r).length + 1 := by
  simp
  omega

theorem Scanner.scanDecLoop_runs (r : List Int) :
    ∀ (n i : Nat) (found : Bool) (ret : List Int), r.length - i < n → i ≤ r.length →
      ∃ v j, i ≤ j ∧ j ≤ r.length ∧
        ∀ (fuel : Nat) (pre : List Int) (lh ln : Int), n ≤ fuel →
          ∃ lh' ln', Scanner.scanDecLoop fuel (Scanner.within pre r i lh ln) found ret =
            .ok (v, Scanner.within pre r j lh' ln') := by
  intro n
  induction n with
  | zero => intro i _ _ hn; omega
  | succ m ih =>
    intro i found ret hn hi
    generalize hc : r[i]?.getD EOF = c
    -- a pass that steps over the rune read and goes on
    have go : c ≠ EOF → ∀ found' ret', ∃ v j, i ≤ j ∧ j ≤ r.length ∧
        ∀ (f : Nat) (pre : List Int) (lh ln : Int), m ≤ f →
          ∃ lh1 ln1 lh' ln', (Scanner.within pre r i lh ln).next =
              .ok (Scanner.within pre r (i + 1) lh1 ln1) ∧
            Scanner.scanDecLoop f (Scanner.within pre r (i + 1) lh1 ln1) found' ret' =
              .ok (v, Scanner.within pre r j lh' ln') := by
      intro hne found' ret'
      obtain ⟨hj, hl⟩ := getElem?_of_ne_EOF r i (by rw [hc]; exact hne)
      obtain ⟨v, j, j1, j2, hrec⟩ := ih (i + 1) found' ret' (by omega) (by omega)
      refine ⟨v, j, by omega, j2, ?_⟩
      intro f pre lh ln hf
      obtain ⟨lh1, ln1, hnx⟩ := Scanner.next_within pre r i lh ln
      rw [Scanner.step_lt r i _ hj] at hnx
      obtain ⟨lh', ln', h2⟩ := hrec f pre lh1 ln1 hf
      exact ⟨lh1, ln1, lh', ln', hnx, h2⟩
    by_cases h1 : isDigit c = true
    · obtain ⟨v, j, j1, j2, hrun⟩ := go (by rintro rfl; exact absurd h1 (by decide)) found
        (ret ++ [c])
      refine ⟨v, j, j1, j2, ?_⟩
      intro fuel pre lh ln hf
      obtain ⟨f, rfl, hf'⟩ := succ_of_le_fuel hf
      obtain ⟨lh1, ln1, lh', ln', hnx, h2⟩ := hrun f pre lh ln hf'
      rw [Scanner.scanDecLoop]
      simp only [Scanner.peek_within, bind, Except.bind, hc, h1, if_true, hnx]
      exact ⟨lh', ln', h2⟩
    by_cases h2 : c = 46
    · obtain ⟨v, j, j1, j2, hrun⟩ := go (by rw [h2]; decide) found (ret ++ [46])
      refine ⟨v, j, j1, j2, ?_⟩
      intro fuel pre lh ln hf
      obtain ⟨f, rfl, hf'⟩ := succ_of_le_fuel hf
      obtain ⟨lh1, ln1, lh', ln', hnx, h3⟩ := hrun f pre lh ln hf'
      rw [Scanner.scanDecLoop]
      simp only [Scanner.peek_within, bind, Except.bind, hc, h1, Bool.false_eq_true, if_false,
        h2, if_true, hnx]
      exact ⟨lh', ln', h3⟩
    by_cases h3 : c = 101 ∨ c = 69
    · have hne : c ≠ EOF := by rcases h3 with rfl | rfl <;> decide
      obtain ⟨hj, hl⟩ := getElem?_of_ne_EOF r i (by rw [hc]; exact hne)
      cases found with
      | true =>
        refine ⟨([], some (.text ("unexpected " ++ runeToString c))), i, le_refl _, hi, ?_⟩
        intro fuel pre lh ln hf
        obtain ⟨f, rfl, _⟩ := succ_of_le_fuel hf
        rw [Scanner.scanDecLoop]
        simp only [Scanner.peek_within, bind, Except.bind, hc, h1, Bool.false_eq_true, if_false,
          h2, h3, if_true, pure, Except.pure]
        exact ⟨lh, ln, rfl⟩
      | false =>
        generalize hc2 : r[i + 1]?.getD EOF = c2
        by_cases h4 : c2 = 43 ∨ c2 = 45
        · have hne2 : c2 ≠ EOF := by rcases h4 with rfl | rfl <;> decide
          obtain ⟨hj2, hl2⟩ := getElem?_of_ne_EOF r (i + 1) (by rw [hc2]; exact hne2)
          obtain ⟨v, j, j1, j2, hrec⟩ := ih (i + 1 + 1) true (ret ++ [101] ++ [c2]) (by omega)
            (by omega)
          refine ⟨v, j, by omega, j2, ?_⟩
          intro fuel pre lh ln hf
          obtain ⟨f, rfl, hf'⟩ := succ_of_le_fuel hf
          obtain ⟨lh1, ln1, hnx⟩ := Scanner.next_within pre r i lh ln
          rw [Scanner.step_lt r i _ hj] at hnx
          obtain ⟨lh2, ln2, hnx2⟩ := Scanner.next_within pre r (i + 1) lh1 ln1
          rw [Scanner.step_lt r (i + 1) _ hj2] at hnx2
          rw [Scanner.scanDecLoop]
          simp only [Scanner.peek_within, bind, Except.bind, hc, h1, Bool.false_eq_true,
            if_false, h2, h3, if_true, hnx, hc2, h4, hnx2]
          exact hrec f pre lh2 ln2 hf'
        · obtain ⟨v, j, j1, j2, hrec⟩ := ih (i + 1) true (ret ++ [101]) (by omega) (by omega)
          refine ⟨v, j, by omega, j2, ?_⟩
          intro fuel pre lh ln hf
          obtain ⟨f, rfl, hf'⟩ := succ_of_le_fuel hf
          obtain ⟨lh1, ln1, hnx⟩ := Scanner.next_within pre r i lh ln
          rw [Scanner.step_lt r i _ hj] at hnx
          rw [Scanner.scanDecLoop]
          simp only [Scanner.peek_within, bind, Except.bind, hc, h1, Bool.false_eq_true,
            if_false, h2, h3, if_true, hnx, hc2, h4]
          exact hrec f pre lh1 ln1 hf'
    · refine ⟨(ret, none), i, le_refl _, hi, ?_⟩
      intro fuel pre lh ln hf
      obtain ⟨f, rfl, _⟩ := succ_of_le_fuel hf
      rw [Scanner.scanDecLoop]
      simp only [Scanner.peek_within, bind, Except.bind, hc, h1, Bool.false_eq_true, if_false,
        h2, h3, pure, Except.pure]
      exact ⟨lh, ln, rfl⟩

theorem Scanner.step_progress (r : List Int) (i : Nat) (h : i < r.length) :
    Scanner.step r i = i + 1 := by
  simp [Scanner.step, h]

theorem Scanner.scanNumber_runs (L : Lib) (r : List Int) (i : Nat) (hi : i ≤ r.length) :
    ∃ v j, i ≤ j ∧ j ≤ r.length ∧ (i < r.length → i < j) ∧
      ∀ (pre : List Int) (lh ln : Int),
        ∃ lh' ln', Scanner.scanNumber L (Scanner.within pre r i lh ln) =
          .ok (v, Scanner.within pre r j lh' ln') := by
  generalize hc : r[i]?.getD EOF = c
  obtain ⟨s1, s2, s3⟩ := Scanner.step_le r i hi
  generalize hj1 : Scanner.step r i = j1 at s1 s2 s3
  have hprog : i < r.length → i < j1 := by
    intro h
    rw [← hj1, Scanner.step_progress r i h]
    omega
  generalize hp : r[j1]?.getD EOF = p
  by_cases hx : c = 48 ∧ (p = 120 ∨ p = 88)
  · have hxt := eq_true hx
    obtain ⟨t1, t2, t3⟩ := Scanner.step_le r j1 s2
    generalize hj2 : Scanner.step r j1 = j2 at t1 t2 t3
    obtain ⟨v, j, k1, k2, hrec⟩ := Scanner.scanHexLoop_runs r (r.length - j2 + 1) j2
      ([c] ++ [120]) (by omega) t2
    generalize hq : r[j]?.getD EOF = q
    by_cases hl : isLetter L q = true
    · refine ⟨("", some (.text "identifier starts immediately after numeric literal")), j,
        by omega, k2, fun h => by have := hprog h; omega, ?_⟩
      intro pre lh ln
      obtain ⟨lh1, ln1, hn1⟩ := Scanner.next_within pre r i lh ln
      rw [hj1] at hn1
      obtain ⟨lh2, ln2, hn2⟩ := Scanner.next_within pre r j1 lh1 ln1
      rw [hj2] at hn2
      obtain ⟨lh3, ln3, hh⟩ := hrec _ pre lh2 ln2 (bound_enough pre r j2)
      unfold Scanner.scanNumber
      simp only [Scanner.peek_within, bind, Except.bind, hc, hn1, hp, hxt, if_true, hn2,
        Scanner.bound_within, hh, pure, Except.pure, Option.isSome_none, Bool.false_eq_true,
        if_false, hq, hl]
      exact ⟨lh3, ln3, rfl⟩
    · refine ⟨(runesToString v, none), j, by omega, k2, fun h => by have := hprog h; omega, ?_⟩
      intro pre lh ln
      obtain ⟨lh1, ln1, hn1⟩ := Scanner.next_within pre r i lh ln
      rw [hj1] at hn1
      obtain ⟨lh2, ln2, hn2⟩ := Scanner.next_within pre r j1 lh1 ln1
      rw [hj2] at hn2
      obtain ⟨lh3, ln3, hh⟩ := hrec _ pre lh2 ln2 (bound_enough pre r j2)
      unfold Scanner.scanNumber
      simp only [Scanner.peek_within, bind, Except.bind, hc, hn1, hp, hxt, if_true, hn2,
        Scanner.bound_within, hh, pure, Except.pure, Option.isSome_none, Bool.false_eq_true,
        if_false, hq, hl]
      exact ⟨lh3, ln3, rfl⟩
  · obtain ⟨⟨res, err⟩, j, k1, k2, hrec⟩ := Scanner.scanDecLoop_runs r (r.length - j1 + 1) j1
      false [c] (by omega) s2
    cases err with
    | some e =>
      refine ⟨("", some e), j, by omega, k2, fun h => by have := hprog h; omega, ?_⟩
      intro pre lh ln
      obtain ⟨lh1, ln1, hn1⟩ := Scanner.next_within pre r i lh ln
      rw [hj1] at hn1
      obtain ⟨lh3, ln3, hh⟩ := hrec _ pre lh1 ln1 (bound_enough pre r j1)
      unfold Scanner.scanNumber
      simp only [Scanner.peek_within, bind, Except.bind, hc, hn1, hp, hx, if_false,
        Scanner.bound_within, hh, pure, Except.pure, Option.isSome_some, if_true]
      exact ⟨lh3, ln3, rfl⟩
    | none =>
      generalize hq : r[j]?.getD EOF = q
      by_cases hl : isLetter L q = true
      · refine ⟨("", some (.text "identifier starts immediately after numeric literal")), j,
          by omega, k2, fun h => by have := hprog h; omega, ?_⟩
        intro pre lh ln
        obtain ⟨lh1, ln1, hn1⟩ := Scanner.next_within pre r i lh ln
        rw [hj1] at hn1
        obtain ⟨lh3, ln3, hh⟩ := hrec _ pre lh1 ln1 (bound_enough pre r j1)
        unfold Scanner.scanNumber
        simp only [Scanner.peek_within, bind, Except.bind, hc, hn1, hp, hx, if_false,
          Scanner.bound_within, hh, pure, Except.pure, Option.isSome_none, Bool.false_eq_true,
          hq, hl, if_true]
        exact ⟨lh3, ln3, rfl⟩
      · refine ⟨(runesToString res, none), j, by omega, k2,
          fun h => by have := hprog h; omega, ?_⟩
        intro pre lh ln
        obtain ⟨lh1, ln1, hn1⟩ := Scanner.next_within pre r i lh ln
        rw [hj1] at hn1
        obtain ⟨lh3, ln3, hh⟩ := hrec _ pre lh1 ln1 (bound_enough pre r j1)
        unfold Scanner.scanNumber
        simp only [Scanner.peek_within, bind, Except.bind, hc, hn1, hp, hx, if_false,
          Scanner.bound_within, hh, pure, Except.pure, Option.isSome_none, Bool.false_eq_true,
          hq, hl]
        exact ⟨lh3, ln3, rfl⟩

theorem Scanner.step_of_next_rune (r : List Int) (i : Nat) (hi : i ≤ r.length)
    (h : r[Scanner.step r i]?.getD EOF ≠ EOF) :
    Scanner.step r i = i + 1 ∧ i + 1 < r.length := by
  obtain ⟨_, hl⟩ := getElem?_of_ne_EOF r _ h
  unfold Scanner.step at hl ⊢
  split_ifs at hl ⊢ <;> omega

theorem Scanner.scanRawStringLoop_runs (l : Int) (r : List Int) :
    ∀ (n i : Nat) (ret : List Int), r.length - i < n → i ≤ r.length →
      ∃ v j, i ≤ j ∧ j ≤ r.length ∧ (v.2 = none → ∃ k, i < k ∧ j = k + 1 ∧ r[k]? = some l) ∧
        (i < r.length → i < j) ∧
        ∀ (fuel : Nat) (pre : List Int) (lh ln : Int), n ≤ fuel →
          ∃ lh' ln', Scanner.scanRawStringLoop l fuel (Scanner.within pre r i lh ln) ret =
            .ok (v, Scanner.within pre r j lh' ln') := by
  intro n
  induction n with
  | zero => intro i _ hn; omega
  | succ m ih =>
    intro i ret hn hi
    obtain ⟨s1, s2, s3⟩ := Scanner.step_le r i hi
    have hprog : i < r.length → i < Scanner.step r i := by
      intro h
      rw [Scanner.step_progress r i h]
      omega
    generalize hc : r[Scanner.step r i]?.getD EOF = c
    by_cases he : c = EOF
    · refine ⟨([], some (.text "unexpected EOF")), Scanner.step r i, s1, s2,
        fun h => absurd h (by simp), hprog, ?_⟩
      intro fuel pre lh ln hf
      obtain ⟨f, rfl, _⟩ := succ_of_le_fuel hf
      obtain ⟨lh1, ln1, hn1⟩ := Scanner.next_within pre r i lh ln
      rw [Scanner.scanRawStringLoop]
      simp only [hn1, Scanner.peek_within, bind, Except.bind, hc, he, if_true, pure, Except.pure]
      exact ⟨lh1, ln1, rfl⟩
    obtain ⟨hst, hlt⟩ := Scanner.step_of_next_rune r i hi (by rw [hc]; exact he)
    have hj : r[i + 1]? = some c := by
      have := (getElem?_of_ne_EOF r _ (by rw [hc]; exact he)).1
      rw [hc, hst] at this
      exact this
    by_cases hl : c = l
    · refine ⟨(ret, none), i + 1 + 1, by omega, by omega,
        fun _ => ⟨i + 1, by omega, rfl, by rw [hj, hl]⟩, fun _ => by omega, ?_⟩
      intro fuel pre lh ln hf
      obtain ⟨f, rfl, _⟩ := succ_of_le_fuel hf
      obtain ⟨lh1, ln1, hn1⟩ := Scanner.next_within pre r i lh ln
      rw [hst] at hn1
      obtain ⟨lh2, ln2, hn2⟩ := Scanner.next_within pre r (i + 1) lh1 ln1
      rw [Scanner.step_lt r (i + 1) c hj] at hn2
      rw [hst] at hc
      rw [Scanner.scanRawStringLoop]
      simp only [hn1, Scanner.peek_within, bind, Except.bind, hc, he, if_false, hl, if_true, hn2,
        pure, Except.pure]
      refine ⟨lh2, ln2, ?_⟩
      rw [← hl]
      simp only [he, if_false]
    · obtain ⟨v, j, j1, j2, j3, _, hrec⟩ := ih (i + 1) (ret ++ [c]) (by omega) (by omega)
      refine ⟨v, j, by omega, j2, ?_, fun _ => by omega, ?_⟩
      · intro hv
        obtain ⟨k, k1, k2, k3⟩ := j3 hv
        exact ⟨k, by omega, k2, k3⟩
      intro fuel pre lh ln hf
      obtain ⟨f, rfl, hf'⟩ := succ_of_le_fuel hf
      obtain ⟨lh1, ln1, hn1⟩ := Scanner.next_within pre r i lh ln
      rw [hst] at hn1
      rw [hst] at hc
      rw [Scanner.scanRawStringLoop]
      simp only [hn1, Scanner.peek_within, bind, Except.bind, hc, he, if_false, hl]
      exact hrec f pre lh1 ln1 hf'

theorem Scanner.scanRawString_runs (l : Int) (r : List Int) (i : Nat) (hi : i ≤ r.length) :
    ∃ v j, i ≤ j ∧ j ≤ r.length ∧ (v.2 = none → ∃ k, i < k ∧ j = k + 1 ∧ r[k]? = some l) ∧
      (i < r.length → i < j) ∧
      ∀ (pre : List Int) (lh ln : Int),
        ∃ lh' ln', Scanner.scanRawString l (Scanner.within pre r i lh ln) =
          .ok (v, Scanner.within pre r j lh' ln') := by
  obtain ⟨⟨res, err⟩, j, j1, j2, j3, j4, hrec⟩ :=
    Scanner.scanRawStringLoop_runs l r (r.length - i + 1) i [] (by omega) hi
  cases err with
  | some e =>
    refine ⟨("", some e), j, j1, j2, fun h => absurd h (by simp), j4, ?_⟩
    intro pre lh ln
    obtain ⟨lh1, ln1, hh⟩ := hrec _ pre lh ln (bound_enough pre r i)
    unfold Scanner.scanRawString
    simp only [Scanner.bound_within, hh, bind, Except.bind, Option.isSome_some, if_true, pure,
      Except.pure]
    exact ⟨lh1, ln1, rfl⟩
  | none =>
    refine ⟨(runesToString res, none), j, j1, j2, fun _ => j3 rfl, j4, ?_⟩
    intro pre lh ln
    obtain ⟨lh1, ln1, hh⟩ := hrec _ pre lh ln (bound_enough pre r i)
    unfold Scanner.scanRawString
    simp only [Scanner.bound_within, hh, bind, Except.bind, Option.isSome_none,
      Bool.false_eq_true, if_false, pure, Except.pure]
    exact ⟨lh1, ln1, rfl⟩

theorem Scanner.within_offset (pre r : List Int) (i k : Nat) (lh ln : Int) (o : Int)
    (ho : o = ((pre.length + i : Nat) : Int) + (k : Int)) :
    ({ Scanner.within pre r i lh ln with offset := o } : Scanner) =
      Scanner.within pre r (i + k) lh ln := by
  subst ho
  simp only [Scanner.within, Scanner.mk.injEq, true_and, and_true]
  push_cast
  omega

/-- `scanEscape` runs the same way wherever the text stands in the source. -/
theorem Scanner.scanEscape_runs (T : Tokens) (r : List Int) (i : Nat) (hi : i ≤ r.length) :
    ∃ v j, i ≤ j ∧ j ≤ r.length ∧
      ∀ (pre : List Int) (lh ln : Int),
        Scanner.scanEscape T (Scanner.within pre r i lh ln) =
          .ok (v, Scanner.within pre r j lh ln) := by
  have hoff : ∀ pre lh ln, (Scanner.within pre r i lh ln).offset = ((pre.length + i : Nat) : Int) :=
    fun _ _ _ => rfl
  have hsrc : ∀ pre lh ln, (Scanner.within pre r i lh ln).src = pre ++ r := fun _ _ _ => rfl
  by_cases h0 : r.length ≤ i
  · refine ⟨((ILLEGAL, "incomplete escape sequence")), i, le_refl _, hi, ?_⟩
    intro pre lh ln
    unfold Scanner.scanEscape
    simp only [hoff, hsrc]
    rw [if_pos (by simp; omega)]
    rfl
  have hlt : i < r.length := by omega
  obtain ⟨c, hc⟩ := getElem?_some_of_lt r i hlt
  have hat : ∀ pre lh ln, (Scanner.within pre r i lh ln).srcAt ((pre.length + i : Nat) : Int) =
      .ok c := by
    intro pre lh ln
    have := getElem?_append_shift pre r i
    rw [hc] at this
    show (if (0 : Int) ≤ ((pre.length + i : Nat) : Int) then
        (match (pre ++ r).get? ((pre.length + i : Nat) : Int).toNat with
          | some r => Except.ok r
          | none => Except.error (Stop.panic "runtime error: index out of range"))
      else Except.error (Stop.panic "runtime error: index out of range")) = _
    rw [if_pos (by omega), Int.toNat_ofNat, List.get?_eq_getElem?, this]
  have h0' : ∀ pre : List Int, ¬ (((pre.length + i : Nat) : Int) ≥ ((pre ++ r).length : Int)) := by
    intro pre
    simp
    omega
  have one : ∀ pre lh ln, (⟨pre ++ r, ((pre.length + i : Nat) : Int) + 1,
      (Scanner.within pre r i lh ln).lineHead, (Scanner.within pre r i lh ln).line⟩ : Scanner) =
        Scanner.within pre r (i + 1) lh ln :=
    fun pre lh ln => Scanner.within_offset pre r i 1 lh ln _ (by simp)
  by_cases hu : c = 117
  swap
  · by_cases c1 : c = 110
    · refine ⟨(T.STRING, "\n"), i + 1, by omega, by omega, ?_⟩
      intro pre lh ln
      unfold Scanner.scanEscape
      simp only [hoff, hsrc]
      rw [if_neg (h0' pre)]
      simp only [hat, bind, Except.bind, ne_eq, hu, not_false_eq_true, if_true]
      rw [if_pos c1]
      simp only [one, pure, Except.pure]
    by_cases c2 : c = 116
    · refine ⟨(T.STRING, "\t"), i + 1, by omega, by omega, ?_⟩
      intro pre lh ln
      unfold Scanner.scanEscape
      simp only [hoff, hsrc]
      rw [if_neg (h0' pre)]
      simp only [hat, bind, Except.bind, ne_eq, hu, not_false_eq_true, if_true]
      rw [if_neg c1, if_pos c2]
      simp only [one, pure, Except.pure]
    by_cases c3 : c = 114
    · refine ⟨(T.STRING, "\r"), i + 1, by omega, by omega, ?_⟩
      intro pre lh ln
      unfold Scanner.scanEscape
      simp only [hoff, hsrc]
      rw [if_neg (h0' pre)]
      simp only [hat, bind, Except.bind, ne_eq, hu, not_false_eq_true, if_true]
      rw [if_neg c1, if_neg c2, if_pos c3]
      simp only [one, pure, Except.pure]
    by_cases c4 : c = 92
    · refine ⟨(T.STRING, "\\"), i + 1, by omega, by omega, ?_⟩
      intro pre lh ln
      unfold Scanner.scanEscape
      simp only [hoff, hsrc]
      rw [if_neg (h0' pre)]
      simp only [hat, bind, Except.bind, ne_eq, hu, not_false_eq_true, if_true]
      rw [if_neg c1, if_neg c2, if_neg c3, if_pos c4]
      simp only [one, pure, Except.pure]
    · refine ⟨(ILLEGAL, "invalid escape \\" ++ runeToString c), i + 1, by omega, by omega, ?_⟩
      intro pre lh ln
      unfold Scanner.scanEscape
      simp only [hoff, hsrc]
      rw [if_neg (h0' pre)]
      simp only [hat, bind, Except.bind, ne_eq, hu, not_false_eq_true, if_true]
      rw [if_neg c1, if_neg c2, if_neg c3, if_neg c4]
      simp only [one, pure, Except.pure]
  subst hu
  by_cases h4 : r.length < i + 5
  · refine ⟨(ILLEGAL, "incomplete Unicode escape"), i + 1, by omega, by omega, ?_⟩
    intro pre lh ln
    unfold Scanner.scanEscape
    simp only [hoff, hsrc]
    rw [if_neg (h0' pre)]
    simp only [hat, bind, Except.bind, ne_eq, not_true_eq_false, if_false]
    rw [if_pos (by simp; omega)]
    simp only [one, pure, Except.pure]
  have hdrop : ∀ pre : List Int, (pre ++ r).drop (((pre.length + i : Nat) : Int) + 1).toNat =
      r.drop (i + 1) := by
    intro pre
    have : (((pre.length + i : Nat) : Int) + 1).toNat = pre.length + (i + 1) := by omega
    rw [this, List.drop_append]
  have five : ∀ pre lh ln, (⟨pre ++ r, ((pre.length + i : Nat) : Int) + 1 + 4,
      (Scanner.within pre r i lh ln).lineHead, (Scanner.within pre r i lh ln).line⟩ : Scanner) =
        Scanner.within pre r (i + 5) lh ln :=
    fun pre lh ln => Scanner.within_offset pre r i 5 lh ln _ (by push_cast; omega)
  have enter : ∀ (v : Int × String),
      (∀ pre lh ln,
        (if (runesToString ((r.drop (i + 1)).take 4)).toList.any
              (fun h => !("0123456789ABCDEFabcdef".toList.contains h)) then
            (pure ((ILLEGAL, "invalid Unicode escape \\u" ++
              runesToString ((r.drop (i + 1)).take 4)), Scanner.within pre r (i + 5) lh ln) :
                Except Stop ((Int × String) × Scanner))
          else
            match ParseUint (runesToString ((r.drop (i + 1)).take 4)).toList 16 32 with
            | (_, some range) =>
              pure ((ILLEGAL, "invalid Unicode escape \\u" ++
                runesToString ((r.drop (i + 1)).take 4) ++ ": " ++
                errorText (.num "ParseUint" (runesToString ((r.drop (i + 1)).take 4)) range)),
                Scanner.within pre r (i + 5) lh ln)
            | (n, none) =>
              if !validRune (n : Int) then
                pure ((ILLEGAL, "invalid Unicode rune \\u" ++
                  runesToString ((r.drop (i + 1)).take 4)), Scanner.within pre r (i + 5) lh ln)
              else pure ((T.STRING, runeToString (n : Int)), Scanner.within pre r (i + 5) lh ln)) =
          .ok (v, Scanner.within pre r (i + 5) lh ln)) →
      ∀ pre lh ln, Scanner.scanEscape T (Scanner.within pre r i lh ln) =
        .ok (v, Scanner.within pre r (i + 5) lh ln) := by
    intro v hv pre lh ln
    unfold Scanner.scanEscape
    simp only [hoff, hsrc]
    rw [if_neg (h0' pre)]
    simp only [hat, bind, Except.bind, ne_eq, not_true_eq_false, if_false]
    rw [if_neg (by simp; omega), if_neg (by omega)]
    simp only [hdrop, five]
    exact hv pre lh ln
  generalize hhex : runesToString ((r.drop (i + 1)).take 4) = hex at enter
  by_cases hx : (hex.toList.any (fun h => !("0123456789ABCDEFabcdef".toList.contains h))) = true
  · refine ⟨(ILLEGAL, "invalid Unicode escape \\u" ++ hex), i + 5, by omega, by omega,
      enter _ ?_⟩
    intro pre lh ln
    rw [if_pos hx]
    rfl
  cases hpu : ParseUint hex.toList 16 32 with
  | mk n o =>
    cases o with
    | some range =>
      refine ⟨(ILLEGAL, "invalid Unicode escape \\u" ++ hex ++ ": " ++
        errorText (.num "ParseUint" hex range)), i + 5, by omega, by omega, enter _ ?_⟩
      intro pre lh ln
      rw [if_neg hx, hpu]
      rfl
    | none =>
      by_cases hv : (!validRune (n : Int)) = true
      · refine ⟨(ILLEGAL, "invalid Unicode rune \\u" ++ hex), i + 5, by omega, by omega,
          enter _ ?_⟩
        intro pre lh ln
        rw [if_neg hx, hpu]
        simp only [hv, if_true]
        rfl
      · refine ⟨(T.STRING, runeToString (n : Int)), i + 5, by omega, by omega, enter _ ?_⟩
        intro pre lh ln
        rw [if_neg hx, hpu]
        simp only [hv, Bool.false_eq_true, if_false]
        rfl

theorem Scanner.scanStringLoop_runs (T : Tokens) (l : Int) (r : List Int) :
    ∀ (n i : Nat) (ret : List Int), r.length - i < n → i ≤ r.length →
      ∃ v j, i ≤ j ∧ j ≤ r.length ∧ (i < r.length → i < j) ∧
        ∀ (fuel : Nat) (pre : List Int) (lh ln : Int), n ≤ fuel →
          ∃ lh' ln', Scanner.scanStringLoop T l fuel (Scanner.within pre r i lh ln) ret =
            .ok (v, Scanner.within pre r j lh' ln') := by
  intro n
  induction n with
  | zero => intro i _ hn; omega
  | succ m ih =>
    intro i ret hn hi
    obtain ⟨s1, s2, s3⟩ := Scanner.step_le r i hi
    have hprog : i < r.length → i < Scanner.step r i := by
      intro h
      rw [Scanner.step_progress r i h]
      omega
    generalize hc : r[Scanner.step r i]?.getD EOF = c
    by_cases c1 : c = EOL
    · refine ⟨([], some (.text "unexpected EOL")), Scanner.step r i, s1, s2, hprog, ?_⟩
      intro fuel pre lh ln hf
      obtain ⟨f, rfl, _⟩ := succ_of_le_fuel hf
      obtain ⟨lh1, ln1, hn1⟩ := Scanner.next_within pre r i lh ln
      rw [Scanner.scanStringLoop]
      simp only [hn1, bind, Except.bind]
      simp only [Scanner.peek_within, hc]
      rw [if_pos c1]
      exact ⟨lh1, ln1, rfl⟩
    by_cases c2 : c = EOF
    · refine ⟨([], some (.text "unexpected EOF")), Scanner.step r i, s1, s2, hprog, ?_⟩
      intro fuel pre lh ln hf
      obtain ⟨f, rfl, _⟩ := succ_of_le_fuel hf
      obtain ⟨lh1, ln1, hn1⟩ := Scanner.next_within pre r i lh ln
      rw [Scanner.scanStringLoop]
      simp only [hn1, bind, Except.bind]
      simp only [Scanner.peek_within, hc]
      rw [if_neg c1, if_pos c2]
      exact ⟨lh1, ln1, rfl⟩
    obtain ⟨hst, hlt⟩ := Scanner.step_of_next_rune r i hi (by rw [hc]; exact c2)
    rw [hst] at hc
    have hj : r[i + 1]? = some c := by
      have := (getElem?_of_ne_EOF r (i + 1) (by rw [hc]; exact c2)).1
      rw [hc] at this
      exact this
    have hstep2 : Scanner.step r (i + 1) = i + 1 + 1 := Scanner.step_lt r (i + 1) c hj
    by_cases c3 : c = l
    · refine ⟨(ret, none), i + 1 + 1, by omega, by omega, fun _ => by omega, ?_⟩
      intro fuel pre lh ln hf
      obtain ⟨f, rfl, _⟩ := succ_of_le_fuel hf
      obtain ⟨lh1, ln1, hn1⟩ := Scanner.next_within pre r i lh ln
      rw [hst] at hn1
      obtain ⟨lh2, ln2, hn2⟩ := Scanner.next_within pre r (i + 1) lh1 ln1
      rw [hstep2] at hn2
      rw [Scanner.scanStringLoop]
      simp only [hn1, bind, Except.bind]
      simp only [Scanner.peek_within, hc]
      rw [if_neg c1, if_neg c2, if_pos c3]
      simp only [hn2, pure, Except.pure]
      exact ⟨lh2, ln2, rfl⟩
    by_cases c4 : c = 92
    swap
    · obtain ⟨v, j, j1, j2, _, hrec⟩ := ih (i + 1) (ret ++ [c]) (by omega) (by omega)
      refine ⟨v, j, by omega, j2, fun _ => by omega, ?_⟩
      intro fuel pre lh ln hf
      obtain ⟨f, rfl, hf'⟩ := succ_of_le_fuel hf
      obtain ⟨lh1, ln1, hn1⟩ := Scanner.next_within pre r i lh ln
      rw [hst] at hn1
      rw [Scanner.scanStringLoop]
      simp only [hn1, bind, Except.bind]
      simp only [Scanner.peek_within, hc]
      rw [if_neg c1, if_neg c2, if_neg c3, if_neg c4]
      exact hrec f pre lh1 ln1 hf'
    generalize he : r[i + 1 + 1]?.getD EOF = e
    -- the start of a pass over an escape, up to the rune after the backslash
    have enter : ∀ (v : List Int × Option Error) (j : Nat) (f : Nat),
        (∀ pre lh2 ln2, ∃ lh' ln',
          (if e = 98 then Scanner.scanStringLoop T l f (Scanner.within pre r (i + 1 + 1) lh2 ln2)
              (ret ++ [8])
            else if e = 102 then
              Scanner.scanStringLoop T l f (Scanner.within pre r (i + 1 + 1) lh2 ln2) (ret ++ [12])
            else if e = 114 then
              Scanner.scanStringLoop T l f (Scanner.within pre r (i + 1 + 1) lh2 ln2) (ret ++ [13])
            else if e = 110 then
              Scanner.scanStringLoop T l f (Scanner.within pre r (i + 1 + 1) lh2 ln2) (ret ++ [10])
            else if e = 116 then
              Scanner.scanStringLoop T l f (Scanner.within pre r (i + 1 + 1) lh2 ln2) (ret ++ [9])
            else if e = 117 then
              (Scanner.scanEscape T (Scanner.within pre r (i + 1 + 1) lh2 ln2) >>= fun w =>
                  if w.1.1 = ILLEGAL then pure (([], some (.text w.1.2)), w.2)
                  else Scanner.scanStringLoop T l f w.2 (ret ++ runes w.1.2))
            else Scanner.scanStringLoop T l f (Scanner.within pre r (i + 1 + 1) lh2 ln2)
              (ret ++ [e])) = .ok (v, Scanner.within pre r j lh' ln')) →
        ∀ pre lh ln, ∃ lh' ln',
          Scanner.scanStringLoop T l (f + 1) (Scanner.within pre r i lh ln) ret =
            .ok (v, Scanner.within pre r j lh' ln') := by
      intro v j f hv pre lh ln
      obtain ⟨lh1, ln1, hn1⟩ := Scanner.next_within pre r i lh ln
      rw [hst] at hn1
      obtain ⟨lh2, ln2, hn2⟩ := Scanner.next_within pre r (i + 1) lh1 ln1
      rw [hstep2] at hn2
      rw [Scanner.scanStringLoop]
      simp only [hn1, bind, Except.bind]
      simp only [Scanner.peek_within, hc]
      rw [if_neg c1, if_neg c2, if_neg c3, if_pos c4]
      simp only [hn2]
      simp only [Scanner.peek_within, he]
      have := hv pre lh2 ln2
      simp only [bind, Except.bind] at this
      exact this
    by_cases e98 : e = 98
    · obtain ⟨v, j, j1, j2, _, hrec⟩ := ih (i + 1 + 1) (ret ++ [8]) (by omega) (by omega)
      refine ⟨v, j, by omega, j2, fun _ => by omega, ?_⟩
      intro fuel pre lh ln hf
      obtain ⟨f, rfl, hf'⟩ := succ_of_le_fuel hf
      refine enter v j f ?_ pre lh ln
      intro pre lh2 ln2
      rw [if_pos e98]
      exact hrec f pre lh2 ln2 hf'
    by_cases e102 : e = 102
    · obtain ⟨v, j, j1, j2, _, hrec⟩ := ih (i + 1 + 1) (ret ++ [12]) (by omega) (by omega)
      refine ⟨v, j, by omega, j2, fun _ => by omega, ?_⟩
      intro fuel pre lh ln hf
      obtain ⟨f, rfl, hf'⟩ := succ_of_le_fuel hf
      refine enter v j f ?_ pre lh ln
      intro pre lh2 ln2
      rw [if_neg e98, if_pos e102]
      exact hrec f pre lh2 ln2 hf'
    by_cases e114 : e = 114
    · obtain ⟨v, j, j1, j2, _, hrec⟩ := ih (i + 1 + 1) (ret ++ [13]) (by omega) (by omega)
      refine ⟨v, j, by omega, j2, fun _ => by omega, ?_⟩
      intro fuel pre lh ln hf
      obtain ⟨f, rfl, hf'⟩ := succ_of_le_fuel hf
      refine enter v j f ?_ pre lh ln
      intro pre lh2 ln2
      rw [if_neg e98, if_neg e102, if_pos e114]
      exact hrec f pre lh2 ln2 hf'
    by_cases e110 : e = 110
    · obtain ⟨v, j, j1, j2, _, hrec⟩ := ih (i + 1 + 1) (ret ++ [10]) (by omega) (by omega)
      refine ⟨v, j, by omega, j2, fun _ => by omega, ?_⟩
      intro fuel pre lh ln hf
      obtain ⟨f, rfl, hf'⟩ := succ_of_le_fuel hf
      refine enter v j f ?_ pre lh ln
      intro pre lh2 ln2
      rw [if_neg e98, if_neg e102, if_neg e114, if_pos e110]
      exact hrec f pre lh2 ln2 hf'
    by_cases e116 : e = 116
    · obtain ⟨v, j, j1, j2, _, hrec⟩ := ih (i + 1 + 1) (ret ++ [9]) (by omega) (by omega)
      refine ⟨v, j, by omega, j2, fun _ => by omega, ?_⟩
      intro fuel pre lh ln hf
      obtain ⟨f, rfl, hf'⟩ := succ_of_le_fuel hf
      refine enter v j f ?_ pre lh ln
      intro pre lh2 ln2
      rw [if_neg e98, if_neg e102, if_neg e114, if_neg e110, if_pos e116]
      exact hrec f pre lh2 ln2 hf'
    by_cases e117 : e = 117
    swap
    · obtain ⟨v, j, j1, j2, _, hrec⟩ := ih (i + 1 + 1) (ret ++ [e]) (by omega) (by omega)
      refine ⟨v, j, by omega, j2, fun _ => by omega, ?_⟩
      intro fuel pre lh ln hf
      obtain ⟨f, rfl, hf'⟩ := succ_of_le_fuel hf
      refine enter v j f ?_ pre lh ln
      intro pre lh2 ln2
      rw [if_neg e98, if_neg e102, if_neg e114, if_neg e110, if_neg e116, if_neg e117]
      exact hrec f pre lh2 ln2 hf'
    obtain ⟨⟨tok, val⟩, k, k1, k2, hesc⟩ := Scanner.scanEscape_runs T r (i + 1 + 1) (by omega)
    by_cases hill : tok = ILLEGAL
    · refine ⟨([], some (.text val)), k, by omega, k2, fun _ => by omega, ?_⟩
      intro fuel pre lh ln hf
      obtain ⟨f, rfl, hf'⟩ := succ_of_le_fuel hf
      refine enter _ k f ?_ pre lh ln
      intro pre lh2 ln2
      rw [if_neg e98, if_neg e102, if_neg e114, if_neg e110, if_neg e116, if_pos e117, hesc pre lh2 ln2]
      simp only [bind, Except.bind, hill, if_true, pure, Except.pure]
      exact ⟨lh2, ln2, rfl⟩
    · obtain ⟨v, j, j1, j2, _, hrec⟩ := ih k (ret ++ runes val) (by omega) k2
      refine ⟨v, j, by omega, j2, fun _ => by omega, ?_⟩
      intro fuel pre lh ln hf
      obtain ⟨f, rfl, hf'⟩ := succ_of_le_fuel hf
      refine enter v j f ?_ pre lh ln
      intro pre lh2 ln2
      rw [if_neg e98, if_neg e102, if_neg e114, if_neg e110, if_neg e116, if_pos e117, hesc pre lh2 ln2]
      simp only [bind, Except.bind, hill, if_false]
      exact hrec f pre lh2 ln2 hf'

theorem Scanner.scanString_runs (T : Tokens) (l : Int) (r : List Int) (i : Nat)
    (hi : i ≤ r.length) :
    ∃ v j, i ≤ j ∧ j ≤ r.length ∧ (i < r.length → i < j) ∧
      ∀ (pre : List Int) (lh ln : Int),
        ∃ lh' ln', Scanner.scanString T l (Scanner.within pre r i lh ln) =
          .ok (v, Scanner.within pre r j lh' ln') := by
  obtain ⟨⟨res, err⟩, j, j1, j2, j4, hrec⟩ :=
    Scanner.scanStringLoop_runs T l r (r.length - i + 1) i [] (by omega) hi
  cases err with
  | some e =>
    refine ⟨("", some e), j, j1, j2, j4, ?_⟩
    intro pre lh ln
    obtain ⟨lh1, ln1, hh⟩ := hrec _ pre lh ln (bound_enough pre r i)
    unfold Scanner.scanString
    simp only [Scanner.bound_within, hh, bind, Except.bind, Option.isSome_some, if_true, pure,
      Except.pure]
    exact ⟨lh1, ln1, rfl⟩
  | none =>
    refine ⟨(runesToString res, none), j, j1, j2, j4, ?_⟩
    intro pre lh ln
    obtain ⟨lh1, ln1, hh⟩ := hrec _ pre lh ln (bound_enough pre r i)
    unfold Scanner.scanString
    simp only [Scanner.bound_within, hh, bind, Except.bind, Option.isSome_none,
      Bool.false_eq_true, if_false, pure, Except.pure]
    exact ⟨lh1, ln1, rfl⟩

theorem Scanner.blockCommentLoop_runs (r : List Int) :
    ∀ (n i : Nat), r.length - i < n → i ≤ r.length →
      ∃ (e : Option Error) (j : Nat), i ≤ j ∧ j ≤ r.length ∧ (i < r.length → i < j) ∧
        ∀ (fuel : Nat) (pre : List Int) (lh ln : Int), n ≤ fuel →
          ∃ lh' ln', Scanner.blockCommentLoop fuel (Scanner.within pre r i lh ln) =
            .ok (e, Scanner.within pre r j lh' ln') := by
  intro n
  induction n with
  | zero => intro i hn; omega
  | succ m ih =>
    intro i hn hi
    obtain ⟨⟨lit, err⟩, j1, a1, a2, a3, a4, hraw⟩ := Scanner.scanRawString_runs 42 r i hi
    cases err with
    | some e =>
      refine ⟨some e, j1, a1, a2, a4, ?_⟩
      intro fuel pre lh ln hf
      obtain ⟨f, rfl, _⟩ := succ_of_le_fuel hf
      obtain ⟨lh1, ln1, h1⟩ := hraw pre lh ln
      rw [Scanner.blockCommentLoop]
      simp only [h1, bind, Except.bind, Option.isSome_some, if_true, pure, Except.pure]
      exact ⟨lh1, ln1, rfl⟩
    | none =>
      obtain ⟨k, k1, rfl, k3⟩ := a3 rfl
      have hk := lt_length_of_getElem? k3
      generalize hc : r[k + 1]?.getD EOF = c
      by_cases c1 : c = 47
      · obtain ⟨s1, s2, s3⟩ := Scanner.step_le r (k + 1) a2
        refine ⟨none, Scanner.step r (k + 1), by omega, s2, fun _ => by omega, ?_⟩
        intro fuel pre lh ln hf
        obtain ⟨f, rfl, _⟩ := succ_of_le_fuel hf
        obtain ⟨lh1, ln1, h1⟩ := hraw pre lh ln
        obtain ⟨lh2, ln2, h2⟩ := Scanner.next_within pre r (k + 1) lh1 ln1
        rw [Scanner.blockCommentLoop]
        simp only [h1, bind, Except.bind, Option.isSome_none, Bool.false_eq_true, if_false,
          Scanner.peek_within, hc, c1, if_true, h2, pure, Except.pure]
        exact ⟨lh2, ln2, rfl⟩
      · obtain ⟨e, j, j1, j2, _, hrec⟩ := ih k (by omega) (by omega)
        refine ⟨e, j, by omega, j2, fun _ => by omega, ?_⟩
        intro fuel pre lh ln hf
        obtain ⟨f, rfl, hf'⟩ := succ_of_le_fuel hf
        obtain ⟨lh1, ln1, h1⟩ := hraw pre lh ln
        rw [Scanner.blockCommentLoop]
        simp only [h1, bind, Except.bind, Option.isSome_none, Bool.false_eq_true, if_false,
          Scanner.peek_within, hc, c1, Scanner.back_within]
        exact hrec f pre lh1 ln1 hf'

theorem Scanner.finish_runs (pre r : List Int) (m : Nat) (lh ln : Int) (tok : Int)
    (lit : String) (pos : Position) :
    ∃ lh' ln', (Scanner.within pre r m lh ln).finish tok lit pos =
      .ok (.ret ⟨tok, lit, pos, none⟩ (Scanner.within pre r (Scanner.step r m) lh' ln')) := by
  obtain ⟨lh1, ln1, h1⟩ := Scanner.next_within pre r m lh ln
  simp only [Scanner.finish, h1, bind, Except.bind, pure, Except.pure]
  exact ⟨lh1, ln1, rfl⟩

theorem Scanner.scanIdentifier_runs (L : Lib) (r : List Int) (i : Nat) (hi : i ≤ r.length) :
    ∃ lit j, i ≤ j ∧ j ≤ r.length ∧
      ((isLetter L (r[i]?.getD EOF) || isDigit (r[i]?.getD EOF)) = true → i < j) ∧
      ∀ (pre : List Int) (lh ln : Int),
        ∃ lh' ln', Scanner.scanIdentifier L (Scanner.within pre r i lh ln) =
          .ok ((lit, none), Scanner.within pre r j lh' ln') := by
  obtain ⟨res, j, j1, j2, j3, hrec⟩ :=
    Scanner.scanIdentifierLoop_runs L r (r.length - i + 1) i [] (by omega) hi
  refine ⟨runesToString res, j, j1, j2, j3, ?_⟩
  intro pre lh ln
  obtain ⟨lh1, ln1, hh⟩ := hrec _ pre lh ln (bound_enough pre r i)
  unfold Scanner.scanIdentifier
  simp only [Scanner.bound_within, hh, bind, Except.bind, pure, Except.pure]
  exact ⟨lh1, ln1, rfl⟩

theorem Scanner.skipBlank_runs (r : List Int) (i : Nat) (hi : i ≤ r.length) :
    ∃ j, i ≤ j ∧ j ≤ r.length ∧ isBlank (r[j]?.getD EOF) = false ∧
      ∀ (pre : List Int) (lh ln : Int),
        ∃ lh' ln', (Scanner.within pre r i lh ln).skipBlank =
          .ok (Scanner.within pre r j lh' ln') := by
  obtain ⟨j, j1, j2, j3, hrec⟩ := Scanner.skipBlankLoop_runs r (r.length - i + 1) i (by omega) hi
  exact ⟨j, j1, j2, j3, fun pre lh ln => hrec _ pre lh ln (bound_enough pre r i)⟩

theorem Scanner.skipLine_runs (r : List Int) (i : Nat) (hi : i ≤ r.length) :
    ∃ j, i ≤ j ∧ j ≤ r.length ∧ (isEOL (r[i]?.getD EOF) = false → i < j) ∧
      ∀ (pre : List Int) (lh ln : Int),
        ∃ lh' ln', Scanner.skipLineLoop (Scanner.within pre r i lh ln).bound
            (Scanner.within pre r i lh ln) = .ok (Scanner.within pre r j lh' ln') := by
  obtain ⟨j, j1, j2, j3, hrec⟩ := Scanner.skipLineLoop_runs r (r.length - i + 1) i (by omega) hi
  exact ⟨j, j1, j2, j3, fun pre lh ln => hrec _ pre lh ln (bound_enough pre r i)⟩

theorem Scanner.blockComment_runs (r : List Int) (i : Nat) (hi : i ≤ r.length) :
    ∃ (e : Option Error) (j : Nat), i ≤ j ∧ j ≤ r.length ∧ (i < r.length → i < j) ∧
      ∀ (pre : List Int) (lh ln : Int),
        ∃ lh' ln', Scanner.blockCommentLoop (Scanner.within pre r i lh ln).bound
            (Scanner.within pre r i lh ln) = .ok (e, Scanner.within pre r j lh' ln') := by
  obtain ⟨e, j, j1, j2, j3, hrec⟩ :=
    Scanner.blockCommentLoop_runs r (r.length - i + 1) i (by omega) hi
  exact ⟨e, j, j1, j2, j3, fun pre lh ln => hrec _ pre lh ln (bound_enough pre r i)⟩

theorem Scanner.skipBlank_stay (pre r : List Int) (i : Nat) (lh ln : Int)
    (hb : isBlank (r[i]?.getD EOF) = false) :
    (Scanner.within pre r i lh ln).skipBlank = .ok (Scanner.within pre r i lh ln) := by
  show Scanner.skipBlankLoop ((pre ++ r).length + 1) _ = _
  rw [Scanner.skipBlankLoop]
  simp only [Scanner.peek_within, bind, Except.bind, hb, Bool.false_eq_true, if_false, pure,
    Except.pure]

theorem Except.ok_bind {ε α β : Type} (a : α) (f : α → Except ε β) :
    (Except.ok a >>= f) = f a := rfl

/-- In the Latin-1 range `isLetter` is decided by the table of Latin-1 letters. -/
theorem isLetter_not (L : Lib) (c : Int) (h : 0 ≤ c ∧ c ≤ 255)
    (h2 : (latin1Letter c.toNat || decide (c = 95)) = false) : ¬ isLetter L c = true := by
  simp only [isLetter, unicodeIsLetter, h.1, h.2, if_true] 
  rw [h2]
  decide

theorem Outcome.progress_retry {i len j : Nat} (h1 : i < j) (h2 : j ≤ len) :
    (Outcome.retry j).Progress i len := ⟨h1, h2⟩

theorem Outcome.progress_token {i len : Nat} {tok : Int} {lit : String} {failed : Bool} {j : Nat}
    (h1 : i ≤ j) (h2 : j ≤ len) (h3 : failed = false → tok ≠ EOF → i < j) :
    (Outcome.token tok lit failed j).Progress i len := ⟨h1, h2, h3⟩

theorem Scanner.pass_op_33_61 (T : Tokens) (L : Lib) (r : List Int) (i : Nat)
    (hc : r[i]?.getD EOF = 33) (hq : r[i + 1]?.getD EOF = 61) :
    ∀ (pre : List Int) (lh ln : Int),
      ∃ p, Scanner.scanPass T L (Scanner.within pre r i lh ln) = .ok p ∧
        p.agrees pre r (.token T.NEQ "!=" false (Scanner.step r (i + 1))) := by
  have hb : isBlank (r[i]?.getD EOF) = false := by rw [hc]; rfl
  obtain ⟨hj, hl⟩ := getElem?_of_ne_EOF r i (by rw [hc]; decide)
  have hst : Scanner.step r i = i + 1 := Scanner.step_progress r i hl
  intro pre lh ln
  unfold Scanner.scanPass
  rw [Scanner.skipBlank_stay pre r i lh ln hb, Except.ok_bind]
  dsimp only
  rw [Scanner.peek_within, hc, Except.ok_bind]
  rw [if_neg (isLetter_not L 33 (by decide) (by decide)),
    if_neg (by decide : ¬ (isDigit (33 : Int) = true)),
    if_neg (by decide : ¬ ((33 : Int) = 34)),
    if_neg (by decide : ¬ ((33 : Int) = 39)),
    if_neg (by decide : ¬ ((33 : Int) = 96)),
    if_neg (by decide : ¬ ((33 : Int) = EOF)),
    if_neg (by decide : ¬ ((33 : Int) = 35)),
    if_pos rfl]
  obtain ⟨lh1, ln1, hn1⟩ := Scanner.next_within pre r i lh ln
  rw [hst] at hn1
  simp only [bind, Except.bind, hn1, Scanner.peek_within, hq]
  rw [if_pos trivial]
  obtain ⟨lh2, ln2, hf⟩ := Scanner.finish_runs pre r (i + 1) lh1 ln1 T.NEQ "!="
    (Scanner.within pre r i lh ln).pos
  exact ⟨_, hf, rfl, rfl, rfl, lh2, ln2, rfl⟩

theorem Scanner.pass_op_61_61 (T : Tokens) (L : Lib) (r : List Int) (i : Nat)
    (hc : r[i]?.getD EOF = 61) (hq : r[i + 1]?.getD EOF = 61) :
    ∀ (pre : List Int) (lh ln : Int),
      ∃ p, Scanner.scanPass T L (Scanner.within pre r i lh ln) = .ok p ∧
        p.agrees pre r (.token T.EQEQ "==" false (Scanner.step r (i + 1))) := by
  have hb : isBlank (r[i]?.getD EOF) = false := by rw [hc]; rfl
  obtain ⟨hj, hl⟩ := getElem?_of_ne_EOF r i (by rw [hc]; decide)
  have hst : Scanner.step r i = i + 1 := Scanner.step_progress r i hl
  intro pre lh ln
  unfold Scanner.scanPass
  rw [Scanner.skipBlank_stay pre r i lh ln hb, Except.ok_bind]
  dsimp only
  rw [Scanner.peek_within, hc, Except.ok_bind]
  rw [if_neg (isLetter_not L 61 (by decide) (by decide)),
    if_neg (by decide : ¬ (isDigit (61 : Int) = true)),
    if_neg (by decide : ¬ ((61 : Int) = 34)),
    if_neg (by decide : ¬ ((61 : Int) = 39)),
    if_neg (by decide : ¬ ((61 : Int) = 96)),
    if_neg (by decide : ¬ ((61 : Int) = EOF)),
    if_neg (by decide : ¬ ((61 : Int) = 35)),
    if_neg (by decide : ¬ ((61 : Int) = 33)),
    if_pos rfl]
  obtain ⟨lh1, ln1, hn1⟩ := Scanner.next_within pre r i lh ln
  rw [hst] at hn1
  simp only [bind, Except.bind, hn1, Scanner.peek_within, hq]
  rw [if_pos trivial]
  obtain ⟨lh2, ln2, hf⟩ := Scanner.finish_runs pre r (i + 1) lh1 ln1 T.EQEQ "=="
    (Scanner.within pre r i lh ln).pos
  exact ⟨_, hf, rfl, rfl, rfl, lh2, ln2, rfl⟩

theorem Scanner.pass_op_63_63 (T : Tokens) (L : Lib) (r : List Int) (i : Nat)
    (hc : r[i]?.getD EOF = 63) (hq : r[i + 1]?.getD EOF = 63) :
    ∀ (pre : List Int) (lh ln : Int),
      ∃ p, Scanner.scanPass T L (Scanner.within pre r i lh ln) = .ok p ∧
        p.agrees pre r (.token T.NILCOALESCE "??" false (Scanner.step r (i + 1))) := by
  have hb : isBlank (r[i]?.getD EOF) = false := by rw [hc]; rfl
  obtain ⟨hj, hl⟩ := getElem?_of_ne_EOF r i (by rw [hc]; decide)
  have hst : Scanner.step r i = i + 1 := Scanner.step_progress r i hl
  intro pre lh ln
  unfold Scanner.scanPass
  rw [Scanner.skipBlank_stay pre r i lh ln hb, Except.ok_bind]
  dsimp only
  rw [Scanner.peek_within, hc, Except.ok_bind]
  rw [if_neg (isLetter_not L 63 (by decide) (by decide)),
    if_neg (by decide : ¬ (isDigit (63 : Int) = true)),
    if_neg (by decide : ¬ ((63 : Int) = 34)),
    if_neg (by decide : ¬ ((63 : Int) = 39)),
    if_neg (by decide : ¬ ((63 : Int) = 96)),
    if_neg (by decide : ¬ ((63 : Int) = EOF)),
    if_neg (by decide : ¬ ((63 : Int) = 35)),
    if_neg (by decide : ¬ ((63 : Int) = 33)),
    if_neg (by decide : ¬ ((63 : Int) = 61)),
    if_pos rfl]
  obtain ⟨lh1, ln1, hn1⟩ := Scanner.next_within pre r i lh ln
  rw [hst] at hn1
  simp only [bind, Except.bind, hn1, Scanner.peek_within, hq]
  rw [if_pos trivial]
  obtain ⟨lh2, ln2, hf⟩ := Scanner.finish_runs pre r (i + 1) lh1 ln1 T.NILCOALESCE "??"
    (Scanner.within pre r i lh ln).pos
  exact ⟨_, hf, rfl, rfl, rfl, lh2, ln2, rfl⟩

theorem Scanner.pass_op_43_43 (T : Tokens) (L : Lib) (r : List Int) (i : Nat)
    (hc : r[i]?.getD EOF = 43) (hq : r[i + 1]?.getD EOF = 43) :
    ∀ (pre : List Int) (lh ln : Int),
      ∃ p, Scanner.scanPass T L (Scanner.within pre r i lh ln) = .ok p ∧
        p.agrees pre r (.token T.PLUSPLUS "++" false (Scanner.step r (i + 1))) := by
  have hb : isBlank (r[i]?.getD EOF) = false := by rw [hc]; rfl
  obtain ⟨hj, hl⟩ := getElem?_of_ne_EOF r i (by rw [hc]; decide)
  have hst : Scanner.step r i = i + 1 := Scanner.step_progress r i hl
  intro pre lh ln
  unfold Scanner.scanPass
  rw [Scanner.skipBlank_stay pre r i lh ln hb, Except.ok_bind]
  dsimp only
  rw [Scanner.peek_within, hc, Except.ok_bind]
  rw [if_neg (isLetter_not L 43 (by decide) (by decide)),
    if_neg (by decide : ¬ (isDigit (43 : Int) = true)),
    if_neg (by decide : ¬ ((43 : Int) = 34)),
    if_neg (by decide : ¬ ((43 : Int) = 39)),
    if_neg (by decide : ¬ ((43 : Int) = 96)),
    if_neg (by decide : ¬ ((43 : Int) = EOF)),
    if_neg (by decide : ¬ ((43 : Int) = 35)),
    if_neg (by decide : ¬ ((43 : Int) = 33)),
    if_neg (by decide : ¬ ((43 : Int) = 61)),
    if_neg (by decide : ¬ ((43 : Int) = 63)),
    if_pos rfl]
  obtain ⟨lh1, ln1, hn1⟩ := Scanner.next_within pre r i lh ln
  rw [hst] at hn1
  simp only [bind, Except.bind, hn1, Scanner.peek_within, hq]
  rw [if_pos trivial]
  obtain ⟨lh2, ln2, hf⟩ := Scanner.finish_runs pre r (i + 1) lh1 ln1 T.PLUSPLUS "++"
    (Scanner.within pre r i lh ln).pos
  exact ⟨_, hf, rfl, rfl, rfl, lh2, ln2, rfl⟩

theorem Scanner.pass_op_43_61 (T : Tokens) (L : Lib) (r : List Int) (i : Nat)
    (hc : r[i]?.getD EOF = 43) (hq : r[i + 1]?.getD EOF = 61) :
    ∀ (pre : List Int) (lh ln : Int),
      ∃ p, Scanner.scanPass T L (Scanner.within pre r i lh ln) = .ok p ∧
        p.agrees pre r (.token T.PLUSEQ "+=" false (Scanner.step r (i + 1))) := by
  have hb : isBlank (r[i]?.getD EOF) = false := by rw [hc]; rfl
  obtain ⟨hj, hl⟩ := getElem?_of_ne_EOF r i (by rw [hc]; decide)
  have hst : Scanner.step r i = i + 1 := Scanner.step_progress r i hl
  intro pre lh ln
  unfold Scanner.scanPass
  rw [Scanner.skipBlank_stay pre r i lh ln hb, Except.ok_bind]
  dsimp only
  rw [Scanner.peek_within, hc, Except.ok_bind]
  rw [if_neg (isLetter_not L 43 (by decide) (by decide)),
    if_neg (by decide : ¬ (isDigit (43 : Int) = true)),
    if_neg (by decide : ¬ ((43 : Int) = 34)),
    if_neg (by decide : ¬ ((43 : Int) = 39)),
    if_neg (by decide : ¬ ((43 : Int) = 96)),
    if_neg (by decide : ¬ ((43 : Int) = EOF)),
    if_neg (by decide : ¬ ((43 : Int) = 35)),
    if_neg (by decide : ¬ ((43 : Int) = 33)),
    if_neg (by decide : ¬ ((43 : Int) = 61)),
    if_neg (by decide : ¬ ((43 : Int) = 63)),
    if_pos rfl]
  obtain ⟨lh1, ln1, hn1⟩ := Scanner.next_within pre r i lh ln
  rw [hst] at hn1
  simp only [bind, Except.bind, hn1, Scanner.peek_within, hq]
  rw [if_neg (by decide : ¬ ((61 : Int) = 43)), if_pos trivial]
  obtain ⟨lh2, ln2, hf⟩ := Scanner.finish_runs pre r (i + 1) lh1 ln1 T.PLUSEQ "+="
    (Scanner.within pre r i lh ln).pos
  exact ⟨_, hf, rfl, rfl, rfl, lh2, ln2, rfl⟩

theorem Scanner.pass_op_45_45 (T : Tokens) (L : Lib) (r : List Int) (i : Nat)
    (hc : r[i]?.getD EOF = 45) (hq : r[i + 1]?.getD EOF = 45) :
    ∀ (pre : List Int) (lh ln : Int),
      ∃ p, Scanner.scanPass T L (Scanner.within pre r i lh ln) = .ok p ∧
        p.agrees pre r (.token T.MINUSMINUS "--" false (Scanner.step r (i + 1))) := by
  have hb : isBlank (r[i]?.getD EOF) = false := by rw [hc]; rfl
  obtain ⟨hj, hl⟩ := getElem?_of_ne_EOF r i (by rw [hc]; decide)
  have hst : Scanner.step r i = i + 1 := Scanner.step_progress r i hl
  intro pre lh ln
  unfold Scanner.scanPass
  rw [Scanner.skipBlank_stay pre r i lh ln hb, Except.ok_bind]
  dsimp only
  rw [Scanner.peek_within, hc, Except.ok_bind]
  rw [if_neg (isLetter_not L 45 (by decide) (by decide)),
    if_neg (by decide : ¬ (isDigit (45 : Int) = true)),
    if_neg (by decide : ¬ ((45 : Int) = 34)),
    if_neg (by decide : ¬ ((45 : Int) = 39)),
    if_neg (by decide : ¬ ((45 : Int) = 96)),
    if_neg (by decide : ¬ ((45 : Int) = EOF)),
    if_neg (by decide : ¬ ((45 : Int) = 35)),
    if_neg (by decide : ¬ ((45 : Int) = 33)),
    if_neg (by decide : ¬ ((45 : Int) = 61)),
    if_neg (by decide : ¬ ((45 : Int) = 63)),
    if_neg (by decide : ¬ ((45 : Int) = 43)),
    if_pos rfl]
  obtain ⟨lh1, ln1, hn1⟩ := Scanner.next_within pre r i lh ln
  rw [hst] at hn1
  simp only [bind, Except.bind, hn1, Scanner.peek_within, hq]
  rw [if_pos trivial]
  obtain ⟨lh2, ln2, hf⟩ := Scanner.finish_runs pre r (i + 1) lh1 ln1 T.MINUSMINUS "--"
    (Scanner.within pre r i lh ln).pos
  exact ⟨_, hf, rfl, rfl, rfl, lh2, ln2, rfl⟩

theorem Scanner.pass_op_45_61 (T : Tokens) (L : Lib) (r : List Int) (i : Nat)
    (hc : r[i]?.getD EOF = 45) (hq : r[i + 1]?.getD EOF = 61) :
    ∀ (pre : List Int) (lh ln : Int),
      ∃ p, Scanner.scanPass T L (Scanner.within pre r i lh ln) = .ok p ∧
        p.agrees pre r (.token T.MINUSEQ "-=" false (Scanner.step r (i + 1))) := by
  have hb : isBlank (r[i]?.getD EOF) = false := by rw [hc]; rfl
  obtain ⟨hj, hl⟩ := getElem?_of_ne_EOF r i (by rw [hc]; decide)
  have hst : Scanner.step r i = i + 1 := Scanner.step_progress r i hl
  intro pre lh ln
  unfold Scanner.scanPass
  rw [Scanner.skipBlank_stay pre r i lh ln hb, Except.ok_bind]
  dsimp only
  rw [Scanner.peek_within, hc, Except.ok_bind]
  rw [if_neg (isLetter_not L 45 (by decide) (by decide)),
    if_neg (by decide : ¬ (isDigit (45 : Int) = true)),
    if_neg (by decide : ¬ ((45 : Int) = 34)),
    if_neg (by decide : ¬ ((45 : Int) = 39)),
    if_neg (by decide : ¬ ((45 : Int) = 96)),
    if_neg (by decide : ¬ ((45 : Int) = EOF)),
    if_neg (by decide : ¬ ((45 : Int) = 35)),
    if_neg (by decide : ¬ ((45 : Int) = 33)),
    if_neg (by decide : ¬ ((45 : Int) = 61)),
    if_neg (by decide : ¬ ((45 : Int) = 63)),
    if_neg (by decide : ¬ ((45 : Int) = 43)),
    if_pos rfl]
  obtain ⟨lh1, ln1, hn1⟩ := Scanner.next_within pre r i lh ln
  rw [hst] at hn1
  simp only [bind, Except.bind, hn1, Scanner.peek_within, hq]
  rw [if_neg (by decide : ¬ ((61 : Int) = 45)), if_pos trivial]
  obtain ⟨lh2, ln2, hf⟩ := Scanner.finish_runs pre r (i + 1) lh1 ln1 T.MINUSEQ "-="
    (Scanner.within pre r i lh ln).pos
  exact ⟨_, hf, rfl, rfl, rfl, lh2, ln2, rfl⟩

theorem Scanner.pass_op_42_61 (T : Tokens) (L : Lib) (r : List Int) (i : Nat)
    (hc : r[i]?.getD EOF = 42) (hq : r[i + 1]?.getD EOF = 61) :
    ∀ (pre : List Int) (lh ln : Int),
      ∃ p, Scanner.scanPass T L (Scanner.within pre r i lh ln) = .ok p ∧
        p.agrees pre r (.token T.MULEQ "*=" false (Scanner.step r (i + 1))) := by
  have hb : isBlank (r[i]?.getD EOF) = false := by rw [hc]; rfl
  obtain ⟨hj, hl⟩ := getElem?_of_ne_EOF r i (by rw [hc]; decide)
  have hst : Scanner.step r i = i + 1 := Scanner.step_progress r i hl
  intro pre lh ln
  unfold Scanner.scanPass
  rw [Scanner.skipBlank_stay pre r i lh ln hb, Except.ok_bind]
  dsimp only
  rw [Scanner.peek_within, hc, Except.ok_bind]
  rw [if_neg (isLetter_not L 42 (by decide) (by decide)),
    if_neg (by decide : ¬ (isDigit (42 : Int) = true)),
    if_neg (by decide : ¬ ((42 : Int) = 34)),
    if_neg (by decide : ¬ ((42 : Int) = 39)),
    if_neg (by decide : ¬ ((42 : Int) = 96)),
    if_neg (by decide : ¬ ((42 : Int) = EOF)),
    if_neg (by decide : ¬ ((42 : Int) = 35)),
    if_neg (by decide : ¬ ((42 : Int) = 33)),
    if_neg (by decide : ¬ ((42 : Int) = 61)),
    if_neg (by decide : ¬ ((42 : Int) = 63)),
    if_neg (by decide : ¬ ((42 : Int) = 43)),
    if_neg (by decide : ¬ ((42 : Int) = 45)),
    if_pos rfl]
  obtain ⟨lh1, ln1, hn1⟩ := Scanner.next_within pre r i lh ln
  rw [hst] at hn1
  simp only [bind, Except.bind, hn1, Scanner.peek_within, hq]
  rw [if_pos trivial]
  obtain ⟨lh2, ln2, hf⟩ := Scanner.finish_runs pre r (i + 1) lh1 ln1 T.MULEQ "*="
    (Scanner.within pre r i lh ln).pos
  exact ⟨_, hf, rfl, rfl, rfl, lh2, ln2, rfl⟩

theorem Scanner.pass_op_47_61 (T : Tokens) (L : Lib) (r : List Int) (i : Nat)
    (hc : r[i]?.getD EOF = 47) (hq : r[i + 1]?.getD EOF = 61) :
    ∀ (pre : List Int) (lh ln : Int),
      ∃ p, Scanner.scanPass T L (Scanner.within pre r i lh ln) = .ok p ∧
        p.agrees pre r (.token T.DIVEQ "/=" false (Scanner.step r (i + 1))) := by
  have hb : isBlank (r[i]?.getD EOF) = false := by rw [hc]; rfl
  obtain ⟨hj, hl⟩ := getElem?_of_ne_EOF r i (by rw [hc]; decide)
  have hst : Scanner.step r i = i + 1 := Scanner.step_progress r i hl
  intro pre lh ln
  unfold Scanner.scanPass
  rw [Scanner.skipBlank_stay pre r i lh ln hb, Except.ok_bind]
  dsimp only
  rw [Scanner.peek_within, hc, Except.ok_bind]
  rw [if_neg (isLetter_not L 47 (by decide) (by decide)),
    if_neg (by decide : ¬ (isDigit (47 : Int) = true)),
    if_neg (by decide : ¬ ((47 : Int) = 34)),
    if_neg (by decide : ¬ ((47 : Int) = 39)),
    if_neg (by decide : ¬ ((47 : Int) = 96)),
    if_neg (by decide : ¬ ((47 : Int) = EOF)),
    if_neg (by decide : ¬ ((47 : Int) = 35)),
    if_neg (by decide : ¬ ((47 : Int) = 33)),
    if_neg (by decide : ¬ ((47 : Int) = 61)),
    if_neg (by decide : ¬ ((47 : Int) = 63)),
    if_neg (by decide : ¬ ((47 : Int) = 43)),
    if_neg (by decide : ¬ ((47 : Int) = 45)),
    if_neg (by decide : ¬ ((47 : Int) = 42)),
    if_pos rfl]
  obtain ⟨lh1, ln1, hn1⟩ := Scanner.next_within pre r i lh ln
  rw [hst] at hn1
  simp only [bind, Except.bind, hn1, Scanner.peek_within, hq]
  rw [if_pos trivial]
  obtain ⟨lh2, ln2, hf⟩ := Scanner.finish_runs pre r (i + 1) lh1 ln1 T.DIVEQ "/="
    (Scanner.within pre r i lh ln).pos
  exact ⟨_, hf, rfl, rfl, rfl, lh2, ln2, rfl⟩

theorem Scanner.pass_op_62_61 (T : Tokens) (L : Lib) (r : List Int) (i : Nat)
    (hc : r[i]?.getD EOF = 62) (hq : r[i + 1]?.getD EOF = 61) :
    ∀ (pre : List Int) (lh ln : Int),
      ∃ p, Scanner.scanPass T L (Scanner.within pre r i lh ln) = .ok p ∧
        p.agrees pre r (.token T.GE ">=" false (Scanner.step r (i + 1))) := by
  have hb : isBlank (r[i]?.getD EOF) = false := by rw [hc]; rfl
  obtain ⟨hj, hl⟩ := getElem?_of_ne_EOF r i (by rw [hc]; decide)
  have hst : Scanner.step r i = i + 1 := Scanner.step_progress r i hl
  intro pre lh ln
  unfold Scanner.scanPass
  rw [Scanner.skipBlank_stay pre r i lh ln hb, Except.ok_bind]
  dsimp only
  rw [Scanner.peek_within, hc, Except.ok_bind]
  rw [if_neg (isLetter_not L 62 (by decide) (by decide)),
    if_neg (by decide : ¬ (isDigit (62 : Int) = true)),
    if_neg (by decide : ¬ ((62 : Int) = 34)),
    if_neg (by decide : ¬ ((62 : Int) = 39)),
    if_neg (by decide : ¬ ((62 : Int) = 96)),
    if_neg (by decide : ¬ ((62 : Int) = EOF)),
    if_neg (by decide : ¬ ((62 : Int) = 35)),
    if_neg (by decide : ¬ ((62 : Int) = 33)),
    if_neg (by decide : ¬ ((62 : Int) = 61)),
    if_neg (by decide : ¬ ((62 : Int) = 63)),
    if_neg (by decide : ¬ ((62 : Int) = 43)),
    if_neg (by decide : ¬ ((62 : Int) = 45)),
    if_neg (by decide : ¬ ((62 : Int) = 42)),
    if_neg (by decide : ¬ ((62 : Int) = 47)),
    if_pos rfl]
  obtain ⟨lh1, ln1, hn1⟩ := Scanner.next_within pre r i lh ln
  rw [hst] at hn1
  simp only [bind, Except.bind, hn1, Scanner.peek_within, hq]
  rw [if_pos trivial]
  obtain ⟨lh2, ln2, hf⟩ := Scanner.finish_runs pre r (i + 1) lh1 ln1 T.GE ">="
    (Scanner.within pre r i lh ln).pos
  exact ⟨_, hf, rfl, rfl, rfl, lh2, ln2, rfl⟩

theorem Scanner.pass_op_62_62 (T : Tokens) (L : Lib) (r : List Int) (i : Nat)
    (hc : r[i]?.getD EOF = 62) (hq : r[i + 1]?.getD EOF = 62) :
    ∀ (pre : List Int) (lh ln : Int),
      ∃ p, Scanner.scanPass T L (Scanner.within pre r i lh ln) = .ok p ∧
        p.agrees pre r (.token T.SHIFTRIGHT ">>" false (Scanner.step r (i + 1))) := by
  have hb : isBlank (r[i]?.getD EOF) = false := by rw [hc]; rfl
  obtain ⟨hj, hl⟩ := getElem?_of_ne_EOF r i (by rw [hc]; decide)
  have hst : Scanner.step r i = i + 1 := Scanner.step_progress r i hl
  intro pre lh ln
  unfold Scanner.scanPass
  rw [Scanner.skipBlank_stay pre r i lh ln hb, Except.ok_bind]
  dsimp only
  rw [Scanner.peek_within, hc, Except.ok_bind]
  rw [if_neg (isLetter_not L 62 (by decide) (by decide)),
    if_neg (by decide : ¬ (isDigit (62 : Int) = true)),
    if_neg (by decide : ¬ ((62 : Int) = 34)),
    if_neg (by decide : ¬ ((62 : Int) = 39)),
    if_neg (by decide : ¬ ((62 : Int) = 96)),
    if_neg (by decide : ¬ ((62 : Int) = EOF)),
    if_neg (by decide : ¬ ((62 : Int) = 35)),
    if_neg (by decide : ¬ ((62 : Int) = 33)),
    if_neg (by decide : ¬ ((62 : Int) = 61)),
    if_neg (by decide : ¬ ((62 : Int) = 63)),
    if_neg (by decide : ¬ ((62 : Int) = 43)),
    if_neg (by decide : ¬ ((62 : Int) = 45)),
    if_neg (by decide : ¬ ((62 : Int) = 42)),
    if_neg (by decide : ¬ ((62 : Int) = 47)),
    if_pos rfl]
  obtain ⟨lh1, ln1, hn1⟩ := Scanner.next_within pre r i lh ln
  rw [hst] at hn1
  simp only [bind, Except.bind, hn1, Scanner.peek_within, hq]
  rw [if_neg (by decide : ¬ ((62 : Int) = 61)), if_pos trivial]
  obtain ⟨lh2, ln2, hf⟩ := Scanner.finish_runs pre r (i + 1) lh1 ln1 T.SHIFTRIGHT ">>"
    (Scanner.within pre r i lh ln).pos
  exact ⟨_, hf, rfl, rfl, rfl, lh2, ln2, rfl⟩

theorem Scanner.pass_op_60_45 (T : Tokens) (L : Lib) (r : List Int) (i : Nat)
    (hc : r[i]?.getD EOF = 60) (hq : r[i + 1]?.getD EOF = 45) :
    ∀ (pre : List Int) (lh ln : Int),
      ∃ p, Scanner.scanPass T L (Scanner.within pre r i lh ln) = .ok p ∧
        p.agrees pre r (.token T.OPCHAN "<-" false (Scanner.step r (i + 1))) := by
  have hb : isBlank (r[i]?.getD EOF) = false := by rw [hc]; rfl
  obtain ⟨hj, hl⟩ := getElem?_of_ne_EOF r i (by rw [hc]; decide)
  have hst : Scanner.step r i = i + 1 := Scanner.step_progress r i hl
  intro pre lh ln
  unfold Scanner.scanPass
  rw [Scanner.skipBlank_stay pre r i lh ln hb, Except.ok_bind]
  dsimp only
  rw [Scanner.peek_within, hc, Except.ok_bind]
  rw [if_neg (isLetter_not L 60 (by decide) (by decide)),
    if_neg (by decide : ¬ (isDigit (60 : Int) = true)),
    if_neg (by decide : ¬ ((60 : Int) = 34)),
    if_neg (by decide : ¬ ((60 : Int) = 39)),
    if_neg (by decide : ¬ ((60 : Int) = 96)),
    if_neg (by decide : ¬ ((60 : Int) = EOF)),
    if_neg (by decide : ¬ ((60 : Int) = 35)),
    if_neg (by decide : ¬ ((60 : Int) = 33)),
    if_neg (by decide : ¬ ((60 : Int) = 61)),
    if_neg (by decide : ¬ ((60 : Int) = 63)),
    if_neg (by decide : ¬ ((60 : Int) = 43)),
    if_neg (by decide : ¬ ((60 : Int) = 45)),
    if_neg (by decide : ¬ ((60 : Int) = 42)),
    if_neg (by decide : ¬ ((60 : Int) = 47)),
    if_neg (by decide : ¬ ((60 : Int) = 62)),
    if_pos rfl]
  obtain ⟨lh1, ln1, hn1⟩ := Scanner.next_within pre r i lh ln
  rw [hst] at hn1
  simp only [bind, Except.bind, hn1, Scanner.peek_within, hq]
  rw [if_pos trivial]
  obtain ⟨lh2, ln2, hf⟩ := Scanner.finish_runs pre r (i + 1) lh1 ln1 T.OPCHAN "<-"
    (Scanner.within pre r i lh ln).pos
  exact ⟨_, hf, rfl, rfl, rfl, lh2, ln2, rfl⟩

theorem Scanner.pass_op_60_61 (T : Tokens) (L : Lib) (r : List Int) (i : Nat)
    (hc : r[i]?.getD EOF = 60) (hq : r[i + 1]?.getD EOF = 61) :
    ∀ (pre : List Int) (lh ln : Int),
      ∃ p, Scanner.scanPass T L (Scanner.within pre r i lh ln) = .ok p ∧
        p.agrees pre r (.token T.LE "<=" false (Scanner.step r (i + 1))) := by
  have hb : isBlank (r[i]?.getD EOF) = false := by rw [hc]; rfl
  obtain ⟨hj, hl⟩ := getElem?_of_ne_EOF r i (by rw [hc]; decide)
  have hst : Scanner.step r i = i + 1 := Scanner.step_progress r i hl
  intro pre lh ln
  unfold Scanner.scanPass
  rw [Scanner.skipBlank_stay pre r i lh ln hb, Except.ok_bind]
  dsimp only
  rw [Scanner.peek_within, hc, Except.ok_bind]
  rw [if_neg (isLetter_not L 60 (by decide) (by decide)),
    if_neg (by decide : ¬ (isDigit (60 : Int) = true)),
    if_neg (by decide : ¬ ((60 : Int) = 34)),
    if_neg (by decide : ¬ ((60 : Int) = 39)),
    if_neg (by decide : ¬ ((60 : Int) = 96)),
    if_neg (by decide : ¬ ((60 : Int) = EOF)),
    if_neg (by decide : ¬ ((60 : Int) = 35)),
    if_neg (by decide : ¬ ((60 : Int) = 33)),
    if_neg (by decide : ¬ ((60 : Int) = 61)),
    if_neg (by decide : ¬ ((60 : Int) = 63)),
    if_neg (by decide : ¬ ((60 : Int) = 43)),
    if_neg (by decide : ¬ ((60 : Int) = 45)),
    if_neg (by decide : ¬ ((60 : Int) = 42)),
    if_neg (by decide : ¬ ((60 : Int) = 47)),
    if_neg (by decide : ¬ ((60 : Int) = 62)),
    if_pos rfl]
  obtain ⟨lh1, ln1, hn1⟩ := Scanner.next_within pre r i lh ln
  rw [hst] at hn1
  simp only [bind, Except.bind, hn1, Scanner.peek_within, hq]
  rw [if_neg (by decide : ¬ ((61 : Int) = 45)), if_pos trivial]
  obtain ⟨lh2, ln2, hf⟩ := Scanner.finish_runs pre r (i + 1) lh1 ln1 T.LE "<="
    (Scanner.within pre r i lh ln).pos
  exact ⟨_, hf, rfl, rfl, rfl, lh2, ln2, rfl⟩

theorem Scanner.pass_op_60_60 (T : Tokens) (L : Lib) (r : List Int) (i : Nat)
    (hc : r[i]?.getD EOF = 60) (hq : r[i + 1]?.getD EOF = 60) :
    ∀ (pre : List Int) (lh ln : Int),
      ∃ p, Scanner.scanPass T L (Scanner.within pre r i lh ln) = .ok p ∧
        p.agrees pre r (.token T.SHIFTLEFT "<<" false (Scanner.step r (i + 1))) := by
  have hb : isBlank (r[i]?.getD EOF) = false := by rw [hc]; rfl
  obtain ⟨hj, hl⟩ := getElem?_of_ne_EOF r i (by rw [hc]; decide)
  have hst : Scanner.step r i = i + 1 := Scanner.step_progress r i hl
  intro pre lh ln
  unfold Scanner.scanPass
  rw [Scanner.skipBlank_stay pre r i lh ln hb, Except.ok_bind]
  dsimp only
  rw [Scanner.peek_within, hc, Except.ok_bind]
  rw [if_neg (isLetter_not L 60 (by decide) (by decide)),
    if_neg (by decide : ¬ (isDigit (60 : Int) = true)),
    if_neg (by decide : ¬ ((60 : Int) = 34)),
    if_neg (by decide : ¬ ((60 : Int) = 39)),
    if_neg (by decide : ¬ ((60 : Int) = 96)),
    if_neg (by decide : ¬ ((60 : Int) = EOF)),
    if_neg (by decide : ¬ ((60 : Int) = 35)),
    if_neg (by decide : ¬ ((60 : Int) = 33)),
    if_neg (by decide : ¬ ((60 : Int) = 61)),
    if_neg (by decide : ¬ ((60 : Int) = 63)),
    if_neg (by decide : ¬ ((60 : Int) = 43)),
    if_neg (by decide : ¬ ((60 : Int) = 45)),
    if_neg (by decide : ¬ ((60 : Int) = 42)),
    if_neg (by decide : ¬ ((60 : Int) = 47)),
    if_neg (by decide : ¬ ((60 : Int) = 62)),
    if_pos rfl]
  obtain ⟨lh1, ln1, hn1⟩ := Scanner.next_within pre r i lh ln
  rw [hst] at hn1
  simp only [bind, Except.bind, hn1, Scanner.peek_within, hq]
  rw [if_neg (by decide : ¬ ((60 : Int) = 45)), if_neg (by decide : ¬ ((60 : Int) = 61)), if_pos trivial]
  obtain ⟨lh2, ln2, hf⟩ := Scanner.finish_runs pre r (i + 1) lh1 ln1 T.SHIFTLEFT "<<"
    (Scanner.within pre r i lh ln).pos
  exact ⟨_, hf, rfl, rfl, rfl, lh2, ln2, rfl⟩

theorem Scanner.pass_op_124_124 (T : Tokens) (L : Lib) (r : List Int) (i : Nat)
    (hc : r[i]?.getD EOF = 124) (hq : r[i + 1]?.getD EOF = 124) :
    ∀ (pre : List Int) (lh ln : Int),
      ∃ p, Scanner.scanPass T L (Scanner.within pre r i lh ln) = .ok p ∧
        p.agrees pre r (.token T.OROR "||" false (Scanner.step r (i + 1))) := by
  have hb : isBlank (r[i]?.getD EOF) = false := by rw [hc]; rfl
  obtain ⟨hj, hl⟩ := getElem?_of_ne_EOF r i (by rw [hc]; decide)
  have hst : Scanner.step r i = i + 1 := Scanner.step_progress r i hl
  intro pre lh ln
  unfold Scanner.scanPass
  rw [Scanner.skipBlank_stay pre r i lh ln hb, Except.ok_bind]
  dsimp only
  rw [Scanner.peek_within, hc, Except.ok_bind]
  rw [if_neg (isLetter_not L 124 (by decide) (by decide)),
    if_neg (by decide : ¬ (isDigit (124 : Int) = true)),
    if_neg (by decide : ¬ ((124 : Int) = 34)),
    if_neg (by decide : ¬ ((124 : Int) = 39)),
    if_neg (by decide : ¬ ((124 : Int) = 96)),
    if_neg (by decide : ¬ ((124 : Int) = EOF)),
    if_neg (by decide : ¬ ((124 : Int) = 35)),
    if_neg (by decide : ¬ ((124 : Int) = 33)),
    if_neg (by decide : ¬ ((124 : Int) = 61)),
    if_neg (by decide : ¬ ((124 : Int) = 63)),
    if_neg (by decide : ¬ ((124 : Int) = 43)),
    if_neg (by decide : ¬ ((124 : Int) = 45)),
    if_neg (by decide : ¬ ((124 : Int) = 42)),
    if_neg (by decide : ¬ ((124 : Int) = 47)),
    if_neg (by decide : ¬ ((124 : Int) = 62)),
    if_neg (by decide : ¬ ((124 : Int) = 60)),
    if_pos rfl]
  obtain ⟨lh1, ln1, hn1⟩ := Scanner.next_within pre r i lh ln
  rw [hst] at hn1
  simp only [bind, Except.bind, hn1, Scanner.peek_within, hq]
  rw [if_pos trivial]
  obtain ⟨lh2, ln2, hf⟩ := Scanner.finish_runs pre r (i + 1) lh1 ln1 T.OROR "||"
    (Scanner.within pre r i lh ln).pos
  exact ⟨_, hf, rfl, rfl, rfl, lh2, ln2, rfl⟩

theorem Scanner.pass_op_124_61 (T : Tokens) (L : Lib) (r : List Int) (i : Nat)
    (hc : r[i]?.getD EOF = 124) (hq : r[i + 1]?.getD EOF = 61) :
    ∀ (pre : List Int) (lh ln : Int),
      ∃ p, Scanner.scanPass T L (Scanner.within pre r i lh ln) = .ok p ∧
        p.agrees pre r (.token T.OREQ "|=" false (Scanner.step r (i + 1))) := by
  have hb : isBlank (r[i]?.getD EOF) = false := by rw [hc]; rfl
  obtain ⟨hj, hl⟩ := getElem?_of_ne_EOF r i (by rw [hc]; decide)
  have hst : Scanner.step r i = i + 1 := Scanner.step_progress r i hl
  intro pre lh ln
  unfold Scanner.scanPass
  rw [Scanner.skipBlank_stay pre r i lh ln hb, Except.ok_bind]
  dsimp only
  rw [Scanner.peek_within, hc, Except.ok_bind]
  rw [if_neg (isLetter_not L 124 (by decide) (by decide)),
    if_neg (by decide : ¬ (isDigit (124 : Int) = true)),
    if_neg (by decide : ¬ ((124 : Int) = 34)),
    if_neg (by decide : ¬ ((124 : Int) = 39)),
    if_neg (by decide : ¬ ((124 : Int) = 96)),
    if_neg (by decide : ¬ ((124 : Int) = EOF)),
    if_neg (by decide : ¬ ((124 : Int) = 35)),
    if_neg (by decide : ¬ ((124 : Int) = 33)),
    if_neg (by decide : ¬ ((124 : Int) = 61)),
    if_neg (by decide : ¬ ((124 : Int) = 63)),
    if_neg (by decide : ¬ ((124 : Int) = 43)),
    if_neg (by decide : ¬ ((124 : Int) = 45)),
    if_neg (by decide : ¬ ((124 : Int) = 42)),
    if_neg (by decide : ¬ ((124 : Int) = 47)),
    if_neg (by decide : ¬ ((124 : Int) = 62)),
    if_neg (by decide : ¬ ((124 : Int) = 60)),
    if_pos rfl]
  obtain ⟨lh1, ln1, hn1⟩ := Scanner.next_within pre r i lh ln
  rw [hst] at hn1
  simp only [bind, Except.bind, hn1, Scanner.peek_within, hq]
  rw [if_neg (by decide : ¬ ((61 : Int) = 124)), if_pos trivial]
  obtain ⟨lh2, ln2, hf⟩ := Scanner.finish_runs pre r (i + 1) lh1 ln1 T.OREQ "|="
    (Scanner.within pre r i lh ln).pos
  exact ⟨_, hf, rfl, rfl, rfl, lh2, ln2, rfl⟩

theorem Scanner.pass_op_38_38 (T : Tokens) (L : Lib) (r : List Int) (i : Nat)
    (hc : r[i]?.getD EOF = 38) (hq : r[i + 1]?.getD EOF = 38) :
    ∀ (pre : List Int) (lh ln : Int),
      ∃ p, Scanner.scanPass T L (Scanner.within pre r i lh ln) = .ok p ∧
        p.agrees pre r (.token T.ANDAND "&&" false (Scanner.step r (i + 1))) := by
  have hb : isBlank (r[i]?.getD EOF) = false := by rw [hc]; rfl
  obtain ⟨hj, hl⟩ := getElem?_of_ne_EOF r i (by rw [hc]; decide)
  have hst : Scanner.step r i = i + 1 := Scanner.step_progress r i hl
  intro pre lh ln
  unfold Scanner.scanPass
  rw [Scanner.skipBlank_stay pre r i lh ln hb, Except.ok_bind]
  dsimp only
  rw [Scanner.peek_within, hc, Except.ok_bind]
  rw [if_neg (isLetter_not L 38 (by decide) (by decide)),
    if_neg (by decide : ¬ (isDigit (38 : Int) = true)),
    if_neg (by decide : ¬ ((38 : Int) = 34)),
    if_neg (by decide : ¬ ((38 : Int) = 39)),
    if_neg (by decide : ¬ ((38 : Int) = 96)),
    if_neg (by decide : ¬ ((38 : Int) = EOF)),
    if_neg (by decide : ¬ ((38 : Int) = 35)),
    if_neg (by decide : ¬ ((38 : Int) = 33)),
    if_neg (by decide : ¬ ((38 : Int) = 61)),
    if_neg (by decide : ¬ ((38 : Int) = 63)),
    if_neg (by decide : ¬ ((38 : Int) = 43)),
    if_neg (by decide : ¬ ((38 : Int) = 45)),
    if_neg (by decide : ¬ ((38 : Int) = 42)),
    if_neg (by decide : ¬ ((38 : Int) = 47)),
    if_neg (by decide : ¬ ((38 : Int) = 62)),
    if_neg (by decide : ¬ ((38 : Int) = 60)),
    if_neg (by decide : ¬ ((38 : Int) = 124)),
    if_pos rfl]
  obtain ⟨lh1, ln1, hn1⟩ := Scanner.next_within pre r i lh ln
  rw [hst] at hn1
  simp only [bind, Except.bind, hn1, Scanner.peek_within, hq]
  rw [if_pos trivial]
  obtain ⟨lh2, ln2, hf⟩ := Scanner.finish_runs pre r (i + 1) lh1 ln1 T.ANDAND "&&"
    (Scanner.within pre r i lh ln).pos
  exact ⟨_, hf, rfl, rfl, rfl, lh2, ln2, rfl⟩

theorem Scanner.pass_op_38_61 (T : Tokens) (L : Lib) (r : List Int) (i : Nat)
    (hc : r[i]?.getD EOF = 38) (hq : r[i + 1]?.getD EOF = 61) :
    ∀ (pre : List Int) (lh ln : Int),
      ∃ p, Scanner.scanPass T L (Scanner.within pre r i lh ln) = .ok p ∧
        p.agrees pre r (.token T.ANDEQ "&=" false (Scanner.step r (i + 1))) := by
  have hb : isBlank (r[i]?.getD EOF) = false := by rw [hc]; rfl
  obtain ⟨hj, hl⟩ := getElem?_of_ne_EOF r i (by rw [hc]; decide)
  have hst : Scanner.step r i = i + 1 := Scanner.step_progress r i hl
  intro pre lh ln
  unfold Scanner.scanPass
  rw [Scanner.skipBlank_stay pre r i lh ln hb, Except.ok_bind]
  dsimp only
  rw [Scanner.peek_within, hc, Except.ok_bind]
  rw [if_neg (isLetter_not L 38 (by decide) (by decide)),
    if_neg (by decide : ¬ (isDigit (38 : Int) = true)),
    if_neg (by decide : ¬ ((38 : Int) = 34)),
    if_neg (by decide : ¬ ((38 : Int) = 39)),
    if_neg (by decide : ¬ ((38 : Int) = 96)),
    if_neg (by decide : ¬ ((38 : Int) = EOF)),
    if_neg (by decide : ¬ ((38 : Int) = 35)),
    if_neg (by decide : ¬ ((38 : Int) = 33)),
    if_neg (by decide : ¬ ((38 : Int) = 61)),
    if_neg (by decide : ¬ ((38 : Int) = 63)),
    if_neg (by decide : ¬ ((38 : Int) = 43)),
    if_neg (by decide : ¬ ((38 : Int) = 45)),
    if_neg (by decide : ¬ ((38 : Int) = 42)),
    if_neg (by decide : ¬ ((38 : Int) = 47)),
    if_neg (by decide : ¬ ((38 : Int) = 62)),
    if_neg (by decide : ¬ ((38 : Int) = 60)),
    if_neg (by decide : ¬ ((38 : Int) = 124)),
    if_pos rfl]
  obtain ⟨lh1, ln1, hn1⟩ := Scanner.next_within pre r i lh ln
  rw [hst] at hn1
  simp only [bind, Except.bind, hn1, Scanner.peek_within, hq]
  rw [if_neg (by decide : ¬ ((61 : Int) = 38)), if_pos trivial]
  obtain ⟨lh2, ln2, hf⟩ := Scanner.finish_runs pre r (i + 1) lh1 ln1 T.ANDEQ "&="
    (Scanner.within pre r i lh ln).pos
  exact ⟨_, hf, rfl, rfl, rfl, lh2, ln2, rfl⟩

theorem Scanner.pass_single_33 (T : Tokens) (L : Lib) (r : List Int) (i : Nat) (q : Int)
    (hc : r[i]?.getD EOF = 33) (hq : r[i + 1]?.getD EOF = q) (d61 : ¬ q = 61) :
    ∀ (pre : List Int) (lh ln : Int),
      ∃ p, Scanner.scanPass T L (Scanner.within pre r i lh ln) = .ok p ∧
        p.agrees pre r (.token 33 (runeToString 33) false (i + 1)) := by
  have hb : isBlank (r[i]?.getD EOF) = false := by rw [hc]; rfl
  obtain ⟨hj, hl⟩ := getElem?_of_ne_EOF r i (by rw [hc]; decide)
  have hst : Scanner.step r i = i + 1 := Scanner.step_progress r i hl
  intro pre lh ln
  unfold Scanner.scanPass
  rw [Scanner.skipBlank_stay pre r i lh ln hb, Except.ok_bind]
  dsimp only
  rw [Scanner.peek_within, hc, Except.ok_bind]
  rw [if_neg (isLetter_not L 33 (by decide) (by decide)),
    if_neg (by decide : ¬ (isDigit (33 : Int) = true)),
    if_neg (by decide : ¬ ((33 : Int) = 34)),
    if_neg (by decide : ¬ ((33 : Int) = 39)),
    if_neg (by decide : ¬ ((33 : Int) = 96)),
    if_neg (by decide : ¬ ((33 : Int) = EOF)),
    if_neg (by decide : ¬ ((33 : Int) = 35)),
    if_pos rfl]
  obtain ⟨lh1, ln1, hn1⟩ := Scanner.next_within pre r i lh ln
  rw [hst] at hn1
  simp only [bind, Except.bind, hn1, Scanner.peek_within, hq]
  rw [if_neg d61]
  rw [Scanner.back_within]
  obtain ⟨lh2, ln2, hf⟩ := Scanner.finish_runs pre r i lh1 ln1 33 (runeToString 33)
    (Scanner.within pre r i lh ln).pos
  rw [hst] at hf
  exact ⟨_, hf, rfl, rfl, rfl, lh2, ln2, rfl⟩

theorem Scanner.pass_single_61 (T : Tokens) (L : Lib) (r : List Int) (i : Nat) (q : Int)
    (hc : r[i]?.getD EOF = 61) (hq : r[i + 1]?.getD EOF = q) (d61 : ¬ q = 61) (d32 : ¬ q = 32) :
    ∀ (pre : List Int) (lh ln : Int),
      ∃ p, Scanner.scanPass T L (Scanner.within pre r i lh ln) = .ok p ∧
        p.agrees pre r (.token 61 (runeToString 61) false (i + 1)) := by
  have hb : isBlank (r[i]?.getD EOF) = false := by rw [hc]; rfl
  obtain ⟨hj, hl⟩ := getElem?_of_ne_EOF r i (by rw [hc]; decide)
  have hst : Scanner.step r i = i + 1 := Scanner.step_progress r i hl
  intro pre lh ln
  unfold Scanner.scanPass
  rw [Scanner.skipBlank_stay pre r i lh ln hb, Except.ok_bind]
  dsimp only
  rw [Scanner.peek_within, hc, Except.ok_bind]
  rw [if_neg (isLetter_not L 61 (by decide) (by decide)),
    if_neg (by decide : ¬ (isDigit (61 : Int) = true)),
    if_neg (by decide : ¬ ((61 : Int) = 34)),
    if_neg (by decide : ¬ ((61 : Int) = 39)),
    if_neg (by decide : ¬ ((61 : Int) = 96)),
    if_neg (by decide : ¬ ((61 : Int) = EOF)),
    if_neg (by decide : ¬ ((61 : Int) = 35)),
    if_neg (by decide : ¬ ((61 : Int) = 33)),
    if_pos rfl]
  obtain ⟨lh1, ln1, hn1⟩ := Scanner.next_within pre r i lh ln
  rw [hst] at hn1
  simp only [bind, Except.bind, hn1, Scanner.peek_within, hq]
  rw [if_neg d61, if_neg d32]
  rw [Scanner.back_within]
  obtain ⟨lh2, ln2, hf⟩ := Scanner.finish_runs pre r i lh1 ln1 61 (runeToString 61)
    (Scanner.within pre r i lh ln).pos
  rw [hst] at hf
  exact ⟨_, hf, rfl, rfl, rfl, lh2, ln2, rfl⟩

theorem Scanner.pass_single_63 (T : Tokens) (L : Lib) (r : List Int) (i : Nat) (q : Int)
    (hc : r[i]?.getD EOF = 63) (hq : r[i + 1]?.getD EOF = q) (d63 : ¬ q = 63) :
    ∀ (pre : List Int) (lh ln : Int),
      ∃ p, Scanner.scanPass T L (Scanner.within pre r i lh ln) = .ok p ∧
        p.agrees pre r (.token 63 (runeToString 63) false (i + 1)) := by
  have hb : isBlank (r[i]?.getD EOF) = false := by rw [hc]; rfl
  obtain ⟨hj, hl⟩ := getElem?_of_ne_EOF r i (by rw [hc]; decide)
  have hst : Scanner.step r i = i + 1 := Scanner.step_progress r i hl
  intro pre lh ln
  unfold Scanner.scanPass
  rw [Scanner.skipBlank_stay pre r i lh ln hb, Except.ok_bind]
  dsimp only
  rw [Scanner.peek_within, hc, Except.ok_bind]
  rw [if_neg (isLetter_not L 63 (by decide) (by decide)),
    if_neg (by decide : ¬ (isDigit (63 : Int) = true)),
    if_neg (by decide : ¬ ((63 : Int) = 34)),
    if_neg (by decide : ¬ ((63 : Int) = 39)),
    if_neg (by decide : ¬ ((63 : Int) = 96)),
    if_neg (by decide : ¬ ((63 : Int) = EOF)),
    if_neg (by decide : ¬ ((63 : Int) = 35)),
    if_neg (by decide : ¬ ((63 : Int) = 33)),
    if_neg (by decide : ¬ ((63 : Int) = 61)),
    if_pos rfl]
  obtain ⟨lh1, ln1, hn1⟩ := Scanner.next_within pre r i lh ln
  rw [hst] at hn1
  simp only [bind, Except.bind, hn1, Scanner.peek_within, hq]
  rw [if_neg d63]
  rw [Scanner.back_within]
  obtain ⟨lh2, ln2, hf⟩ := Scanner.finish_runs pre r i lh1 ln1 63 (runeToString 63)
    (Scanner.within pre r i lh ln).pos
  rw [hst] at hf
  exact ⟨_, hf, rfl, rfl, rfl, lh2, ln2, rfl⟩

theorem Scanner.pass_single_43 (T : Tokens) (L : Lib) (r : List Int) (i : Nat) (q : Int)
    (hc : r[i]?.getD EOF = 43) (hq : r[i + 1]?.getD EOF = q) (d43 : ¬ q = 43) (d61 : ¬ q = 61) :
    ∀ (pre : List Int) (lh ln : Int),
      ∃ p, Scanner.scanPass T L (Scanner.within pre r i lh ln) = .ok p ∧
        p.agrees pre r (.token 43 (runeToString 43) false (i + 1)) := by
  have hb : isBlank (r[i]?.getD EOF) = false := by rw [hc]; rfl
  obtain ⟨hj, hl⟩ := getElem?_of_ne_EOF r i (by rw [hc]; decide)
  have hst : Scanner.step r i = i + 1 := Scanner.step_progress r i hl
  intro pre lh ln
  unfold Scanner.scanPass
  rw [Scanner.skipBlank_stay pre r i lh ln hb, Except.ok_bind]
  dsimp only
  rw [Scanner.peek_within, hc, Except.ok_bind]
  rw [if_neg (isLetter_not L 43 (by decide) (by decide)),
    if_neg (by decide : ¬ (isDigit (43 : Int) = true)),
    if_neg (by decide : ¬ ((43 : Int) = 34)),
    if_neg (by decide : ¬ ((43 : Int) = 39)),
    if_neg (by decide : ¬ ((43 : Int) = 96)),
    if_neg (by decide : ¬ ((43 : Int) = EOF)),
    if_neg (by decide : ¬ ((43 : Int) = 35)),
    if_neg (by decide : ¬ ((43 : Int) = 33)),
    if_neg (by decide : ¬ ((43 : Int) = 61)),
    if_neg (by decide : ¬ ((43 : Int) = 63)),
    if_pos rfl]
  obtain ⟨lh1, ln1, hn1⟩ := Scanner.next_within pre r i lh ln
  rw [hst] at hn1
  simp only [bind, Except.bind, hn1, Scanner.peek_within, hq]
  rw [if_neg d43, if_neg d61]
  rw [Scanner.back_within]
  obtain ⟨lh2, ln2, hf⟩ := Scanner.finish_runs pre r i lh1 ln1 43 (runeToString 43)
    (Scanner.within pre r i lh ln).pos
  rw [hst] at hf
  exact ⟨_, hf, rfl, rfl, rfl, lh2, ln2, rfl⟩

theorem Scanner.pass_single_45 (T : Tokens) (L : Lib) (r : List Int) (i : Nat) (q : Int)
    (hc : r[i]?.getD EOF = 45) (hq : r[i + 1]?.getD EOF = q) (d45 : ¬ q = 45) (d61 : ¬ q = 61) :
    ∀ (pre : List Int) (lh ln : Int),
      ∃ p, Scanner.scanPass T L (Scanner.within pre r i lh ln) = .ok p ∧
        p.agrees pre r (.token 45 ("-") false (i + 1)) := by
  have hb : isBlank (r[i]?.getD EOF) = false := by rw [hc]; rfl
  obtain ⟨hj, hl⟩ := getElem?_of_ne_EOF r i (by rw [hc]; decide)
  have hst : Scanner.step r i = i + 1 := Scanner.step_progress r i hl
  intro pre lh ln
  unfold Scanner.scanPass
  rw [Scanner.skipBlank_stay pre r i lh ln hb, Except.ok_bind]
  dsimp only
  rw [Scanner.peek_within, hc, Except.ok_bind]
  rw [if_neg (isLetter_not L 45 (by decide) (by decide)),
    if_neg (by decide : ¬ (isDigit (45 : Int) = true)),
    if_neg (by decide : ¬ ((45 : Int) = 34)),
    if_neg (by decide : ¬ ((45 : Int) = 39)),
    if_neg (by decide : ¬ ((45 : Int) = 96)),
    if_neg (by decide : ¬ ((45 : Int) = EOF)),
    if_neg (by decide : ¬ ((45 : Int) = 35)),
    if_neg (by decide : ¬ ((45 : Int) = 33)),
    if_neg (by decide : ¬ ((45 : Int) = 61)),
    if_neg (by decide : ¬ ((45 : Int) = 63)),
    if_neg (by decide : ¬ ((45 : Int) = 43)),
    if_pos rfl]
  obtain ⟨lh1, ln1, hn1⟩ := Scanner.next_within pre r i lh ln
  rw [hst] at hn1
  simp only [bind, Except.bind, hn1, Scanner.peek_within, hq]
  rw [if_neg d45, if_neg d61]
  rw [Scanner.back_within]
  obtain ⟨lh2, ln2, hf⟩ := Scanner.finish_runs pre r i lh1 ln1 45 ("-")
    (Scanner.within pre r i lh ln).pos
  rw [hst] at hf
  exact ⟨_, hf, rfl, rfl, rfl, lh2, ln2, rfl⟩

theorem Scanner.pass_single_42 (T : Tokens) (L : Lib) (r : List Int) (i : Nat) (q : Int)
    (hc : r[i]?.getD EOF = 42) (hq : r[i + 1]?.getD EOF = q) (d61 : ¬ q = 61) :
    ∀ (pre : List Int) (lh ln : Int),
      ∃ p, Scanner.scanPass T L (Scanner.within pre r i lh ln) = .ok p ∧
        p.agrees pre r (.token 42 (runeToString 42) false (i + 1)) := by
  have hb : isBlank (r[i]?.getD EOF) = false := by rw [hc]; rfl
  obtain ⟨hj, hl⟩ := getElem?_of_ne_EOF r i (by rw [hc]; decide)
  have hst : Scanner.step r i = i + 1 := Scanner.step_progress r i hl
  intro pre lh ln
  unfold Scanner.scanPass
  rw [Scanner.skipBlank_stay pre r i lh ln hb, Except.ok_bind]
  dsimp only
  rw [Scanner.peek_within, hc, Except.ok_bind]
  rw [if_neg (isLetter_not L 42 (by decide) (by decide)),
    if_neg (by decide : ¬ (isDigit (42 : Int) = true)),
    if_neg (by decide : ¬ ((42 : Int) = 34)),
    if_neg (by decide : ¬ ((42 : Int) = 39)),
    if_neg (by decide : ¬ ((42 : Int) = 96)),
    if_neg (by decide : ¬ ((42 : Int) = EOF)),
    if_neg (by decide : ¬ ((42 : Int) = 35)),
    if_neg (by decide : ¬ ((42 : Int) = 33)),
    if_neg (by decide : ¬ ((42 : Int) = 61)),
    if_neg (by decide : ¬ ((42 : Int) = 63)),
    if_neg (by decide : ¬ ((42 : Int) = 43)),
    if_neg (by decide : ¬ ((42 : Int) = 45)),
    if_pos rfl]
  obtain ⟨lh1, ln1, hn1⟩ := Scanner.next_within pre r i lh ln
  rw [hst] at hn1
  simp only [bind, Except.bind, hn1, Scanner.peek_within, hq]
  rw [if_neg d61]
  rw [Scanner.back_within]
  obtain ⟨lh2, ln2, hf⟩ := Scanner.finish_runs pre r i lh1 ln1 42 (runeToString 42)
    (Scanner.within pre r i lh ln).pos
  rw [hst] at hf
  exact ⟨_, hf, rfl, rfl, rfl, lh2, ln2, rfl⟩

theorem Scanner.pass_single_47 (T : Tokens) (L : Lib) (r : List Int) (i : Nat) (q : Int)
    (hc : r[i]?.getD EOF = 47) (hq : r[i + 1]?.getD EOF = q) (d61 : ¬ q = 61) (d47 : ¬ q = 47) (d42 : ¬ q = 42) :
    ∀ (pre : List Int) (lh ln : Int),
      ∃ p, Scanner.scanPass T L (Scanner.within pre r i lh ln) = .ok p ∧
        p.agrees pre r (.token 47 (runeToString 47) false (i + 1)) := by
  have hb : isBlank (r[i]?.getD EOF) = false := by rw [hc]; rfl
  obtain ⟨hj, hl⟩ := getElem?_of_ne_EOF r i (by rw [hc]; decide)
  have hst : Scanner.step r i = i + 1 := Scanner.step_progress r i hl
  intro pre lh ln
  unfold Scanner.scanPass
  rw [Scanner.skipBlank_stay pre r i lh ln hb, Except.ok_bind]
  dsimp only
  rw [Scanner.peek_within, hc, Except.ok_bind]
  rw [if_neg (isLetter_not L 47 (by decide) (by decide)),
    if_neg (by decide : ¬ (isDigit (47 : Int) = true)),
    if_neg (by decide : ¬ ((47 : Int) = 34)),
    if_neg (by decide : ¬ ((47 : Int) = 39)),
    if_neg (by decide : ¬ ((47 : Int) = 96)),
    if_neg (by decide : ¬ ((47 : Int) = EOF)),
    if_neg (by decide : ¬ ((47 : Int) = 35)),
    if_neg (by decide : ¬ ((47 : Int) = 33)),
    if_neg (by decide : ¬ ((47 : Int) = 61)),
    if_neg (by decide : ¬ ((47 : Int) = 63)),
    if_neg (by decide : ¬ ((47 : Int) = 43)),
    if_neg (by decide : ¬ ((47 : Int) = 45)),
    if_neg (by decide : ¬ ((47 : Int) = 42)),
    if_pos rfl]
  obtain ⟨lh1, ln1, hn1⟩ := Scanner.next_within pre r i lh ln
  rw [hst] at hn1
  simp only [bind, Except.bind, hn1, Scanner.peek_within, hq]
  rw [if_neg d61, if_neg d47, if_neg d42]
  rw [Scanner.back_within]
  obtain ⟨lh2, ln2, hf⟩ := Scanner.finish_runs pre r i lh1 ln1 47 (runeToString 47)
    (Scanner.within pre r i lh ln).pos
  rw [hst] at hf
  exact ⟨_, hf, rfl, rfl, rfl, lh2, ln2, rfl⟩

theorem Scanner.pass_single_62 (T : Tokens) (L : Lib) (r : List Int) (i : Nat) (q : Int)
    (hc : r[i]?.getD EOF = 62) (hq : r[i + 1]?.getD EOF = q) (d61 : ¬ q = 61) (d62 : ¬ q = 62) :
    ∀ (pre : List Int) (lh ln : Int),
      ∃ p, Scanner.scanPass T L (Scanner.within pre r i lh ln) = .ok p ∧
        p.agrees pre r (.token 62 (runeToString 62) false (i + 1)) := by
  have hb : isBlank (r[i]?.getD EOF) = false := by rw [hc]; rfl
  obtain ⟨hj, hl⟩ := getElem?_of_ne_EOF r i (by rw [hc]; decide)
  have hst : Scanner.step r i = i + 1 := Scanner.step_progress r i hl
  intro pre lh ln
  unfold Scanner.scanPass
  rw [Scanner.skipBlank_stay pre r i lh ln hb, Except.ok_bind]
  dsimp only
  rw [Scanner.peek_within, hc, Except.ok_bind]
  rw [if_neg (isLetter_not L 62 (by decide) (by decide)),
    if_neg (by decide : ¬ (isDigit (62 : Int) = true)),
    if_neg (by decide : ¬ ((62 : Int) = 34)),
    if_neg (by decide : ¬ ((62 : Int) = 39)),
    if_neg (by decide : ¬ ((62 : Int) = 96)),
    if_neg (by decide : ¬ ((62 : Int) = EOF)),
    if_neg (by decide : ¬ ((62 : Int) = 35)),
    if_neg (by decide : ¬ ((62 : Int) = 33)),
    if_neg (by decide : ¬ ((62 : Int) = 61)),
    if_neg (by decide : ¬ ((62 : Int) = 63)),
    if_neg (by decide : ¬ ((62 : Int) = 43)),
    if_neg (by decide : ¬ ((62 : Int) = 45)),
    if_neg (by decide : ¬ ((62 : Int) = 42)),
    if_neg (by decide : ¬ ((62 : Int) = 47)),
    if_pos rfl]
  obtain ⟨lh1, ln1, hn1⟩ := Scanner.next_within pre r i lh ln
  rw [hst] at hn1
  simp only [bind, Except.bind, hn1, Scanner.peek_within, hq]
  rw [if_neg d61, if_neg d62]
  rw [Scanner.back_within]
  obtain ⟨lh2, ln2, hf⟩ := Scanner.finish_runs pre r i lh1 ln1 62 (runeToString 62)
    (Scanner.within pre r i lh ln).pos
  rw [hst] at hf
  exact ⟨_, hf, rfl, rfl, rfl, lh2, ln2, rfl⟩

theorem Scanner.pass_single_60 (T : Tokens) (L : Lib) (r : List Int) (i : Nat) (q : Int)
    (hc : r[i]?.getD EOF = 60) (hq : r[i + 1]?.getD EOF = q) (d45 : ¬ q = 45) (d61 : ¬ q = 61) (d60 : ¬ q = 60) :
    ∀ (pre : List Int) (lh ln : Int),
      ∃ p, Scanner.scanPass T L (Scanner.within pre r i lh ln) = .ok p ∧
        p.agrees pre r (.token 60 (runeToString 60) false (i + 1)) := by
  have hb : isBlank (r[i]?.getD EOF) = false := by rw [hc]; rfl
  obtain ⟨hj, hl⟩ := getElem?_of_ne_EOF r i (by rw [hc]; decide)
  have hst : Scanner.step r i = i + 1 := Scanner.step_progress r i hl
  intro pre lh ln
  unfold Scanner.scanPass
  rw [Scanner.skipBlank_stay pre r i lh ln hb, Except.ok_bind]
  dsimp only
  rw [Scanner.peek_within, hc, Except.ok_bind]
  rw [if_neg (isLetter_not L 60 (by decide) (by decide)),
    if_neg (by decide : ¬ (isDigit (60 : Int) = true)),
    if_neg (by decide : ¬ ((60 : Int) = 34)),
    if_neg (by decide : ¬ ((60 : Int) = 39)),
    if_neg (by decide : ¬ ((60 : Int) = 96)),
    if_neg (by decide : ¬ ((60 : Int) = EOF)),
    if_neg (by decide : ¬ ((60 : Int) = 35)),
    if_neg (by decide : ¬ ((60 : Int) = 33)),
    if_neg (by decide : ¬ ((60 : Int) = 61)),
    if_neg (by decide : ¬ ((60 : Int) = 63)),
    if_neg (by decide : ¬ ((60 : Int) = 43)),
    if_neg (by decide : ¬ ((60 : Int) = 45)),
    if_neg (by decide : ¬ ((60 : Int) = 42)),
    if_neg (by decide : ¬ ((60 : Int) = 47)),
    if_neg (by decide : ¬ ((60 : Int) = 62)),
    if_pos rfl]
  obtain ⟨lh1, ln1, hn1⟩ := Scanner.next_within pre r i lh ln
  rw [hst] at hn1
  simp only [bind, Except.bind, hn1, Scanner.peek_within, hq]
  rw [if_neg d45, if_neg d61, if_neg d60]
  rw [Scanner.back_within]
  obtain ⟨lh2, ln2, hf⟩ := Scanner.finish_runs pre r i lh1 ln1 60 (runeToString 60)
    (Scanner.within pre r i lh ln).pos
  rw [hst] at hf
  exact ⟨_, hf, rfl, rfl, rfl, lh2, ln2, rfl⟩

theorem Scanner.pass_single_124 (T : Tokens) (L : Lib) (r : List Int) (i : Nat) (q : Int)
    (hc : r[i]?.getD EOF = 124) (hq : r[i + 1]?.getD EOF = q) (d124 : ¬ q = 124) (d61 : ¬ q = 61) :
    ∀ (pre : List Int) (lh ln : Int),
      ∃ p, Scanner.scanPass T L (Scanner.within pre r i lh ln) = .ok p ∧
        p.agrees pre r (.token 124 (runeToString 124) false (i + 1)) := by
  have hb : isBlank (r[i]?.getD EOF) = false := by rw [hc]; rfl
  obtain ⟨hj, hl⟩ := getElem?_of_ne_EOF r i (by rw [hc]; decide)
  have hst : Scanner.step r i = i + 1 := Scanner.step_progress r i hl
  intro pre lh ln
  unfold Scanner.scanPass
  rw [Scanner.skipBlank_stay pre r i lh ln hb, Except.ok_bind]
  dsimp only
  rw [Scanner.peek_within, hc, Except.ok_bind]
  rw [if_neg (isLetter_not L 124 (by decide) (by decide)),
    if_neg (by decide : ¬ (isDigit (124 : Int) = true)),
    if_neg (by decide : ¬ ((124 : Int) = 34)),
    if_neg (by decide : ¬ ((124 : Int) = 39)),
    if_neg (by decide : ¬ ((124 : Int) = 96)),
    if_neg (by decide : ¬ ((124 : Int) = EOF)),
    if_neg (by decide : ¬ ((124 : Int) = 35)),
    if_neg (by decide : ¬ ((124 : Int) = 33)),
    if_neg (by decide : ¬ ((124 : Int) = 61)),
    if_neg (by decide : ¬ ((124 : Int) = 63)),
    if_neg (by decide : ¬ ((124 : Int) = 43)),
    if_neg (by decide : ¬ ((124 : Int) = 45)),
    if_neg (by decide : ¬ ((124 : Int) = 42)),
    if_neg (by decide : ¬ ((124 : Int) = 47)),
    if_neg (by decide : ¬ ((124 : Int) = 62)),
    if_neg (by decide : ¬ ((124 : Int) = 60)),
    if_pos rfl]
  obtain ⟨lh1, ln1, hn1⟩ := Scanner.next_within pre r i lh ln
  rw [hst] at hn1
  simp only [bind, Except.bind, hn1, Scanner.peek_within, hq]
  rw [if_neg d124, if_neg d61]
  rw [Scanner.back_within]
  obtain ⟨lh2, ln2, hf⟩ := Scanner.finish_runs pre r i lh1 ln1 124 (runeToString 124)
    (Scanner.within pre r i lh ln).pos
  rw [hst] at hf
  exact ⟨_, hf, rfl, rfl, rfl, lh2, ln2, rfl⟩

theorem Scanner.pass_single_38 (T : Tokens) (L : Lib) (r : List Int) (i : Nat) (q : Int)
    (hc : r[i]?.getD EOF = 38) (hq : r[i + 1]?.getD EOF = q) (d38 : ¬ q = 38) (d61 : ¬ q = 61) :
    ∀ (pre : List Int) (lh ln : Int),
      ∃ p, Scanner.scanPass T L (Scanner.within pre r i lh ln) = .ok p ∧
        p.agrees pre r (.token 38 (runeToString 38) false (i + 1)) := by
  have hb : isBlank (r[i]?.getD EOF) = false := by rw [hc]; rfl
  obtain ⟨hj, hl⟩ := getElem?_of_ne_EOF r i (by rw [hc]; decide)
  have hst : Scanner.step r i = i + 1 := Scanner.step_progress r i hl
  intro pre lh ln
  unfold Scanner.scanPass
  rw [Scanner.skipBlank_stay pre r i lh ln hb, Except.ok_bind]
  dsimp only
  rw [Scanner.peek_within, hc, Except.ok_bind]
  rw [if_neg (isLetter_not L 38 (by decide) (by decide)),
    if_neg (by decide : ¬ (isDigit (38 : Int) = true)),
    if_neg (by decide : ¬ ((38 : Int) = 34)),
    if_neg (by decide : ¬ ((38 : Int) = 39)),
    if_neg (by decide : ¬ ((38 : Int) = 96)),
    if_neg (by decide : ¬ ((38 : Int) = EOF)),
    if_neg (by decide : ¬ ((38 : Int) = 35)),
    if_neg (by decide : ¬ ((38 : Int) = 33)),
    if_neg (by decide : ¬ ((38 : Int) = 61)),
    if_neg (by decide : ¬ ((38 : Int) = 63)),
    if_neg (by decide : ¬ ((38 : Int) = 43)),
    if_neg (by decide : ¬ ((38 : Int) = 45)),
    if_neg (by decide : ¬ ((38 : Int) = 42)),
    if_neg (by decide : ¬ ((38 : Int) = 47)),
    if_neg (by decide : ¬ ((38 : Int) = 62)),
    if_neg (by decide : ¬ ((38 : Int) = 60)),
    if_neg (by decide : ¬ ((38 : Int) = 124)),
    if_pos rfl]
  obtain ⟨lh1, ln1, hn1⟩ := Scanner.next_within pre r i lh ln
  rw [hst] at hn1
  simp only [bind, Except.bind, hn1, Scanner.peek_within, hq]
  rw [if_neg d38, if_neg d61]
  rw [Scanner.back_within]
  obtain ⟨lh2, ln2, hf⟩ := Scanner.finish_runs pre r i lh1 ln1 38 (runeToString 38)
    (Scanner.within pre r i lh ln).pos
  rw [hst] at hf
  exact ⟨_, hf, rfl, rfl, rfl, lh2, ln2, rfl⟩

theorem Scanner.pass_single_46 (T : Tokens) (L : Lib) (r : List Int) (i : Nat) (q : Int)
    (hc : r[i]?.getD EOF = 46) (hq : r[i + 1]?.getD EOF = q) (d46 : ¬ q = 46) :
    ∀ (pre : List Int) (lh ln : Int),
      ∃ p, Scanner.scanPass T L (Scanner.within pre r i lh ln) = .ok p ∧
        p.agrees pre r (.token 46 (runeToString 46) false (i + 1)) := by
  have hb : isBlank (r[i]?.getD EOF) = false := by rw [hc]; rfl
  obtain ⟨hj, hl⟩ := getElem?_of_ne_EOF r i (by rw [hc]; decide)
  have hst : Scanner.step r i = i + 1 := Scanner.step_progress r i hl
  intro pre lh ln
  unfold Scanner.scanPass
  rw [Scanner.skipBlank_stay pre r i lh ln hb, Except.ok_bind]
  dsimp only
  rw [Scanner.peek_within, hc, Except.ok_bind]
  rw [if_neg (isLetter_not L 46 (by decide) (by decide)),
    if_neg (by decide : ¬ (isDigit (46 : Int) = true)),
    if_neg (by decide : ¬ ((46 : Int) = 34)),
    if_neg (by decide : ¬ ((46 : Int) = 39)),
    if_neg (by decide : ¬ ((46 : Int) = 96)),
    if_neg (by decide : ¬ ((46 : Int) = EOF)),
    if_neg (by decide : ¬ ((46 : Int) = 35)),
    if_neg (by decide : ¬ ((46 : Int) = 33)),
    if_neg (by decide : ¬ ((46 : Int) = 61)),
    if_neg (by decide : ¬ ((46 : Int) = 63)),
    if_neg (by decide : ¬ ((46 : Int) = 43)),
    if_neg (by decide : ¬ ((46 : Int) = 45)),
    if_neg (by decide : ¬ ((46 : Int) = 42)),
    if_neg (by decide : ¬ ((46 : Int) = 47)),
    if_neg (by decide : ¬ ((46 : Int) = 62)),
    if_neg (by decide : ¬ ((46 : Int) = 60)),
    if_neg (by decide : ¬ ((46 : Int) = 124)),
    if_neg (by decide : ¬ ((46 : Int) = 38)),
    if_pos rfl]
  obtain ⟨lh1, ln1, hn1⟩ := Scanner.next_within pre r i lh ln
  rw [hst] at hn1
  simp only [bind, Except.bind, hn1, Scanner.peek_within, hq]
  rw [if_neg d46]
  rw [Scanner.back_within]
  obtain ⟨lh2, ln2, hf⟩ := Scanner.finish_runs pre r i lh1 ln1 46 (runeToString 46)
    (Scanner.within pre r i lh ln).pos
  rw [hst] at hf
  exact ⟨_, hf, rfl, rfl, rfl, lh2, ln2, rfl⟩

theorem Scanner.pass_eqopchan (T : Tokens) (L : Lib) (r : List Int) (i : Nat)
    (hc : r[i]?.getD EOF = 61) (hq : r[i + 1]?.getD EOF = 32)
    (hq1 : r[i + 1 + 1]?.getD EOF = 60) (hq2 : r[i + 1 + 2]?.getD EOF = 45) :
    ∀ (pre : List Int) (lh ln : Int),
      ∃ p, Scanner.scanPass T L (Scanner.within pre r i lh ln) = .ok p ∧
        p.agrees pre r (.token T.EQOPCHAN "= <-" false
          (Scanner.step r (Scanner.step r (Scanner.step r (i + 1))))) := by
  have hb : isBlank (r[i]?.getD EOF) = false := by rw [hc]; rfl
  obtain ⟨hj, hl⟩ := getElem?_of_ne_EOF r i (by rw [hc]; decide)
  have hst : Scanner.step r i = i + 1 := Scanner.step_progress r i hl
  intro pre lh ln
  unfold Scanner.scanPass
  rw [Scanner.skipBlank_stay pre r i lh ln hb, Except.ok_bind]
  dsimp only
  rw [Scanner.peek_within, hc, Except.ok_bind]
  rw [if_neg (isLetter_not L 61 (by decide) (by decide)),
    if_neg (by decide : ¬ (isDigit (61 : Int) = true)),
    if_neg (by decide : ¬ ((61 : Int) = 34)),
    if_neg (by decide : ¬ ((61 : Int) = 39)),
    if_neg (by decide : ¬ ((61 : Int) = 96)),
    if_neg (by decide : ¬ ((61 : Int) = EOF)),
    if_neg (by decide : ¬ ((61 : Int) = 35)),
    if_neg (by decide : ¬ ((61 : Int) = 33)),
    if_pos rfl]
  have hpp : ∀ (n : Nat) lh ln, (Scanner.within pre r (i + 1) lh ln).peekPlus (n : Int) =
      .ok (r[i + 1 + n]?.getD EOF) := fun n lh ln => Scanner.peekPlus_within pre r (i + 1) n lh ln
  have hpp1 := hpp 1
  have hpp2 := hpp 2
  simp only [Nat.cast_one, Nat.cast_ofNat, hq1, hq2] at hpp1 hpp2
  obtain ⟨lh1, ln1, hn1⟩ := Scanner.next_within pre r i lh ln
  rw [hst] at hn1
  obtain ⟨lh2, ln2, hn2⟩ := Scanner.next_within pre r (i + 1) lh1 ln1
  obtain ⟨lh3, ln3, hn3⟩ := Scanner.next_within pre r (Scanner.step r (i + 1)) lh2 ln2
  simp only [bind, Except.bind, hn1, Scanner.peek_within, hq]
  rw [if_neg (by decide : ¬ ((32 : Int) = 61)), if_pos trivial]
  simp only [hpp1, hpp2, if_true, and_self, pure, Except.pure, hn2, hn3]
  obtain ⟨lh4, ln4, hf⟩ := Scanner.finish_runs pre r
    (Scanner.step r (Scanner.step r (i + 1))) lh3 ln3 T.EQOPCHAN "= <-"
    (Scanner.within pre r i lh ln).pos
  exact ⟨_, hf, rfl, rfl, rfl, lh4, ln4, rfl⟩

theorem Scanner.pass_single_61_blank (T : Tokens) (L : Lib) (r : List Int) (i : Nat)
    (q1 q2 : Int) (hc : r[i]?.getD EOF = 61) (hq : r[i + 1]?.getD EOF = 32)
    (hq1 : r[i + 1 + 1]?.getD EOF = q1) (hq2 : r[i + 1 + 2]?.getD EOF = q2)
    (d60 : ¬ (q1 = 60 ∧ q2 = 45)) :
    ∀ (pre : List Int) (lh ln : Int),
      ∃ p, Scanner.scanPass T L (Scanner.within pre r i lh ln) = .ok p ∧
        p.agrees pre r (.token 61 (runeToString 61) false (i + 1)) := by
  have hb : isBlank (r[i]?.getD EOF) = false := by rw [hc]; rfl
  obtain ⟨hj, hl⟩ := getElem?_of_ne_EOF r i (by rw [hc]; decide)
  have hst : Scanner.step r i = i + 1 := Scanner.step_progress r i hl
  intro pre lh ln
  unfold Scanner.scanPass
  rw [Scanner.skipBlank_stay pre r i lh ln hb, Except.ok_bind]
  dsimp only
  rw [Scanner.peek_within, hc, Except.ok_bind]
  rw [if_neg (isLetter_not L 61 (by decide) (by decide)),
    if_neg (by decide : ¬ (isDigit (61 : Int) = true)),
    if_neg (by decide : ¬ ((61 : Int) = 34)),
    if_neg (by decide : ¬ ((61 : Int) = 39)),
    if_neg (by decide : ¬ ((61 : Int) = 96)),
    if_neg (by decide : ¬ ((61 : Int) = EOF)),
    if_neg (by decide : ¬ ((61 : Int) = 35)),
    if_neg (by decide : ¬ ((61 : Int) = 33)),
    if_pos rfl]
  have hpp : ∀ (n : Nat) lh ln, (Scanner.within pre r (i + 1) lh ln).peekPlus (n : Int) =
      .ok (r[i + 1 + n]?.getD EOF) := fun n lh ln => Scanner.peekPlus_within pre r (i + 1) n lh ln
  have hpp1 := hpp 1
  have hpp2 := hpp 2
  simp only [Nat.cast_one, Nat.cast_ofNat, hq1, hq2] at hpp1 hpp2
  obtain ⟨lh1, ln1, hn1⟩ := Scanner.next_within pre r i lh ln
  rw [hst] at hn1
  simp only [bind, Except.bind, hn1, Scanner.peek_within, hq]
  rw [if_neg (by decide : ¬ ((32 : Int) = 61)), if_pos trivial]
  by_cases e1 : q1 = 60
  · have e2 : ¬ q2 = 45 := fun h => d60 ⟨e1, h⟩
    simp only [hpp1, hpp2, e1, if_true, true_and, e2, if_false, pure, Except.pure]
    rw [Scanner.back_within]
    obtain ⟨lh2, ln2, hf⟩ := Scanner.finish_runs pre r i lh1 ln1 61 (runeToString 61)
      (Scanner.within pre r i lh ln).pos
    rw [hst] at hf
    exact ⟨_, hf, rfl, rfl, rfl, lh2, ln2, rfl⟩
  · simp only [hpp1, e1, if_false, false_and, pure, Except.pure]
    rw [Scanner.back_within]
    obtain ⟨lh2, ln2, hf⟩ := Scanner.finish_runs pre r i lh1 ln1 61 (runeToString 61)
      (Scanner.within pre r i lh ln).pos
    rw [hst] at hf
    exact ⟨_, hf, rfl, rfl, rfl, lh2, ln2, rfl⟩

theorem Scanner.pass_vararg (T : Tokens) (L : Lib) (r : List Int) (i : Nat)
    (hc : r[i]?.getD EOF = 46) (hq : r[i + 1]?.getD EOF = 46)
    (hq1 : r[Scanner.step r (i + 1)]?.getD EOF = 46) :
    ∀ (pre : List Int) (lh ln : Int),
      ∃ p, Scanner.scanPass T L (Scanner.within pre r i lh ln) = .ok p ∧
        p.agrees pre r (.token T.VARARG "" false (Scanner.step r (Scanner.step r (i + 1)))) := by
  have hb : isBlank (r[i]?.getD EOF) = false := by rw [hc]; rfl
  obtain ⟨hj, hl⟩ := getElem?_of_ne_EOF r i (by rw [hc]; decide)
  have hst : Scanner.step r i = i + 1 := Scanner.step_progress r i hl
  intro pre lh ln
  unfold Scanner.scanPass
  rw [Scanner.skipBlank_stay pre r i lh ln hb, Except.ok_bind]
  dsimp only
  rw [Scanner.peek_within, hc, Except.ok_bind]
  rw [if_neg (isLetter_not L 46 (by decide) (by decide)),
    if_neg (by decide : ¬ (isDigit (46 : Int) = true)),
    if_neg (by decide : ¬ ((46 : Int) = 34)),
    if_neg (by decide : ¬ ((46 : Int) = 39)),
    if_neg (by decide : ¬ ((46 : Int) = 96)),
    if_neg (by decide : ¬ ((46 : Int) = EOF)),
    if_neg (by decide : ¬ ((46 : Int) = 35)),
    if_neg (by decide : ¬ ((46 : Int) = 33)),
    if_neg (by decide : ¬ ((46 : Int) = 61)),
    if_neg (by decide : ¬ ((46 : Int) = 63)),
    if_neg (by decide : ¬ ((46 : Int) = 43)),
    if_neg (by decide : ¬ ((46 : Int) = 45)),
    if_neg (by decide : ¬ ((46 : Int) = 42)),
    if_neg (by decide : ¬ ((46 : Int) = 47)),
    if_neg (by decide : ¬ ((46 : Int) = 62)),
    if_neg (by decide : ¬ ((46 : Int) = 60)),
    if_neg (by decide : ¬ ((46 : Int) = 124)),
    if_neg (by decide : ¬ ((46 : Int) = 38)),
    if_pos rfl]
  obtain ⟨lh1, ln1, hn1⟩ := Scanner.next_within pre r i lh ln
  rw [hst] at hn1
  obtain ⟨lh2, ln2, hn2⟩ := Scanner.next_within pre r (i + 1) lh1 ln1
  simp only [bind, Except.bind, hn1, Scanner.peek_within, hq]
  rw [if_pos trivial]
  simp only [hn2, Scanner.peek_within, hq1]
  rw [if_pos trivial]
  obtain ⟨lh3, ln3, hf⟩ := Scanner.finish_runs pre r (Scanner.step r (i + 1)) lh2 ln2
    T.VARARG "" (Scanner.within pre r i lh ln).pos
  exact ⟨_, hf, rfl, rfl, rfl, lh3, ln3, rfl⟩

theorem Scanner.pass_dots_error (T : Tokens) (L : Lib) (r : List Int) (i : Nat) (q1 : Int)
    (hc : r[i]?.getD EOF = 46) (hq : r[i + 1]?.getD EOF = 46)
    (hq1 : r[Scanner.step r (i + 1)]?.getD EOF = q1) (e46 : ¬ q1 = 46) :
    ∀ (pre : List Int) (lh ln : Int),
      ∃ p, Scanner.scanPass T L (Scanner.within pre r i lh ln) = .ok p ∧
        p.agrees pre r (.token 0 "" true (Scanner.step r (i + 1))) := by
  have hb : isBlank (r[i]?.getD EOF) = false := by rw [hc]; rfl
  obtain ⟨hj, hl⟩ := getElem?_of_ne_EOF r i (by rw [hc]; decide)
  have hst : Scanner.step r i = i + 1 := Scanner.step_progress r i hl
  intro pre lh ln
  unfold Scanner.scanPass
  rw [Scanner.skipBlank_stay pre r i lh ln hb, Except.ok_bind]
  dsimp only
  rw [Scanner.peek_within, hc, Except.ok_bind]
  rw [if_neg (isLetter_not L 46 (by decide) (by decide)),
    if_neg (by decide : ¬ (isDigit (46 : Int) = true)),
    if_neg (by decide : ¬ ((46 : Int) = 34)),
    if_neg (by decide : ¬ ((46 : Int) = 39)),
    if_neg (by decide : ¬ ((46 : Int) = 96)),
    if_neg (by decide : ¬ ((46 : Int) = EOF)),
    if_neg (by decide : ¬ ((46 : Int) = 35)),
    if_neg (by decide : ¬ ((46 : Int) = 33)),
    if_neg (by decide : ¬ ((46 : Int) = 61)),
    if_neg (by decide : ¬ ((46 : Int) = 63)),
    if_neg (by decide : ¬ ((46 : Int) = 43)),
    if_neg (by decide : ¬ ((46 : Int) = 45)),
    if_neg (by decide : ¬ ((46 : Int) = 42)),
    if_neg (by decide : ¬ ((46 : Int) = 47)),
    if_neg (by decide : ¬ ((46 : Int) = 62)),
    if_neg (by decide : ¬ ((46 : Int) = 60)),
    if_neg (by decide : ¬ ((46 : Int) = 124)),
    if_neg (by decide : ¬ ((46 : Int) = 38)),
    if_pos rfl]
  obtain ⟨lh1, ln1, hn1⟩ := Scanner.next_within pre r i lh ln
  rw [hst] at hn1
  obtain ⟨lh2, ln2, hn2⟩ := Scanner.next_within pre r (i + 1) lh1 ln1
  simp only [bind, Except.bind, hn1, Scanner.peek_within, hq]
  rw [if_pos trivial]
  simp only [hn2, Scanner.peek_within, hq1]
  rw [if_neg e46]
  exact ⟨_, rfl, rfl, rfl, rfl, lh2, ln2, rfl⟩

theorem Scanner.pass_hash (T : Tokens) (L : Lib) (r : List Int) (i j : Nat)
    (hc : r[i]?.getD EOF = 35)
    (hrun : ∀ (pre : List Int) (lh ln : Int), ∃ lh' ln',
      Scanner.skipLineLoop (Scanner.within pre r i lh ln).bound (Scanner.within pre r i lh ln) =
        .ok (Scanner.within pre r j lh' ln')) :
    ∀ (pre : List Int) (lh ln : Int),
      ∃ p, Scanner.scanPass T L (Scanner.within pre r i lh ln) = .ok p ∧
        p.agrees pre r (.retry j) := by
  have hb : isBlank (r[i]?.getD EOF) = false := by rw [hc]; rfl
  obtain ⟨hj, hl⟩ := getElem?_of_ne_EOF r i (by rw [hc]; decide)
  have hst : Scanner.step r i = i + 1 := Scanner.step_progress r i hl
  intro pre lh ln
  unfold Scanner.scanPass
  rw [Scanner.skipBlank_stay pre r i lh ln hb, Except.ok_bind]
  dsimp only
  rw [Scanner.peek_within, hc, Except.ok_bind]
  rw [if_neg (isLetter_not L 35 (by decide) (by decide)),
    if_neg (by decide : ¬ (isDigit (35 : Int) = true)),
    if_neg (by decide : ¬ ((35 : Int) = 34)),
    if_neg (by decide : ¬ ((35 : Int) = 39)),
    if_neg (by decide : ¬ ((35 : Int) = 96)),
    if_neg (by decide : ¬ ((35 : Int) = EOF)),
    if_pos rfl]
  obtain ⟨lh1, ln1, h1⟩ := hrun pre lh ln
  simp only [bind, Except.bind, h1, pure, Except.pure]
  exact ⟨_, rfl, lh1, ln1, rfl⟩

theorem Scanner.pass_slashes (T : Tokens) (L : Lib) (r : List Int) (i j : Nat)
    (hc : r[i]?.getD EOF = 47) (hq : r[i + 1]?.getD EOF = 47)
    (hrun : ∀ (pre : List Int) (lh ln : Int), ∃ lh' ln',
      Scanner.skipLineLoop (Scanner.within pre r (i + 1) lh ln).bound
        (Scanner.within pre r (i + 1) lh ln) = .ok (Scanner.within pre r j lh' ln')) :
    ∀ (pre : List Int) (lh ln : Int),
      ∃ p, Scanner.scanPass T L (Scanner.within pre r i lh ln) = .ok p ∧
        p.agrees pre r (.retry j) := by
  have hb : isBlank (r[i]?.getD EOF) = false := by rw [hc]; rfl
  obtain ⟨hj, hl⟩ := getElem?_of_ne_EOF r i (by rw [hc]; decide)
  have hst : Scanner.step r i = i + 1 := Scanner.step_progress r i hl
  intro pre lh ln
  unfold Scanner.scanPass
  rw [Scanner.skipBlank_stay pre r i lh ln hb, Except.ok_bind]
  dsimp only
  rw [Scanner.peek_within, hc, Except.ok_bind]
  rw [if_neg (isLetter_not L 47 (by decide) (by decide)),
    if_neg (by decide : ¬ (isDigit (47 : Int) = true)),
    if_neg (by decide : ¬ ((47 : Int) = 34)),
    if_neg (by decide : ¬ ((47 : Int) = 39)),
    if_neg (by decide : ¬ ((47 : Int) = 96)),
    if_neg (by decide : ¬ ((47 : Int) = EOF)),
    if_neg (by decide : ¬ ((47 : Int) = 35)),
    if_neg (by decide : ¬ ((47 : Int) = 33)),
    if_neg (by decide : ¬ ((47 : Int) = 61)),
    if_neg (by decide : ¬ ((47 : Int) = 63)),
    if_neg (by decide : ¬ ((47 : Int) = 43)),
    if_neg (by decide : ¬ ((47 : Int) = 45)),
    if_neg (by decide : ¬ ((47 : Int) = 42)),
    if_pos rfl]
  obtain ⟨lh1, ln1, hn1⟩ := Scanner.next_within pre r i lh ln
  rw [hst] at hn1
  simp only [bind, Except.bind, hn1, Scanner.peek_within, hq]
  rw [if_neg (by decide : ¬ ((47 : Int) = 61)), if_pos trivial]
  obtain ⟨lh2, ln2, h2⟩ := hrun pre lh1 ln1
  simp only [bind, Except.bind, h2, pure, Except.pure]
  exact ⟨_, rfl, lh2, ln2, rfl⟩

theorem Scanner.pass_block (T : Tokens) (L : Lib) (r : List Int) (i j : Nat)
    (hc : r[i]?.getD EOF = 47) (hq : r[i + 1]?.getD EOF = 42)
    (hrun : ∀ (pre : List Int) (lh ln : Int), ∃ lh' ln',
      Scanner.blockCommentLoop (Scanner.within pre r (i + 1) lh ln).bound
        (Scanner.within pre r (i + 1) lh ln) = .ok (none, Scanner.within pre r j lh' ln')) :
    ∀ (pre : List Int) (lh ln : Int),
      ∃ p, Scanner.scanPass T L (Scanner.within pre r i lh ln) = .ok p ∧
        p.agrees pre r (.retry j) := by
  have hb : isBlank (r[i]?.getD EOF) = false := by rw [hc]; rfl
  obtain ⟨hj, hl⟩ := getElem?_of_ne_EOF r i (by rw [hc]; decide)
  have hst : Scanner.step r i = i + 1 := Scanner.step_progress r i hl
  intro pre lh ln
  unfold Scanner.scanPass
  rw [Scanner.skipBlank_stay pre r i lh ln hb, Except.ok_bind]
  dsimp only
  rw [Scanner.peek_within, hc, Except.ok_bind]
  rw [if_neg (isLetter_not L 47 (by decide) (by decide)),
    if_neg (by decide : ¬ (isDigit (47 : Int) = true)),
    if_neg (by decide : ¬ ((47 : Int) = 34)),
    if_neg (by decide : ¬ ((47 : Int) = 39)),
    if_neg (by decide : ¬ ((47 : Int) = 96)),
    if_neg (by decide : ¬ ((47 : Int) = EOF)),
    if_neg (by decide : ¬ ((47 : Int) = 35)),
    if_neg (by decide : ¬ ((47 : Int) = 33)),
    if_neg (by decide : ¬ ((47 : Int) = 61)),
    if_neg (by decide : ¬ ((47 : Int) = 63)),
    if_neg (by decide : ¬ ((47 : Int) = 43)),
    if_neg (by decide : ¬ ((47 : Int) = 45)),
    if_neg (by decide : ¬ ((47 : Int) = 42)),
    if_pos rfl]
  obtain ⟨lh1, ln1, hn1⟩ := Scanner.next_within pre r i lh ln
  rw [hst] at hn1
  simp only [bind, Except.bind, hn1, Scanner.peek_within, hq]
  rw [if_neg (by decide : ¬ ((42 : Int) = 61)), if_neg (by decide : ¬ ((42 : Int) = 47)), if_pos trivial]
  obtain ⟨lh2, ln2, h2⟩ := hrun pre lh1 ln1
  simp only [bind, Except.bind, h2, Option.isSome_none, Bool.false_eq_true, if_false, pure,
    Except.pure]
  exact ⟨_, rfl, lh2, ln2, rfl⟩

theorem Scanner.pass_block_error (T : Tokens) (L : Lib) (r : List Int) (i j : Nat)
    (err : Error) (hc : r[i]?.getD EOF = 47) (hq : r[i + 1]?.getD EOF = 42)
    (hrun : ∀ (pre : List Int) (lh ln : Int), ∃ lh' ln',
      Scanner.blockCommentLoop (Scanner.within pre r (i + 1) lh ln).bound
        (Scanner.within pre r (i + 1) lh ln) = .ok (some err, Scanner.within pre r j lh' ln')) :
    ∀ (pre : List Int) (lh ln : Int),
      ∃ lh' ln', Scanner.scanPass T L (Scanner.within pre r i lh ln) =
        .ok (.ret ⟨0, "", (Scanner.within pre r i lh ln).pos, some err⟩
          (Scanner.within pre r j lh' ln')) := by
  have hb : isBlank (r[i]?.getD EOF) = false := by rw [hc]; rfl
  obtain ⟨hj, hl⟩ := getElem?_of_ne_EOF r i (by rw [hc]; decide)
  have hst : Scanner.step r i = i + 1 := Scanner.step_progress r i hl
  intro pre lh ln
  unfold Scanner.scanPass
  rw [Scanner.skipBlank_stay pre r i lh ln hb, Except.ok_bind]
  dsimp only
  rw [Scanner.peek_within, hc, Except.ok_bind]
  rw [if_neg (isLetter_not L 47 (by decide) (by decide)),
    if_neg (by decide : ¬ (isDigit (47 : Int) = true)),
    if_neg (by decide : ¬ ((47 : Int) = 34)),
    if_neg (by decide : ¬ ((47 : Int) = 39)),
    if_neg (by decide : ¬ ((47 : Int) = 96)),
    if_neg (by decide : ¬ ((47 : Int) = EOF)),
    if_neg (by decide : ¬ ((47 : Int) = 35)),
    if_neg (by decide : ¬ ((47 : Int) = 33)),
    if_neg (by decide : ¬ ((47 : Int) = 61)),
    if_neg (by decide : ¬ ((47 : Int) = 63)),
    if_neg (by decide : ¬ ((47 : Int) = 43)),
    if_neg (by decide : ¬ ((47 : Int) = 45)),
    if_neg (by decide : ¬ ((47 : Int) = 42)),
    if_pos rfl]
  obtain ⟨lh1, ln1, hn1⟩ := Scanner.next_within pre r i lh ln
  rw [hst] at hn1
  simp only [bind, Except.bind, hn1, Scanner.peek_within, hq]
  rw [if_neg (by decide : ¬ ((42 : Int) = 61)), if_neg (by decide : ¬ ((42 : Int) = 47)), if_pos trivial]
  obtain ⟨lh2, ln2, h2⟩ := hrun pre lh1 ln1
  simp only [bind, Except.bind, h2, Option.isSome_some, if_true, pure, Except.pure]
  exact ⟨lh2, ln2, rfl⟩

theorem Scanner.pass_quote_34 (T : Tokens) (L : Lib) (r : List Int) (i j : Nat)
    (v : String × Option Error) (hc : r[i]?.getD EOF = 34)
    (hrun : ∀ (pre : List Int) (lh ln : Int), ∃ lh' ln',
      Scanner.scanString T 34 (Scanner.within pre r i lh ln) = .ok (v, Scanner.within pre r j lh' ln')) :
    ∀ (pre : List Int) (lh ln : Int),
      ∃ p, Scanner.scanPass T L (Scanner.within pre r i lh ln) = .ok p ∧
        p.agrees pre r (.token T.STRING v.1 v.2.isSome j) := by
  have hb : isBlank (r[i]?.getD EOF) = false := by rw [hc]; rfl
  obtain ⟨hj, hl⟩ := getElem?_of_ne_EOF r i (by rw [hc]; decide)
  have hst : Scanner.step r i = i + 1 := Scanner.step_progress r i hl
  intro pre lh ln
  unfold Scanner.scanPass
  rw [Scanner.skipBlank_stay pre r i lh ln hb, Except.ok_bind]
  dsimp only
  rw [Scanner.peek_within, hc, Except.ok_bind]
  rw [if_neg (isLetter_not L 34 (by decide) (by decide)),
    if_neg (by decide : ¬ (isDigit (34 : Int) = true)),
    if_pos rfl]
  obtain ⟨lh1, ln1, h1⟩ := hrun pre lh ln
  simp only [bind, Except.bind, h1, pure, Except.pure]
  exact ⟨_, rfl, rfl, rfl, rfl, lh1, ln1, rfl⟩

theorem Scanner.pass_quote_39 (T : Tokens) (L : Lib) (r : List Int) (i j : Nat)
    (v : String × Option Error) (hc : r[i]?.getD EOF = 39)
    (hrun : ∀ (pre : List Int) (lh ln : Int), ∃ lh' ln',
      Scanner.scanString T 39 (Scanner.within pre r i lh ln) = .ok (v, Scanner.within pre r j lh' ln')) :
    ∀ (pre : List Int) (lh ln : Int),
      ∃ p, Scanner.scanPass T L (Scanner.within pre r i lh ln) = .ok p ∧
        p.agrees pre r (.token T.STRING v.1 v.2.isSome j) := by
  have hb : isBlank (r[i]?.getD EOF) = false := by rw [hc]; rfl
  obtain ⟨hj, hl⟩ := getElem?_of_ne_EOF r i (by rw [hc]; decide)
  have hst : Scanner.step r i = i + 1 := Scanner.step_progress r i hl
  intro pre lh ln
  unfold Scanner.scanPass
  rw [Scanner.skipBlank_stay pre r i lh ln hb, Except.ok_bind]
  dsimp only
  rw [Scanner.peek_within, hc, Except.ok_bind]
  rw [if_neg (isLetter_not L 39 (by decide) (by decide)),
    if_neg (by decide : ¬ (isDigit (39 : Int) = true)),
    if_neg (by decide : ¬ ((39 : Int) = 34)),
    if_pos rfl]
  obtain ⟨lh1, ln1, h1⟩ := hrun pre lh ln
  simp only [bind, Except.bind, h1, pure, Except.pure]
  exact ⟨_, rfl, rfl, rfl, rfl, lh1, ln1, rfl⟩

theorem Scanner.pass_quote_96 (T : Tokens) (L : Lib) (r : List Int) (i j : Nat)
    (v : String × Option Error) (hc : r[i]?.getD EOF = 96)
    (hrun : ∀ (pre : List Int) (lh ln : Int), ∃ lh' ln',
      Scanner.scanRawString 96 (Scanner.within pre r i lh ln) = .ok (v, Scanner.within pre r j lh' ln')) :
    ∀ (pre : List Int) (lh ln : Int),
      ∃ p, Scanner.scanPass T L (Scanner.within pre r i lh ln) = .ok p ∧
        p.agrees pre r (.token T.STRING v.1 v.2.isSome j) := by
  have hb : isBlank (r[i]?.getD EOF) = false := by rw [hc]; rfl
  obtain ⟨hj, hl⟩ := getElem?_of_ne_EOF r i (by rw [hc]; decide)
  have hst : Scanner.step r i = i + 1 := Scanner.step_progress r i hl
  intro pre lh ln
  unfold Scanner.scanPass
  rw [Scanner.skipBlank_stay pre r i lh ln hb, Except.ok_bind]
  dsimp only
  rw [Scanner.peek_within, hc, Except.ok_bind]
  rw [if_neg (isLetter_not L 96 (by decide) (by decide)),
    if_neg (by decide : ¬ (isDigit (96 : Int) = true)),
    if_neg (by decide : ¬ ((96 : Int) = 34)),
    if_neg (by decide : ¬ ((96 : Int) = 39)),
    if_pos rfl]
  obtain ⟨lh1, ln1, h1⟩ := hrun pre lh ln
  simp only [bind, Except.bind, h1, pure, Except.pure]
  exact ⟨_, rfl, rfl, rfl, rfl, lh1, ln1, rfl⟩

theorem Scanner.pass_EOF (T : Tokens) (L : Lib) (r : List Int) (i : Nat)
    (hc : r[i]?.getD EOF = EOF) :
    ∀ (pre : List Int) (lh ln : Int),
      ∃ p, Scanner.scanPass T L (Scanner.within pre r i lh ln) = .ok p ∧
        p.agrees pre r (.token EOF "" false (Scanner.step r i)) := by
  have hb : isBlank (r[i]?.getD EOF) = false := by rw [hc]; rfl
  intro pre lh ln
  unfold Scanner.scanPass
  rw [Scanner.skipBlank_stay pre r i lh ln hb, Except.ok_bind]
  dsimp only
  rw [Scanner.peek_within, hc, Except.ok_bind]
  rw [if_neg (by rw [isLetter_EOF]; decide),
    if_neg (by decide : ¬ (isDigit EOF = true)),
    if_neg (by decide : ¬ (EOF = 34)),
    if_neg (by decide : ¬ (EOF = 39)),
    if_neg (by decide : ¬ (EOF = 96)),
    if_pos rfl]
  obtain ⟨lh2, ln2, hf⟩ := Scanner.finish_runs pre r i lh ln EOF ""
    (Scanner.within pre r i lh ln).pos
  exact ⟨_, hf, rfl, rfl, rfl, lh2, ln2, rfl⟩

theorem Scanner.pass_identifier (T : Tokens) (L : Lib) (r : List Int) (i j : Nat)
    (lit : String) (hb : isBlank (r[i]?.getD EOF) = false)
    (cl : isLetter L (r[i]?.getD EOF) = true)
    (hrun : ∀ (pre : List Int) (lh ln : Int), ∃ lh' ln',
      Scanner.scanIdentifier L (Scanner.within pre r i lh ln) =
        .ok ((lit, none), Scanner.within pre r j lh' ln')) :
    ∀ (pre : List Int) (lh ln : Int),
      ∃ p, Scanner.scanPass T L (Scanner.within pre r i lh ln) = .ok p ∧
        p.agrees pre r (.token (((opName T).lookup lit).getD T.IDENT) lit false j) := by
  intro pre lh ln
  unfold Scanner.scanPass
  rw [Scanner.skipBlank_stay pre r i lh ln hb, Except.ok_bind]
  dsimp only
  rw [Scanner.peek_within, Except.ok_bind]
  rw [if_pos cl]
  obtain ⟨lh1, ln1, h1⟩ := hrun pre lh ln
  simp only [bind, Except.bind, h1, Option.isSome_none, Bool.false_eq_true, if_false]
  cases (opName T).lookup lit with
  | none => exact ⟨_, rfl, rfl, rfl, rfl, lh1, ln1, rfl⟩
  | some name => exact ⟨_, rfl, rfl, rfl, rfl, lh1, ln1, rfl⟩

theorem Scanner.pass_number (T : Tokens) (L : Lib) (r : List Int) (i j : Nat)
    (v : String × Option Error) (cd : isDigit (r[i]?.getD EOF) = true)
    (hrun : ∀ (pre : List Int) (lh ln : Int), ∃ lh' ln',
      Scanner.scanNumber L (Scanner.within pre r i lh ln) =
        .ok (v, Scanner.within pre r j lh' ln')) :
    ∀ (pre : List Int) (lh ln : Int),
      ∃ p, Scanner.scanPass T L (Scanner.within pre r i lh ln) = .ok p ∧
        p.agrees pre r (.token T.NUMBER v.1 v.2.isSome j) := by
  have hb : isBlank (r[i]?.getD EOF) = false := isBlank_digit _ cd
  have cl : ¬ isLetter L (r[i]?.getD EOF) = true := by rw [isLetter_digit L _ cd]; decide
  intro pre lh ln
  unfold Scanner.scanPass
  rw [Scanner.skipBlank_stay pre r i lh ln hb, Except.ok_bind]
  dsimp only
  rw [Scanner.peek_within, Except.ok_bind]
  rw [if_neg cl, if_pos cd]
  obtain ⟨lh1, ln1, h1⟩ := hrun pre lh ln
  simp only [bind, Except.bind, h1, pure, Except.pure]
  exact ⟨_, rfl, rfl, rfl, rfl, lh1, ln1, rfl⟩

theorem Scanner.pass_punct (T : Tokens) (L : Lib) (r : List Int) (i : Nat) (c : Int)
    (hc : r[i]?.getD EOF = c) (hb : isBlank c = false)
    (cl : ¬ (isLetter L c = true))
    (cd : ¬ (isDigit c = true))
    (c34 : ¬ (c = 34))
    (c39 : ¬ (c = 39))
    (c96 : ¬ (c = 96))
    (ce : ¬ (c = EOF))
    (c35 : ¬ (c = 35))
    (c33 : ¬ (c = 33))
    (c61 : ¬ (c = 61))
    (c63 : ¬ (c = 63))
    (c43 : ¬ (c = 43))
    (c45 : ¬ (c = 45))
    (c42 : ¬ (c = 42))
    (c47 : ¬ (c = 47))
    (c62 : ¬ (c = 62))
    (c60 : ¬ (c = 60))
    (c124 : ¬ (c = 124))
    (c38 : ¬ (c = 38))
    (c46 : ¬ (c = 46))
    (cs : c = 10 ∨ c = 40 ∨ c = 41 ∨ c = 58 ∨ c = 59 ∨ c = 37 ∨ c = 123 ∨ c = 125 ∨
      c = 91 ∨ c = 93 ∨ c = 44 ∨ c = 94) :
    ∀ (pre : List Int) (lh ln : Int),
      ∃ p, Scanner.scanPass T L (Scanner.within pre r i lh ln) = .ok p ∧
        p.agrees pre r (.token c (runeToString c) false (i + 1)) := by
  obtain ⟨hj, hl⟩ := getElem?_of_ne_EOF r i (by rw [hc]; exact ce)
  have hst : Scanner.step r i = i + 1 := Scanner.step_progress r i hl
  rw [← hc] at hb
  intro pre lh ln
  unfold Scanner.scanPass
  rw [Scanner.skipBlank_stay pre r i lh ln hb, Except.ok_bind]
  dsimp only
  rw [Scanner.peek_within, hc, Except.ok_bind]
  rw [if_neg cl, if_neg cd, if_neg c34, if_neg c39, if_neg c96, if_neg ce, if_neg c35, if_neg c33, if_neg c61, if_neg c63, if_neg c43, if_neg c45, if_neg c42, if_neg c47, if_neg c62, if_neg c60, if_neg c124, if_neg c38, if_neg c46, if_pos cs]
  obtain ⟨lh2, ln2, hf⟩ := Scanner.finish_runs pre r i lh ln c (runeToString c)
    (Scanner.within pre r i lh ln).pos
  rw [hst] at hf
  exact ⟨_, hf, rfl, rfl, rfl, lh2, ln2, rfl⟩

theorem Scanner.pass_illegal (T : Tokens) (L : Lib) (r : List Int) (i : Nat) (c : Int)
    (hc : r[i]?.getD EOF = c) (hb : isBlank c = false)
    (cl : ¬ (isLetter L c = true))
    (cd : ¬ (isDigit c = true))
    (c34 : ¬ (c = 34))
    (c39 : ¬ (c = 39))
    (c96 : ¬ (c = 96))
    (ce : ¬ (c = EOF))
    (c35 : ¬ (c = 35))
    (c33 : ¬ (c = 33))
    (c61 : ¬ (c = 61))
    (c63 : ¬ (c = 63))
    (c43 : ¬ (c = 43))
    (c45 : ¬ (c = 45))
    (c42 : ¬ (c = 42))
    (c47 : ¬ (c = 47))
    (c62 : ¬ (c = 62))
    (c60 : ¬ (c = 60))
    (c124 : ¬ (c = 124))
    (c38 : ¬ (c = 38))
    (c46 : ¬ (c = 46))
    (cs : ¬ (c = 10 ∨ c = 40 ∨ c = 41 ∨ c = 58 ∨ c = 59 ∨ c = 37 ∨ c = 123 ∨ c = 125 ∨
      c = 91 ∨ c = 93 ∨ c = 44 ∨ c = 94)) :
    ∀ (pre : List Int) (lh ln : Int),
      ∃ p, Scanner.scanPass T L (Scanner.within pre r i lh ln) = .ok p ∧
        p.agrees pre r (.token c (runeToString c) true i) := by
  rw [← hc] at hb
  intro pre lh ln
  unfold Scanner.scanPass
  rw [Scanner.skipBlank_stay pre r i lh ln hb, Except.ok_bind]
  dsimp only
  rw [Scanner.peek_within, hc, Except.ok_bind]
  rw [if_neg cl, if_neg cd, if_neg c34, if_neg c39, if_neg c96, if_neg ce, if_neg c35, if_neg c33, if_neg c61, if_neg c63, if_neg c43, if_neg c45, if_neg c42, if_neg c47, if_neg c62, if_neg c60, if_neg c124, if_neg c38, if_neg c46, if_neg cs]
  exact ⟨_, rfl, rfl, rfl, rfl, lh, ln, rfl⟩

/-- One pass of `Scan` from a rune that is not blank comes to the same outcome
wherever the text stands in the source, and returns. -/
theorem Scanner.scanPass_body_runs (T : Tokens) (L : Lib) (r : List Int) (i : Nat)
    (hi : i ≤ r.length) (hb : isBlank (r[i]?.getD EOF) = false) :
    ∃ o : Outcome, o.Progress i r.length ∧
      ∀ (pre : List Int) (lh ln : Int),
        ∃ p, Scanner.scanPass T L (Scanner.within pre r i lh ln) = .ok p ∧ p.agrees pre r o := by
  generalize hc : r[i]?.getD EOF = c
  by_cases cl : isLetter L c = true
  · obtain ⟨lit, j, j1, j2, j3, hrun⟩ := Scanner.scanIdentifier_runs L r i hi
    rw [hc] at j3
    exact ⟨_, Outcome.progress_token (j1) (j2) (fun _ _ => j3 (by simp [cl])),
      Scanner.pass_identifier T L r i j lit hb (by rw [hc]; exact cl) hrun⟩
  by_cases cd : isDigit c = true
  · obtain ⟨hj, hl⟩ := getElem?_of_ne_EOF r i (by
      rw [hc]
      rintro rfl
      exact absurd cd (by decide))
    obtain ⟨v, j, j1, j2, j3, hrun⟩ := Scanner.scanNumber_runs L r i hi
    exact ⟨_, Outcome.progress_token (j1) (j2) (fun _ _ => j3 hl),
      Scanner.pass_number T L r i j v (by rw [hc]; exact cd) hrun⟩
  by_cases c34 : c = 34
  · obtain ⟨hj, hl⟩ := getElem?_of_ne_EOF r i (by rw [hc, c34]; decide)
    obtain ⟨v, j, j1, j2, j3, hrun⟩ := Scanner.scanString_runs T 34 r i hi
    exact ⟨_, Outcome.progress_token (j1) (j2) (fun _ _ => j3 hl), Scanner.pass_quote_34 T L r i j v (hc.trans c34) hrun⟩
  by_cases c39 : c = 39
  · obtain ⟨hj, hl⟩ := getElem?_of_ne_EOF r i (by rw [hc, c39]; decide)
    obtain ⟨v, j, j1, j2, j3, hrun⟩ := Scanner.scanString_runs T 39 r i hi
    exact ⟨_, Outcome.progress_token (j1) (j2) (fun _ _ => j3 hl), Scanner.pass_quote_39 T L r i j v (hc.trans c39) hrun⟩
  by_cases c96 : c = 96
  · obtain ⟨hj, hl⟩ := getElem?_of_ne_EOF r i (by rw [hc, c96]; decide)
    obtain ⟨v, j, j1, j2, _, j3, hrun⟩ := Scanner.scanRawString_runs 96 r i hi
    exact ⟨_, Outcome.progress_token (j1) (j2) (fun _ _ => j3 hl), Scanner.pass_quote_96 T L r i j v (hc.trans c96) hrun⟩
  by_cases ce : c = EOF
  · obtain ⟨t1, t2, t3⟩ := Scanner.step_le r i hi
    exact ⟨_, Outcome.progress_token (t1) (t2) (fun _ h => by exact absurd rfl h), Scanner.pass_EOF T L r i (hc.trans ce)⟩
  obtain ⟨hj, hl⟩ := getElem?_of_ne_EOF r i (by rw [hc]; exact ce)
  obtain ⟨t1, t2, t3⟩ := Scanner.step_le r (i + 1) hl
  obtain ⟨u1, u2, u3⟩ := Scanner.step_le r (Scanner.step r (i + 1)) t2
  obtain ⟨w1, w2, w3⟩ := Scanner.step_le r (Scanner.step r (Scanner.step r (i + 1))) u2
  generalize hq : r[i + 1]?.getD EOF = q
  by_cases c35 : c = 35
  · obtain ⟨j, j1, j2, j3, hrun⟩ := Scanner.skipLine_runs r i hi
    rw [hc, c35] at j3
    exact ⟨_, Outcome.progress_retry (j3 rfl) (j2), Scanner.pass_hash T L r i j (hc.trans c35) hrun⟩
  by_cases c33 : c = 33
  · by_cases d61 : q = 61
    · exact ⟨_, Outcome.progress_token (by omega) (t2) (fun _ _ => by omega),
        Scanner.pass_op_33_61 T L r i (hc.trans c33) (hq.trans d61)⟩
    exact ⟨_, Outcome.progress_token (by omega) (by omega) (fun _ _ => by omega),
      Scanner.pass_single_33 T L r i q (hc.trans c33) hq d61⟩
  by_cases c61 : c = 61
  · by_cases d61 : q = 61
    · exact ⟨_, Outcome.progress_token (by omega) (t2) (fun _ _ => by omega),
        Scanner.pass_op_61_61 T L r i (hc.trans c61) (hq.trans d61)⟩
    by_cases d32 : q = 32
    · by_cases d60 : r[i + 1 + 1]?.getD EOF = 60 ∧ r[i + 1 + 2]?.getD EOF = 45
      · exact ⟨_, Outcome.progress_token (by omega) (w2) (fun _ _ => by omega),
          Scanner.pass_eqopchan T L r i (hc.trans c61) (hq.trans d32) d60.1 d60.2⟩
      · exact ⟨_, Outcome.progress_token (by omega) (by omega) (fun _ _ => by omega),
          Scanner.pass_single_61_blank T L r i _ _ (hc.trans c61) (hq.trans d32) rfl rfl d60⟩
    exact ⟨_, Outcome.progress_token (by omega) (by omega) (fun _ _ => by omega),
      Scanner.pass_single_61 T L r i q (hc.trans c61) hq d61 d32⟩
  by_cases c63 : c = 63
  · by_cases d63 : q = 63
    · exact ⟨_, Outcome.progress_token (by omega) (t2) (fun _ _ => by omega),
        Scanner.pass_op_63_63 T L r i (hc.trans c63) (hq.trans d63)⟩
    exact ⟨_, Outcome.progress_token (by omega) (by omega) (fun _ _ => by omega),
      Scanner.pass_single_63 T L r i q (hc.trans c63) hq d63⟩
  by_cases c43 : c = 43
  · by_cases d43 : q = 43
    · exact ⟨_, Outcome.progress_token (by omega) (t2) (fun _ _ => by omega),
        Scanner.pass_op_43_43 T L r i (hc.trans c43) (hq.trans d43)⟩
    by_cases d61 : q = 61
    · exact ⟨_, Outcome.progress_token (by omega) (t2) (fun _ _ => by omega),
        Scanner.pass_op_43_61 T L r i (hc.trans c43) (hq.trans d61)⟩
    exact ⟨_, Outcome.progress_token (by omega) (by omega) (fun _ _ => by omega),
      Scanner.pass_single_43 T L r i q (hc.trans c43) hq d43 d61⟩
  by_cases c45 : c = 45
  · by_cases d45 : q = 45
    · exact ⟨_, Outcome.progress_token (by omega) (t2) (fun _ _ => by omega),
        Scanner.pass_op_45_45 T L r i (hc.trans c45) (hq.trans d45)⟩
    by_cases d61 : q = 61
    · exact ⟨_, Outcome.progress_token (by omega) (t2) (fun _ _ => by omega),
        Scanner.pass_op_45_61 T L r i (hc.trans c45) (hq.trans d61)⟩
    exact ⟨_, Outcome.progress_token (by omega) (by omega) (fun _ _ => by omega),
      Scanner.pass_single_45 T L r i q (hc.trans c45) hq d45 d61⟩
  by_cases c42 : c = 42
  · by_cases d61 : q = 61
    · exact ⟨_, Outcome.progress_token (by omega) (t2) (fun _ _ => by omega),
        Scanner.pass_op_42_61 T L r i (hc.trans c42) (hq.trans d61)⟩
    exact ⟨_, Outcome.progress_token (by omega) (by omega) (fun _ _ => by omega),
      Scanner.pass_single_42 T L r i q (hc.trans c42) hq d61⟩
  by_cases c47 : c = 47
  · by_cases d61 : q = 61
    · exact ⟨_, Outcome.progress_token (by omega) (t2) (fun _ _ => by omega),
        Scanner.pass_op_47_61 T L r i (hc.trans c47) (hq.trans d61)⟩
    by_cases d47 : q = 47
    · obtain ⟨j, j1, j2, _, hrun⟩ := Scanner.skipLine_runs r (i + 1) hl
      exact ⟨_, Outcome.progress_retry (by omega) (j2), Scanner.pass_slashes T L r i j (hc.trans c47) (hq.trans d47) hrun⟩
    by_cases d42 : q = 42
    · obtain ⟨e, j, j1, j2, _, hrun⟩ := Scanner.blockComment_runs r (i + 1) hl
      cases e with
      | none =>
        exact ⟨_, Outcome.progress_retry (by omega) (j2), Scanner.pass_block T L r i j (hc.trans c47) (hq.trans d42) hrun⟩
      | some err =>
        refine ⟨.token 0 "" true j, Outcome.progress_token (by omega) (j2) (fun h => by cases h), ?_⟩
        intro pre lh ln
        obtain ⟨lh', ln', h⟩ := Scanner.pass_block_error T L r i j err (hc.trans c47)
          (hq.trans d42) hrun pre lh ln
        exact ⟨_, h, rfl, rfl, rfl, lh', ln', rfl⟩
    exact ⟨_, Outcome.progress_token (by omega) (by omega) (fun _ _ => by omega),
      Scanner.pass_single_47 T L r i q (hc.trans c47) hq d61 d47 d42⟩
  by_cases c62 : c = 62
  · by_cases d61 : q = 61
    · exact ⟨_, Outcome.progress_token (by omega) (t2) (fun _ _ => by omega),
        Scanner.pass_op_62_61 T L r i (hc.trans c62) (hq.trans d61)⟩
    by_cases d62 : q = 62
    · exact ⟨_, Outcome.progress_token (by omega) (t2) (fun _ _ => by omega),
        Scanner.pass_op_62_62 T L r i (hc.trans c62) (hq.trans d62)⟩
    exact ⟨_, Outcome.progress_token (by omega) (by omega) (fun _ _ => by omega),
      Scanner.pass_single_62 T L r i q (hc.trans c62) hq d61 d62⟩
  by_cases c60 : c = 60
  · by_cases d45 : q = 45
    · exact ⟨_, Outcome.progress_token (by omega) (t2) (fun _ _ => by omega),
        Scanner.pass_op_60_45 T L r i (hc.trans c60) (hq.trans d45)⟩
    by_cases d61 : q = 61
    · exact ⟨_, Outcome.progress_token (by omega) (t2) (fun _ _ => by omega),
        Scanner.pass_op_60_61 T L r i (hc.trans c60) (hq.trans d61)⟩
    by_cases d60 : q = 60
    · exact ⟨_, Outcome.progress_token (by omega) (t2) (fun _ _ => by omega),
        Scanner.pass_op_60_60 T L r i (hc.trans c60) (hq.trans d60)⟩
    exact ⟨_, Outcome.progress_token (by omega) (by omega) (fun _ _ => by omega),
      Scanner.pass_single_60 T L r i q (hc.trans c60) hq d45 d61 d60⟩
  by_cases c124 : c = 124
  · by_cases d124 : q = 124
    · exact ⟨_, Outcome.progress_token (by omega) (t2) (fun _ _ => by omega),
        Scanner.pass_op_124_124 T L r i (hc.trans c124) (hq.trans d124)⟩
    by_cases d61 : q = 61
    · exact ⟨_, Outcome.progress_token (by omega) (t2) (fun _ _ => by omega),
        Scanner.pass_op_124_61 T L r i (hc.trans c124) (hq.trans d61)⟩
    exact ⟨_, Outcome.progress_token (by omega) (by omega) (fun _ _ => by omega),
      Scanner.pass_single_124 T L r i q (hc.trans c124) hq d124 d61⟩
  by_cases c38 : c = 38
  · by_cases d38 : q = 38
    · exact ⟨_, Outcome.progress_token (by omega) (t2) (fun _ _ => by omega),
        Scanner.pass_op_38_38 T L r i (hc.trans c38) (hq.trans d38)⟩
    by_cases d61 : q = 61
    · exact ⟨_, Outcome.progress_token (by omega) (t2) (fun _ _ => by omega),
        Scanner.pass_op_38_61 T L r i (hc.trans c38) (hq.trans d61)⟩
    exact ⟨_, Outcome.progress_token (by omega) (by omega) (fun _ _ => by omega),
      Scanner.pass_single_38 T L r i q (hc.trans c38) hq d38 d61⟩
  by_cases c46 : c = 46
  · by_cases d46 : q = 46
    · by_cases e46 : r[Scanner.step r (i + 1)]?.getD EOF = 46
      · exact ⟨_, Outcome.progress_token (by omega) (u2) (fun _ _ => by omega),
          Scanner.pass_vararg T L r i (hc.trans c46) (hq.trans d46) e46⟩
      · exact ⟨_, Outcome.progress_token (by omega) (t2) (fun h => by cases h),
          Scanner.pass_dots_error T L r i _ (hc.trans c46) (hq.trans d46) rfl e46⟩
    exact ⟨_, Outcome.progress_token (by omega) (by omega) (fun _ _ => by omega),
      Scanner.pass_single_46 T L r i q (hc.trans c46) hq d46⟩
  rw [hc] at hb
  by_cases cs : c = 10 ∨ c = 40 ∨ c = 41 ∨ c = 58 ∨ c = 59 ∨ c = 37 ∨ c = 123 ∨ c = 125 ∨
      c = 91 ∨ c = 93 ∨ c = 44 ∨ c = 94
  · exact ⟨_, Outcome.progress_token (by omega) (by omega) (fun _ _ => by omega),
      Scanner.pass_punct T L r i c hc hb cl cd c34 c39 c96 ce c35 c33 c61 c63 c43 c45 c42 c47 c62 c60 c124 c38 c46 cs⟩
  · exact ⟨_, Outcome.progress_token (le_refl _) (hi) (fun h => by cases h),
      Scanner.pass_illegal T L r i c hc hb cl cd c34 c39 c96 ce c35 c33 c61 c63 c43 c45 c42 c47 c62 c60 c124 c38 c46 cs⟩

/-- One pass of `Scan` comes to the same outcome wherever the text stands in the
source, and returns. -/
theorem Scanner.scanPass_runs (T : Tokens) (L : Lib) (r : List Int) (i : Nat)
    (hi : i ≤ r.length) :
    ∃ (i0 : Nat) (o : Outcome), i ≤ i0 ∧ i0 ≤ r.length ∧ o.Progress i0 r.length ∧
      ∀ (pre : List Int) (lh ln : Int),
        ∃ p, Scanner.scanPass T L (Scanner.within pre r i lh ln) = .ok p ∧ p.agrees pre r o := by
  obtain ⟨i0, a1, a2, a3, hskip⟩ := Scanner.skipBlank_runs r i hi
  obtain ⟨o, hprog, hbody⟩ := Scanner.scanPass_body_runs T L r i0 a2 a3
  refine ⟨i0, o, a1, a2, hprog, ?_⟩
  intro pre lh ln
  obtain ⟨lh0, ln0, h0⟩ := hskip pre lh ln
  rw [Scanner.scanPass_skipBlank T L _ _ h0 (Scanner.skipBlank_stay pre r i0 lh0 ln0 a3)]
  exact hbody pre lh0 ln0

/-- The loop of `Scan` returns the same token, literal and presence of an error,
and moves on by the same number of runes, wherever the text stands in the
source. -/
theorem Scanner.scanLoop_runs (T : Tokens) (L : Lib) (r : List Int) :
    ∀ (n i : Nat), r.length - i < n → i ≤ r.length →
      ∃ (tok : Int) (lit : String) (failed : Bool) (j : Nat), i ≤ j ∧ j ≤ r.length ∧
        (failed = false → tok ≠ EOF → i < j) ∧
        ∀ (fuel : Nat) (pre : List Int) (lh ln : Int), n ≤ fuel →
          ∃ res lh' ln', Scanner.scanLoop T L fuel (Scanner.within pre r i lh ln) =
              .ok (res, Scanner.within pre r j lh' ln') ∧
            res.tok = tok ∧ res.lit = lit ∧ res.err.isSome = failed := by
  intro n
  induction n with
  | zero => intro i hn; omega
  | succ m ih =>
    intro i hn hi
    obtain ⟨i0, o, a1, a2, hprog, hpass⟩ := Scanner.scanPass_runs T L r i hi
    cases o with
    | token tok lit failed j =>
      obtain ⟨b1, b2, b3⟩ := hprog
      refine ⟨tok, lit, failed, j, by omega, b2, fun h1 h2 => by have := b3 h1 h2; omega, ?_⟩
      intro fuel pre lh ln hf
      obtain ⟨f, rfl, _⟩ := succ_of_le_fuel hf
      obtain ⟨p, hp, hag⟩ := hpass pre lh ln
      cases p with
      | retry s => exact absurd hag (by simp [Pass.agrees])
      | ret res s =>
        obtain ⟨c1, c2, c3, lh', ln', rfl⟩ := hag
        rw [Scanner.scanLoop]
        simp only [hp, bind, Except.bind, pure, Except.pure]
        exact ⟨res, lh', ln', rfl, c1, c2, c3⟩
    | retry j0 =>
      obtain ⟨b1, b2⟩ := hprog
      obtain ⟨tok, lit, failed, j, c1, c2, c3, hrec⟩ := ih j0 (by omega) b2
      refine ⟨tok, lit, failed, j, by omega, c2, fun _ _ => by omega, ?_⟩
      intro fuel pre lh ln hf
      obtain ⟨f, rfl, hf'⟩ := succ_of_le_fuel hf
      obtain ⟨p, hp, hag⟩ := hpass pre lh ln
      cases p with
      | ret res s => exact absurd hag (by simp [Pass.agrees])
      | retry s =>
        obtain ⟨lh', ln', rfl⟩ := hag
        rw [Scanner.scanLoop]
        simp only [hp, bind, Except.bind]
        exact hrec f pre lh' ln' hf'

/-- `Scan` returns, and it returns the same token, literal and presence of an
error, and moves on by the same number of runes, wherever the text stands in
the source and whatever the count of lines. -/
theorem Scanner.Scan_runs (T : Tokens) (L : Lib) (r : List Int) (i : Nat) (hi : i ≤ r.length) :
    ∃ (tok : Int) (lit : String) (failed : Bool) (j : Nat), i ≤ j ∧ j ≤ r.length ∧
      (failed = false → tok ≠ EOF → i < j) ∧
      ∀ (pre : List Int) (lh ln : Int),
        ∃ res lh' ln', Scanner.Scan T L (Scanner.within pre r i lh ln) =
            .ok (res, Scanner.within pre r j lh' ln') ∧
          res.tok = tok ∧ res.lit = lit ∧ res.err.isSome = failed := by
  obtain ⟨tok, lit, failed, j, a1, a2, a3, hrun⟩ :=
    Scanner.scanLoop_runs T L r (r.length - i + 1) i (by omega) hi
  exact ⟨tok, lit, failed, j, a1, a2, a3,
    fun pre lh ln => hrun _ pre lh ln (bound_enough pre r i)⟩

theorem Scanner.eq_within (s : Scanner) (h0 : 0 ≤ s.offset) :
    s = Scanner.within [] s.src s.offset.toNat s.lineHead s.line := by
  cases s with
  | mk src offset lh ln =>
    simp only [Scanner.within, List.nil_append, List.length_nil, Nat.zero_add]
    rw [Int.toNat_of_nonneg h0]

/-- `Scan` returns on every scanner that stands within its source; the offset
does not go back, stays within the source, and moves on when a token other than
EOF is returned without error. -/
theorem Scanner.Scan_progress (T : Tokens) (L : Lib) (s : Scanner) (h0 : 0 ≤ s.offset)
    (h1 : s.offset ≤ s.src.length) :
    ∃ r s', Scanner.Scan T L s = .ok (r, s') ∧ s'.src = s.src ∧ s.offset ≤ s'.offset ∧
      s'.offset ≤ s.src.length ∧ (r.err = none → r.tok ≠ EOF → s.offset < s'.offset) := by
  obtain ⟨tok, lit, failed, j, a1, a2, a3, hrun⟩ :=
    Scanner.Scan_runs T L s.src s.offset.toNat (by omega)
  obtain ⟨res, lh', ln', hs, b1, b2, b3⟩ := hrun [] s.lineHead s.line
  rw [← Scanner.eq_within s h0] at hs
  refine ⟨res, _, hs, ?_, ?_, ?_, ?_⟩
  · simp [Scanner.within]
  · simp only [Scanner.within, List.length_nil, Nat.zero_add]
    omega
  · simp only [Scanner.within, List.length_nil, Nat.zero_add]
    omega
  · intro he ht
    have hf : failed = false := by rw [← b3, he]; rfl
    have := a3 hf (by rw [← b1]; exact ht)
    simp only [Scanner.within, List.length_nil, Nat.zero_add]
    omega

theorem Scanner.callsToEnd_some (T : Tokens) (L : Lib) :
    ∀ (n : Nat) (s : Scanner), 0 ≤ s.offset → s.offset ≤ s.src.length →
      s.src.length - s.offset.toNat < n →
      ∃ k, Scanner.callsToEnd T L n s = some k ∧ k ≤ s.src.length - s.offset.toNat + 1 := by
  intro n
  induction n with
  | zero => intro s _ _ h; omega
  | succ m ih =>
    intro s h0 h1 hn
    obtain ⟨r, s', hs, e1, e2, e3, e4⟩ := Scanner.Scan_progress T L s h0 h1
    rw [Scanner.callsToEnd, hs]
    by_cases hstop : (r.err.isSome || r.tok == EOF) = true
    · simp only [hstop, if_true]
      exact ⟨1, rfl, by omega⟩
    · simp only [hstop, Bool.false_eq_true, if_false]
      have hnone : r.err = none := by
        cases he : r.err with
        | none => rfl
        | some e => simp [he] at hstop
      have htok : r.tok ≠ EOF := by
        intro ht
        simp [ht] at hstop
      have hlt := e4 hnone htok
      obtain ⟨k, hk, hle⟩ := ih s' (by omega) (by rw [e1]; exact e3) (by rw [e1]; omega)
      rw [hk]
      exact ⟨k + 1, rfl, by rw [e1] at hle; omega⟩

/-- A scanner reached by calls of `Scan` has the runes of the source and an
offset within it. -/
theorem Scanner.Reached_bounds (T : Tokens) (L : Lib) (src : String) (s : Scanner)
    (h : Scanner.Reached T L src s) :
    s.src = runes src ∧ 0 ≤ s.offset ∧ s.offset ≤ (runes src).length := by
  induction h with
  | fresh => exact ⟨rfl, le_refl _, by simp [Scanner.new]⟩
  | scan s s' r _ hs ih =>
    obtain ⟨i1, i2, i3⟩ := ih
    obtain ⟨r2, s2, hs2, e1, e2, e3, _⟩ := Scanner.Scan_progress T L s i2 (by rw [i1]; exact i3)
    rw [hs] at hs2
    cases hs2
    exact ⟨e1.trans i1, by omega, by rw [← i1]; exact e3⟩

/-- An index is read without a panic exactly when it lies within the source. -/
theorem Scanner.srcAt_ok_iff (s : Scanner) (i : Int) :
    (∃ c, s.srcAt i = .ok c) ↔ 0 ≤ i ∧ i < s.src.length := by
  unfold Scanner.srcAt
  by_cases h0 : 0 ≤ i
  · rw [if_pos h0]
    by_cases h1 : i.toNat < s.src.length
    · have : s.src.get? i.toNat = some (s.src.get ⟨i.toNat, h1⟩) := List.get?_eq_get h1
      rw [this]
      exact ⟨fun _ => ⟨h0, by omega⟩, fun _ => ⟨_, rfl⟩⟩
    · have : s.src.get? i.toNat = none := List.get?_eq_none.mpr (by omega)
      rw [this]
      constructor
      · rintro ⟨c, hc⟩
        cases hc
      · intro h
        omega
  · rw [if_neg h0]
    constructor
    · rintro ⟨c, hc⟩
      cases hc
    · intro h
      omega

/-- After a `back` at offset 0 the call of `next` that follows reads index -1. -/
theorem Scanner.next_back_zero (s : Scanner) (h : s.offset = 0) :
    s.back.next = .error (.panic "runtime error: index out of range") := by
  have hr : s.back.reachEOF = false := by
    simp only [Scanner.reachEOF, Scanner.back, h, decide_eq_false_iff_not]
    omega
  have ho : s.back.offset = -1 := by simp [Scanner.back, h]
  simp only [Scanner.next, Scanner.peek, hr, Scanner.srcAt, ho, bind, Except.bind]
  rfl

theorem Scanner.finish_back_zero (s : Scanner) (h : s.offset = 0) (tok : Int) (lit : String)
    (pos : Position) :
    s.back.finish tok lit pos = .error (.panic "runtime error: index out of range") := by
  unfold Scanner.finish
  rw [Scanner.next_back_zero s h]
  rfl

theorem Scanner.blockCommentLoop_back_zero (s : Scanner) (h : s.offset = 0) (fuel : Nat) :
    Scanner.blockCommentLoop (fuel + 1) s.back =
      .error (.panic "runtime error: index out of range") := by
  unfold Scanner.blockCommentLoop Scanner.scanRawString
  have : s.back.bound = s.src.length + 1 := rfl
  rw [this, Scanner.scanRawStringLoop, Scanner.next_back_zero s h]
  rfl

theorem Scanner.scanLoop_ret (T : Tokens) (L : Lib) (fuel : Nat) (s s' : Scanner)
    (res : ScanResult) (h : Scanner.scanPass T L s = .ok (.ret res s')) :
    Scanner.scanLoop T L (fuel + 1) s = .ok (res, s') := by
  rw [Scanner.scanLoop]
  simp only [h, bind, Except.bind, pure, Except.pure]

theorem Scanner.scanLoop_retry (T : Tokens) (L : Lib) (fuel : Nat) (s s' : Scanner)
    (h : Scanner.scanPass T L s = .ok (.retry s')) :
    Scanner.scanLoop T L (fuel + 1) s = Scanner.scanLoop T L fuel s' := by
  rw [Scanner.scanLoop]
  simp only [h, bind, Except.bind]

/-- A pass that returns a token is the whole call of `Scan`. -/
theorem Scanner.Scan_of_token (T : Tokens) (L : Lib) (pre r : List Int) (i : Nat) (lh ln : Int)
    (tok : Int) (lit : String) (failed : Bool) (j : Nat)
    (h : ∃ p, Scanner.scanPass T L (Scanner.within pre r i lh ln) = .ok p ∧
      p.agrees pre r (.token tok lit failed j)) :
    ∃ res lh' ln', Scanner.Scan T L (Scanner.within pre r i lh ln) =
        .ok (res, Scanner.within pre r j lh' ln') ∧
      res.tok = tok ∧ res.lit = lit ∧ res.err.isSome = failed := by
  obtain ⟨p, hp, hag⟩ := h
  cases p with
  | retry s => exact absurd hag (by simp [Pass.agrees])
  | ret res s =>
    obtain ⟨c1, c2, c3, lh', ln', rfl⟩ := hag
    exact ⟨res, lh', ln', Scanner.scanLoop_ret T L _ _ _ _ hp, c1, c2, c3⟩

/-- After a pass that jumps back to `retry`, `Scan` goes on from where the pass
ended. -/
theorem Scanner.Scan_of_retry (T : Tokens) (L : Lib) (pre r : List Int) (i : Nat) (lh ln : Int)
    (j : Nat)
    (h : ∃ p, Scanner.scanPass T L (Scanner.within pre r i lh ln) = .ok p ∧
      p.agrees pre r (.retry j)) :
    ∃ lh' ln', Scanner.Scan T L (Scanner.within pre r i lh ln) =
        Scanner.scanLoop T L (pre ++ r).length (Scanner.within pre r j lh' ln') := by
  obtain ⟨p, hp, hag⟩ := h
  cases p with
  | ret res s => exact absurd hag (by simp [Pass.agrees])
  | retry s =>
    obtain ⟨lh', ln', rfl⟩ := hag
    exact ⟨lh', ln', Scanner.scanLoop_retry T L _ _ _ hp⟩

theorem isSome_false_eq_none {α : Type} (o : Option α) (h : o.isSome = false) : o = none := by
  cases o with
  | none => rfl
  | some a => cases h

/-- When only blanks are left, `Scan` returns EOF with an empty literal and no
error, and it leaves the scanner at the end of the source. -/
theorem Scanner.Scan_blanks (T : Tokens) (L : Lib) (r : List Int) (i : Nat) (hi : i ≤ r.length)
    (hbl : ∀ k, i ≤ k → k < r.length → isBlank (r[k]?.getD EOF) = true)
    (pre : List Int) (lh ln : Int) :
    ∃ res lh' ln', Scanner.Scan T L (Scanner.within pre r i lh ln) =
        .ok (res, Scanner.within pre r r.length lh' ln') ∧
      res.tok = EOF ∧ res.lit = "" ∧ res.err = none := by
  obtain ⟨i0, a1, a2, a3, hskip⟩ := Scanner.skipBlank_runs r i hi
  have hi0 : i0 = r.length := by
    by_contra hne
    have := hbl i0 a1 (by omega)
    rw [a3] at this
    cases this
  subst hi0
  have hc : r[r.length]?.getD EOF = EOF := by
    rw [List.getElem?_eq_none (le_refl _)]
    rfl
  have hstep : Scanner.step r r.length = r.length := by
    simp [Scanner.step]
  obtain ⟨lh0, ln0, h0⟩ := hskip pre lh ln
  have hpass := Scanner.pass_EOF T L r r.length hc pre lh0 ln0
  rw [hstep, ← Scanner.scanPass_skipBlank T L _ _ h0
    (Scanner.skipBlank_stay pre r r.length lh0 ln0 a3)] at hpass
  obtain ⟨res, lh', ln', hs, b1, b2, b3⟩ := Scanner.Scan_of_token T L pre r i lh ln _ _ _ _ hpass
  exact ⟨res, lh', ln', hs, b1, b2, isSome_false_eq_none _ b3⟩

theorem drop_blank_getElem (r : List Int) (i : Nat)
    (h : ∀ c ∈ r.drop i, isBlank c = true) :
    ∀ k, i ≤ k → k < r.length → isBlank (r[k]?.getD EOF) = true := by
  intro k h1 h2
  rw [List.getElem?_eq_getElem h2]
  apply h
  rw [List.mem_iff_getElem?]
  refine ⟨k - i, ?_⟩
  rw [List.getElem?_drop, show i + (k - i) = k by omega, List.getElem?_eq_getElem h2]
  rfl

/-- When only blanks are left, every further call of `Scan` returns EOF with an
empty literal and no error. -/
theorem Scanner.afterCalls_blanks (T : Tokens) (L : Lib) :
    ∀ (n : Nat) (s : Scanner), 0 ≤ s.offset → s.offset ≤ s.src.length →
      (∀ c ∈ s.src.drop s.offset.toNat, isBlank c = true) →
      ∃ sn, Scanner.afterCalls T L n s = some sn ∧
        ∃ r s', Scanner.Scan T L sn = .ok (r, s') ∧ r.tok = EOF ∧ r.lit = "" ∧ r.err = none := by
  intro n
  induction n with
  | zero =>
    intro s h0 h1 hbl
    obtain ⟨res, lh', ln', hs, b1, b2, b3⟩ := Scanner.Scan_blanks T L s.src s.offset.toNat
      (by omega) (drop_blank_getElem _ _ hbl) [] s.lineHead s.line
    rw [← Scanner.eq_within s h0] at hs
    exact ⟨s, rfl, res, _, hs, b1, b2, b3⟩
  | succ m ih =>
    intro s h0 h1 hbl
    obtain ⟨res, lh', ln', hs, b1, b2, b3⟩ := Scanner.Scan_blanks T L s.src s.offset.toNat
      (by omega) (drop_blank_getElem _ _ hbl) [] s.lineHead s.line
    rw [← Scanner.eq_within s h0] at hs
    rw [Scanner.afterCalls, hs]
    apply ih
    · simp [Scanner.within]
    · simp [Scanner.within]
    · intro c hc
      simp [Scanner.within] at hc

/-- The loop of a line comment stops at the first end of line. -/
theorem Scanner.skipLineLoop_to (r : List Int) (j : Nat) (hj : j ≤ r.length)
    (hend : isEOL (r[j]?.getD EOF) = true) :
    ∀ (n i : Nat), j - i < n → i ≤ j →
      (∀ k, i ≤ k → k < j → isEOL (r[k]?.getD EOF) = false) →
      ∀ (fuel : Nat) (pre : List Int) (lh ln : Int), n ≤ fuel →
        ∃ lh' ln', Scanner.skipLineLoop fuel (Scanner.within pre r i lh ln) =
          .ok (Scanner.within pre r j lh' ln') := by
  intro n
  induction n with
  | zero => intro i hn; omega
  | succ m ih =>
    intro i hn hi hno fuel pre lh ln hf
    obtain ⟨f, rfl, hf'⟩ := succ_of_le_fuel hf
    by_cases hij : i = j
    · subst hij
      rw [Scanner.skipLineLoop]
      simp only [Scanner.peek_within, bind, Except.bind, hend, Bool.not_true, Bool.false_eq_true,
        if_false, pure, Except.pure]
      exact ⟨lh, ln, rfl⟩
    · have hb := hno i (le_refl _) (by omega)
      obtain ⟨lh1, ln1, hnx⟩ := Scanner.next_within pre r i lh ln
      rw [Scanner.step_progress r i (by omega)] at hnx
      rw [Scanner.skipLineLoop]
      simp only [Scanner.peek_within, bind, Except.bind, hb, Bool.not_false, if_true, hnx]
      exact ih (i + 1) (by omega) (by omega) (fun k h1 h2 => hno k (by omega) h2) f pre lh1 ln1 hf'

/-- The loop of `scanRawString` stops behind the first closing rune. -/
theorem Scanner.scanRawStringLoop_to (l : Int) (hl : l ≠ EOF) (r : List Int) (m : Nat)
    (hm : m < r.length) (hend : r[m]?.getD EOF = l) :
    ∀ (n i : Nat) (ret : List Int), m - i < n → i < m →
      (∀ k, i < k → k < m → r[k]?.getD EOF ≠ l ∧ r[k]?.getD EOF ≠ EOF) →
      ∀ (fuel : Nat) (pre : List Int) (lh ln : Int), n ≤ fuel →
        ∃ v lh' ln', Scanner.scanRawStringLoop l fuel (Scanner.within pre r i lh ln) ret =
          .ok ((v, none), Scanner.within pre r (m + 1) lh' ln') := by
  intro n
  induction n with
  | zero => intro i _ hn; omega
  | succ n ih =>
    intro i ret hn hi hno fuel pre lh ln hf
    obtain ⟨f, rfl, hf'⟩ := succ_of_le_fuel hf
    obtain ⟨lh1, ln1, hn1⟩ := Scanner.next_within pre r i lh ln
    rw [Scanner.step_progress r i (by omega)] at hn1
    by_cases him : i + 1 = m
    · obtain ⟨lh2, ln2, hn2⟩ := Scanner.next_within pre r (i + 1) lh1 ln1
      rw [Scanner.step_progress r (i + 1) (by omega)] at hn2
      rw [← him] at hend
      rw [Scanner.scanRawStringLoop]
      simp only [hn1, Scanner.peek_within, bind, Except.bind, hend, hl, if_false, if_true, hn2,
        pure, Except.pure]
      rw [← him]
      exact ⟨ret, lh2, ln2, rfl⟩
    · obtain ⟨e1, e2⟩ := hno (i + 1) (by omega) (by omega)
      rw [Scanner.scanRawStringLoop]
      simp only [hn1, Scanner.peek_within, bind, Except.bind, e1, e2, if_false]
      exact ih (i + 1) _ (by omega) (by omega) (fun k h1 h2 => hno k (by omega) h2) f pre lh1 ln1
        hf'

/-- Without a closing rune the loop of `scanRawString` runs to the end of the
source and returns an error. -/
theorem Scanner.scanRawStringLoop_eof (l : Int) (r : List Int) :
    ∀ (n i : Nat) (ret : List Int), r.length - i < n → i ≤ r.length →
      (∀ k, i < k → k < r.length → r[k]?.getD EOF ≠ l ∧ r[k]?.getD EOF ≠ EOF) →
      ∀ (fuel : Nat) (pre : List Int) (lh ln : Int), n ≤ fuel →
        ∃ lh' ln', Scanner.scanRawStringLoop l fuel (Scanner.within pre r i lh ln) ret =
          .ok (([], some (.text "unexpected EOF")), Scanner.within pre r r.length lh' ln') := by
  intro n
  induction n with
  | zero => intro i _ hn; omega
  | succ n ih =>
    intro i ret hn hi hno fuel pre lh ln hf
    obtain ⟨f, rfl, hf'⟩ := succ_of_le_fuel hf
    obtain ⟨lh1, ln1, hn1⟩ := Scanner.next_within pre r i lh ln
    by_cases him : i + 1 < r.length
    · rw [Scanner.step_progress r i (by omega)] at hn1
      obtain ⟨e1, e2⟩ := hno (i + 1) (by omega) (by omega)
      rw [Scanner.scanRawStringLoop]
      simp only [hn1, Scanner.peek_within, bind, Except.bind, e1, e2, if_false]
      exact ih (i + 1) _ (by omega) (by omega) (fun k h1 h2 => hno k (by omega) h2) f pre lh1 ln1
        hf'
    · have hst : Scanner.step r i = r.length := by
        unfold Scanner.step
        split_ifs <;> omega
      rw [hst] at hn1
      have hc : r[r.length]?.getD EOF = EOF := by
        rw [List.getElem?_eq_none (le_refl _)]
        rfl
      rw [Scanner.scanRawStringLoop]
      simp only [hn1, Scanner.peek_within, bind, Except.bind, hc, if_true, pure, Except.pure]
      exact ⟨lh1, ln1, rfl⟩

theorem Scanner.scanRawString_to (l : Int) (hl : l ≠ EOF) (r : List Int) (i m : Nat)
    (hi : i < m) (hm : m < r.length) (hend : r[m]?.getD EOF = l)
    (hno : ∀ k, i < k → k < m → r[k]?.getD EOF ≠ l ∧ r[k]?.getD EOF ≠ EOF)
    (pre : List Int) (lh ln : Int) :
    ∃ v lh' ln', Scanner.scanRawString l (Scanner.within pre r i lh ln) =
      .ok ((v, none), Scanner.within pre r (m + 1) lh' ln') := by
  obtain ⟨v, lh1, ln1, hh⟩ := Scanner.scanRawStringLoop_to l hl r m hm hend (m - i + 1) i []
    (by omega) hi hno ((pre ++ r).length + 1) pre lh ln (by
      have := bound_enough pre r i
      omega)
  unfold Scanner.scanRawString
  simp only [Scanner.bound_within, hh, bind, Except.bind, Option.isSome_none, Bool.false_eq_true,
    if_false, pure, Except.pure]
  exact ⟨_, lh1, ln1, rfl⟩

theorem Scanner.scanRawString_eof (l : Int) (r : List Int) (i : Nat) (hi : i ≤ r.length)
    (hno : ∀ k, i < k → k < r.length → r[k]?.getD EOF ≠ l ∧ r[k]?.getD EOF ≠ EOF)
    (pre : List Int) (lh ln : Int) :
    ∃ lh' ln', Scanner.scanRawString l (Scanner.within pre r i lh ln) =
      .ok (("", some (.text "unexpected EOF")), Scanner.within pre r r.length lh' ln') := by
  obtain ⟨lh1, ln1, hh⟩ := Scanner.scanRawStringLoop_eof l r (r.length - i + 1) i []
    (by omega) hi hno ((pre ++ r).length + 1) pre lh ln (bound_enough pre r i)
  unfold Scanner.scanRawString
  simp only [Scanner.bound_within, hh, bind, Except.bind, Option.isSome_some, if_true, pure,
    Except.pure]
  exact ⟨lh1, ln1, rfl⟩

/-- The loop of a block comment stops behind the first `*/`. -/
theorem Scanner.blockCommentLoop_to (r : List Int) (m : Nat) (hm : m + 1 < r.length)
    (h42 : r[m]?.getD EOF = 42) (h47 : r[m + 1]?.getD EOF = 47) :
    ∀ (n i : Nat), m - i < n → i < m →
      (∀ k, i < k → k < m → r[k]?.getD EOF ≠ EOF ∧
        ¬ (r[k]?.getD EOF = 42 ∧ r[k + 1]?.getD EOF = 47)) →
      ∀ (fuel : Nat) (pre : List Int) (lh ln : Int), n ≤ fuel →
        ∃ lh' ln', Scanner.blockCommentLoop fuel (Scanner.within pre r i lh ln) =
          .ok (none, Scanner.within pre r (m + 2) lh' ln') := by
  intro n
  induction n with
  | zero => intro i hn; omega
  | succ n ih =>
    intro i hn hi hno fuel pre lh ln hf
    obtain ⟨f, rfl, hf'⟩ := succ_of_le_fuel hf
    by_cases hex : ∃ k, i < k ∧ k < m ∧ r[k]?.getD EOF = 42
    · obtain ⟨a1, a2, a3⟩ := Nat.find_spec hex
      have hmin : ∀ k, i < k → k < Nat.find hex → r[k]?.getD EOF ≠ 42 ∧ r[k]?.getD EOF ≠ EOF :=
        fun k h1 h2 => ⟨fun h => Nat.find_min hex h2 ⟨h1, by omega, h⟩, (hno k h1 (by omega)).1⟩
      generalize Nat.find hex = m1 at a1 a2 a3 hmin
      obtain ⟨v, lh1, ln1, h1⟩ := Scanner.scanRawString_to 42 (by decide) r i m1 a1 (by omega) a3
        hmin pre lh ln
      have hne : ¬ r[m1 + 1]?.getD EOF = 47 := fun h => (hno m1 a1 a2).2 ⟨a3, h⟩
      rw [Scanner.blockCommentLoop]
      simp only [h1, bind, Except.bind, Option.isSome_none, Bool.false_eq_true, if_false,
        Scanner.peek_within, hne, Scanner.back_within]
      exact ih m1 (by omega) a2 (fun k h1 h2 => hno k (by omega) h2) f pre lh1 ln1 hf'
    · have hmin : ∀ k, i < k → k < m → r[k]?.getD EOF ≠ 42 ∧ r[k]?.getD EOF ≠ EOF :=
        fun k h1 h2 => ⟨fun h => hex ⟨k, h1, h2, h⟩, (hno k h1 h2).1⟩
      obtain ⟨v, lh1, ln1, h1⟩ := Scanner.scanRawString_to 42 (by decide) r i m hi (by omega) h42
        hmin pre lh ln
      obtain ⟨lh2, ln2, h2⟩ := Scanner.next_within pre r (m + 1) lh1 ln1
      rw [Scanner.step_progress r (m + 1) hm] at h2
      rw [Scanner.blockCommentLoop]
      simp only [h1, bind, Except.bind, Option.isSome_none, Bool.false_eq_true, if_false,
        Scanner.peek_within, h47, if_true, h2, pure, Except.pure]
      exact ⟨lh2, ln2, rfl⟩

/-- Without a `*/` the loop of a block comment runs to the end of the source and
returns the error of `scanRawString`. -/
theorem Scanner.blockCommentLoop_eof (r : List Int) :
    ∀ (n i : Nat), r.length - i < n → i ≤ r.length →
      (∀ k, i < k → k < r.length → r[k]?.getD EOF ≠ EOF ∧
        ¬ (r[k]?.getD EOF = 42 ∧ r[k + 1]?.getD EOF = 47)) →
      ∀ (fuel : Nat) (pre : List Int) (lh ln : Int), n ≤ fuel →
        ∃ lh' ln', Scanner.blockCommentLoop fuel (Scanner.within pre r i lh ln) =
          .ok (some (.text "unexpected EOF"), Scanner.within pre r r.length lh' ln') := by
  intro n
  induction n with
  | zero => intro i hn; omega
  | succ n ih =>
    intro i hn hi hno fuel pre lh ln hf
    obtain ⟨f, rfl, hf'⟩ := succ_of_le_fuel hf
    by_cases hex : ∃ k, i < k ∧ k < r.length ∧ r[k]?.getD EOF = 42
    · obtain ⟨a1, a2, a3⟩ := Nat.find_spec hex
      have hmin : ∀ k, i < k → k < Nat.find hex → r[k]?.getD EOF ≠ 42 ∧ r[k]?.getD EOF ≠ EOF :=
        fun k h1 h2 => ⟨fun h => Nat.find_min hex h2 ⟨h1, by omega, h⟩, (hno k h1 (by omega)).1⟩
      generalize Nat.find hex = m1 at a1 a2 a3 hmin
      obtain ⟨v, lh1, ln1, h1⟩ := Scanner.scanRawString_to 42 (by decide) r i m1 a1 a2 a3
        hmin pre lh ln
      have hne : ¬ r[m1 + 1]?.getD EOF = 47 := fun h => (hno m1 a1 a2).2 ⟨a3, h⟩
      rw [Scanner.blockCommentLoop]
      simp only [h1, bind, Except.bind, Option.isSome_none, Bool.false_eq_true, if_false,
        Scanner.peek_within, hne, Scanner.back_within]
      exact ih m1 (by omega) (by omega) (fun k h1 h2 => hno k (by omega) h2) f pre lh1 ln1 hf'
    · have hmin : ∀ k, i < k → k < r.length → r[k]?.getD EOF ≠ 42 ∧ r[k]?.getD EOF ≠ EOF :=
        fun k h1 h2 => ⟨fun h => hex ⟨k, h1, h2, h⟩, (hno k h1 h2).1⟩
      obtain ⟨lh1, ln1, h1⟩ := Scanner.scanRawString_eof 42 r i hi hmin pre lh ln
      rw [Scanner.blockCommentLoop]
      simp only [h1, bind, Except.bind, Option.isSome_some, if_true, pure, Except.pure]
      exact ⟨lh1, ln1, rfl⟩

theorem runes_append (a b : String) : runes (a ++ b) = runes a ++ runes b := by
  simp [runes]

theorem runes_ne_EOF (s : String) : ∀ x ∈ runes s, x ≠ EOF := by
  intro x hx
  simp only [runes, List.mem_map] at hx
  obtain ⟨c, _, rfl⟩ := hx
  simp only [EOF]
  omega

theorem pair_within (x y : Int) : ∀ (j : Nat) (b : List Int),
    b[j]? = some x → b[j + 1]? = some y → [x, y] <:+: b := by
  intro j
  induction j with
  | zero =>
    intro b h1 h2
    match b, h1, h2 with
    | a :: c :: rest, h1, h2 =>
      simp only [List.getElem?_cons_zero, Option.some.injEq, zero_add, List.getElem?_cons_succ]
        at h1 h2
      subst h1 h2
      exact ⟨[], rest, rfl⟩
    | [a], _, h2 => simp at h2
    | [], h1, _ => simp at h1
  | succ j ih =>
    intro b h1 h2
    match b, h1, h2 with
    | a :: rest, h1, h2 =>
      simp only [List.getElem?_cons_succ] at h1 h2
      exact (ih rest h1 h2).trans (List.suffix_cons a rest).isInfix
    | [], h1, _ => simp at h1

theorem Scanner.within_shift (c r : List Int) (j : Nat) (lh ln : Int) :
    Scanner.within [] (c ++ r) (c.length + j) lh ln = Scanner.within c r j lh ln := by
  simp [Scanner.within]

/-- After a first pass that skips the text `c` and jumps back to `retry`, `Scan`
returns what it returns on the rest of the source alone. -/
theorem Scanner.Scan_after_skip (T : Tokens) (L : Lib) (c r : List Int) (hc : c ≠ [])
    (hpass : ∃ p, Scanner.scanPass T L (Scanner.within [] (c ++ r) 0 0 0) = .ok p ∧
      p.agrees [] (c ++ r) (.retry c.length)) :
    ∃ ra sa rb sb, Scanner.Scan T L ⟨c ++ r, 0, 0, 0⟩ = .ok (ra, sa) ∧
      Scanner.Scan T L ⟨r, 0, 0, 0⟩ = .ok (rb, sb) ∧
      ra.tok = rb.tok ∧ ra.lit = rb.lit ∧ ra.err.isSome = rb.err.isSome ∧
      sa.src.drop sa.offset.toNat = sb.src.drop sb.offset.toNat := by
  obtain ⟨lh1, ln1, h1⟩ := Scanner.Scan_of_retry T L [] (c ++ r) 0 0 0 c.length hpass
  have hsh := Scanner.within_shift c r 0 lh1 ln1
  rw [Nat.add_zero] at hsh
  rw [hsh] at h1
  obtain ⟨tok, lit, failed, j, a1, a2, a3, hrun⟩ :=
    Scanner.scanLoop_runs T L r (r.length + 1) 0 (by omega) (by omega)
  have hlen : 0 < c.length := List.length_pos.mpr hc
  obtain ⟨ra, lh2, ln2, e1, e2, e3, e4⟩ := hrun ([] ++ (c ++ r)).length c lh1 ln1 (by
    simp only [List.nil_append, List.length_append]
    omega)
  obtain ⟨rb, lh3, ln3, f1, f2, f3, f4⟩ := hrun (r.length + 1) [] 0 0 (le_refl _)
  rw [e1] at h1
  refine ⟨ra, _, rb, _, h1, f1, by rw [e2, f2], by rw [e3, f3], by rw [e4, f4], ?_⟩
  show List.drop (((c.length + j : Nat) : Int)).toNat (c ++ r) =
    List.drop (((([] : List Int).length + j : Nat) : Int)).toNat ([] ++ r)
  rw [Int.toNat_ofNat, Int.toNat_ofNat, List.drop_append]
  simp

theorem getD_cons_succ (a : Int) (l : List Int) (k : Nat) :
    (a :: l)[k + 1]?.getD EOF = l[k]?.getD EOF := by
  rw [List.getElem?_cons_succ]

theorem getD_append_left (cm r : List Int) (k : Nat) (h : k < cm.length) :
    (cm ++ r)[k]?.getD EOF = cm[k]?.getD EOF := by
  rw [List.getElem?_append_left h]

theorem getD_head (a : Int) (l : List Int) : (a :: l)[0]?.getD EOF = a := by simp

theorem getD_second (a b : Int) (l : List Int) : (a :: b :: l)[0 + 1]?.getD EOF = b := by simp

theorem getD_append_length (c r : List Int) : (c ++ r)[c.length]?.getD EOF = r[0]?.getD EOF := by
  rw [List.getElem?_append_right (le_refl _), Nat.sub_self]

theorem getD_mem (cm : List Int) (k : Nat) (h : k < cm.length) : cm[k]?.getD EOF ∈ cm := by
  rw [List.getElem?_eq_getElem h]
  exact List.getElem_mem _

theorem isEOL_rest (r : List Int) (hr : r = [] ∨ r.head? = some 10) :
    isEOL (r[0]?.getD EOF) = true := by
  rcases hr with rfl | hr
  · rfl
  · cases r with
    | nil => cases hr
    | cons a l =>
      simp only [List.head?_cons, Option.some.injEq] at hr
      subst hr
      rw [getD_head]
      rfl

/-- A line comment is skipped up to the end of its line. -/
theorem Scanner.skipLine_comment (c r : List Int) (i : Nat) (hi : i ≤ c.length)
    (hc : ∀ x ∈ c, isEOL x = false) (hr : r = [] ∨ r.head? = some 10)
    (pre : List Int) (lh ln : Int) :
    ∃ lh' ln', Scanner.skipLineLoop (Scanner.within pre (c ++ r) i lh ln).bound
        (Scanner.within pre (c ++ r) i lh ln) =
      .ok (Scanner.within pre (c ++ r) c.length lh' ln') := by
  refine Scanner.skipLineLoop_to (c ++ r) c.length (by simp) ?_ (c.length - i + 1) i (by omega) hi
    ?_ _ pre lh ln ?_
  · rw [getD_append_length]
    exact isEOL_rest r hr
  · intro k _ h2
    rw [getD_append_left c r k h2]
    exact hc _ (getD_mem c k h2)
  · simp only [Scanner.bound_within, List.length_append]
    omega

theorem Scanner.Scan_hash_comment (T : Tokens) (L : Lib) (t r : List Int)
    (ht : ∀ x ∈ t, isEOL x = false) (hr : r = [] ∨ r.head? = some 10) :
    ∃ ra sa rb sb, Scanner.Scan T L ⟨(35 :: t) ++ r, 0, 0, 0⟩ = .ok (ra, sa) ∧
      Scanner.Scan T L ⟨r, 0, 0, 0⟩ = .ok (rb, sb) ∧
      ra.tok = rb.tok ∧ ra.lit = rb.lit ∧ ra.err.isSome = rb.err.isSome ∧
      sa.src.drop sa.offset.toNat = sb.src.drop sb.offset.toNat := by
  have hc : ∀ x ∈ 35 :: t, isEOL x = false := by
    intro x hx
    rcases List.mem_cons.mp hx with rfl | hx
    · rfl
    · exact ht x hx
  exact Scanner.Scan_after_skip T L (35 :: t) r (by simp)
    (Scanner.pass_hash T L ((35 :: t) ++ r) 0 (35 :: t).length (getD_head _ _)
      (fun pre lh ln => Scanner.skipLine_comment (35 :: t) r 0 (by omega) hc hr pre lh ln) [] 0 0)

theorem Scanner.Scan_slashes_comment (T : Tokens) (L : Lib) (t r : List Int)
    (ht : ∀ x ∈ t, isEOL x = false) (hr : r = [] ∨ r.head? = some 10) :
    ∃ ra sa rb sb, Scanner.Scan T L ⟨(47 :: 47 :: t) ++ r, 0, 0, 0⟩ = .ok (ra, sa) ∧
      Scanner.Scan T L ⟨r, 0, 0, 0⟩ = .ok (rb, sb) ∧
      ra.tok = rb.tok ∧ ra.lit = rb.lit ∧ ra.err.isSome = rb.err.isSome ∧
      sa.src.drop sa.offset.toNat = sb.src.drop sb.offset.toNat := by
  have hc : ∀ x ∈ 47 :: 47 :: t, isEOL x = false := by
    intro x hx
    rcases List.mem_cons.mp hx with rfl | hx
    · rfl
    rcases List.mem_cons.mp hx with rfl | hx
    · rfl
    · exact ht x hx
  exact Scanner.Scan_after_skip T L (47 :: 47 :: t) r (by simp)
    (Scanner.pass_slashes T L ((47 :: 47 :: t) ++ r) 0 (47 :: 47 :: t).length (getD_head _ _)
      (getD_second _ _ _)
      (fun pre lh ln => Scanner.skipLine_comment (47 :: 47 :: t) r 1
        (by simp only [List.length_cons]; omega) hc hr pre lh ln) [] 0 0)

/-- The runes of a text with no `*/` in it, as the block comment loop meets them. -/
theorem no_close_index (b : List Int) (hb : ∀ x ∈ b, x ≠ EOF) (hno : ¬ [42, 47] <:+: b)
    (R : List Int) (q : Int) (hq : q ≠ 47)
    (hR : ∀ k, k < b.length → R[k + 2]? = b[k]?)
    (hend : R[b.length + 2]?.getD EOF = q) :
    ∀ k, 1 < k → k < b.length + 2 → R[k]?.getD EOF ≠ EOF ∧
      ¬ (R[k]?.getD EOF = 42 ∧ R[k + 1]?.getD EOF = 47) := by
  intro k h1 h2
  obtain ⟨k, rfl⟩ : ∃ k0, k = k0 + 2 := ⟨k - 2, by omega⟩
  have hk : k < b.length := by omega
  have e1 : R[k + 2]? = some b[k] := by rw [hR k hk, List.getElem?_eq_getElem hk]
  rw [e1]
  refine ⟨hb _ (List.getElem_mem _), ?_⟩
  rintro ⟨g1, g2⟩
  by_cases hk1 : k + 1 < b.length
  · have e2 : R[k + 2 + 1]? = some b[k + 1] := by
      rw [show k + 2 + 1 = k + 1 + 2 by omega, hR (k + 1) hk1, List.getElem?_eq_getElem hk1]
    rw [e2] at g2
    simp only [Option.getD_some] at g1 g2
    apply hno
    apply pair_within 42 47 k b
    · rw [List.getElem?_eq_getElem hk, g1]
    · rw [List.getElem?_eq_getElem hk1, g2]
  · have : k + 2 + 1 = b.length + 2 := by omega
    rw [this, hend] at g2
    exact hq g2

theorem Scanner.Scan_block_comment (T : Tokens) (L : Lib) (b r : List Int)
    (hb : ∀ x ∈ b, x ≠ EOF) (hno : ¬ [42, 47] <:+: b) :
    ∃ ra sa rb sb,
      Scanner.Scan T L ⟨(47 :: 42 :: (b ++ [42, 47])) ++ r, 0, 0, 0⟩ = .ok (ra, sa) ∧
      Scanner.Scan T L ⟨r, 0, 0, 0⟩ = .ok (rb, sb) ∧
      ra.tok = rb.tok ∧ ra.lit = rb.lit ∧ ra.err.isSome = rb.err.isSome ∧
      sa.src.drop sa.offset.toNat = sb.src.drop sb.offset.toNat := by
  have hR : ∀ k, k < b.length → ((47 :: 42 :: (b ++ [42, 47])) ++ r)[k + 2]? = b[k]? := by
    intro k hk
    simp only [List.cons_append, List.getElem?_cons_succ, List.append_assoc]
    rw [List.getElem?_append_left hk]
  have h42 : ((47 :: 42 :: (b ++ [42, 47])) ++ r)[b.length + 2]?.getD EOF = 42 := by
    simp only [List.cons_append, List.getElem?_cons_succ, List.append_assoc]
    rw [List.getElem?_append_right (le_refl _), Nat.sub_self]
    rfl
  have h47 : ((47 :: 42 :: (b ++ [42, 47])) ++ r)[b.length + 2 + 1]?.getD EOF = 47 := by
    rw [show b.length + 2 + 1 = b.length + 1 + 2 by omega]
    simp only [List.cons_append, List.getElem?_cons_succ, List.append_assoc]
    rw [List.getElem?_append_right (by omega), show b.length + 1 - b.length = 1 by omega]
    simp
  have hlen : (47 :: 42 :: (b ++ [42, 47])).length = b.length + 2 + 2 := by simp
  have hidx := no_close_index b hb hno _ 42 (by decide) hR h42
  refine Scanner.Scan_after_skip T L (47 :: 42 :: (b ++ [42, 47])) r (by simp)
    (Scanner.pass_block T L _ 0 (47 :: 42 :: (b ++ [42, 47])).length (getD_head _ _)
      (getD_second _ _ _) ?_ [] 0 0)
  intro pre lh ln
  rw [hlen]
  refine Scanner.blockCommentLoop_to _ (b.length + 2) ?_ h42 h47 (b.length + 2) (0 + 1)
    (by omega) (by omega) hidx _ pre lh ln ?_
  · simp only [List.length_append, List.length_cons, List.length_nil]
    omega
  · have hl : (pre ++ ((47 :: 42 :: (b ++ [42, 47])) ++ r)).length =
        pre.length + (b.length + 4 + r.length) := by
      simp only [List.length_append, List.length_cons, List.length_nil]
    show b.length + 2 ≤ (pre ++ ((47 :: 42 :: (b ++ [42, 47])) ++ r)).length + 1
    rw [hl]
    omega

/-- A block comment that is not closed makes `Scan` return the error of
`scanRawString`. -/
theorem Scanner.Scan_block_open (T : Tokens) (L : Lib) (t : List Int)
    (ht : ∀ x ∈ t, x ≠ EOF) (hno : ¬ [42, 47] <:+: t) :
    ∃ res s', Scanner.Scan T L ⟨47 :: 42 :: t, 0, 0, 0⟩ = .ok (res, s') ∧
      res.err = some (.text "unexpected EOF") := by
  have hR : ∀ k, k < t.length → (47 :: 42 :: t)[k + 2]? = t[k]? := by
    intro k _
    simp only [List.getElem?_cons_succ]
  have hend : (47 :: 42 :: t)[t.length + 2]?.getD EOF = EOF := by
    simp only [List.getElem?_cons_succ]
    rw [List.getElem?_eq_none (le_refl _)]
    rfl
  have hidx := no_close_index t ht hno _ EOF (by decide) hR hend
  have hrun : ∀ (pre : List Int) (lh ln : Int), ∃ lh' ln',
      Scanner.blockCommentLoop (Scanner.within pre (47 :: 42 :: t) (0 + 1) lh ln).bound
        (Scanner.within pre (47 :: 42 :: t) (0 + 1) lh ln) =
      .ok (some (.text "unexpected EOF"),
        Scanner.within pre (47 :: 42 :: t) (47 :: 42 :: t).length lh' ln') := by
    intro pre lh ln
    refine Scanner.blockCommentLoop_eof _ ((47 :: 42 :: t).length - (0 + 1) + 1) (0 + 1)
      (by omega) (by simp) ?_ _ pre lh ln ?_
    · intro k h1 h2
      exact hidx k (by omega) (by simpa using h2)
    · simp only [Scanner.bound_within, List.length_append, List.length_cons]
      omega
  obtain ⟨lh1, ln1, hp⟩ := Scanner.pass_block_error T L (47 :: 42 :: t) 0 _ _ (getD_head _ _)
    (getD_second _ _ _) hrun [] 0 0
  exact ⟨_, _, Scanner.scanLoop_ret T L _ _ _ _ hp, rfl⟩

theorem Scanner.Scan_first_token (T : Tokens) (L : Lib) (r : List Int) (tok : Int)
    (lit : String) (j : Nat)
    (h : ∀ (pre : List Int) (lh ln : Int),
      ∃ p, Scanner.scanPass T L (Scanner.within pre r 0 lh ln) = .ok p ∧
        p.agrees pre r (.token tok lit false j)) :
    ∃ res s', Scanner.Scan T L ⟨r, 0, 0, 0⟩ = .ok (res, s') ∧
      res.tok = tok ∧ res.lit = lit ∧ res.err = none ∧ s'.offset = j := by
  obtain ⟨res, lh', ln', hs, b1, b2, b3⟩ := Scanner.Scan_of_token T L [] r 0 0 0 _ _ _ _ (h [] 0 0)
  refine ⟨res, _, hs, b1, b2, isSome_false_eq_none _ b3, ?_⟩
  simp [Scanner.within]

theorem Scanner.step_succ_cons (a b : Int) (l : List Int) (k : Nat) (hk : k ≤ l.length) :
    Scanner.step (a :: b :: l) (k + 1) = k + 2 := by
  unfold Scanner.step
  rw [if_pos (by simp only [List.length_cons]; omega)]

theorem Scanner.Scan_first_two (T : Tokens) (L : Lib) (src : String) (a b : Int)
    (rs : List Int) (tok : Int) (lit : String) (hsrc : runes src = a :: b :: rs)
    (h : ∀ (pre : List Int) (lh ln : Int),
      ∃ p, Scanner.scanPass T L (Scanner.within pre (a :: b :: rs) 0 lh ln) = .ok p ∧
        p.agrees pre (a :: b :: rs) (.token tok lit false (Scanner.step (a :: b :: rs) (0 + 1)))) :
    ∃ res s', Scanner.Scan T L (Scanner.new src) = .ok (res, s') ∧
      res.tok = tok ∧ res.lit = lit ∧ res.err = none ∧ s'.offset = 2 := by
  have hnew : Scanner.new src = ⟨a :: b :: rs, 0, 0, 0⟩ := by
    rw [← hsrc]
    rfl
  rw [hnew]
  obtain ⟨res, s', hs, b1, b2, b3, b4⟩ := Scanner.Scan_first_token T L _ _ _ _ h
  rw [Scanner.step_succ_cons a b rs 0 (Nat.zero_le _)] at b4
  exact ⟨res, s', hs, b1, b2, b3, by rw [b4]; rfl⟩

theorem second_ne (a x : Int) (rs : List Int) (hx : x ≠ EOF) (h : rs.head? ≠ some x) :
    ¬ (a :: rs)[0 + 1]?.getD EOF = x := by
  cases rs with
  | nil =>
    intro h'
    exact hx h'.symm
  | cons q l =>
    intro h'
    apply h
    simp only [zero_add, List.getElem?_cons_succ, List.getElem?_cons_zero, Option.getD_some] at h'
    rw [List.head?_cons, h']

theorem three_at_head (rs : List Int) (h0 : (61 :: rs)[0 + 1]?.getD EOF = 32)
    (h1 : (61 :: rs)[0 + 1 + 1]?.getD EOF = 60) (h2 : (61 :: rs)[0 + 1 + 2]?.getD EOF = 45) :
    [32, 60, 45] <+: rs := by
  match rs, h0, h1, h2 with
  | x :: y :: z :: rest, h0, h1, h2 =>
    simp only [zero_add, List.getElem?_cons_succ, List.getElem?_cons_zero, Option.getD_some,
      Nat.reduceAdd] at h0 h1 h2
    subst h0 h1 h2
    exact ⟨rest, rfl⟩
  | [x, y], _, _, h2 => exact absurd h2 (by simp [EOF])
  | [x], _, h1, _ => exact absurd h1 (by simp [EOF])
  | [], h0, _, _ => exact absurd h0 (by simp [EOF])

/-- Each two-rune operator at the start of a source is scanned as its own token. -/
theorem Scanner.Scan_two_rune (T : Tokens) (L : Lib) (e : String × Int)
    (he : e ∈ twoRuneOperators T) (rest : String) :
    ∃ res s', Scanner.Scan T L (Scanner.new (e.1 ++ rest)) = .ok (res, s') ∧
      res.tok = e.2 ∧ res.lit = e.1 ∧ res.err = none ∧ s'.offset = 2 := by
  simp only [twoRuneOperators, List.mem_cons, List.mem_singleton, List.not_mem_nil, or_false]
    at he
  rcases he with rfl | rfl | rfl | rfl | rfl | rfl | rfl | rfl | rfl | rfl | rfl | rfl | rfl | rfl | rfl | rfl | rfl | rfl
  · exact Scanner.Scan_first_two T L _ 33 61 (runes rest) _ _ (by rw [runes_append]; rfl)
      (Scanner.pass_op_33_61 T L _ 0 (getD_head _ _) (getD_second _ _ _))
  · exact Scanner.Scan_first_two T L _ 61 61 (runes rest) _ _ (by rw [runes_append]; rfl)
      (Scanner.pass_op_61_61 T L _ 0 (getD_head _ _) (getD_second _ _ _))
  · exact Scanner.Scan_first_two T L _ 63 63 (runes rest) _ _ (by rw [runes_append]; rfl)
      (Scanner.pass_op_63_63 T L _ 0 (getD_head _ _) (getD_second _ _ _))
  · exact Scanner.Scan_first_two T L _ 43 43 (runes rest) _ _ (by rw [runes_append]; rfl)
      (Scanner.pass_op_43_43 T L _ 0 (getD_head _ _) (getD_second _ _ _))
  · exact Scanner.Scan_first_two T L _ 43 61 (runes rest) _ _ (by rw [runes_append]; rfl)
      (Scanner.pass_op_43_61 T L _ 0 (getD_head _ _) (getD_second _ _ _))
  · exact Scanner.Scan_first_two T L _ 45 45 (runes rest) _ _ (by rw [runes_append]; rfl)
      (Scanner.pass_op_45_45 T L _ 0 (getD_head _ _) (getD_second _ _ _))
  · exact Scanner.Scan_first_two T L _ 45 61 (runes rest) _ _ (by rw [runes_append]; rfl)
      (Scanner.pass_op_45_61 T L _ 0 (getD_head _ _) (getD_second _ _ _))
  · exact Scanner.Scan_first_two T L _ 42 61 (runes rest) _ _ (by rw [runes_append]; rfl)
      (Scanner.pass_op_42_61 T L _ 0 (getD_head _ _) (getD_second _ _ _))
  · exact Scanner.Scan_first_two T L _ 47 61 (runes rest) _ _ (by rw [runes_append]; rfl)
      (Scanner.pass_op_47_61 T L _ 0 (getD_head _ _) (getD_second _ _ _))
  · exact Scanner.Scan_first_two T L _ 62 61 (runes rest) _ _ (by rw [runes_append]; rfl)
      (Scanner.pass_op_62_61 T L _ 0 (getD_head _ _) (getD_second _ _ _))
  · exact Scanner.Scan_first_two T L _ 62 62 (runes rest) _ _ (by rw [runes_append]; rfl)
      (Scanner.pass_op_62_62 T L _ 0 (getD_head _ _) (getD_second _ _ _))
  · exact Scanner.Scan_first_two T L _ 60 45 (runes rest) _ _ (by rw [runes_append]; rfl)
      (Scanner.pass_op_60_45 T L _ 0 (getD_head _ _) (getD_second _ _ _))
  · exact Scanner.Scan_first_two T L _ 60 61 (runes rest) _ _ (by rw [runes_append]; rfl)
      (Scanner.pass_op_60_61 T L _ 0 (getD_head _ _) (getD_second _ _ _))
  · exact Scanner.Scan_first_two T L _ 60 60 (runes rest) _ _ (by rw [runes_append]; rfl)
      (Scanner.pass_op_60_60 T L _ 0 (getD_head _ _) (getD_second _ _ _))
  · exact Scanner.Scan_first_two T L _ 124 124 (runes rest) _ _ (by rw [runes_append]; rfl)
      (Scanner.pass_op_124_124 T L _ 0 (getD_head _ _) (getD_second _ _ _))
  · exact Scanner.Scan_first_two T L _ 124 61 (runes rest) _ _ (by rw [runes_append]; rfl)
      (Scanner.pass_op_124_61 T L _ 0 (getD_head _ _) (getD_second _ _ _))
  · exact Scanner.Scan_first_two T L _ 38 38 (runes rest) _ _ (by rw [runes_append]; rfl)
      (Scanner.pass_op_38_38 T L _ 0 (getD_head _ _) (getD_second _ _ _))
  · exact Scanner.Scan_first_two T L _ 38 61 (runes rest) _ _ (by rw [runes_append]; rfl)
      (Scanner.pass_op_38_61 T L _ 0 (getD_head _ _) (getD_second _ _ _))

/-- A rune that starts an operator, when no longer operator and no comment
starts with it at this place, is scanned as the token of its own code. -/
theorem Scanner.Scan_single_rune (T : Tokens) (L : Lib) (a : Int) (rs : List Int)
    (ha : a ∈ operatorRunes)
    (h1 : ∀ q ∈ completingRunes a, rs.head? ≠ some q)
    (h2 : a = 61 → ¬ [32, 60, 45] <+: rs)
    (h3 : a = 47 → rs.head? ≠ some 47 ∧ rs.head? ≠ some 42) :
    ∃ res s', Scanner.Scan T L ⟨a :: rs, 0, 0, 0⟩ = .ok (res, s') ∧
      res.tok = a ∧ res.lit = runeToString a ∧ res.err = none ∧ s'.offset = 1 := by
  simp only [operatorRunes, List.mem_cons, List.mem_singleton, List.not_mem_nil, or_false] at ha
  rcases ha with rfl | rfl | rfl | rfl | rfl | rfl | rfl | rfl | rfl | rfl | rfl | rfl | rfl | rfl | rfl | rfl | rfl | rfl | rfl | rfl | rfl | rfl | rfl | rfl
  · exact Scanner.Scan_first_token T L _ _ _ _
      (Scanner.pass_single_33 T L (33 :: rs) 0 _ (getD_head _ _) rfl
        (second_ne 33 61 rs (by decide) (h1 61 (by decide))))
  · have d61 := second_ne 61 61 rs (by decide) (h1 61 (by decide))
    by_cases d32 : (61 :: rs)[0 + 1]?.getD EOF = 32
    · exact Scanner.Scan_first_token T L _ _ _ _
        (Scanner.pass_single_61_blank T L (61 :: rs) 0 _ _ (getD_head _ _) d32 rfl rfl
          (fun h => h2 rfl (three_at_head rs d32 h.1 h.2)))
    · exact Scanner.Scan_first_token T L _ _ _ _
        (Scanner.pass_single_61 T L (61 :: rs) 0 _ (getD_head _ _) rfl d61 d32)
  · exact Scanner.Scan_first_token T L _ _ _ _
      (Scanner.pass_single_63 T L (63 :: rs) 0 _ (getD_head _ _) rfl
        (second_ne 63 63 rs (by decide) (h1 63 (by decide))))
  · exact Scanner.Scan_first_token T L _ _ _ _
      (Scanner.pass_single_43 T L (43 :: rs) 0 _ (getD_head _ _) rfl
        (second_ne 43 43 rs (by decide) (h1 43 (by decide)))
        (second_ne 43 61 rs (by decide) (h1 61 (by decide))))
  · exact Scanner.Scan_first_token T L _ _ _ _
      (Scanner.pass_single_45 T L (45 :: rs) 0 _ (getD_head _ _) rfl
        (second_ne 45 45 rs (by decide) (h1 45 (by decide)))
        (second_ne 45 61 rs (by decide) (h1 61 (by decide))))
  · exact Scanner.Scan_first_token T L _ _ _ _
      (Scanner.pass_single_42 T L (42 :: rs) 0 _ (getD_head _ _) rfl
        (second_ne 42 61 rs (by decide) (h1 61 (by decide))))
  · exact Scanner.Scan_first_token T L _ _ _ _
      (Scanner.pass_single_47 T L (47 :: rs) 0 _ (getD_head _ _) rfl
        (second_ne 47 61 rs (by decide) (h1 61 (by decide)))
        (second_ne 47 47 rs (by decide) (h3 rfl).1)
        (second_ne 47 42 rs (by decide) (h3 rfl).2))
  · exact Scanner.Scan_first_token T L _ _ _ _
      (Scanner.pass_single_62 T L (62 :: rs) 0 _ (getD_head _ _) rfl
        (second_ne 62 61 rs (by decide) (h1 61 (by decide)))
        (second_ne 62 62 rs (by decide) (h1 62 (by decide))))
  · exact Scanner.Scan_first_token T L _ _ _ _
      (Scanner.pass_single_60 T L (60 :: rs) 0 _ (getD_head _ _) rfl
        (second_ne 60 45 rs (by decide) (h1 45 (by decide)))
        (second_ne 60 61 rs (by decide) (h1 61 (by decide)))
        (second_ne 60 60 rs (by decide) (h1 60 (by decide))))
  · exact Scanner.Scan_first_token T L _ _ _ _
      (Scanner.pass_single_124 T L (124 :: rs) 0 _ (getD_head _ _) rfl
        (second_ne 124 124 rs (by decide) (h1 124 (by decide)))
        (second_ne 124 61 rs (by decide) (h1 61 (by decide))))
  · exact Scanner.Scan_first_token T L _ _ _ _
      (Scanner.pass_single_38 T L (38 :: rs) 0 _ (getD_head _ _) rfl
        (second_ne 38 38 rs (by decide) (h1 38 (by decide)))
        (second_ne 38 61 rs (by decide) (h1 61 (by decide))))
  · exact Scanner.Scan_first_token T L _ _ _ _
      (Scanner.pass_single_46 T L (46 :: rs) 0 _ (getD_head _ _) rfl
        (second_ne 46 46 rs (by decide) (h1 46 (by decide))))
  · exact Scanner.Scan_first_token T L _ _ _ _
      (Scanner.pass_punct T L (10 :: rs) 0 10 (getD_head _ _) rfl
        (isLetter_not L 10 (by decide) (by decide))
        (by decide : ¬ (isDigit (10 : Int) = true))
        (by decide : ¬ ((10 : Int) = 34))
        (by decide : ¬ ((10 : Int) = 39))
        (by decide : ¬ ((10 : Int) = 96))
        (by decide : ¬ ((10 : Int) = EOF))
        (by decide : ¬ ((10 : Int) = 35))
        (by decide : ¬ ((10 : Int) = 33))
        (by decide : ¬ ((10 : Int) = 61))
        (by decide : ¬ ((10 : Int) = 63))
        (by decide : ¬ ((10 : Int) = 43))
        (by decide : ¬ ((10 : Int) = 45))
        (by decide : ¬ ((10 : Int) = 42))
        (by decide : ¬ ((10 : Int) = 47))
        (by decide : ¬ ((10 : Int) = 62))
        (by decide : ¬ ((10 : Int) = 60))
        (by decide : ¬ ((10 : Int) = 124))
        (by decide : ¬ ((10 : Int) = 38))
        (by decide : ¬ ((10 : Int) = 46))
        (by decide))
  · exact Scanner.Scan_first_token T L _ _ _ _
      (Scanner.pass_punct T L (40 :: rs) 0 40 (getD_head _ _) rfl
        (isLetter_not L 40 (by decide) (by decide))
        (by decide : ¬ (isDigit (40 : Int) = true))
        (by decide : ¬ ((40 : Int) = 34))
        (by decide : ¬ ((40 : Int) = 39))
        (by decide : ¬ ((40 : Int) = 96))
        (by decide : ¬ ((40 : Int) = EOF))
        (by decide : ¬ ((40 : Int) = 35))
        (by decide : ¬ ((40 : Int) = 33))
        (by decide : ¬ ((40 : Int) = 61))
        (by decide : ¬ ((40 : Int) = 63))
        (by decide : ¬ ((40 : Int) = 43))
        (by decide : ¬ ((40 : Int) = 45))
        (by decide : ¬ ((40 : Int) = 42))
        (by decide : ¬ ((40 : Int) = 47))
        (by decide : ¬ ((40 : Int) = 62))
        (by decide : ¬ ((40 : Int) = 60))
        (by decide : ¬ ((40 : Int) = 124))
        (by decide : ¬ ((40 : Int) = 38))
        (by decide : ¬ ((40 : Int) = 46))
        (by decide))
  · exact Scanner.Scan_first_token T L _ _ _ _
      (Scanner.pass_punct T L (41 :: rs) 0 41 (getD_head _ _) rfl
        (isLetter_not L 41 (by decide) (by decide))
        (by decide : ¬ (isDigit (41 : Int) = true))
        (by decide : ¬ ((41 : Int) = 34))
        (by decide : ¬ ((41 : Int) = 39))
        (by decide : ¬ ((41 : Int) = 96))
        (by decide : ¬ ((41 : Int) = EOF))
        (by decide : ¬ ((41 : Int) = 35))
        (by decide : ¬ ((41 : Int) = 33))
        (by decide : ¬ ((41 : Int) = 61))
        (by decide : ¬ ((41 : Int) = 63))
        (by decide : ¬ ((41 : Int) = 43))
        (by decide : ¬ ((41 : Int) = 45))
        (by decide : ¬ ((41 : Int) = 42))
        (by decide : ¬ ((41 : Int) = 47))
        (by decide : ¬ ((41 : Int) = 62))
        (by decide : ¬ ((41 : Int) = 60))
        (by decide : ¬ ((41 : Int) = 124))
        (by decide : ¬ ((41 : Int) = 38))
        (by decide : ¬ ((41 : Int) = 46))
        (by decide))
  · exact Scanner.Scan_first_token T L _ _ _ _
      (Scanner.pass_punct T L (58 :: rs) 0 58 (getD_head _ _) rfl
        (isLetter_not L 58 (by decide) (by decide))
        (by decide : ¬ (isDigit (58 : Int) = true))
        (by decide : ¬ ((58 : Int) = 34))
        (by decide : ¬ ((58 : Int) = 39))
        (by decide : ¬ ((58 : Int) = 96))
        (by decide : ¬ ((58 : Int) = EOF))
        (by decide : ¬ ((58 : Int) = 35))
        (by decide : ¬ ((58 : Int) = 33))
        (by decide : ¬ ((58 : Int) = 61))
        (by decide : ¬ ((58 : Int) = 63))
        (by decide : ¬ ((58 : Int) = 43))
        (by decide : ¬ ((58 : Int) = 45))
        (by decide : ¬ ((58 : Int) = 42))
        (by decide : ¬ ((58 : Int) = 47))
        (by decide : ¬ ((58 : Int) = 62))
        (by decide : ¬ ((58 : Int) = 60))
        (by decide : ¬ ((58 : Int) = 124))
        (by decide : ¬ ((58 : Int) = 38))
        (by decide : ¬ ((58 : Int) = 46))
        (by decide))
  · exact Scanner.Scan_first_token T L _ _ _ _
      (Scanner.pass_punct T L (59 :: rs) 0 59 (getD_head _ _) rfl
        (isLetter_not L 59 (by decide) (by decide))
        (by decide : ¬ (isDigit (59 : Int) = true))
        (by decide : ¬ ((59 : Int) = 34))
        (by decide : ¬ ((59 : Int) = 39))
        (by decide : ¬ ((59 : Int) = 96))
        (by decide : ¬ ((59 : Int) = EOF))
        (by decide : ¬ ((59 : Int) = 35))
        (by decide : ¬ ((59 : Int) = 33))
        (by decide : ¬ ((59 : Int) = 61))
        (by decide : ¬ ((59 : Int) = 63))
        (by decide : ¬ ((59 : Int) = 43))
        (by decide : ¬ ((59 : Int) = 45))
        (by decide : ¬ ((59 : Int) = 42))
        (by decide : ¬ ((59 : Int) = 47))
        (by decide : ¬ ((59 : Int) = 62))
        (by decide : ¬ ((59 : Int) = 60))
        (by decide : ¬ ((59 : Int) = 124))
        (by decide : ¬ ((59 : Int) = 38))
        (by decide : ¬ ((59 : Int) = 46))
        (by decide))
  · exact Scanner.Scan_first_token T L _ _ _ _
      (Scanner.pass_punct T L (37 :: rs) 0 37 (getD_head _ _) rfl
        (isLetter_not L 37 (by decide) (by decide))
        (by decide : ¬ (isDigit (37 : Int) = true))
        (by decide : ¬ ((37 : Int) = 34))
        (by decide : ¬ ((37 : Int) = 39))
        (by decide : ¬ ((37 : Int) = 96))
        (by decide : ¬ ((37 : Int) = EOF))
        (by decide : ¬ ((37 : Int) = 35))
        (by decide : ¬ ((37 : Int) = 33))
        (by decide : ¬ ((37 : Int) = 61))
        (by decide : ¬ ((37 : Int) = 63))
        (by decide : ¬ ((37 : Int) = 43))
        (by decide : ¬ ((37 : Int) = 45))
        (by decide : ¬ ((37 : Int) = 42))
        (by decide : ¬ ((37 : Int) = 47))
        (by decide : ¬ ((37 : Int) = 62))
        (by decide : ¬ ((37 : Int) = 60))
        (by decide : ¬ ((37 : Int) = 124))
        (by decide : ¬ ((37 : Int) = 38))
        (by decide : ¬ ((37 : Int) = 46))
        (by decide))
  · exact Scanner.Scan_first_token T L _ _ _ _
      (Scanner.pass_punct T L (123 :: rs) 0 123 (getD_head _ _) rfl
        (isLetter_not L 123 (by decide) (by decide))
        (by decide : ¬ (isDigit (123 : Int) = true))
        (by decide : ¬ ((123 : Int) = 34))
        (by decide : ¬ ((123 : Int) = 39))
        (by decide : ¬ ((123 : Int) = 96))
        (by decide : ¬ ((123 : Int) = EOF))
        (by decide : ¬ ((123 : Int) = 35))
        (by decide : ¬ ((123 : Int) = 33))
        (by decide : ¬ ((123 : Int) = 61))
        (by decide : ¬ ((123 : Int) = 63))
        (by decide : ¬ ((123 : Int) = 43))
        (by decide : ¬ ((123 : Int) = 45))
        (by decide : ¬ ((123 : Int) = 42))
        (by decide : ¬ ((123 : Int) = 47))
        (by decide : ¬ ((123 : Int) = 62))
        (by decide : ¬ ((123 : Int) = 60))
        (by decide : ¬ ((123 : Int) = 124))
        (by decide : ¬ ((123 : Int) = 38))
        (by decide : ¬ ((123 : Int) = 46))
        (by decide))
  · exact Scanner.Scan_first_token T L _ _ _ _
      (Scanner.pass_punct T L (125 :: rs) 0 125 (getD_head _ _) rfl
        (isLetter_not L 125 (by decide) (by decide))
        (by decide : ¬ (isDigit (125 : Int) = true))
        (by decide : ¬ ((125 : Int) = 34))
        (by decide : ¬ ((125 : Int) = 39))
        (by decide : ¬ ((125 : Int) = 96))
        (by decide : ¬ ((125 : Int) = EOF))
        (by decide : ¬ ((125 : Int) = 35))
        (by decide : ¬ ((125 : Int) = 33))
        (by decide : ¬ ((125 : Int) = 61))
        (by decide : ¬ ((125 : Int) = 63))
        (by decide : ¬ ((125 : Int) = 43))
        (by decide : ¬ ((125 : Int) = 45))
        (by decide : ¬ ((125 : Int) = 42))
        (by decide : ¬ ((125 : Int) = 47))
        (by decide : ¬ ((125 : Int) = 62))
        (by decide : ¬ ((125 : Int) = 60))
        (by decide : ¬ ((125 : Int) = 124))
        (by decide : ¬ ((125 : Int) = 38))
        (by decide : ¬ ((125 : Int) = 46))
        (by decide))
  · exact Scanner.Scan_first_token T L _ _ _ _
      (Scanner.pass_punct T L (91 :: rs) 0 91 (getD_head _ _) rfl
        (isLetter_not L 91 (by decide) (by decide))
        (by decide : ¬ (isDigit (91 : Int) = true))
        (by decide : ¬ ((91 : Int) = 34))
        (by decide : ¬ ((91 : Int) = 39))
        (by decide : ¬ ((91 : Int) = 96))
        (by decide : ¬ ((91 : Int) = EOF))
        (by decide : ¬ ((91 : Int) = 35))
        (by decide : ¬ ((91 : Int) = 33))
        (by decide : ¬ ((91 : Int) = 61))
        (by decide : ¬ ((91 : Int) = 63))
        (by decide : ¬ ((91 : Int) = 43))
        (by decide : ¬ ((91 : Int) = 45))
        (by decide : ¬ ((91 : Int) = 42))
        (by decide : ¬ ((91 : Int) = 47))
        (by decide : ¬ ((91 : Int) = 62))
        (by decide : ¬ ((91 : Int) = 60))
        (by decide : ¬ ((91 : Int) = 124))
        (by decide : ¬ ((91 : Int) = 38))
        (by decide : ¬ ((91 : Int) = 46))
        (by decide))
  · exact Scanner.Scan_first_token T L _ _ _ _
      (Scanner.pass_punct T L (93 :: rs) 0 93 (getD_head _ _) rfl
        (isLetter_not L 93 (by decide) (by decide))
        (by decide : ¬ (isDigit (93 : Int) = true))
        (by decide : ¬ ((93 : Int) = 34))
        (by decide : ¬ ((93 : Int) = 39))
        (by decide : ¬ ((93 : Int) = 96))
        (by decide : ¬ ((93 : Int) = EOF))
        (by decide : ¬ ((93 : Int) = 35))
        (by decide : ¬ ((93 : Int) = 33))
        (by decide : ¬ ((93 : Int) = 61))
        (by decide : ¬ ((93 : Int) = 63))
        (by decide : ¬ ((93 : Int) = 43))
        (by decide : ¬ ((93 : Int) = 45))
        (by decide : ¬ ((93 : Int) = 42))
        (by decide : ¬ ((93 : Int) = 47))
        (by decide : ¬ ((93 : Int) = 62))
        (by decide : ¬ ((93 : Int) = 60))
        (by decide : ¬ ((93 : Int) = 124))
        (by decide : ¬ ((93 : Int) = 38))
        (by decide : ¬ ((93 : Int) = 46))
        (by decide))
  · exact Scanner.Scan_first_token T L _ _ _ _
      (Scanner.pass_punct T L (44 :: rs) 0 44 (getD_head _ _) rfl
        (isLetter_not L 44 (by decide) (by decide))
        (by decide : ¬ (isDigit (44 : Int) = true))
        (by decide : ¬ ((44 : Int) = 34))
        (by decide : ¬ ((44 : Int) = 39))
        (by decide : ¬ ((44 : Int) = 96))
        (by decide : ¬ ((44 : Int) = EOF))
        (by decide : ¬ ((44 : Int) = 35))
        (by decide : ¬ ((44 : Int) = 33))
        (by decide : ¬ ((44 : Int) = 61))
        (by decide : ¬ ((44 : Int) = 63))
        (by decide : ¬ ((44 : Int) = 43))
        (by decide : ¬ ((44 : Int) = 45))
        (by decide : ¬ ((44 : Int) = 42))
        (by decide : ¬ ((44 : Int) = 47))
        (by decide : ¬ ((44 : Int) = 62))
        (by decide : ¬ ((44 : Int) = 60))
        (by decide : ¬ ((44 : Int) = 124))
        (by decide : ¬ ((44 : Int) = 38))
        (by decide : ¬ ((44 : Int) = 46))
        (by decide))
  · exact Scanner.Scan_first_token T L _ _ _ _
      (Scanner.pass_punct T L (94 :: rs) 0 94 (getD_head _ _) rfl
        (isLetter_not L 94 (by decide) (by decide))
        (by decide : ¬ (isDigit (94 : Int) = true))
        (by decide : ¬ ((94 : Int) = 34))
        (by decide : ¬ ((94 : Int) = 39))
        (by decide : ¬ ((94 : Int) = 96))
        (by decide : ¬ ((94 : Int) = EOF))
        (by decide : ¬ ((94 : Int) = 35))
        (by decide : ¬ ((94 : Int) = 33))
        (by decide : ¬ ((94 : Int) = 61))
        (by decide : ¬ ((94 : Int) = 63))
        (by decide : ¬ ((94 : Int) = 43))
        (by decide : ¬ ((94 : Int) = 45))
        (by decide : ¬ ((94 : Int) = 42))
        (by decide : ¬ ((94 : Int) = 47))
        (by decide : ¬ ((94 : Int) = 62))
        (by decide : ¬ ((94 : Int) = 60))
        (by decide : ¬ ((94 : Int) = 124))
        (by decide : ¬ ((94 : Int) = 38))
        (by decide : ¬ ((94 : Int) = 46))
        (by decide))

theorem isEOL_runes (t : String) (ht : (10 : Int) ∉ runes t) : ∀ x ∈ runes t, isEOL x = false := by
  intro x hx
  have h1 : x ≠ 10 := fun h => ht (h ▸ hx)
  have h2 : x ≠ -1 := runes_ne_EOF t x hx
  simp [isEOL, h1, h2]

theorem runes_rest (r : String) (hr : r = "" ∨ (runes r).head? = some 10) :
    runes r = [] ∨ (runes r).head? = some 10 := by
  rcases hr with rfl | hr
  · exact Or.inl rfl
  · exact Or.inr hr

/-- C21: comments are transparent to tokenization. For a text `t` without a
newline and a rest `r` that is empty or starts with a newline, `Scan` on
`# t r` and on `// t r` returns the same token and literal as `Scan` on `r`,
an error exactly when `Scan` on `r` does, and leaves the same runes unread;
for a text `t` that does not contain `*/` and every rest `r` the same holds
of `Scan` on `/* t */ r`; and on `/* t`, a block comment that is not closed,
`Scan` returns the error `unexpected EOF`. -/
theorem Scan_comment_transparent (T : Tokens) (L : Lib) (t r : String) :
    ((10 : Int) ∉ runes t → (r = "" ∨ (runes r).head? = some 10) →
      Scanner.ScanSame T L ("#" ++ t ++ r) r ∧ Scanner.ScanSame T L ("//" ++ t ++ r) r) ∧
    (¬ [42, 47] <:+: runes t → Scanner.ScanSame T L ("/*" ++ t ++ "*/" ++ r) r) ∧
    (¬ [42, 47] <:+: runes t →
      ∃ res s', Scanner.Scan T L (Scanner.new ("/*" ++ t)) = .ok (res, s') ∧
        res.err = some (.text "unexpected EOF")) := by
  refine ⟨fun ht hr => ⟨?_, ?_⟩, fun hno => ?_, fun hno => ?_⟩
  · have h := Scanner.Scan_hash_comment T L (runes t) (runes r) (isEOL_runes t ht)
      (runes_rest r hr)
    have e : runes ("#" ++ t ++ r) = (35 :: runes t) ++ runes r := by
      rw [runes_append, runes_append]
      rfl
    unfold Scanner.ScanSame Scanner.new
    rw [e]
    exact h
  · have h := Scanner.Scan_slashes_comment T L (runes t) (runes r) (isEOL_runes t ht)
      (runes_rest r hr)
    have e : runes ("//" ++ t ++ r) = (47 :: 47 :: runes t) ++ runes r := by
      rw [runes_append, runes_append]
      rfl
    unfold Scanner.ScanSame Scanner.new
    rw [e]
    exact h
  · have h := Scanner.Scan_block_comment T L (runes t) (runes r) (runes_ne_EOF t) hno
    have e : runes ("/*" ++ t ++ "*/" ++ r) = (47 :: 42 :: (runes t ++ [42, 47])) ++ runes r := by
      rw [runes_append, runes_append, runes_append]
      rfl
    unfold Scanner.ScanSame Scanner.new
    rw [e]
    exact h
  · have h := Scanner.Scan_block_open T L (runes t) (runes_ne_EOF t) hno
    have e : runes ("/*" ++ t) = 47 :: 42 :: runes t := by
      rw [runes_append]
      rfl
    unfold Scanner.new
    rw [e]
    exact h

/-- C21 at the comments `# x` and `// x` before a second line `y`, at the block
comment `/*a*` newline `b*/` before `c`, and at the open comment `/*a*` newline
`b`. -/
theorem Scan_comment_transparent_examples :
    (Scanner.ScanSame sampleTokens plainLib ("#" ++ " x" ++ "\ny") "\ny" ∧
      Scanner.ScanSame sampleTokens plainLib ("//" ++ " x" ++ "\ny") "\ny") ∧
    Scanner.ScanSame sampleTokens plainLib ("/*" ++ "a*\nb" ++ "*/" ++ "c") "c" ∧
    ∃ res s', Scanner.Scan sampleTokens plainLib (Scanner.new ("/*" ++ "a*\nb")) = .ok (res, s') ∧
      res.err = some (.text "unexpected EOF") :=
  ⟨(Scan_comment_transparent sampleTokens plainLib " x" "\ny").1 (by decide) (Or.inr rfl),
    (Scan_comment_transparent sampleTokens plainLib "a*\nb" "c").2.1 (by decide),
    (Scan_comment_transparent sampleTokens plainLib "a*\nb" "c").2.2 (by decide)⟩

/-- C22 as stated fails for the rune `/`: in the sources `//` and `/*a*/b` it
is followed by no rune that completes an operator (the only one is `=`), and
`Scan` does not return the token `/` after one rune: it skips the comment that
starts there and returns EOF after two runes, and the identifier `b` after six. -/
theorem Scan_slash_starts_comment :
    (47 : Int) ∈ operatorRunes ∧ completingRunes 47 = [61] ∧
    runes "//" = [47, 47] ∧ runes "/*a*/b" = [47, 42, 97, 42, 47, 98] ∧
    Scanner.Scan sampleTokens plainLib (Scanner.new "//") =
      .ok (⟨EOF, "", ⟨1, 3⟩, none⟩, ⟨runes "//", 2, 0, 0⟩) ∧
    Scanner.Scan sampleTokens plainLib (Scanner.new "/*a*/b") =
      .ok (⟨sampleTokens.IDENT, "b", ⟨1, 6⟩, none⟩, ⟨runes "/*a*/b", 6, 0, 0⟩) ∧
    EOF ≠ 47 ∧ sampleTokens.IDENT ≠ 47 := by
  refine ⟨by decide, rfl, rfl, rfl, rfl, rfl, by decide, by decide⟩

/-- C22 (amended): operators are scanned by longest match. A source that starts
with one of the eighteen two-rune operators yields the token of that operator
with the operator as literal, and two runes are consumed; `= <-` yields
EQOPCHAN and four runes are consumed; `...` yields VARARG and three runes are
consumed; and a source that starts with the first rune of one of these, or with
one of `( ) : ; % { } [ ] , ^` and newline, where the rune is not followed by a
rune that completes an operator (for `=` a blank completes one when `<-`
follows it) and where `/` is not followed by `/` or `*` either, yields the token
whose code is that rune, with the rune as literal, and one rune is consumed. -/
theorem Scan_longest_match (T : Tokens) (L : Lib) :
    (∀ e ∈ twoRuneOperators T, ∀ rest : String,
      ∃ res s', Scanner.Scan T L (Scanner.new (e.1 ++ rest)) = .ok (res, s') ∧
        res.tok = e.2 ∧ res.lit = e.1 ∧ res.err = none ∧ s'.offset = 2) ∧
    (∀ rest : String,
      ∃ res s', Scanner.Scan T L (Scanner.new ("= <-" ++ rest)) = .ok (res, s') ∧
        res.tok = T.EQOPCHAN ∧ res.err = none ∧ s'.offset = 4) ∧
    (∀ rest : String,
      ∃ res s', Scanner.Scan T L (Scanner.new ("..." ++ rest)) = .ok (res, s') ∧
        res.tok = T.VARARG ∧ res.err = none ∧ s'.offset = 3) ∧
    (∀ (src : String) (a : Int) (rs : List Int), runes src = a :: rs → a ∈ operatorRunes →
      (∀ q ∈ completingRunes a, rs.head? ≠ some q) →
      (a = 61 → ¬ [32, 60, 45] <+: rs) →
      (a = 47 → rs.head? ≠ some 47 ∧ rs.head? ≠ some 42) →
      ∃ res s', Scanner.Scan T L (Scanner.new src) = .ok (res, s') ∧
        res.tok = a ∧ res.lit = runeToString a ∧ res.err = none ∧ s'.offset = 1) := by
  refine ⟨fun e he rest => Scanner.Scan_two_rune T L e he rest, fun rest => ?_, fun rest => ?_,
    fun src a rs hsrc ha h1 h2 h3 => ?_⟩
  · have e : runes ("= <-" ++ rest) = 61 :: 32 :: 60 :: 45 :: runes rest := by
      rw [runes_append]
      rfl
    obtain ⟨res, s', hs, b1, _, b3, b4⟩ := Scanner.Scan_first_token T L
      (61 :: 32 :: 60 :: 45 :: runes rest) _ _ _
      (Scanner.pass_eqopchan T L _ 0 (getD_head _ _) (getD_second _ _ _) (by simp) (by simp))
    refine ⟨res, s', ?_, b1, b3, ?_⟩
    · unfold Scanner.new
      rw [e]
      exact hs
    · rw [b4]
      simp [Scanner.step]
  · have e : runes ("..." ++ rest) = 46 :: 46 :: 46 :: runes rest := by
      rw [runes_append]
      rfl
    obtain ⟨res, s', hs, b1, _, b3, b4⟩ := Scanner.Scan_first_token T L
      (46 :: 46 :: 46 :: runes rest) _ _ _
      (Scanner.pass_vararg T L _ 0 (getD_head _ _) (getD_second _ _ _) (by simp [Scanner.step]))
    refine ⟨res, s', ?_, b1, b3, ?_⟩
    · unfold Scanner.new
      rw [e]
      exact hs
    · rw [b4]
      simp [Scanner.step]
  · unfold Scanner.new
    rw [hsrc]
    exact Scanner.Scan_single_rune T L a rs ha h1 h2 h3

/-- C22 at the sources `<-x`, `= <-c`, `...` and at the single runes of `= x`,
`/ 2`, `-1` and `(`. -/
theorem Scan_longest_match_examples :
    (∃ res s', Scanner.Scan sampleTokens plainLib (Scanner.new ("<-" ++ "x")) = .ok (res, s') ∧
      res.tok = sampleTokens.OPCHAN ∧ res.lit = "<-" ∧ res.err = none ∧ s'.offset = 2) ∧
    (∃ res s', Scanner.Scan sampleTokens plainLib (Scanner.new ("= <-" ++ "c")) = .ok (res, s') ∧
      res.tok = sampleTokens.EQOPCHAN ∧ res.err = none ∧ s'.offset = 4) ∧
    (∃ res s', Scanner.Scan sampleTokens plainLib (Scanner.new ("..." ++ "")) = .ok (res, s') ∧
      res.tok = sampleTokens.VARARG ∧ res.err = none ∧ s'.offset = 3) ∧
    (∃ res s', Scanner.Scan sampleTokens plainLib (Scanner.new "= x") = .ok (res, s') ∧
      res.tok = 61 ∧ res.lit = runeToString 61 ∧ res.err = none ∧ s'.offset = 1) ∧
    (∃ res s', Scanner.Scan sampleTokens plainLib (Scanner.new "/ 2") = .ok (res, s') ∧
      res.tok = 47 ∧ res.lit = runeToString 47 ∧ res.err = none ∧ s'.offset = 1) ∧
    (∃ res s', Scanner.Scan sampleTokens plainLib (Scanner.new "-1") = .ok (res, s') ∧
      res.tok = 45 ∧ res.lit = runeToString 45 ∧ res.err = none ∧ s'.offset = 1) ∧
    (∃ res s', Scanner.Scan sampleTokens plainLib (Scanner.new "(") = .ok (res, s') ∧
      res.tok = 40 ∧ res.lit = runeToString 40 ∧ res.err = none ∧ s'.offset = 1) :=
  ⟨(Scan_longest_match sampleTokens plainLib).1 ("<-", sampleTokens.OPCHAN) (by decide) "x",
    (Scan_longest_match sampleTokens plainLib).2.1 "c",
    (Scan_longest_match sampleTokens plainLib).2.2.1 "",
    (Scan_longest_match sampleTokens plainLib).2.2.2 "= x" 61 [32, 120] rfl (by decide)
      (by decide) (by decide) (by decide),
    (Scan_longest_match sampleTokens plainLib).2.2.2 "/ 2" 47 [32, 50] rfl (by decide)
      (by decide) (by decide) (by decide),
    (Scan_longest_match sampleTokens plainLib).2.2.2 "-1" 45 [49] rfl (by decide)
      (by decide) (by decide) (by decide),
    (Scan_longest_match sampleTokens plainLib).2.2.2 "(" 40 [] rfl (by decide)
      (by decide) (by decide) (by decide)⟩

/-- C23: tokenization terminates. On every scanner whose offset lies within its
source `Scan` returns; the offset stays within the source and does not go
back, and it moves on when the call returns no error and a token other than
EOF; so a caller that calls `Scan` until it returns EOF or an error has ended
after at most `len(src) + 1` calls; and when only blanks are left, every
further call returns EOF with an empty literal and no error. -/
theorem Scan_terminates (T : Tokens) (L : Lib) (s : Scanner) (h0 : 0 ≤ s.offset)
    (h1 : s.offset ≤ s.src.length) :
    (∃ r s', Scanner.Scan T L s = .ok (r, s') ∧ s'.src = s.src ∧ s.offset ≤ s'.offset ∧
      s'.offset ≤ s.src.length ∧ (r.err = none → r.tok ≠ EOF → s.offset < s'.offset)) ∧
    (∃ k, Scanner.callsToEnd T L (s.src.length + 1) s = some k ∧ k ≤ s.src.length + 1) ∧
    ((∀ c ∈ s.src.drop s.offset.toNat, isBlank c = true) →
      ∀ n, ∃ sn, Scanner.afterCalls T L n s = some sn ∧
        ∃ r s', Scanner.Scan T L sn = .ok (r, s') ∧ r.tok = EOF ∧ r.lit = "" ∧ r.err = none) := by
  refine ⟨Scanner.Scan_progress T L s h0 h1, ?_,
    fun hbl n => Scanner.afterCalls_blanks T L n s h0 h1 hbl⟩
  obtain ⟨k, hk, hle⟩ := Scanner.callsToEnd_some T L (s.src.length + 1) s h0 h1 (by omega)
  exact ⟨k, hk, by omega⟩

/-- C23 at the source `a b` from its start, and at the source of `a` and two
blanks from offset 1, where only blanks are left. -/
theorem Scan_terminates_examples :
    (0 ≤ (Scanner.new "a b").offset ∧
      (Scanner.new "a b").offset ≤ (Scanner.new "a b").src.length ∧
      ∃ k, Scanner.callsToEnd sampleTokens plainLib ((Scanner.new "a b").src.length + 1)
        (Scanner.new "a b") = some k ∧ k ≤ (Scanner.new "a b").src.length + 1) ∧
    ((∀ c ∈ (runes "a  ").drop 1, isBlank c = true) ∧
      ∀ n, ∃ sn, Scanner.afterCalls sampleTokens plainLib n ⟨runes "a  ", 1, 0, 0⟩ = some sn ∧
        ∃ r s', Scanner.Scan sampleTokens plainLib sn = .ok (r, s') ∧ r.tok = EOF ∧ r.lit = "" ∧
          r.err = none) :=
  ⟨⟨by decide, by decide,
      (Scan_terminates sampleTokens plainLib (Scanner.new "a b") (by decide) (by decide)).2.1⟩,
    ⟨by decide,
      (Scan_terminates sampleTokens plainLib ⟨runes "a  ", 1, 0, 0⟩ (by decide) (by decide)).2.2
        (by decide)⟩⟩

/-- C24: the scanner never reads outside its source. A scanner reached from a
new scanner by calls of `Scan`, whether they return an error or not, has
the runes of the source and an offset with `0 ≤ offset ≤ len(src)`, and the
next call of `Scan` on it returns: none of the reads of `peek`, `peekPlus` and
`scanEscape` panics, and a read panics exactly when its index is not within
the source. A `back` at offset 0 would make the `next` that follows it in
`Scan` panic, in the operator cases and in the block comment loop alike, so
it is never executed. -/
theorem Scan_reads_within_source (T : Tokens) (L : Lib) (src : String) (s : Scanner)
    (h : Scanner.Reached T L src s) :
    (s.src = runes src ∧ 0 ≤ s.offset ∧ s.offset ≤ (runes src).length) ∧
    (∃ r s', Scanner.Scan T L s = .ok (r, s')) ∧
    (∀ i : Int, (∃ c, s.srcAt i = .ok c) ↔ 0 ≤ i ∧ i < s.src.length) ∧
    (∀ t : Scanner, t.offset = 0 →
      (∀ tok lit pos, t.back.finish tok lit pos =
        .error (.panic "runtime error: index out of range")) ∧
      ∀ fuel, Scanner.blockCommentLoop (fuel + 1) t.back =
        .error (.panic "runtime error: index out of range")) := by
  obtain ⟨b1, b2, b3⟩ := Scanner.Reached_bounds T L src s h
  refine ⟨⟨b1, b2, b3⟩, ?_, Scanner.srcAt_ok_iff s, fun t ht =>
    ⟨fun tok lit pos => Scanner.finish_back_zero t ht tok lit pos,
      fun fuel => Scanner.blockCommentLoop_back_zero t ht fuel⟩⟩
  obtain ⟨r, s', hs, _⟩ := Scanner.Scan_progress T L s b2 (by rw [b1]; exact b3)
  exact ⟨r, s', hs⟩

/-- C24 at the source `a @` after two calls of `Scan`, the second of which
returns an error. -/
theorem Scan_reads_within_source_example :
    Scanner.Reached sampleTokens plainLib "a @" ⟨runes "a @", 2, 0, 0⟩ ∧
    ((⟨runes "a @", 2, 0, 0⟩ : Scanner).src = runes "a @" ∧
      0 ≤ (⟨runes "a @", 2, 0, 0⟩ : Scanner).offset ∧
      (⟨runes "a @", 2, 0, 0⟩ : Scanner).offset ≤ (runes "a @").length) ∧
    ∃ r s', Scanner.Scan sampleTokens plainLib ⟨runes "a @", 2, 0, 0⟩ = .ok (r, s') :=
  have hreach : Scanner.Reached sampleTokens plainLib "a @" ⟨runes "a @", 2, 0, 0⟩ :=
    Scanner.Reached.scan ⟨runes "a @", 1, 0, 0⟩ ⟨runes "a @", 2, 0, 0⟩
      ⟨64, "@", ⟨1, 3⟩, some (syntaxError 64 ⟨1, 3⟩)⟩
      (Scanner.Reached.scan (Scanner.new "a @") ⟨runes "a @", 1, 0, 0⟩
        ⟨sampleTokens.IDENT, "a", ⟨1, 1⟩, none⟩ Scanner.Reached.fresh rfl) rfl
  ⟨hreach, (Scan_reads_within_source sampleTokens plainLib "a @" _ hreach).1,
    (Scan_reads_within_source sampleTokens plainLib "a @" _ hreach).2.1⟩

end Anko
